import Mathlib

/-!
# RelationGraph: follower cache, fan replicator, outbox fan-out, order repositories

A shallow embedding of the Go sources of `d60-Lab/RelationGraph`
(`internal/model`, `internal/repository`, `internal/service`,
`internal/cacheperf`) and theorems about them.

Conventions of the embedding

* A relational table is the list of its rows in storage order; a query without
  `ORDER BY` returns rows in that order.
* Go `string` is `String`, Go `int`/`int64` is `Int`, `time.Time` is an `Int`
  count of nanoseconds, a Go `error` is `Option Err` (`none` is `nil`).
  Arithmetic on caller-supplied integers that can leave the range of the 64-bit
  `int` is wrapped explicitly (`wrapInt`): `(page-1)*size` and what is computed
  from it in the follower cache and in the relationship service, and `limit * 2`
  in the sharded `GetByUserID`. Counters and offsets that grow by one call or
  one page at a time are not wrapped.
* A run-time panic (slice bounds or index out of range) is a result of its own:
  `FetchResult.panic` for the cache, `none` for the order repositories.
* Everything the code obtains from outside the repository during a call
  (`uuid.New()`, `time.Now()`, whether a store or cache round trip fails) is an
  explicit argument of the embedded function, so that every function is a pure
  function of the state it starts from.
-/

namespace RelationGraph

/-! ## Data model (`internal/model`) -/

/-- Instants of `time.Time`, as nanoseconds. -/
abbrev Time := Int

/-- Go `error` values, identified by their message. -/
abbrev Err := String

/-- Row of table `posts` (`model.Post`). -/
structure Post where
  ID : String
  AuthorID : String
  Payload : String
  CreatedAt : Time
  UpdatedAt : Time
deriving DecidableEq, Repr

/-- Row of table `outbox` (`model.Outbox`). -/
structure Outbox where
  ID : String
  PostID : String
  AuthorID : String
  CreatedAt : Time
  Status : String
  ProcessedAt : Option Time
  FanoutCount : Int
deriving DecidableEq, Repr

/-- Row of table `inbox` (`model.Inbox`). -/
structure Inbox where
  ID : String
  UserID : String
  PostID : String
  Score : Int
  CreatedAt : Time
deriving DecidableEq, Repr

/-- Row of table `fans` (`model.Fan`): `FanID` is a fan of `UserID`. -/
structure Fan where
  ID : String
  UserID : String
  FanID : String
  CreatedAt : Time
  UpdatedAt : Time
deriving DecidableEq, Repr

/-- Row of table `follows` (`model.Follow`): `FollowerID` follows `FolloweeID`. -/
structure Follow where
  ID : String
  FollowerID : String
  FolloweeID : String
  CreatedAt : Time
  UpdatedAt : Time
deriving DecidableEq, Repr

/-- Row of table `users`. The declaration of `model.User` is not among the
sources; the fields are the ones `loadUsers` and the benchmarks read and write. -/
structure User where
  ID : String
  Username : String
  Email : String
  Age : Int
  Password : String
deriving DecidableEq, Repr

/-- The relational store behind one `*gorm.DB`. -/
structure DB where
  posts : List Post
  outbox : List Outbox
  inbox : List Inbox
  fans : List Fan
  follows : List Follow
  users : List User
deriving DecidableEq, Repr

/-- The store with every table empty. -/
def DB.empty : DB := ⟨[], [], [], [], [], []⟩

/-! ## Publisher (`internal/service/publish.go`) -/

/-- Plain `tx.Create(post)`: an `INSERT` that fails on an injected store error or
when the primary key `id` is already taken. -/
def createPost (fault : Option Err) (db : DB) (p : Post) : Except Err DB :=
  match fault with
  | some e => .error e
  | none =>
    if db.posts.any (fun q => q.ID == p.ID) then .error "UNIQUE constraint failed: posts.id"
    else .ok { db with posts := db.posts ++ [p] }

/-- Plain `tx.Create(out)`: an `INSERT` that fails on an injected store error,
when the primary key `id` is taken, or when the unique index on `post_id` is hit. -/
def createOutbox (fault : Option Err) (db : DB) (o : Outbox) : Except Err DB :=
  match fault with
  | some e => .error e
  | none =>
    if db.outbox.any (fun q => q.ID == o.ID) then .error "UNIQUE constraint failed: outbox.id"
    else if db.outbox.any (fun q => q.PostID == o.PostID) then
      .error "UNIQUE constraint failed: outbox.post_id"
    else .ok { db with outbox := db.outbox ++ [o] }

/-- The `db.Transaction(fc)` of gorm: begin, run `fc` on the transaction, roll back
when `fc` returns an error, commit otherwise. A failed begin or commit leaves the
store as it was. The result is the returned error and the store afterwards. -/
def Transaction (beginErr commitErr : Option Err) (db : DB) (fc : DB → Except Err DB) :
    Option Err × DB :=
  match beginErr with
  | some e => (some e, db)
  | none =>
    match fc db with
    | .error e => (some e, db)
    | .ok tx =>
      match commitErr with
      | some e => (some e, db)
      | none => (none, tx)

/-- What one call of `Publish` takes from outside: the two `uuid.New().String()`
values, the reading of `time.Now()`, and the store failures to inject. -/
structure PublishEnv where
  postID : String
  outboxID : String
  now : Time
  beginErr : Option Err
  createPostErr : Option Err
  createOutboxErr : Option Err
  commitErr : Option Err
deriving DecidableEq, Repr

/-- The post row `Publish` builds. -/
def publishPost (env : PublishEnv) (authorID payload : String) : Post :=
  { ID := env.postID, AuthorID := authorID, Payload := payload,
    CreatedAt := env.now, UpdatedAt := env.now }

/-- The outbox row `Publish` builds (`ProcessedAt` and `FanoutCount` are left at
their zero values). -/
def publishOutbox (env : PublishEnv) (authorID : String) : Outbox :=
  { ID := env.outboxID, PostID := env.postID, AuthorID := authorID, CreatedAt := env.now,
    Status := "pending", ProcessedAt := none, FanoutCount := 0 }

/-- `Publisher.Publish`: returns `(postID, err)` and the store afterwards. -/
def Publish (env : PublishEnv) (db : DB) (authorID payload : String) :
    (String × Option Err) × DB :=
  let postID := env.postID
  let r := Transaction env.beginErr env.commitErr db (fun tx =>
    match createPost env.createPostErr tx (publishPost env authorID payload) with
    | .error e => .error e
    | .ok tx1 =>
      match createOutbox env.createOutboxErr tx1 (publishOutbox env authorID) with
      | .error e => .error e
      | .ok tx2 => .ok tx2)
  match r.1 with
  | some e => (("", some e), r.2)
  | none => ((postID, none), r.2)

/-- Every post has an outbox row carrying its id (the state invariant behind P7). -/
def PostsHaveOutbox (db : DB) : Prop :=
  ∀ p ∈ db.posts, ∃ o ∈ db.outbox, o.PostID = p.ID

/-! ## Repositories (`internal/repository`) -/

/-- The value of an `int` expression on a 64-bit platform: the result wraps around. -/
def wrapInt (x : Int) : Int :=
  (x + 2 ^ 63) % 2 ^ 64 - 2 ^ 63

/-- The effect of gorm's `Limit(n)` on the rows a query selects: a negative `n` adds no
`LIMIT` clause. The callers modelled here never pass 0. -/
def sqlLimit {α : Type} (rows : List α) (n : Int) : List α :=
  if n < 0 then rows else rows.take n.toNat

/-- Result of `Offset(offset).Limit(limit).Find(&res)` on the rows selected by the
`Where` clause: skip `offset` rows (a non-positive offset adds no `OFFSET` clause and
skips nothing), then keep what `Limit(limit)` keeps. -/
def offsetLimit {α : Type} (rows : List α) (offset limit : Int) : List α :=
  sqlLimit (rows.drop offset.toNat) limit

/-- What one call of a repository `Create` takes from outside: the `uuid.New().String()`
primary key, the timestamp gorm stores in `CreatedAt`/`UpdatedAt`, and the store failure
to inject. -/
structure CreateEnv where
  uuid : String
  now : Time
  err : Option Err
deriving DecidableEq, Repr

namespace followRepository

/-- `followRepository.Create`: `INSERT ... ON CONFLICT DO NOTHING`. The row is skipped,
without error, when it collides with an existing row on the primary key `id` or on the
unique index `idx_follow_pair = (follower_id, followee_id)`. -/
def Create (env : CreateEnv) (db : DB) (followerID followeeID : String) : Option Err × DB :=
  let f : Follow := { ID := env.uuid, FollowerID := followerID, FolloweeID := followeeID,
                      CreatedAt := env.now, UpdatedAt := env.now }
  match env.err with
  | some e => (some e, db)
  | none =>
    if db.follows.any (fun q => q.ID == f.ID ||
        (q.FollowerID == f.FollowerID && q.FolloweeID == f.FolloweeID)) then (none, db)
    else (none, { db with follows := db.follows ++ [f] })

/-- `followRepository.Delete`: `DELETE FROM follows WHERE follower_id = ? AND followee_id = ?`. -/
def Delete (err : Option Err) (db : DB) (followerID followeeID : String) : Option Err × DB :=
  match err with
  | some e => (some e, db)
  | none =>
    (none, { db with follows := db.follows.filter (fun q =>
      !(q.FollowerID == followerID && q.FolloweeID == followeeID)) })

/-- `followRepository.Exists`: whether the count of rows with the pair is positive. -/
def Exists (err : Option Err) (db : DB) (followerID followeeID : String) : Bool × Option Err :=
  match err with
  | some e => (false, some e)
  | none =>
    (decide (0 < (db.follows.filter (fun q =>
      q.FollowerID == followerID && q.FolloweeID == followeeID)).length), none)

/-- `followRepository.ListFollowings`. -/
def ListFollowings (err : Option Err) (db : DB) (followerID : String) (offset limit : Int) :
    List Follow × Option Err :=
  match err with
  | some e => ([], some e)
  | none => (offsetLimit (db.follows.filter (fun q => q.FollowerID == followerID)) offset limit,
             none)

end followRepository

namespace fanRepository

/-- `fanRepository.Create`: `INSERT ... ON CONFLICT DO NOTHING`. The row is skipped,
without error, when it collides with an existing row on the primary key `id` or on the
unique index `idx_fan_pair = (user_id, fan_id)`. -/
def Create (env : CreateEnv) (db : DB) (userID fanID : String) : Option Err × DB :=
  let f : Fan := { ID := env.uuid, UserID := userID, FanID := fanID,
                   CreatedAt := env.now, UpdatedAt := env.now }
  match env.err with
  | some e => (some e, db)
  | none =>
    if db.fans.any (fun q => q.ID == f.ID ||
        (q.UserID == f.UserID && q.FanID == f.FanID)) then (none, db)
    else (none, { db with fans := db.fans ++ [f] })

/-- `fanRepository.Delete`: `DELETE FROM fans WHERE user_id = ? AND fan_id = ?`. -/
def Delete (err : Option Err) (db : DB) (userID fanID : String) : Option Err × DB :=
  match err with
  | some e => (some e, db)
  | none =>
    (none, { db with fans := db.fans.filter (fun q =>
      !(q.UserID == userID && q.FanID == fanID)) })

/-- `fanRepository.ListFans`. -/
def ListFans (err : Option Err) (db : DB) (userID : String) (offset limit : Int) :
    List Fan × Option Err :=
  match err with
  | some e => ([], some e)
  | none => (offsetLimit (db.fans.filter (fun q => q.UserID == userID)) offset limit, none)

end fanRepository

/-! ## Fan replicator (`internal/service/replicator.go`) -/

/-- The `time.Time` zero value (January 1, year 1), in nanoseconds relative to the Unix
epoch. -/
def zeroTime : Time := -62135596800 * 1000000000

/-- `Time.IsZero`. -/
def IsZero (t : Time) : Bool := t == zeroTime

/-- `replicateAction` is an `int`. -/
abbrev replicateAction := Int

/-- `actionAdd = iota + 1`. -/
def actionAdd : replicateAction := 1

/-- `actionRemove` is the next constant of the block. -/
def actionRemove : replicateAction := 2

/-- `replicateJob`. -/
structure replicateJob where
  action : replicateAction
  userID : String
  fanID : String
  enqAt : Time
deriving DecidableEq, Repr

/-- `FanReplicator`, as far as it is state: the buffered channel `ch` (its capacity and the
jobs it holds, oldest first), the buffered channel `metricsCh` (capacity 65536, holding
durations) and whether `stopCh` has been closed. -/
structure FanReplicator where
  cap : Nat
  ch : List replicateJob
  metricsCh : List Int
  stopped : Bool
deriving DecidableEq, Repr

/-- `NewFanReplicator`: a non-positive `queueSize` becomes 10000. -/
def NewFanReplicator (queueSize : Int) : FanReplicator :=
  let queueSize := if queueSize ≤ 0 then 10000 else queueSize
  { cap := queueSize.toNat, ch := [], metricsCh := [], stopped := false }

namespace FanReplicator

/-- Non-blocking send `select { case r.ch <- job: default: }`: the job is buffered when the
channel has room and dropped otherwise. -/
def trySend (r : FanReplicator) (job : replicateJob) : FanReplicator :=
  if r.ch.length < r.cap then { r with ch := r.ch ++ [job] } else r

/-- `FanReplicator.EnqueueAdd`; `now` is the reading of `time.Now()`. -/
def EnqueueAdd (r : FanReplicator) (now : Time) (userID fanID : String) : FanReplicator :=
  r.trySend { action := actionAdd, userID := userID, fanID := fanID, enqAt := now }

/-- `FanReplicator.EnqueueRemove`; `now` is the reading of `time.Now()`. -/
def EnqueueRemove (r : FanReplicator) (now : Time) (userID fanID : String) : FanReplicator :=
  r.trySend { action := actionRemove, userID := userID, fanID := fanID, enqAt := now }

/-- `FanReplicator.QueueLen`. -/
def QueueLen (r : FanReplicator) : Int := r.ch.length

/-- The stop function returned by `Start`, as far as it changes state: it closes `stopCh`. -/
def stop (r : FanReplicator) : FanReplicator := { r with stopped := true }

end FanReplicator

/-- What a worker takes from outside while it handles one job: the environment of the
`Create` (or the failure of the `Delete`) and the value of `time.Since(job.enqAt)`. -/
structure WorkerEnv where
  create : CreateEnv
  deleteErr : Option Err
  since : Int
deriving DecidableEq, Repr

/-- The `switch job.action` of a worker: the effect of one job on the store. Errors of
the repository are discarded. -/
def applyJob (env : WorkerEnv) (db : DB) (job : replicateJob) : DB :=
  if job.action = actionAdd then (fanRepository.Create env.create db job.userID job.fanID).2
  else if job.action = actionRemove then
    (fanRepository.Delete env.deleteErr db job.userID job.fanID).2
  else db

/-- One pass of a worker through the branch `case job := <-r.ch`: take the oldest job,
apply it, and offer the landing latency to `metricsCh` without blocking. With an empty
channel the worker waits and nothing changes. -/
def workerStep (env : WorkerEnv) (st : DB × FanReplicator) : DB × FanReplicator :=
  match st.2.ch with
  | [] => st
  | job :: rest =>
    let db := applyJob env st.1 job
    let metrics :=
      if !IsZero job.enqAt && decide (st.2.metricsCh.length < 65536)
      then st.2.metricsCh ++ [env.since] else st.2.metricsCh
    (db, { st.2 with ch := rest, metricsCh := metrics })

/-- Workers handling one job after another, one environment per job handled. -/
def runWorkers (envs : List WorkerEnv) (st : DB × FanReplicator) : DB × FanReplicator :=
  envs.foldl (fun acc env => workerStep env acc) st

/-- The store after workers have applied the given jobs, oldest first, one environment
per job (what `runWorkers` does to the store while those jobs head the channel). -/
def applyJobs : List WorkerEnv → List replicateJob → DB → DB
  | env :: envs, job :: jobs, db => applyJobs envs jobs (applyJob env db job)
  | _, _, db => db

/-! ## Relationship service (`internal/service/relationship_service.go`) -/

/-- `ErrFollowSelf`. -/
def ErrFollowSelf : Err := "cannot follow self"

/-- The state a `relationshipService` works on: the store behind both repositories and
the replicator it was built with (`none` is a nil `*FanReplicator`). -/
structure RelState where
  db : DB
  replicator : Option FanReplicator
deriving DecidableEq, Repr

/-- What one call of `Follow` takes from outside. -/
structure FollowEnv where
  create : CreateEnv
  enqAt : Time
deriving DecidableEq, Repr

/-- What one call of `Unfollow` takes from outside. -/
structure UnfollowEnv where
  deleteErr : Option Err
  enqAt : Time
deriving DecidableEq, Repr

namespace relationshipService

/-- `relationshipService.Follow`. -/
def Follow (env : FollowEnv) (s : RelState) (fromUserID toUserID : String) :
    Option Err × RelState :=
  if fromUserID = toUserID then (some ErrFollowSelf, s)
  else
    match followRepository.Create env.create s.db fromUserID toUserID with
    | (some err, db) => (some err, { s with db := db })
    | (none, db) =>
      match s.replicator with
      | some r =>
        (none, { db := db, replicator := some (r.EnqueueAdd env.enqAt toUserID fromUserID) })
      | none => (none, { s with db := db })

/-- `relationshipService.Unfollow`. -/
def Unfollow (env : UnfollowEnv) (s : RelState) (fromUserID toUserID : String) :
    Option Err × RelState :=
  match followRepository.Delete env.deleteErr s.db fromUserID toUserID with
  | (some err, db) => (some err, { s with db := db })
  | (none, db) =>
    match s.replicator with
    | some r =>
      (none, { db := db, replicator := some (r.EnqueueRemove env.enqAt toUserID fromUserID) })
    | none => (none, { s with db := db })

/-- `relationshipService.ListFollowing`. -/
def ListFollowing (err : Option Err) (s : RelState) (userID : String) (page pageSize : Int) :
    Option (List String) × Option Err :=
  let page := if page < 1 then 1 else page
  let pageSize := if pageSize < 1 then 10 else pageSize
  let offset := wrapInt ((page - 1) * pageSize)
  match followRepository.ListFollowings err s.db userID offset pageSize with
  | (_, some e) => (none, some e)
  | (items, none) => (some (items.map (fun it => it.FolloweeID)), none)

/-- `relationshipService.ListFans`. -/
def ListFans (err : Option Err) (s : RelState) (userID : String) (page pageSize : Int) :
    Option (List String) × Option Err :=
  let page := if page < 1 then 1 else page
  let pageSize := if pageSize < 1 then 10 else pageSize
  let offset := wrapInt ((page - 1) * pageSize)
  match fanRepository.ListFans err s.db userID offset pageSize with
  | (_, some e) => (none, some e)
  | (items, none) => (some (items.map (fun it => it.FanID)), none)

end relationshipService

/-- The follow store holds the edge `followerID → followeeID`. -/
def HasFollow (db : DB) (followerID followeeID : String) : Prop :=
  ∃ q ∈ db.follows, q.FollowerID = followerID ∧ q.FolloweeID = followeeID

/-- The fan store holds the edge `(owner = userID, fan = fanID)`. -/
def HasFan (db : DB) (userID fanID : String) : Prop :=
  ∃ q ∈ db.fans, q.UserID = userID ∧ q.FanID = fanID

/-- Number of follow rows for the pair. -/
def followCount (db : DB) (followerID followeeID : String) : Nat :=
  (db.follows.filter (fun q => q.FollowerID == followerID && q.FolloweeID == followeeID)).length

/-- Number of fan rows for the pair. -/
def fanCount (db : DB) (userID fanID : String) : Nat :=
  (db.fans.filter (fun q => q.UserID == userID && q.FanID == fanID)).length

/-! ## Fan-out worker (`internal/service/fanout.go`) -/

/-- `FanoutWorker`, as far as it is configuration. Durations are nanoseconds. -/
structure FanoutWorker where
  batchSize : Int
  claimLimit : Int
  pollInterval : Int
  workers : Int
deriving DecidableEq, Repr

/-- `NewFanoutWorker`: non-positive arguments are replaced by the defaults 4, 500, 128 and
`50 * time.Millisecond`. -/
def NewFanoutWorker (workers batchSize claimLimit pollInterval : Int) : FanoutWorker :=
  let workers := if workers ≤ 0 then 4 else workers
  let batchSize := if batchSize ≤ 0 then 500 else batchSize
  let claimLimit := if claimLimit ≤ 0 then 128 else claimLimit
  let pollInterval := if pollInterval ≤ 0 then 50 * 1000000 else pollInterval
  { batchSize := batchSize, claimLimit := claimLimit, pollInterval := pollInterval,
    workers := workers }

/-- The local type `ob` of `processOnce`: the columns selected by the claim query. -/
structure ob where
  ID : String
  PostID : String
  AuthorID : String
  CreatedAt : Time
deriving DecidableEq, Repr

/-- The claim query: pending rows that no other transaction has locked, ordered by
`created_at` (rows with equal `created_at` stay in storage order), at most `limit`. -/
def claimQuery (locked : String → Bool) (db : DB) (limit : Int) : List ob :=
  (((db.outbox.filter (fun o => o.Status == "pending" && !locked o.ID)).insertionSort
      (fun x y => x.CreatedAt ≤ y.CreatedAt)).take limit.toNat).map
    (fun o => { ID := o.ID, PostID := o.PostID, AuthorID := o.AuthorID,
                CreatedAt := o.CreatedAt })

/-- `UPDATE outbox SET status = 'processing' WHERE id IN ids`. -/
def markProcessing (db : DB) (ids : List String) : DB :=
  { db with outbox := db.outbox.map (fun o =>
      if ids.contains o.ID then { o with Status := "processing" } else o) }

/-- `UPDATE outbox SET status = 'done', processed_at = now, fanout_count = totalWritten
WHERE id = id`; on a store failure nothing changes (the error is discarded by the
caller). -/
def markDone (err : Option Err) (db : DB) (id : String) (now : Time) (totalWritten : Int) :
    DB :=
  match err with
  | some _ => db
  | none =>
    { db with outbox := db.outbox.map (fun o =>
        if o.ID == id then
          { o with Status := "done", ProcessedAt := some now, FanoutCount := totalWritten }
        else o) }

/-- The rows a bulk `INSERT ... ON CONFLICT DO NOTHING` leaves in `inbox`: each record, in
order, is appended unless a row already there (earlier records of the same statement
included) has its primary key `id` or its pair `ux_inbox_user_post = (user_id, post_id)`. -/
def insertIgnore (inbox : List Inbox) (records : List Inbox) : List Inbox :=
  records.foldl (fun acc r =>
    if acc.any (fun q => q.ID == r.ID || (q.UserID == r.UserID && q.PostID == r.PostID))
    then acc else acc ++ [r]) inbox

/-- `db.Clauses(clause.OnConflict{DoNothing: true}).Create(&records)` on the inbox; on a
store failure nothing is inserted (the error is discarded by the caller). -/
def createInbox (err : Option Err) (db : DB) (records : List Inbox) : DB :=
  match err with
  | some _ => db
  | none => { db with inbox := insertIgnore db.inbox records }

/-- What one round of the paging loop takes from outside: the failures of `ListFans` and
of the inbox insert, the reading of `time.Now()`, and the `uuid.New().String()` of the
`i`-th record of the page. -/
structure PageEnv where
  listErr : Option Err
  now : Time
  uuid : Nat → String
  insertErr : Option Err

/-- What the handling of one claimed event takes from outside: the environment of the
`k`-th round of the paging loop, the `time.Now()` written to `processed_at`, the failure
of the final update, and the value of `time.Since(b.CreatedAt)`. -/
structure EventEnv where
  page : Nat → PageEnv
  doneNow : Time
  doneErr : Option Err
  since : Int

/-- The `records` slice built from one page of fans; the `i`-th fan of the page gets the
`i`-th generated id (counting from `i`), `Score` is `now.UnixNano()`. -/
def buildRecords (uuid : Nat → String) (b : ob) (now : Time) : Nat → List Fan → List Inbox
  | _, [] => []
  | i, f :: fs =>
    { ID := uuid i, UserID := f.FanID, PostID := b.PostID, Score := now, CreatedAt := now } ::
      buildRecords uuid b now (i + 1) fs

/-- State of the paging loop of one event: the store, `offset`, `totalWritten` and, for
reference, all records handed to the inbox insert so far, in order. -/
structure PagingState where
  db : DB
  offset : Int
  totalWritten : Int
  submitted : List Inbox

/-- The paging loop `for { ... }` of `processOnce` for the event `b`, started at round `k`.
`fuel` bounds the number of rounds; `none` means the bound was reached before the loop
left through one of its `break`s. -/
def fanoutPages (w : FanoutWorker) (env : Nat → PageEnv) (b : ob) :
    Nat → Nat → PagingState → Option PagingState
  | 0, _, _ => none
  | fuel + 1, k, st =>
    let page := w.batchSize
    match fanRepository.ListFans (env k).listErr st.db b.AuthorID st.offset page with
    | (_, some _) => some st
    | (fans, none) =>
      if fans.length = 0 then some st
      else
        let now := (env k).now
        let records := buildRecords (env k).uuid b now 0 fans
        let db := createInbox (env k).insertErr st.db records
        let totalWritten := st.totalWritten + records.length
        let st1 : PagingState :=
          { db := db, offset := st.offset, totalWritten := totalWritten,
            submitted := st.submitted ++ records }
        if (fans.length : Int) < page then some st1
        else fanoutPages w env b fuel (k + 1) { st1 with offset := st.offset + page }

/-- Non-blocking send to the metrics channel of capacity 65536. -/
def offerMetric (metricsCh : List Int) (d : Int) : List Int :=
  if metricsCh.length < 65536 then metricsCh ++ [d] else metricsCh

/-- Result of handling one claimed event: the store, the metrics channel, and the records
handed to the inbox insert. -/
structure EventResult where
  db : DB
  metricsCh : List Int
  submitted : List Inbox

/-- The body of `for _, b := range batch` in `processOnce`: page through the fans of the
author, write the outbox row `done`, offer the latency. -/
def fanoutEvent (w : FanoutWorker) (env : EventEnv) (fuel : Nat) (b : ob) (db : DB)
    (metricsCh : List Int) : Option EventResult :=
  match fanoutPages w env.page b fuel 0
      { db := db, offset := 0, totalWritten := 0, submitted := [] } with
  | none => none
  | some st =>
    let db1 := markDone env.doneErr st.db b.ID env.doneNow st.totalWritten
    let metricsCh := if !IsZero b.CreatedAt then offerMetric metricsCh env.since else metricsCh
    some { db := db1, metricsCh := metricsCh, submitted := st.submitted }

/-- What one call of `processOnce` takes from outside: the failures of the claim
transaction (begin, select, update, commit), which outbox rows other transactions hold
locked, and the environment of the `i`-th claimed event. -/
structure ProcessEnv where
  beginErr : Option Err
  queryErr : Option Err
  updateErr : Option Err
  commitErr : Option Err
  locked : String → Bool
  event : Nat → EventEnv

/-- The loop `for _, b := range batch`, the `i`-th event first. -/
def fanoutBatch (w : FanoutWorker) (env : Nat → EventEnv) (fuel : Nat) :
    Nat → List ob → DB × List Int → Option (DB × List Int)
  | _, [], st => some st
  | i, b :: bs, st =>
    match fanoutEvent w (env i) fuel b st.1 st.2 with
    | none => none
    | some r => fanoutBatch w env fuel (i + 1) bs (r.db, r.metricsCh)

/-- `FanoutWorker.processOnce` on the store and the metrics channel: the returned error
and the state afterwards, or `none` when a paging loop did not finish within `fuel`
rounds. -/
def processOnce (w : FanoutWorker) (env : ProcessEnv) (fuel : Nat) (st : DB × List Int) :
    Option (Option Err × (DB × List Int)) :=
  let batch : List ob :=
    match env.beginErr, env.queryErr with
    | none, none => claimQuery env.locked st.1 w.claimLimit
    | _, _ => []
  let r := Transaction env.beginErr env.commitErr st.1 (fun tx =>
    match env.queryErr with
    | some e => .error e
    | none =>
      if batch.length = 0 then .ok tx
      else
        let ids := batch.map (fun b => b.ID)
        match env.updateErr with
        | some e => .error e
        | none => .ok (markProcessing tx ids))
  match r.1 with
  | some err => some (some err, (r.2, st.2))
  | none =>
    if batch.length = 0 then some (none, (r.2, st.2))
    else
      match fanoutBatch w env.event fuel 0 batch (r.2, st.2) with
      | none => none
      | some st1 => some (none, st1)

/-- The fans of `userID`, as `ListFans` pages through them. -/
def fansOf (db : DB) (userID : String) : List Fan :=
  db.fans.filter (fun q => q.UserID == userID)

/-- The `(user_id, post_id)` pairs of a list of inbox rows. -/
def inboxPairs (rows : List Inbox) : List (String × String) :=
  rows.map (fun r => (r.UserID, r.PostID))

/-- No two inbox rows share `(user_id, post_id)` (invariant I1). -/
def InboxUnique (db : DB) : Prop := (inboxPairs db.inbox).Nodup

/-- The event `b` is fully fanned out: every fan of its author has an inbox row for its
post. -/
def FullyFannedOut (db : DB) (b : ob) : Prop :=
  ∀ f ∈ fansOf db b.AuthorID, (f.FanID, b.PostID) ∈ inboxPairs db.inbox

/-- An author with `n` fans `fan0, fan1, ...` and one claimed (`processing`) outbox row. -/
def scenarioDB (n : Nat) : DB :=
  { DB.empty with
    fans := (List.range n).map (fun i =>
      { ID := "f" ++ toString i, UserID := "author", FanID := "fan" ++ toString i,
        CreatedAt := 0, UpdatedAt := 0 }),
    outbox := [{ ID := "o1", PostID := "p1", AuthorID := "author", CreatedAt := 1,
                 Status := "processing", ProcessedAt := none, FanoutCount := 0 }] }

/-- An event environment without failures; the `i`-th record of round `k` gets the id
`in-k-i`. -/
def quietEventEnv : EventEnv :=
  { page := fun k => { listErr := none, now := 10 + k,
                       uuid := fun i => "in-" ++ toString k ++ "-" ++ toString i,
                       insertErr := none },
    doneNow := 99, doneErr := none, since := 98 }

/-- The store `scenarioDB n` after one fan-out of its event with batch size 500. -/
def scenarioAfterFanout (n : Nat) : DB :=
  match fanoutEvent (NewFanoutWorker 4 500 128 0) quietEventEnv (n + 1)
      ⟨"o1", "p1", "author", 1⟩ (scenarioDB n) [] with
  | some r => r.db
  | none => scenarioDB n

/-! ## Follower-list cache (`internal/cacheperf/followers.go`) -/

/-- `FollowerSnapshot`. -/
structure FollowerSnapshot where
  ID : String
  Username : String
  Email : String
  Age : Int
deriving DecidableEq, Repr

/-- The two `encoding/json` functions the service calls on a `FollowerSnapshot`; they are
not repository code and are taken as a parameter. `Marshal` cannot fail on this type. -/
structure JSONCodec where
  marshal : FollowerSnapshot → String
  unmarshal : String → Option FollowerSnapshot

/-- A value held by a Redis key: a string or a list. -/
inductive RedisVal where
  | str (s : String)
  | list (xs : List String)
deriving DecidableEq, Repr

/-- A Redis key's value and its time to live (`none`: no expiry). Time does not pass in
the embedding, so no entry expires. -/
structure RedisEntry where
  val : RedisVal
  ttl : Option Int
deriving DecidableEq, Repr

/-- The Redis keyspace. -/
abbrev Redis := String → Option RedisEntry

namespace Redis

/-- The keyspace after `FLUSHALL`. -/
def empty : Redis := fun _ => none

/-- `EXISTS key`: 1 when the key exists, 0 otherwise. -/
def Exists (c : Redis) (key : String) : Int :=
  match c key with
  | some _ => 1
  | none => 0

/-- `LRANGE key start stop` (as `lrangeCommand` computes it): negative indexes count from
the end, the range is clipped to the list, an absent key gives the empty list, and a key
holding a string is an error, after which the caller is left with a nil slice. -/
def LRange (c : Redis) (key : String) (start stop : Int) : List String :=
  match c key with
  | some ⟨.list xs, _⟩ =>
    let llen : Int := xs.length
    let start := if start < 0 then llen + start else start
    let stop := if stop < 0 then llen + stop else stop
    let start := if start < 0 then 0 else start
    if start > stop ∨ start ≥ llen then []
    else
      let stop := if stop ≥ llen then llen - 1 else stop
      (xs.drop start.toNat).take (stop - start + 1).toNat
  | _ => []

/-- `DEL key`. -/
def Del (c : Redis) (key : String) : Redis :=
  fun k => if k = key then none else c k

/-- `RPUSH key values...`: append to the list at `key`, creating it when absent; a key
holding a string is left alone (the command is an error). -/
def RPush (c : Redis) (key : String) (values : List String) : Redis :=
  match c key with
  | none => fun k => if k = key then some ⟨.list values, none⟩ else c k
  | some ⟨.list xs, ttl⟩ => fun k => if k = key then some ⟨.list (xs ++ values), ttl⟩ else c k
  | some ⟨.str _, _⟩ => c

/-- `EXPIRE key ttl`: a non-positive time to live deletes the key. -/
def Expire (c : Redis) (key : String) (ttl : Int) : Redis :=
  match c key with
  | none => c
  | some e =>
    if ttl ≤ 0 then Redis.Del c key
    else fun k => if k = key then some { e with ttl := some ttl } else c k

/-- `SET key value` with the expiration go-redis sends: `EX`/`PX` for a positive
duration, none otherwise (the special duration `KeepTTL` is not told apart). -/
def Set (c : Redis) (key value : String) (ttl : Int) : Redis :=
  fun k => if k = key then some ⟨.str value, if 0 < ttl then some ttl else none⟩ else c k

/-- One reply of `MGET`: the string at the key, nil for an absent key or a key of another
type. -/
def Get (c : Redis) (key : String) : Option String :=
  match c key with
  | some ⟨.str s, _⟩ => some s
  | _ => none

/-- `MGET keys...`. -/
def MGet (c : Redis) (keys : List String) : List (Option String) :=
  keys.map (fun k => Redis.Get c k)

end Redis

/-- `FollowerService`: the store, the cache, the time to live of cache entries and the
three counters. The last field is not a field of the Go struct: it records what the
service has asked of the user store, namely the `IN` list of every bulk query
`Where("id IN ?", missing)` that `loadUsers` has sent, oldest first, so that statements
can speak of the queries themselves. No function reads it. -/
structure FollowerService where
  db : DB
  cache : Redis
  ttl : Int
  pageQueries : Int
  indexLoads : Int
  userBulkLoad : Int
  userQueries : List (List String)

/-- What one call of `FetchFollowersOptimized` takes from outside: which cache round
trips fail (`Exists`, `LRange`, the index pipeline, `MGet`, the `Set` of a given user id)
and which store queries fail (the fan-ID query, the bulk user query). A failed pipeline
applies none of its commands. -/
structure FetchEnv where
  existsErr : Bool
  lrangeErr : Bool
  pipelineErr : Bool
  mgetErr : Bool
  setErr : String → Bool
  indexErr : Option Err
  usersErr : Option Err

/-- The environment in which nothing fails. -/
def FetchEnv.quiet : FetchEnv :=
  { existsErr := false, lrangeErr := false, pipelineErr := false, mgetErr := false,
    setErr := fun _ => false, indexErr := none, usersErr := none }

/-- How a call of a fetch function ends: with a list, with an error, or in a run-time
panic (slice bounds out of range). -/
inductive FetchResult where
  | ok (rows : List FollowerSnapshot)
  | err (e : Err)
  | panic
deriving DecidableEq, Repr

/-- `SELECT fan_id FROM fans WHERE user_id = ? ORDER BY created_at DESC`; rows with equal
`created_at` stay in storage order. -/
def fanIDsDesc (db : DB) (userID : String) : List String :=
  ((db.fans.filter (fun q => q.UserID == userID)).insertionSort
    (fun x y => x.CreatedAt ≥ y.CreatedAt)).map (fun q => q.FanID)

/-- The slice expression `xs[lo:hi]`: it panics (`none`) unless `0 ≤ lo ≤ hi ≤ cap(xs)`.
The one caller clips `hi` to `len(xs)` first, so the bound used here is the length. -/
def goSlice {α : Type} (xs : List α) (lo hi : Int) : Option (List α) :=
  if 0 ≤ lo ∧ lo ≤ hi ∧ hi ≤ (xs.length : Int) then
    some ((xs.drop lo.toNat).take (hi - lo).toNat)
  else none

/-- The snapshot built from a user row. -/
def snapshotOfUser (u : User) : FollowerSnapshot :=
  { ID := u.ID, Username := u.Username, Email := u.Email, Age := u.Age }

/-- A Go `map[string]FollowerSnapshot`. -/
abbrev SnapMap := String → Option FollowerSnapshot

/-- The assignment `m[key] = v`. -/
def SnapMap.set (m : SnapMap) (key : String) (v : FollowerSnapshot) : SnapMap :=
  fun k => if k = key then some v else m k

namespace FollowerService

/-- `FollowerService.loadFollowerIDsAndCache`: count the index load, read all fan ids of
the owner, and, when there are any, replace the index list in one pipeline
(`DEL`, `RPUSH`, `EXPIRE`). -/
def loadFollowerIDsAndCache (s : FollowerService) (env : FetchEnv) (userID : String) :
    Except Err (List String) × FollowerService :=
  let s := { s with indexLoads := s.indexLoads + 1 }
  match env.indexErr with
  | some e => (.error e, s)
  | none =>
    let ids := fanIDsDesc s.db userID
    let key := "followers:index:" ++ userID
    if 0 < ids.length ∧ env.pipelineErr = false then
      (.ok ids,
        { s with cache := Redis.Expire (Redis.RPush (Redis.Del s.cache key) key ids) key s.ttl })
    else (.ok ids, s)

/-- The loop of `loadUsers` over the `MGET` replies: a reply that is a string and
unmarshals is stored under the id at the same position. -/
def collectHits (j : JSONCodec) : List String → List (Option String) → SnapMap → SnapMap
  | id :: ids, v :: vals, cached =>
    match v with
    | none => collectHits j ids vals cached
    | some str =>
      match j.unmarshal str with
      | some snap => collectHits j ids vals (cached.set id snap)
      | none => collectHits j ids vals cached
  | _, _, cached => cached

/-- The loop of `loadUsers` over the loaded users: each snapshot goes into the map and,
unless that `Set` fails, into the cache under `user:{id}` with the service TTL. -/
def storeUsers (j : JSONCodec) (setErr : String → Bool) (ttl : Int) :
    List User → SnapMap × Redis → SnapMap × Redis
  | [], acc => acc
  | u :: us, (cached, cache) =>
    let snap := snapshotOfUser u
    let cache :=
      if setErr u.ID then cache else Redis.Set cache ("user:" ++ u.ID) (j.marshal snap) ttl
    storeUsers j setErr ttl us (cached.set u.ID snap, cache)

/-- `FollowerService.loadUsers`. -/
def loadUsers (j : JSONCodec) (s : FollowerService) (env : FetchEnv) (ids : List String) :
    FetchResult × FollowerService :=
  if ids.length = 0 then (.ok [], s)
  else
    let keys := ids.map (fun id => "user:" ++ id)
    let cached : SnapMap :=
      if env.mgetErr then (fun _ => none)
      else collectHits j ids (Redis.MGet s.cache keys) (fun _ => none)
    let missing := ids.filter (fun id => (cached id).isNone)
    if 0 < missing.length then
      let s := { s with userBulkLoad := s.userBulkLoad + 1,
                        userQueries := s.userQueries ++ [missing] }
      match env.usersErr with
      | some e => (.err e, s)
      | none =>
        let users := s.db.users.filter (fun u => missing.contains u.ID)
        let r := storeUsers j env.setErr s.ttl users (cached, s.cache)
        (.ok (ids.filterMap r.1), { s with cache := r.2 })
    else (.ok (ids.filterMap cached), s)

/-- `FollowerService.FetchFollowersOptimized`. -/
def FetchFollowersOptimized (j : JSONCodec) (s : FollowerService) (env : FetchEnv)
    (userID : String) (page size : Int) : FetchResult × FollowerService :=
  let key := "followers:index:" ++ userID
  let start := wrapInt ((page - 1) * size)
  let stop := wrapInt (start + size - 1)
  let existsCnt : Int := if env.existsErr then 0 else Redis.Exists s.cache key
  let ids : List String :=
    if existsCnt > 0 then (if env.lrangeErr then [] else Redis.LRange s.cache key start stop)
    else []
  if ids.length = 0 then
    match loadFollowerIDsAndCache s env userID with
    | (.error e, s1) => (.err e, s1)
    | (.ok allIDs, s1) =>
      if start ≥ (allIDs.length : Int) then (.ok [], s1)
      else
        let endIdx := wrapInt (start + size)
        let endIdx := if endIdx > (allIDs.length : Int) then (allIDs.length : Int) else endIdx
        match goSlice allIDs start endIdx with
        | none => (.panic, s1)
        | some ids => loadUsers j s1 env ids
  else loadUsers j s env ids

/-- `FollowerService.queryFollowers`: the join of the owner's fan rows, newest first, with
the user rows of the fans, one page of it. -/
def queryFollowers (s : FollowerService) (err : Option Err) (userID : String)
    (page size : Int) : FetchResult × FollowerService :=
  let page := if page < 1 then 1 else page
  let size := if size ≤ 0 then 20 else size
  let s := { s with pageQueries := s.pageQueries + 1 }
  match err with
  | some e => (.err e, s)
  | none =>
    let joined := ((s.db.fans.filter (fun q => q.UserID == userID)).insertionSort
      (fun x y => x.CreatedAt ≥ y.CreatedAt)).flatMap (fun q =>
        (s.db.users.filter (fun u => u.ID == q.FanID)).map snapshotOfUser)
    (.ok (offsetLimit joined (wrapInt ((page - 1) * size)) size), s)

/-- `FollowerService.FetchFollowersNoCache`. -/
def FetchFollowersNoCache (s : FollowerService) (err : Option Err) (userID : String)
    (page size : Int) : FetchResult × FollowerService :=
  queryFollowers s err userID page size

/-- `FollowerService.ResetCounters`. -/
def ResetCounters (s : FollowerService) : FollowerService :=
  { s with pageQueries := 0, indexLoads := 0, userBulkLoad := 0 }

end FollowerService

/-- The snapshot the cache holds for a user id: the string at `user:{id}`, unmarshalled. -/
def cachedSnapshot (j : JSONCodec) (c : Redis) (id : String) : Option FollowerSnapshot :=
  match Redis.Get c ("user:" ++ id) with
  | some str => j.unmarshal str
  | none => none

/-- The snapshot of the user row with the given id (the last one, should the table hold
several). -/
def storedSnapshot (db : DB) (id : String) : Option FollowerSnapshot :=
  ((db.users.filter (fun u => u.ID == id)).getLast?).map snapshotOfUser

/-- The snapshot a fetch shows for a fan id: the cached one, else the one of the user row,
else nothing. -/
def snapshotFor (j : JSONCodec) (s : FollowerService) (id : String) : Option FollowerSnapshot :=
  match cachedSnapshot j s.cache id with
  | some snap => some snap
  | none => storedSnapshot s.db id

/-- The ids at positions `(page-1)*size .. page*size-1` of a list. -/
def pageSlice (l : List String) (page size : Int) : List String :=
  (l.drop ((page - 1) * size).toNat).take size.toNat

/-- The two cache states of an owner's index key: absent, or holding the owner's full
fan-ID list in `created_at DESC` order. -/
def IndexAbsentOrFull (s : FollowerService) (userID : String) : Prop :=
  s.cache ("followers:index:" ++ userID) = none ∨
  ∃ ttl, s.cache ("followers:index:" ++ userID) =
    some ⟨.list (fanIDsDesc s.db userID), ttl⟩

/-- Fields of a comma-separated line. -/
def splitComma : List Char → List (List Char)
  | [] => [[]]
  | c :: cs =>
    if c = ',' then [] :: splitComma cs
    else
      match splitComma cs with
      | [] => [[c]]
      | x :: xs => (c :: x) :: xs

/-- A decimal natural number. -/
def parseNat (cs : List Char) : Option Nat :=
  if cs.isEmpty then none
  else cs.foldl (fun acc c =>
    match acc with
    | none => none
    | some n => if c.isDigit then some (n * 10 + (c.toNat - 48)) else none) (some 0)

/-- A decimal integer with an optional minus sign. -/
def parseInt : List Char → Option Int
  | '-' :: cs => (parseNat cs).map (fun n => -(n : Int))
  | cs => (parseNat cs).map (fun n => (n : Int))

/-- A stand-in for `encoding/json` in examples: the four fields on one comma-separated
line. It round-trips snapshots whose strings contain no comma. -/
def lineCodec : JSONCodec :=
  { marshal := fun s => s.ID ++ "," ++ s.Username ++ "," ++ s.Email ++ "," ++ toString s.Age,
    unmarshal := fun str =>
      match splitComma str.toList with
      | [a, b, c, d] =>
        (parseInt d).map (fun n =>
          { ID := String.mk a, Username := String.mk b, Email := String.mk c, Age := n })
      | _ => none }

/-- Three users `f1`, `f2`, `f3`, all fans of `owner`, followed at times 1, 2, 3. -/
def cacheScenarioDB : DB :=
  { DB.empty with
    users := [⟨"f1", "ann", "ann@x", 31, "p"⟩, ⟨"f2", "bob", "bob@x", 32, "p"⟩,
              ⟨"f3", "cy", "cy@x", 33, "p"⟩],
    fans := [⟨"r1", "owner", "f1", 1, 1⟩, ⟨"r2", "owner", "f2", 2, 2⟩,
             ⟨"r3", "owner", "f3", 3, 3⟩] }

/-- The service on `cacheScenarioDB` with a flushed cache, a TTL of ten minutes and
counters at zero. -/
def cacheScenario : FollowerService :=
  { db := cacheScenarioDB, cache := Redis.empty, ttl := 600000000000,
    pageQueries := 0, indexLoads := 0, userBulkLoad := 0, userQueries := [] }

/-! ## Runs of the relationship service and its replicator -/

/-- One thing that happens to a relationship service and its replicator: a call of
`Follow`, a call of `Unfollow`, or a worker handling the oldest queued job. -/
inductive RelEvent where
  | follow (env : FollowEnv) (fromUserID toUserID : String)
  | unfollow (env : UnfollowEnv) (fromUserID toUserID : String)
  | work (env : WorkerEnv)
deriving DecidableEq, Repr

/-- The state after one event. -/
def stepEvent (s : RelState) : RelEvent → RelState
  | .follow env fromUserID toUserID => (relationshipService.Follow env s fromUserID toUserID).2
  | .unfollow env fromUserID toUserID =>
    (relationshipService.Unfollow env s fromUserID toUserID).2
  | .work env =>
    match s.replicator with
    | some r => { db := (workerStep env (s.db, r)).1, replicator := some (workerStep env (s.db, r)).2 }
    | none => s

/-- The state after a sequence of events, the first event first. -/
def runEvents (es : List RelEvent) (s : RelState) : RelState :=
  es.foldl stepEvent s

/-- The replicator queue exists and has room for one more job. -/
def hasRoom (s : RelState) : Bool :=
  match s.replicator with
  | some r => decide (r.ch.length < r.cap)
  | none => false

/-- The event happens with no store call failing, no enqueue dropped, and a generated id
that is new to the table it goes to. A rejected `Follow(x, x)` enqueues nothing, so it
needs no room. -/
def cleanStep (s : RelState) : RelEvent → Bool
  | .follow env fromUserID toUserID =>
    env.create.err.isNone && s.db.follows.all (fun q => q.ID != env.create.uuid) &&
      (fromUserID == toUserID || hasRoom s)
  | .unfollow env _ _ => env.deleteErr.isNone && hasRoom s
  | .work env =>
    env.create.err.isNone && env.deleteErr.isNone &&
      s.db.fans.all (fun q => q.ID != env.create.uuid)

/-- Every event of the run is clean in the state it happens in. -/
def cleanRun : List RelEvent → RelState → Bool
  | [], _ => true
  | e :: es, s => cleanStep s e && cleanRun es (stepEvent s e)

/-- What one job is meant to do to a set of `(owner, fan)` pairs: `Add` puts its pair in,
`Remove` takes its pair out. -/
def jobEffect (job : replicateJob) (P : String → String → Prop) : String → String → Prop :=
  fun u f =>
    if job.action = actionAdd then P u f ∨ (u = job.userID ∧ f = job.fanID)
    else if job.action = actionRemove then P u f ∧ ¬ (u = job.userID ∧ f = job.fanID)
    else P u f

/-- What the queued jobs, applied oldest first, are meant to do to a set of pairs. -/
def pendingEffect : List replicateJob → (String → String → Prop) → String → String → Prop
  | [], P => P
  | job :: jobs, P => pendingEffect jobs (jobEffect job P)

/-- The follow store mirrors what the fan store will be once the queue is drained. -/
def MirrorInv (s : RelState) : Prop :=
  ∃ r, s.replicator = some r ∧
    ∀ a b, HasFollow s.db a b ↔ pendingEffect r.ch (fun u f => HasFan s.db u f) b a

/-- No follow row has `follower_id = followee_id` (invariant F2). -/
def NoSelfFollow (db : DB) : Prop :=
  ∀ q ∈ db.follows, q.FollowerID ≠ q.FolloweeID

/-- No queued `Add` job has `owner = fan`. -/
def NoSelfAdd (s : RelState) : Prop :=
  ∀ r, s.replicator = some r → ∀ job ∈ r.ch, job.action = actionAdd → job.userID ≠ job.fanID

/-- One operation on the replicator queue: an `EnqueueAdd`, an `EnqueueRemove`, or a
worker handling the oldest queued job. -/
inductive QueueOp where
  | enqueueAdd (now : Time) (userID fanID : String)
  | enqueueRemove (now : Time) (userID fanID : String)
  | work (env : WorkerEnv)
deriving DecidableEq, Repr

/-- The store and the replicator after one queue operation. -/
def stepQueue (st : DB × FanReplicator) : QueueOp → DB × FanReplicator
  | .enqueueAdd now userID fanID => (st.1, st.2.EnqueueAdd now userID fanID)
  | .enqueueRemove now userID fanID => (st.1, st.2.EnqueueRemove now userID fanID)
  | .work env => workerStep env st

/-- The store and the replicator after a sequence of queue operations. -/
def runQueue (ops : List QueueOp) (st : DB × FanReplicator) : DB × FanReplicator :=
  ops.foldl stepQueue st

/-- One `select` of a worker goroutine. The job branch is ready when the channel holds a
job, the stop branch when `stopCh` is closed; when both are ready the runtime takes one of
them at random, here as `pickJob` says. The second component tells whether the goroutine
has returned. With neither branch ready the goroutine waits. -/
def workerSelect (pickJob : Bool) (env : WorkerEnv) (st : DB × FanReplicator) :
    (DB × FanReplicator) × Bool :=
  match st.2.ch, st.2.stopped with
  | [], true => (st, true)
  | [], false => (st, false)
  | _ :: _, false => (workerStep env st, false)
  | _ :: _, true => if pickJob then (workerStep env st, false) else (st, true)

/-- A run on an empty store: `u1` and `u3` follow `u2`, a worker lands the first job,
`u1` unfollows `u2`, and workers land the two remaining jobs. -/
def mirrorScenario : List RelEvent :=
  [.follow ⟨⟨"id1", 1, none⟩, 1⟩ "u1" "u2",
   .follow ⟨⟨"id2", 2, none⟩, 2⟩ "u3" "u2",
   .work ⟨⟨"id3", 3, none⟩, none, 1⟩,
   .unfollow ⟨none, 4⟩ "u1" "u2",
   .work ⟨⟨"id4", 5, none⟩, none, 1⟩,
   .work ⟨⟨"id5", 6, none⟩, none, 1⟩]

/-! ## The claim transaction and runs of the outbox -/

/-- The claim transaction at the head of `processOnce`: the returned error, the `batch`
the select filled, and the store afterwards. -/
def claimOutbox (w : FanoutWorker) (env : ProcessEnv) (db : DB) : Option Err × List ob × DB :=
  let batch : List ob :=
    match env.beginErr, env.queryErr with
    | none, none => claimQuery env.locked db w.claimLimit
    | _, _ => []
  let r := Transaction env.beginErr env.commitErr db (fun tx =>
    match env.queryErr with
    | some e => .error e
    | none =>
      if batch.length = 0 then .ok tx
      else
        let ids := batch.map (fun b => b.ID)
        match env.updateErr with
        | some e => .error e
        | none => .ok (markProcessing tx ids))
  (r.1, batch, r.2)

/-- The pending rows of the outbox, in storage order. -/
def pendingRows (db : DB) : List Outbox :=
  db.outbox.filter (fun o => o.Status == "pending")

/-- The outbox `after` has the rows of `before`, in the same places and with the same
ids, and a row whose id is not in `ids` is unchanged. -/
def OutboxChangedOnlyAt (ids : List String) (before after : List Outbox) : Prop :=
  List.Forall₂ (fun o o1 => o1.ID = o.ID ∧ (o.ID ∉ ids → o1 = o)) before after

/-- The lifecycle invariant of the outbox (P6): every status is `pending`, `processing`
or `done`, and a `done` row has `processed_at` set and a non-negative `fanout_count`. -/
def LifecycleOK (db : DB) : Prop :=
  ∀ o ∈ db.outbox,
    (o.Status = "pending" ∨ o.Status = "processing" ∨ o.Status = "done") ∧
    (o.Status = "done" → o.ProcessedAt.isSome = true ∧ 0 ≤ o.FanoutCount)

/-- The outbox `after` is the outbox `before`, row for row with the same ids, followed by
new rows, and no row that was not `pending` is `pending` afterwards. -/
def NoBackToPending (before after : List Outbox) : Prop :=
  ∃ changed added, after = changed ++ added ∧
    List.Forall₂ (fun o o1 => o1.ID = o.ID ∧ (o.Status ≠ "pending" → o1.Status ≠ "pending"))
      before changed

/-- The states (store and metrics channel) reachable from an empty outbox by calls of
`Publish` and of `processOnce`. -/
inductive OutboxReachable : DB × List Int → Prop where
  | init (db : DB) (metricsCh : List Int) (h : db.outbox = []) : OutboxReachable (db, metricsCh)
  | publish {st : DB × List Int} (env : PublishEnv) (authorID payload : String)
      (h : OutboxReachable st) : OutboxReachable ((Publish env st.1 authorID payload).2, st.2)
  | process {st st1 : DB × List Int} (w : FanoutWorker) (env : ProcessEnv) (fuel : Nat)
      (err : Option Err) (h : OutboxReachable st)
      (hrun : processOnce w env fuel st = some (err, st1)) : OutboxReachable st1

/-- A claim environment without failures and without rows locked by others, in which
every claimed event is handled in the given event environment. -/
def processEnvOf (ev : EventEnv) : ProcessEnv :=
  { beginErr := none, queryErr := none, updateErr := none, commitErr := none,
    locked := fun _ => false, event := fun _ => ev }

/-- An author with `n` fans and one `pending` outbox row for the post `p1`. -/
def pendingScenarioDB (n : Nat) : DB :=
  { scenarioDB n with
    outbox := [{ ID := "o1", PostID := "p1", AuthorID := "author", CreatedAt := 1,
                 Status := "pending", ProcessedAt := none, FanoutCount := 0 }] }

/-- The event environment in which every `ListFans` call fails. -/
def listFailsEnv : EventEnv :=
  { quietEventEnv with
    page := fun k => { (quietEventEnv.page k) with listErr := some "driver: bad connection" } }

/-- The event environment in which every inbox insert fails. -/
def insertFailsEnv : EventEnv :=
  { quietEventEnv with
    page := fun k => { (quietEventEnv.page k) with insertErr := some "driver: bad connection" } }

/-- The ids of the rows the claim transaction of `processOnce` claims. -/
def claimedIDs (w : FanoutWorker) (env : ProcessEnv) (db : DB) : List String :=
  (claimOutbox w env db).2.1.map (fun b => b.ID)

/-- An outbox with three pending rows (created at 30, 10 and 20), one row `processing` and
one row `done`; the author has two fans. -/
def claimScenarioDB : DB :=
  { scenarioDB 2 with
    outbox := [
      { ID := "o1", PostID := "p1", AuthorID := "author", CreatedAt := 30,
        Status := "pending", ProcessedAt := none, FanoutCount := 0 },
      { ID := "o2", PostID := "p2", AuthorID := "author", CreatedAt := 5,
        Status := "done", ProcessedAt := some 7, FanoutCount := 2 },
      { ID := "o3", PostID := "p3", AuthorID := "author", CreatedAt := 10,
        Status := "pending", ProcessedAt := none, FanoutCount := 0 },
      { ID := "o4", PostID := "p4", AuthorID := "author", CreatedAt := 6,
        Status := "processing", ProcessedAt := none, FanoutCount := 0 },
      { ID := "o5", PostID := "p5", AuthorID := "author", CreatedAt := 20,
        Status := "pending", ProcessedAt := none, FanoutCount := 0 }] }

/-- The state after publishing one post of `author`, who has two fans, on an empty outbox
and running `processOnce` once. -/
def lifecycleScenario : DB × List Int :=
  match processOnce (NewFanoutWorker 4 500 128 0) (processEnvOf quietEventEnv) 3
      ((Publish ⟨"p1", "o1", 5, none, none, none, none⟩
          { scenarioDB 2 with outbox := [] } "author" "hello").2, []) with
  | some (_, st1) => st1
  | none => ({ scenarioDB 2 with outbox := [] }, [])

/-- The outbox row of `pendingScenarioDB` written `done` with the given count. -/
def doneRow (count : Int) : Outbox :=
  { ID := "o1", PostID := "p1", AuthorID := "author", CreatedAt := 1,
    Status := "done", ProcessedAt := some 99, FanoutCount := count }

/-! ## The two branches of `FetchFollowersOptimized` -/

namespace FollowerService

/-- The `ids` that `FetchFollowersOptimized` has after the `Exists` and `LRange` round
trips (the errors of both are discarded). -/
def fetchIDs (s : FollowerService) (env : FetchEnv) (userID : String) (page size : Int) :
    List String :=
  let key := "followers:index:" ++ userID
  let start := wrapInt ((page - 1) * size)
  let stop := wrapInt (start + size - 1)
  let existsCnt : Int := if env.existsErr then 0 else Redis.Exists s.cache key
  if existsCnt > 0 then (if env.lrangeErr then [] else Redis.LRange s.cache key start stop)
  else []

/-- The branch `if len(ids) == 0 { ... }` of `FetchFollowersOptimized`, followed by the
`loadUsers` call that ends the function. -/
def fetchOnMiss (j : JSONCodec) (s : FollowerService) (env : FetchEnv) (userID : String)
    (page size : Int) : FetchResult × FollowerService :=
  let start := wrapInt ((page - 1) * size)
  match loadFollowerIDsAndCache s env userID with
  | (.error e, s1) => (.err e, s1)
  | (.ok allIDs, s1) =>
    if start ≥ (allIDs.length : Int) then (.ok [], s1)
    else
      let endIdx := wrapInt (start + size)
      let endIdx := if endIdx > (allIDs.length : Int) then (allIDs.length : Int) else endIdx
      match goSlice allIDs start endIdx with
      | none => (.panic, s1)
      | some ids => loadUsers j s1 env ids

end FollowerService

/-- The service `cacheScenario` after one call for page 10 of size 20, which fills the
index. -/
def cacheScenarioFilled : FollowerService :=
  (FollowerService.FetchFollowersOptimized lineCodec cacheScenario FetchEnv.quiet
    "owner" 10 20).2

/-- An environment in which every cache round trip fails except the index pipeline, and
the bulk user query fails too. -/
def noisyFetchEnv : FetchEnv :=
  { existsErr := true, lrangeErr := true, pipelineErr := false, mgetErr := true,
    setErr := fun _ => true, indexErr := none, usersErr := some "driver: bad connection" }

/-! ## Order repositories (`internal/repository/order_sharded.go`, `order_single.go`) -/

/-- `model.Order`. `Amount` is kept in hundredths (the column is `decimal(10,2)`); no
function of the repositories computes with it. -/
structure Order where
  OrderID : Int
  UserID : Int
  Amount : Int
  Status : Int
  CreatedAt : Time
  UpdatedAt : Time
deriving DecidableEq, Repr

/-- The constant `ShardCount`. -/
def ShardCount : Int := 8

/-- The constant `TableCount`. -/
def TableCount : Int := 8

/-- `RouteByOrderID`. On a signed integer `>>` is the arithmetic shift and `%` is the
remainder of the division truncated toward zero; the conversion from `int64` to `int`
changes nothing on a 64-bit platform. -/
def RouteByOrderID (orderID : Int) : Int × Int :=
  (Int.tmod (orderID >>> (8 : Nat)) ShardCount, Int.tmod orderID TableCount)

/-- `RouteByUserID`. -/
def RouteByUserID (userID : Int) : Int :=
  Int.tmod userID ShardCount

/-- `getTableName`. -/
def getTableName (tableIndex : Int) : String :=
  "orders_" ++ toString tableIndex

/-- The index expression `xs[i]`: it panics (`none`) unless `0 ≤ i < len(xs)`. -/
def goIndex {α : Type} (xs : List α) (i : Int) : Option α :=
  if 0 ≤ i ∧ i < (xs.length : Int) then xs[i.toNat]? else none

/-- What one `Create` of an order takes from outside: the reading of `time.Now()` gorm
uses for a zero `CreatedAt`/`UpdatedAt`, and the store failure to inject. -/
structure OrderCreateEnv where
  now : Time
  err : Option Err
deriving DecidableEq, Repr

/-- Plain `Table(name).Create(order)` on the rows of one table: an `INSERT` that fails on
an injected store error or when the primary key `order_id` is taken; zero timestamps are
filled in by gorm. -/
def createOrder (env : OrderCreateEnv) (rows : List Order) (o : Order) :
    Option Err × List Order :=
  match env.err with
  | some e => (some e, rows)
  | none =>
    let o := { o with CreatedAt := if IsZero o.CreatedAt then env.now else o.CreatedAt,
                      UpdatedAt := if IsZero o.UpdatedAt then env.now else o.UpdatedAt }
    if rows.any (fun q => q.OrderID == o.OrderID) then
      (some "duplicate key value violates unique constraint", rows)
    else (none, rows ++ [o])

/-- `Where("order_id = ?", orderID).First(&order)` on the rows of one table. -/
def firstOrder (err : Option Err) (rows : List Order) (orderID : Int) :
    Option Order × Option Err :=
  match err with
  | some e => (none, some e)
  | none =>
    match rows.find? (fun q => q.OrderID == orderID) with
    | some o => (some o, none)
    | none => (none, some "record not found")

/-- `Where("order_id = ?", orderID).Update("status", status)` on the rows of one table. -/
def updateOrderStatus (err : Option Err) (rows : List Order) (orderID status : Int) :
    Option Err × List Order :=
  match err with
  | some e => (some e, rows)
  | none =>
    (none, rows.map (fun q => if q.OrderID == orderID then { q with Status := status } else q))

/-- `Where("user_id = ?", userID).Order("created_at DESC").Limit(limit).Find(&orders)` on
the rows of one table; rows with equal `created_at` stay in storage order. -/
def ordersOfUser (rows : List Order) (userID limit : Int) : List Order :=
  sqlLimit ((rows.filter (fun q => q.UserID == userID)).insertionSort
    (fun x y => x.CreatedAt ≥ y.CreatedAt)) limit

/-- `SingleDBOrderRepository`: the rows of the table `orders`. -/
structure SingleDBOrderRepository where
  rows : List Order
deriving DecidableEq, Repr

namespace SingleDBOrderRepository

/-- `SingleDBOrderRepository.Create`. -/
def Create (env : OrderCreateEnv) (r : SingleDBOrderRepository) (o : Order) :
    Option Err × SingleDBOrderRepository :=
  ((createOrder env r.rows o).1, ⟨(createOrder env r.rows o).2⟩)

/-- `SingleDBOrderRepository.GetByUserID`. -/
def GetByUserID (err : Option Err) (r : SingleDBOrderRepository) (userID limit : Int) :
    Option (List Order) × Option Err :=
  match err with
  | some e => (none, some e)
  | none => (some (ordersOfUser r.rows userID limit), none)

end SingleDBOrderRepository

/-- `ShardedOrderRepository`. In the code `shards[dbIndex][tableIndex]` is the handle of
database `dbIndex`, and every method reads and writes through it only the table
`orders_{tableIndex}` of that database; the state keeps the rows of that table at that
place. -/
structure ShardedOrderRepository where
  shards : List (List (List Order))
deriving DecidableEq, Repr

/-- `NewShardedOrderRepository`, each database being given by the rows of its tables
`orders_0`, `orders_1`, ... (as `InitSchema` creates them). -/
def NewShardedOrderRepository (dbs : List (Nat → List Order)) :
    Except Err ShardedOrderRepository :=
  if (dbs.length : Int) ≠ ShardCount then
    .error ("expected 8 databases, got " ++ toString dbs.length)
  else .ok ⟨dbs.map (fun db => (List.range TableCount.toNat).map db)⟩

/-- What one call of the sharded `GetByUserID` takes from outside: which table queries
fail, the order in which the eight goroutines send to their channel, and the outcome of
`sort.Slice` (which is not stable) on a given slice. -/
structure UserQueryEnv where
  tableErr : Nat → Option Err
  arrival : List Nat
  sortSlice : List Order → List Order

namespace ShardedOrderRepository

/-- `ShardedOrderRepository.Create`; `none` is the index-out-of-range panic. -/
def Create (env : OrderCreateEnv) (r : ShardedOrderRepository) (o : Order) :
    Option (Option Err × ShardedOrderRepository) :=
  let dbIdx := (RouteByOrderID o.OrderID).1
  let tblIdx := (RouteByOrderID o.OrderID).2
  match goIndex r.shards dbIdx with
  | none => none
  | some db =>
    match goIndex db tblIdx with
    | none => none
    | some rows =>
      let res := createOrder env rows o
      some (res.1, ⟨r.shards.set dbIdx.toNat (db.set tblIdx.toNat res.2)⟩)

/-- `ShardedOrderRepository.GetByOrderID`; `none` is the index-out-of-range panic. -/
def GetByOrderID (err : Option Err) (r : ShardedOrderRepository) (orderID : Int) :
    Option (Option Order × Option Err) :=
  let dbIdx := (RouteByOrderID orderID).1
  let tblIdx := (RouteByOrderID orderID).2
  match goIndex r.shards dbIdx with
  | none => none
  | some db =>
    match goIndex db tblIdx with
    | none => none
    | some rows => some (firstOrder err rows orderID)

/-- `ShardedOrderRepository.UpdateStatus`; `none` is the index-out-of-range panic. -/
def UpdateStatus (err : Option Err) (r : ShardedOrderRepository) (orderID status : Int) :
    Option (Option Err × ShardedOrderRepository) :=
  let dbIdx := (RouteByOrderID orderID).1
  let tblIdx := (RouteByOrderID orderID).2
  match goIndex r.shards dbIdx with
  | none => none
  | some db =>
    match goIndex db tblIdx with
    | none => none
    | some rows =>
      let res := updateOrderStatus err rows orderID status
      some (res.1, ⟨r.shards.set dbIdx.toNat (db.set tblIdx.toNat res.2)⟩)

/-- `ShardedOrderRepository.GetByUserID`; `none` is a run-time panic (an index out of range
in a goroutine, or the slice expression `allOrders[:limit]`). The eight table queries run
with `Limit(limit * 2)`; when one fails the first error sent is returned with a nil list;
otherwise the results are appended in the order they were sent, sorted, and cut to
`limit`. -/
def GetByUserID (env : UserQueryEnv) (r : ShardedOrderRepository) (userID limit : Int) :
    Option (Option (List Order) × Option Err) :=
  let dbIdx := RouteByUserID userID
  match goIndex r.shards dbIdx with
  | none => none
  | some db =>
    if (List.range TableCount.toNat).any (fun t => (goIndex db (t : Int)).isNone) then none
    else
      match env.arrival.filterMap env.tableErr with
      | e :: _ => some (none, some e)
      | [] =>
        let allOrders := env.arrival.flatMap (fun t =>
          match goIndex db (t : Int) with
          | some rows => ordersOfUser rows userID (wrapInt (limit * 2))
          | none => [])
        let allOrders := env.sortSlice allOrders
        if (allOrders.length : Int) > limit then
          match goSlice allOrders 0 limit with
          | none => none
          | some res => some (some res, none)
        else some (some allOrders, none)

end ShardedOrderRepository

/-- A sharded repository as `NewShardedOrderRepository` builds it: 8 databases of 8 tables. -/
def ShardsWellFormed (r : ShardedOrderRepository) : Prop :=
  r.shards.length = 8 ∧ ∀ db ∈ r.shards, db.length = 8

/-- What `sort.Slice` with `less = CreatedAt.After` guarantees about its outcome: a
permutation of the slice in which no element is created after an earlier one. -/
def SortsByCreatedAt (sortSlice : List Order → List Order) : Prop :=
  ∀ l, (sortSlice l).Perm l ∧ (sortSlice l).Pairwise (fun x y => x.CreatedAt ≥ y.CreatedAt)

/-- The sharded repository with all 64 tables empty. -/
def emptyShards : ShardedOrderRepository :=
  ⟨List.replicate 8 (List.replicate 8 [])⟩

/-- An environment of `GetByUserID` without failures: results arrive in table order and
the sort is the stable one. -/
def quietUserQueryEnv : UserQueryEnv :=
  { tableErr := fun _ => none, arrival := List.range 8,
    sortSlice := fun l => l.insertionSort (fun x y => x.CreatedAt ≥ y.CreatedAt) }

/-- The `i`-th order the benchmark generates for a user (`generateTestOrders`), created at
the given time. -/
def benchOrder (userID i : Int) (createdAt : Time) : Order :=
  { OrderID := userID * 1000 + i, UserID := userID, Amount := 0, Status := 0,
    CreatedAt := createdAt, UpdatedAt := createdAt }

/-- The argument of `time.NewTicker` in `FanoutWorker.loop`: the period between two
`processOnce` calls of one worker. -/
def loopTickerPeriod (w : FanoutWorker) : Int := w.pollInterval

/-- The values of a list in non-increasing order. -/
def descKeys (l : List Int) : List Int :=
  l.insertionSort (fun x y => x ≥ y)

/-- A sharded repository in which user 9 (routed to database 1) has three orders in table
`orders_0` and two in table `orders_3` of database 1, next to an order of user 17. -/
def shardScenario : ShardedOrderRepository :=
  ⟨(List.replicate 8 (List.replicate 8 [])).set 1
    [[⟨256, 9, 100, 0, 50, 50⟩, ⟨264, 9, 100, 0, 40, 40⟩, ⟨272, 9, 100, 0, 30, 30⟩],
     [], [],
     [⟨259, 9, 100, 0, 45, 45⟩, ⟨267, 17, 100, 0, 60, 60⟩, ⟨275, 9, 100, 0, 35, 35⟩],
     [], [], [], []]⟩

/-- An environment of `GetByUserID` without failures in which the goroutines deliver in
reverse table order. -/
def reverseUserQueryEnv : UserQueryEnv :=
  { tableErr := fun _ => none, arrival := [7, 6, 5, 4, 3, 2, 1, 0],
    sortSlice := fun l => l.insertionSort (fun x y => x.CreatedAt ≥ y.CreatedAt) }

/-! ## The bulk loads of the optimized fetch, and runs of fetches -/

namespace FollowerService

/-- The map `cached` of `loadUsers` after the `MGet` round trip, empty when it fails
(`loadUsers_eq` shows it in place). -/
def cachedHits (j : JSONCodec) (s : FollowerService) (env : FetchEnv) (ids : List String) :
    SnapMap :=
  if env.mgetErr then (fun _ => none)
  else collectHits j ids (Redis.MGet s.cache (ids.map (fun id => "user:" ++ id)))
    (fun _ => none)

/-- The slice `missing` of `loadUsers`: the requested ids without an entry in `cached`, in
request order (`loadUsers_eq` shows it in place). -/
def missingIDs (j : JSONCodec) (s : FollowerService) (env : FetchEnv) (ids : List String) :
    List String :=
  ids.filter (fun id => (cachedHits j s env ids id).isNone)

end FollowerService

/-- One call of `FetchFollowersOptimized`: what it takes from outside and its arguments. -/
structure FetchCall where
  env : FetchEnv
  userID : String
  page : Int
  size : Int

/-- A sequence of `FetchFollowersOptimized` calls on one service: the results in order and
the service afterwards. After a call that panics, a caller that recovers goes on with the
same cache and counters. -/
def fetchRun (j : JSONCodec) : FollowerService → List FetchCall →
    List FetchResult × FollowerService
  | s, [] => ([], s)
  | s, c :: cs =>
    let r := FollowerService.FetchFollowersOptimized j s c.env c.userID c.page c.size
    (r.1 :: (fetchRun j r.2 cs).1, (fetchRun j r.2 cs).2)

/-- The cache agrees with the store for an owner: the index key is absent or holds the
owner's full fan-ID list, and every cached snapshot is the snapshot of the user row. -/
def CacheCoherent (j : JSONCodec) (s : FollowerService) (userID : String) : Prop :=
  IndexAbsentOrFull s userID ∧
  ∀ id snap, cachedSnapshot j s.cache id = some snap → storedSnapshot s.db id = some snap

/-- Four users; `f1`, `f2`, `f3` are fans of `ownerA` and `f2`, `f3`, `f4` are fans of
`ownerB`; `lonely` has no fan. -/
def sharedFansDB : DB :=
  { DB.empty with
    users := [⟨"f1", "ann", "ann@x", 31, "p"⟩, ⟨"f2", "bob", "bob@x", 32, "p"⟩,
              ⟨"f3", "cy", "cy@x", 33, "p"⟩, ⟨"f4", "dee", "dee@x", 34, "p"⟩],
    fans := [⟨"r1", "ownerA", "f1", 1, 1⟩, ⟨"r2", "ownerA", "f2", 2, 2⟩,
             ⟨"r3", "ownerA", "f3", 3, 3⟩, ⟨"r4", "ownerB", "f2", 4, 4⟩,
             ⟨"r5", "ownerB", "f3", 5, 5⟩, ⟨"r6", "ownerB", "f4", 6, 6⟩] }

/-- The service on `sharedFansDB` with a flushed cache, a TTL of ten minutes and counters
at zero. -/
def sharedFansScenario : FollowerService :=
  { db := sharedFansDB, cache := Redis.empty, ttl := 600000000000,
    pageQueries := 0, indexLoads := 0, userBulkLoad := 0, userQueries := [] }

/-- The cache holds a snapshot for the user id that unmarshals. -/
def ValidCached (j : JSONCodec) (s : FollowerService) (id : String) : Prop :=
  (cachedSnapshot j s.cache id).isSome = true

/-- An environment in which every cache call fails and the store answers. -/
def cacheDownEnv : FetchEnv :=
  { existsErr := true, lrangeErr := true, pipelineErr := true, mgetErr := true,
    setErr := fun _ => true, indexErr := none, usersErr := none }

/-- The service `cacheScenario` after page 1 of size 2 has been fetched: the index key
holds the three fan ids and the snapshots of `f3` and `f2` are cached. -/
def cacheScenarioWarm : FollowerService :=
  (FollowerService.FetchFollowersOptimized lineCodec cacheScenario FetchEnv.quiet
    "owner" 1 2).2

/-- The service `cacheScenarioWarm` after the user row of `f3` has been renamed in the
store: the cached snapshot of `f3` is stale. -/
def staleSnapshotScenario : FollowerService :=
  { cacheScenarioWarm with
    db := { cacheScenarioDB with
      users := [⟨"f1", "ann", "ann@x", 31, "p"⟩, ⟨"f2", "bob", "bob@x", 32, "p"⟩,
                ⟨"f3", "cyrus", "cy@x", 33, "p"⟩] } }

/-- The service `cacheScenarioWarm` after every fan row has been deleted from the store:
`owner` has no fan, and the index key still holds the three ids. -/
def staleIndexScenario : FollowerService :=
  { cacheScenarioWarm with db := { cacheScenarioDB with fans := [] } }

/-! ## Theorems -/

/-! ### Machine integers and `LIMIT`/`OFFSET` -/

theorem wrapInt_of_range (x : Int) (h1 : -(2 ^ 63) ≤ x) (h2 : x < 2 ^ 63) : wrapInt x = x := by
  unfold wrapInt
  omega

theorem offsetLimit_nat {α : Type} (rows : List α) (offset limit : Int) (h : 0 ≤ limit) :
    offsetLimit rows offset limit = (rows.drop offset.toNat).take limit.toNat := by
  unfold offsetLimit sqlLimit
  rw [if_neg (by omega)]

theorem mem_offsetLimit {α : Type} (rows : List α) (offset limit : Int) (a : α)
    (h : a ∈ offsetLimit rows offset limit) : a ∈ rows := by
  unfold offsetLimit sqlLimit at h
  split at h
  · exact List.mem_of_mem_drop h
  · exact List.mem_of_mem_drop (List.mem_of_mem_take h)

/-- A page of positive size whose end `page * size` is in the range of `int`: none of the
three index computations of `FetchFollowersOptimized` wraps. -/
theorem page_no_wrap (page size : Int) (hp : 1 ≤ page) (hs : 1 ≤ size)
    (h : page * size < 2 ^ 63) :
    wrapInt ((page - 1) * size) = (page - 1) * size ∧
    wrapInt ((page - 1) * size + size - 1) = (page - 1) * size + size - 1 ∧
    wrapInt ((page - 1) * size + size) = (page - 1) * size + size := by
  have h0 : 0 ≤ (page - 1) * size := mul_nonneg (by omega) (by omega)
  have h1 : (page - 1) * size + size = page * size := by ring
  refine ⟨wrapInt_of_range _ (by omega) (by omega), wrapInt_of_range _ (by omega) (by omega),
    wrapInt_of_range _ (by omega) (by omega)⟩

theorem createPost_ok {fault : Option Err} {db db1 : DB} {p : Post}
    (h : createPost fault db p = .ok db1) :
    (∀ q ∈ db.posts, q.ID ≠ p.ID) ∧ db1 = { db with posts := db.posts ++ [p] } := by
  unfold createPost at h
  cases fault with
  | some e => simp at h
  | none =>
    by_cases hc : db.posts.any (fun q => q.ID == p.ID) = true
    · simp [hc] at h
    · simp only [hc] at h
      simp only [Bool.false_eq_true, if_false, Except.ok.injEq] at h
      refine ⟨?_, h.symm⟩
      intro q hq hqp
      exact hc (List.any_eq_true.mpr ⟨q, hq, by simp [hqp]⟩)

theorem createOutbox_ok {fault : Option Err} {db db1 : DB} {o : Outbox}
    (h : createOutbox fault db o = .ok db1) :
    (∀ q ∈ db.outbox, q.PostID ≠ o.PostID) ∧ db1 = { db with outbox := db.outbox ++ [o] } := by
  unfold createOutbox at h
  cases fault with
  | some e => simp at h
  | none =>
    by_cases hc : db.outbox.any (fun q => q.ID == o.ID) = true
    · simp [hc] at h
    · by_cases hd : db.outbox.any (fun q => q.PostID == o.PostID) = true
      · simp [hc, hd] at h
      · simp only [hc, hd] at h
        simp only [Bool.false_eq_true, if_false, Except.ok.injEq] at h
        refine ⟨?_, h.symm⟩
        intro q hq hqp
        exact hd (List.any_eq_true.mpr ⟨q, hq, by simp [hqp]⟩)

theorem filter_append_singleton_length {α : Type} (l : List α) (a : α) (p : α → Bool)
    (hl : ∀ q ∈ l, p q = false) (ha : p a = true) : ((l ++ [a]).filter p).length = 1 := by
  have : l.filter p = [] := List.filter_eq_nil_iff.mpr (fun q hq => by simp [hl q hq])
  simp [List.filter_append, this, ha]

/-- C1. `Publish` is all-or-nothing. Either it returns the (non-empty) generated post id
with a nil error, the posts table gains exactly one row, which carries that id, the
author and the payload, the outbox table gains exactly one row, with `PostID` that id, the
same author, the same `CreatedAt` as the post and status `pending`, each being the only
row of its table for that id, and no other table changes; or it returns the empty string
with an error and the store is exactly what it was. Publishing keeps the invariant that
every post has an outbox row. The generated id is a `uuid.New().String()`, which is never
the empty string. -/
theorem publish_all_or_nothing (env : PublishEnv) (db : DB) (authorID payload : String)
    (huuid : env.postID ≠ "") :
    ((∃ p o, Publish env db authorID payload =
          ((env.postID, none),
            { db with posts := db.posts ++ [p], outbox := db.outbox ++ [o] }) ∧
        (Publish env db authorID payload).1.1 ≠ "" ∧
        p.ID = env.postID ∧ p.AuthorID = authorID ∧ p.Payload = payload ∧
        o.PostID = env.postID ∧ o.AuthorID = authorID ∧ o.CreatedAt = p.CreatedAt ∧
        o.Status = "pending" ∧
        ((db.posts ++ [p]).filter (fun q => q.ID = env.postID)).length = 1 ∧
        ((db.outbox ++ [o]).filter (fun q => q.PostID = env.postID)).length = 1)
      ∨ (∃ e, Publish env db authorID payload = (("", some e), db)))
    ∧ (PostsHaveOutbox db → PostsHaveOutbox (Publish env db authorID payload).2) := by
  have key : (∃ e, Publish env db authorID payload = (("", some e), db)) ∨
      ((∀ q ∈ db.posts, q.ID ≠ env.postID) ∧ (∀ q ∈ db.outbox, q.PostID ≠ env.postID) ∧
        Publish env db authorID payload =
          ((env.postID, none),
            { db with posts := db.posts ++ [publishPost env authorID payload],
                      outbox := db.outbox ++ [publishOutbox env authorID] })) := by
    cases hb : env.beginErr with
    | some e => exact Or.inl ⟨e, by simp [Publish, Transaction, hb]⟩
    | none =>
      cases h1 : createPost env.createPostErr db (publishPost env authorID payload) with
      | error e => exact Or.inl ⟨e, by simp [Publish, Transaction, hb, h1]⟩
      | ok tx1 =>
        obtain ⟨hp, rfl⟩ := createPost_ok h1
        cases h2 : createOutbox env.createOutboxErr
            { db with posts := db.posts ++ [publishPost env authorID payload] }
            (publishOutbox env authorID) with
        | error e => exact Or.inl ⟨e, by simp [Publish, Transaction, hb, h1, h2]⟩
        | ok tx2 =>
          obtain ⟨ho, rfl⟩ := createOutbox_ok h2
          cases hc : env.commitErr with
          | some e => exact Or.inl ⟨e, by simp [Publish, Transaction, hb, h1, h2, hc]⟩
          | none =>
            refine Or.inr ⟨hp, ho, ?_⟩
            simp [Publish, Transaction, hb, h1, h2, hc]
  rcases key with ⟨e, he⟩ | ⟨hp, ho, hok⟩
  · refine ⟨Or.inr ⟨e, he⟩, ?_⟩
    rw [he]
    exact id
  · refine ⟨Or.inl ⟨publishPost env authorID payload, publishOutbox env authorID, hok, ?_,
      rfl, rfl, rfl, rfl, rfl, rfl, rfl, ?_, ?_⟩, ?_⟩
    · rw [hok]; exact huuid
    · exact filter_append_singleton_length _ _ _ (fun q hq => by simpa using hp q hq)
        (by simp [publishPost])
    · exact filter_append_singleton_length _ _ _ (fun q hq => by simpa using ho q hq)
        (by simp [publishOutbox])
    · rw [hok]
      intro hinv p hpm
      simp only [List.mem_append, List.mem_singleton] at hpm
      rcases hpm with hpm | rfl
      · obtain ⟨o, hom, hoe⟩ := hinv p hpm
        exact ⟨o, List.mem_append_left _ hom, hoe⟩
      · exact ⟨publishOutbox env authorID, by simp, rfl⟩

/-- Witness for C1: a first publish into the empty store. -/
theorem publish_all_or_nothing_witness :
    ((∃ p o, Publish ⟨"p1", "o1", 5, none, none, none, none⟩ DB.empty "alice" "hello" =
          (("p1", none),
            { DB.empty with posts := DB.empty.posts ++ [p],
                            outbox := DB.empty.outbox ++ [o] }) ∧
        (Publish ⟨"p1", "o1", 5, none, none, none, none⟩ DB.empty "alice" "hello").1.1 ≠ "" ∧
        p.ID = "p1" ∧ p.AuthorID = "alice" ∧ p.Payload = "hello" ∧
        o.PostID = "p1" ∧ o.AuthorID = "alice" ∧ o.CreatedAt = p.CreatedAt ∧
        o.Status = "pending" ∧
        ((DB.empty.posts ++ [p]).filter (fun q => q.ID = "p1")).length = 1 ∧
        ((DB.empty.outbox ++ [o]).filter (fun q => q.PostID = "p1")).length = 1)
      ∨ (∃ e, Publish ⟨"p1", "o1", 5, none, none, none, none⟩ DB.empty "alice" "hello" =
          (("", some e), DB.empty)))
    ∧ (PostsHaveOutbox DB.empty →
        PostsHaveOutbox
          (Publish ⟨"p1", "o1", 5, none, none, none, none⟩ DB.empty "alice" "hello").2) :=
  publish_all_or_nothing ⟨"p1", "o1", 5, none, none, none, none⟩ DB.empty "alice" "hello"
    (by decide)

/-! ### Relationship service -/

theorem followCreate_err {env : CreateEnv} {db : DB} {a b : String} {e : Err}
    (h : env.err = some e) : followRepository.Create env db a b = (some e, db) := by
  simp [followRepository.Create, h]

theorem followCreate_fst {env : CreateEnv} {db : DB} {a b : String} :
    (followRepository.Create env db a b).1 = env.err := by
  unfold followRepository.Create
  cases env.err with
  | some e => rfl
  | none => simp only []; split <;> rfl

theorem followCreate_hasFollow {env : CreateEnv} {db : DB} {a b : String}
    (herr : env.err = none) (hfresh : ∀ q ∈ db.follows, q.ID ≠ env.uuid) :
    HasFollow (followRepository.Create env db a b).2 a b := by
  unfold followRepository.Create
  simp only [herr]
  split
  · rename_i hany
    obtain ⟨q, hq, hcond⟩ := List.any_eq_true.mp hany
    simp only [Bool.or_eq_true, beq_iff_eq, Bool.and_eq_true] at hcond
    rcases hcond with hid | hpair
    · exact absurd hid (hfresh q hq)
    · exact ⟨q, hq, hpair⟩
  · exact ⟨_, List.mem_append_right _ (List.mem_singleton.mpr rfl), rfl, rfl⟩

theorem fanCreate_hasFan {env : CreateEnv} {db : DB} {a b : String}
    (herr : env.err = none) (hfresh : ∀ q ∈ db.fans, q.ID ≠ env.uuid) :
    HasFan (fanRepository.Create env db a b).2 a b := by
  unfold fanRepository.Create
  simp only [herr]
  split
  · rename_i hany
    obtain ⟨q, hq, hcond⟩ := List.any_eq_true.mp hany
    simp only [Bool.or_eq_true, beq_iff_eq, Bool.and_eq_true] at hcond
    rcases hcond with hid | hpair
    · exact absurd hid (hfresh q hq)
    · exact ⟨q, hq, hpair⟩
  · exact ⟨_, List.mem_append_right _ (List.mem_singleton.mpr rfl), rfl, rfl⟩

/-- C6. `Follow(x, x)` returns `ErrFollowSelf` and leaves the whole state, the follow
store and the replicator queue included, as it was. -/
theorem follow_self_rejected (env : FollowEnv) (s : RelState) (x : String) :
    relationshipService.Follow env s x x = (some ErrFollowSelf, s) := by
  simp [relationshipService.Follow]

/-- C7. `Follow` returns an error exactly when `from = to` or the follow-store `Create`
fails. When the replicator queue is full (the enqueue is dropped) and neither holds,
`Follow` returns nil, the queue is untouched, the follow store is what `Create` made of
it, and it holds the edge (the generated id being new to the table). When the store
`Create` fails, that error is returned and the state, the queue included, is unchanged. -/
theorem follow_error_iff (env : FollowEnv) (s : RelState) (fromUserID toUserID : String) :
    ((relationshipService.Follow env s fromUserID toUserID).1 ≠ none ↔
      (fromUserID = toUserID ∨ env.create.err ≠ none))
    ∧ (∀ r, s.replicator = some r → r.cap ≤ r.ch.length → fromUserID ≠ toUserID →
        env.create.err = none →
        (relationshipService.Follow env s fromUserID toUserID).1 = none ∧
        (relationshipService.Follow env s fromUserID toUserID).2.replicator = some r ∧
        (relationshipService.Follow env s fromUserID toUserID).2.db =
          (followRepository.Create env.create s.db fromUserID toUserID).2 ∧
        ((∀ q ∈ s.db.follows, q.ID ≠ env.create.uuid) →
          HasFollow (relationshipService.Follow env s fromUserID toUserID).2.db
            fromUserID toUserID))
    ∧ (∀ e, fromUserID ≠ toUserID → env.create.err = some e →
        relationshipService.Follow env s fromUserID toUserID = (some e, s)) := by
  refine ⟨?_, ?_, ?_⟩
  · by_cases hft : fromUserID = toUserID
    · simp [relationshipService.Follow, hft]
    · have h1 := @followCreate_fst env.create s.db fromUserID toUserID
      unfold relationshipService.Follow
      simp only [hft, if_false, false_or]
      rcases hc : followRepository.Create env.create s.db fromUserID toUserID with ⟨err, db⟩
      rw [hc] at h1
      simp only at h1
      cases err with
      | some e => simp [← h1]
      | none => cases s.replicator <;> simp [← h1]
  · intro r hr hfull hft herr
    have h1 := @followCreate_fst env.create s.db fromUserID toUserID
    have hdrop : r.EnqueueAdd env.enqAt toUserID fromUserID = r := by
      simp [FanReplicator.EnqueueAdd, FanReplicator.trySend, Nat.not_lt.mpr hfull]
    have hF : relationshipService.Follow env s fromUserID toUserID =
        (none, { db := (followRepository.Create env.create s.db fromUserID toUserID).2,
                 replicator := some r }) := by
      unfold relationshipService.Follow
      simp only [hft, if_false]
      rcases hc : followRepository.Create env.create s.db fromUserID toUserID with ⟨err, db⟩
      rw [hc, herr] at h1
      simp only at h1
      subst h1
      simp [hr, hdrop]
    rw [hF]
    exact ⟨rfl, rfl, rfl, fun hfresh => followCreate_hasFollow herr hfresh⟩
  · intro e hft herr
    unfold relationshipService.Follow
    simp [hft, followCreate_err herr]

/-- Witness for C7: with a full queue of capacity 1 the follow `u1 → u2` is acknowledged,
the job is dropped and the edge is in the follow store. -/
theorem follow_error_iff_witness :
    (relationshipService.Follow ⟨⟨"id1", 7, none⟩, 8⟩
        ⟨DB.empty, some ⟨1, [⟨actionAdd, "x", "y", 1⟩], [], false⟩⟩ "u1" "u2").1 = none ∧
    (relationshipService.Follow ⟨⟨"id1", 7, none⟩, 8⟩
        ⟨DB.empty, some ⟨1, [⟨actionAdd, "x", "y", 1⟩], [], false⟩⟩ "u1" "u2").2.replicator
      = some ⟨1, [⟨actionAdd, "x", "y", 1⟩], [], false⟩ ∧
    HasFollow (relationshipService.Follow ⟨⟨"id1", 7, none⟩, 8⟩
        ⟨DB.empty, some ⟨1, [⟨actionAdd, "x", "y", 1⟩], [], false⟩⟩ "u1" "u2").2.db "u1" "u2" :=
  have h := (follow_error_iff ⟨⟨"id1", 7, none⟩, 8⟩
      ⟨DB.empty, some ⟨1, [⟨actionAdd, "x", "y", 1⟩], [], false⟩⟩ "u1" "u2").2.1
      ⟨1, [⟨actionAdd, "x", "y", 1⟩], [], false⟩ rfl (by decide) (by decide) rfl
  ⟨h.1, h.2.1, h.2.2.2 (by intro q hq; cases hq)⟩

/-- C8. When `Follow(from, to)` with `from ≠ to` succeeds and the queue has room, the
queue gains, at its tail, one job: `Add` with owner `to` and fan `from`. When a worker
takes that job from the head of the channel and the fan-store `Create` succeeds (its
generated id being new to the table), the fan store holds the edge `(to, from)` right
after that step, whatever the store held before. -/
theorem follow_enqueues_add (env : FollowEnv) (s : RelState) (r : FanReplicator)
    (fromUserID toUserID : String) (hne : fromUserID ≠ toUserID)
    (hr : s.replicator = some r) (hroom : r.ch.length < r.cap)
    (hok : (relationshipService.Follow env s fromUserID toUserID).1 = none) :
    ∃ job, (relationshipService.Follow env s fromUserID toUserID).2.replicator =
        some { r with ch := r.ch ++ [job] } ∧
      job.action = actionAdd ∧ job.userID = toUserID ∧ job.fanID = fromUserID ∧
      ∀ (wenv : WorkerEnv) (db : DB) (rq : FanReplicator) (rest : List replicateJob),
        rq.ch = job :: rest → wenv.create.err = none →
        (∀ q ∈ db.fans, q.ID ≠ wenv.create.uuid) →
        HasFan (workerStep wenv (db, rq)).1 toUserID fromUserID ∧
        (workerStep wenv (db, rq)).2.ch = rest := by
  refine ⟨⟨actionAdd, toUserID, fromUserID, env.enqAt⟩, ?_, rfl, rfl, rfl, ?_⟩
  · have h1 := @followCreate_fst env.create s.db fromUserID toUserID
    unfold relationshipService.Follow at hok ⊢
    simp only [hne, if_false] at hok ⊢
    rcases hc : followRepository.Create env.create s.db fromUserID toUserID with ⟨err, db⟩
    rw [hc] at hok
    cases err with
    | some e => simp at hok
    | none => simp [hr, FanReplicator.EnqueueAdd, FanReplicator.trySend, hroom]
  · intro wenv db rq rest hq herr hfresh
    simp only [workerStep, hq, and_true, applyJob, if_true]
    exact fanCreate_hasFan herr hfresh

/-- Witness for C8: `u1` follows `u2` on an empty store with an empty queue of capacity 4,
and a worker lands the job. -/
theorem follow_enqueues_add_witness :
    ∃ job, (relationshipService.Follow ⟨⟨"id1", 7, none⟩, 8⟩
          ⟨DB.empty, some ⟨4, [], [], false⟩⟩ "u1" "u2").2.replicator =
        some ⟨4, [] ++ [job], [], false⟩ ∧
      job.action = actionAdd ∧ job.userID = "u2" ∧ job.fanID = "u1" ∧
      HasFan (workerStep ⟨⟨"id2", 9, none⟩, none, 3⟩
        (DB.empty, ⟨4, job :: [], [], false⟩)).1 "u2" "u1" := by
  obtain ⟨job, h1, h2, h3, h4, h5⟩ := follow_enqueues_add ⟨⟨"id1", 7, none⟩, 8⟩
    ⟨DB.empty, some ⟨4, [], [], false⟩⟩ ⟨4, [], [], false⟩ "u1" "u2" (by decide) rfl
    (by decide) (by decide)
  exact ⟨job, h1, h2, h3, h4,
    (h5 ⟨⟨"id2", 9, none⟩, none, 3⟩ DB.empty ⟨4, job :: [], [], false⟩ [] rfl rfl
      (by intro q hq; cases hq)).1⟩

theorem followCreate_dup {env : CreateEnv} {db : DB} {a b : String} (h : HasFollow db a b) :
    (followRepository.Create env db a b).2 = db := by
  unfold followRepository.Create
  cases env.err with
  | some e => rfl
  | none =>
    obtain ⟨q, hq, h1, h2⟩ := h
    have hany : db.follows.any (fun q => q.ID == env.uuid ||
        (q.FollowerID == a && q.FolloweeID == b)) = true :=
      List.any_eq_true.mpr ⟨q, hq, by simp [h1, h2]⟩
    simp [hany]

theorem fanCreate_dup {env : CreateEnv} {db : DB} {a b : String} (h : HasFan db a b) :
    (fanRepository.Create env db a b).2 = db := by
  unfold fanRepository.Create
  cases env.err with
  | some e => rfl
  | none =>
    obtain ⟨q, hq, h1, h2⟩ := h
    have hany : db.fans.any (fun q => q.ID == env.uuid ||
        (q.UserID == a && q.FanID == b)) = true :=
      List.any_eq_true.mpr ⟨q, hq, by simp [h1, h2]⟩
    simp [hany]

theorem followCreate_new {env : CreateEnv} {db : DB} {a b : String}
    (herr : env.err = none) (hfresh : ∀ q ∈ db.follows, q.ID ≠ env.uuid)
    (hnone : followCount db a b = 0) :
    followRepository.Create env db a b =
      (none, { db with follows := db.follows ++ [⟨env.uuid, a, b, env.now, env.now⟩] }) := by
  unfold followRepository.Create
  have hany : db.follows.any (fun q => q.ID == env.uuid ||
      (q.FollowerID == a && q.FolloweeID == b)) = false := by
    rw [List.any_eq_false]
    intro q hq
    have h1 := hfresh q hq
    have h2 : (q.FollowerID == a && q.FolloweeID == b) = false := by
      unfold followCount at hnone
      have := List.filter_eq_nil_iff.mp (List.length_eq_zero.mp hnone) q hq
      simpa using this
    simp [h1, h2]
  simp [herr, hany]

theorem fanCreate_new {env : CreateEnv} {db : DB} {a b : String}
    (herr : env.err = none) (hfresh : ∀ q ∈ db.fans, q.ID ≠ env.uuid)
    (hnone : fanCount db a b = 0) :
    fanRepository.Create env db a b =
      (none, { db with fans := db.fans ++ [⟨env.uuid, a, b, env.now, env.now⟩] }) := by
  unfold fanRepository.Create
  have hany : db.fans.any (fun q => q.ID == env.uuid ||
      (q.UserID == a && q.FanID == b)) = false := by
    rw [List.any_eq_false]
    intro q hq
    have h1 := hfresh q hq
    have h2 : (q.UserID == a && q.FanID == b) = false := by
      unfold fanCount at hnone
      have := List.filter_eq_nil_iff.mp (List.length_eq_zero.mp hnone) q hq
      simpa using this
    simp [h1, h2]
  simp [herr, hany]

theorem runWorkers_prefix :
    ∀ (envs : List WorkerEnv) (q rest : List replicateJob) (db : DB) (r : FanReplicator),
      envs.length = q.length → r.ch = q ++ rest →
      (runWorkers envs (db, r)).1 = applyJobs envs q db ∧
      (runWorkers envs (db, r)).2.ch = rest := by
  intro envs
  induction envs with
  | nil =>
    intro q rest db r hlen hch
    have hq : q = [] := List.length_eq_zero.mp hlen.symm
    subst hq
    exact ⟨rfl, by simpa using hch⟩
  | cons e es ih =>
    intro q rest db r hlen hch
    cases q with
    | nil => simp at hlen
    | cons job jobs =>
      have hstep : runWorkers (e :: es) (db, r) = runWorkers es (workerStep e (db, r)) := rfl
      have hw : (workerStep e (db, r)).1 = applyJob e db job ∧
          (workerStep e (db, r)).2.ch = jobs ++ rest := by
        unfold workerStep
        simp only [hch, List.cons_append]
        exact ⟨trivial, trivial⟩
      rw [hstep]
      have := ih jobs rest (workerStep e (db, r)).1 (workerStep e (db, r)).2
        (by simpa using hlen) hw.2
      simp only [Prod.mk.eta] at this
      rw [hw.1] at this
      exact this

theorem applyJob_follows (env : WorkerEnv) (db : DB) (job : replicateJob) :
    (applyJob env db job).follows = db.follows := by
  unfold applyJob fanRepository.Create fanRepository.Delete
  split
  · cases env.create.err with
    | some e => rfl
    | none => simp only []; split <;> rfl
  · split
    · cases env.deleteErr <;> rfl
    · rfl

theorem applyJob_fan_ids (env : WorkerEnv) (db : DB) (job : replicateJob) :
    ∀ x ∈ (applyJob env db job).fans, x ∈ db.fans ∨ x.ID = env.create.uuid := by
  intro x hx
  unfold applyJob fanRepository.Create fanRepository.Delete at hx
  split at hx
  · cases hce : env.create.err with
    | some e => rw [hce] at hx; exact Or.inl hx
    | none =>
      rw [hce] at hx
      simp only [] at hx
      split at hx
      · exact Or.inl hx
      · simp only [List.mem_append, List.mem_singleton] at hx
        rcases hx with hx | hx
        · exact Or.inl hx
        · exact Or.inr (by rw [hx])
  · split at hx
    · cases hde : env.deleteErr with
      | some e => rw [hde] at hx; exact Or.inl hx
      | none =>
        rw [hde] at hx
        exact Or.inl (List.mem_of_mem_filter hx)
    · exact Or.inl hx

theorem applyJob_fanCount_le (env : WorkerEnv) (db : DB) (job : replicateJob) (u f : String)
    (h : fanCount db u f ≤ 1) : fanCount (applyJob env db job) u f ≤ 1 := by
  unfold applyJob fanRepository.Create fanRepository.Delete
  split
  · cases env.create.err with
    | some e => exact h
    | none =>
      simp only []
      split
      · exact h
      · rename_i hany
        by_cases hp : job.userID = u ∧ job.fanID = f
        · have h0 : fanCount db u f = 0 := by
            unfold fanCount
            rw [List.length_eq_zero, List.filter_eq_nil_iff]
            intro q hq hc
            apply hany
            rw [List.any_eq_true]
            refine ⟨q, hq, ?_⟩
            simp only [Bool.and_eq_true, beq_iff_eq] at hc
            simp [hp.1, hp.2, hc.1, hc.2]
          unfold fanCount at h0 ⊢
          simp [List.filter_append, List.length_eq_zero.mp h0, hp.1, hp.2]
        · have hb : (job.userID == u && job.fanID == f) = false := by
            simpa using hp
          unfold fanCount at h ⊢
          simpa [List.filter_append, List.filter_cons, hb] using h
  · split
    · cases env.deleteErr with
      | some e => exact h
      | none =>
        unfold fanCount at h ⊢
        simp only [List.filter_filter]
        refine le_trans ?_ h
        apply List.Sublist.length_le
        apply List.monotone_filter_right
        intro q hq
        rw [Bool.and_eq_true] at hq
        exact hq.1
    · exact h

theorem applyJobs_follows :
    ∀ (envs : List WorkerEnv) (jobs : List replicateJob) (db : DB),
      (applyJobs envs jobs db).follows = db.follows := by
  intro envs
  induction envs with
  | nil => intro jobs db; rfl
  | cons e es ih =>
    intro jobs db
    cases jobs with
    | nil => rfl
    | cons job jobs =>
      simp only [applyJobs]
      rw [ih, applyJob_follows]

theorem applyJobs_fan_ids :
    ∀ (envs : List WorkerEnv) (jobs : List replicateJob) (db : DB),
      ∀ x ∈ (applyJobs envs jobs db).fans, x ∈ db.fans ∨ ∃ e ∈ envs, x.ID = e.create.uuid := by
  intro envs
  induction envs with
  | nil => intro jobs db x hx; exact Or.inl hx
  | cons e es ih =>
    intro jobs db x hx
    cases jobs with
    | nil => exact Or.inl hx
    | cons job jobs =>
      simp only [applyJobs] at hx
      rcases ih jobs _ x hx with h | ⟨e1, he1, h⟩
      · rcases applyJob_fan_ids e db job x h with h | h
        · exact Or.inl h
        · exact Or.inr ⟨e, List.mem_cons_self _ _, h⟩
      · exact Or.inr ⟨e1, List.mem_cons_of_mem _ he1, h⟩

theorem applyJobs_fanCount_le (u f : String) :
    ∀ (envs : List WorkerEnv) (jobs : List replicateJob) (db : DB),
      fanCount db u f ≤ 1 → fanCount (applyJobs envs jobs db) u f ≤ 1 := by
  intro envs
  induction envs with
  | nil => intro jobs db h; exact h
  | cons e es ih =>
    intro jobs db h
    cases jobs with
    | nil => exact h
    | cons job jobs =>
      simp only [applyJobs]
      exact ih jobs _ (applyJob_fanCount_le e db job u f h)

theorem hasFan_of_fanCount {db : DB} {u f : String} (h : 0 < fanCount db u f) :
    HasFan db u f := by
  unfold fanCount at h
  obtain ⟨q, hq⟩ := List.exists_mem_of_length_pos h
  rw [List.mem_filter] at hq
  simp only [Bool.and_eq_true, beq_iff_eq] at hq
  exact ⟨q, hq.1, hq.2⟩

theorem fanCount_pos_of_hasFan {db : DB} {u f : String} (h : HasFan db u f) :
    0 < fanCount db u f := by
  obtain ⟨q, hq, h1, h2⟩ := h
  unfold fanCount
  apply List.length_pos_of_mem (a := q)
  rw [List.mem_filter]
  exact ⟨hq, by simp [h1, h2]⟩

/-- C9. `Follow` is idempotent. Start from a store holding neither the follow pair
`(a, b)` nor the fan pair `(b, a)`, with `a ≠ b`, a replicator queue holding any earlier
jobs and room for two more (so that nothing is dropped), no failing `Create`, and
generated ids that are new (the follow id to the follow table, the fan id of the first
`Add` to the fan table and to the ids generated for the earlier jobs). Then both calls of
`Follow(a, b)` return nil, both jobs are queued, and once the workers have handled every
queued job, oldest first, the queue is empty, the follow store holds exactly one row for
`(a, b)`, the fan store exactly one row for `(b, a)`, and the store is the one obtained by
calling `Follow(a, b)` once and draining. -/
theorem follow_twice_idempotent (env1 env2 : FollowEnv) (envs0 : List WorkerEnv)
    (w1 w2 : WorkerEnv) (db : DB) (r : FanReplicator) (a b : String) (hab : a ≠ b)
    (hlen : envs0.length = r.ch.length) (hcap : r.ch.length + 2 ≤ r.cap)
    (hnf : followCount db a b = 0) (hnn : fanCount db b a = 0)
    (he1 : env1.create.err = none) (he2 : env2.create.err = none)
    (hw1 : w1.create.err = none)
    (hf1 : ∀ q ∈ db.follows, q.ID ≠ env1.create.uuid)
    (hf2 : ∀ q ∈ db.fans, q.ID ≠ w1.create.uuid)
    (hf3 : ∀ e ∈ envs0, e.create.uuid ≠ w1.create.uuid) :
    ∃ s1 s2 r1 r2,
      relationshipService.Follow env1 ⟨db, some r⟩ a b = (none, s1) ∧
      relationshipService.Follow env2 s1 a b = (none, s2) ∧
      s1.replicator = some r1 ∧ s2.replicator = some r2 ∧
      r1.ch.length = r.ch.length + 1 ∧ r2.ch.length = r.ch.length + 2 ∧
      (runWorkers (envs0 ++ [w1, w2]) (s2.db, r2)).2.ch = [] ∧
      (runWorkers (envs0 ++ [w1]) (s1.db, r1)).2.ch = [] ∧
      followCount (runWorkers (envs0 ++ [w1, w2]) (s2.db, r2)).1 a b = 1 ∧
      fanCount (runWorkers (envs0 ++ [w1, w2]) (s2.db, r2)).1 b a = 1 ∧
      (runWorkers (envs0 ++ [w1, w2]) (s2.db, r2)).1 =
        (runWorkers (envs0 ++ [w1]) (s1.db, r1)).1 := by
  have hcap1 : r.ch.length < r.cap := by omega
  have hcap2 : r.ch.length + 1 < r.cap := by omega
  -- the follow row and the two jobs
  let f1 : Follow := ⟨env1.create.uuid, a, b, env1.create.now, env1.create.now⟩
  let db1 : DB := { db with follows := db.follows ++ [f1] }
  let j1 : replicateJob := ⟨actionAdd, b, a, env1.enqAt⟩
  let j2 : replicateJob := ⟨actionAdd, b, a, env2.enqAt⟩
  have hF1 : relationshipService.Follow env1 ⟨db, some r⟩ a b =
      (none, ⟨db1, some { r with ch := r.ch ++ [j1] }⟩) := by
    unfold relationshipService.Follow
    simp only [hab, if_false]
    rw [followCreate_new he1 hf1 hnf]
    simp [FanReplicator.EnqueueAdd, FanReplicator.trySend, hcap1, db1, f1, j1]
  have hhas1 : HasFollow db1 a b :=
    ⟨f1, List.mem_append_right _ (List.mem_singleton.mpr rfl), rfl, rfl⟩
  have hF2 : relationshipService.Follow env2 ⟨db1, some { r with ch := r.ch ++ [j1] }⟩ a b =
      (none, ⟨db1, some { r with ch := r.ch ++ [j1, j2] }⟩) := by
    have h1 := @followCreate_fst env2.create db1 a b
    have h2 := @followCreate_dup env2.create db1 a b hhas1
    unfold relationshipService.Follow
    simp only [hab, if_false]
    rcases hc : followRepository.Create env2.create db1 a b with ⟨err, d⟩
    rw [hc] at h1 h2
    simp only at h1 h2
    subst h2
    rw [he2] at h1
    subst h1
    simp [FanReplicator.EnqueueAdd, FanReplicator.trySend, hcap2, j1, j2]
  -- the store once the earlier jobs have been applied
  let dq : DB := applyJobs envs0 r.ch db1
  have hp2 := runWorkers_prefix envs0 r.ch [j1, j2] db1 { r with ch := r.ch ++ [j1, j2] }
    hlen rfl
  have hp1 := runWorkers_prefix envs0 r.ch [j1] db1 { r with ch := r.ch ++ [j1] } hlen rfl
  have hdqfollows : dq.follows = db1.follows := applyJobs_follows envs0 r.ch db1
  have hdqle : fanCount dq b a ≤ 1 :=
    applyJobs_fanCount_le b a envs0 r.ch db1 (by
      have : fanCount db1 b a = fanCount db b a := rfl
      omega)
  have hdqfresh : ∀ q ∈ dq.fans, q.ID ≠ w1.create.uuid := by
    intro q hq
    rcases applyJobs_fan_ids envs0 r.ch db1 q hq with h | ⟨e, he, h⟩
    · exact hf2 q h
    · rw [h]; exact hf3 e he
  -- the first `Add` lands the edge, the second changes nothing
  let d1 : DB := applyJob w1 dq j1
  have hd1has : HasFan d1 b a := by
    simp only [d1, applyJob, j1, if_true]
    exact fanCreate_hasFan hw1 hdqfresh
  have hd1le : fanCount d1 b a ≤ 1 := applyJob_fanCount_le w1 dq j1 b a hdqle
  have hd1follows : d1.follows = db1.follows := by
    simp only [d1]
    rw [applyJob_follows, hdqfollows]
  have hA2 : applyJob w2 d1 j2 = d1 := by
    simp only [applyJob, j2, if_true]
    exact fanCreate_dup hd1has
  have hrun2 : runWorkers (envs0 ++ [w1, w2]) (db1, { r with ch := r.ch ++ [j1, j2] }) =
      runWorkers [w1, w2]
        (runWorkers envs0 (db1, { r with ch := r.ch ++ [j1, j2] })) := by
    simp [runWorkers, List.foldl_append]
  have hrun1 : runWorkers (envs0 ++ [w1]) (db1, { r with ch := r.ch ++ [j1] }) =
      runWorkers [w1] (runWorkers envs0 (db1, { r with ch := r.ch ++ [j1] })) := by
    simp [runWorkers, List.foldl_append]
  have hq2 := runWorkers_prefix [w1, w2] [j1, j2] []
    (runWorkers envs0 (db1, { r with ch := r.ch ++ [j1, j2] })).1
    (runWorkers envs0 (db1, { r with ch := r.ch ++ [j1, j2] })).2 rfl (by simpa using hp2.2)
  have hq1 := runWorkers_prefix [w1] [j1] []
    (runWorkers envs0 (db1, { r with ch := r.ch ++ [j1] })).1
    (runWorkers envs0 (db1, { r with ch := r.ch ++ [j1] })).2 rfl (by simpa using hp1.2)
  simp only [Prod.mk.eta] at hq1 hq2
  rw [hp2.1] at hq2
  rw [hp1.1] at hq1
  have hfin2 : (runWorkers (envs0 ++ [w1, w2])
      (db1, { r with ch := r.ch ++ [j1, j2] })).1 = d1 := by
    rw [hrun2, hq2.1]
    simp only [applyJobs]
    exact hA2
  have hfin1 : (runWorkers (envs0 ++ [w1]) (db1, { r with ch := r.ch ++ [j1] })).1 = d1 := by
    rw [hrun1, hq1.1]
    simp only [applyJobs]
  refine ⟨_, _, _, _, hF1, hF2, rfl, rfl, by simp, by simp, ?_, ?_, ?_, ?_, ?_⟩
  · rw [hrun2]; exact hq2.2
  · rw [hrun1]; exact hq1.2
  · rw [hfin2]
    unfold followCount
    rw [hd1follows]
    have h0 : db.follows.filter (fun q => q.FollowerID == a && q.FolloweeID == b) = [] :=
      List.length_eq_zero.mp hnf
    simp [db1, f1, List.filter_append, h0]
  · rw [hfin2]
    have := fanCount_pos_of_hasFan hd1has
    omega
  · rw [hfin2, hfin1]

/-- Witness for C9: `u1` follows `u2` twice on an empty store while the queue (capacity 4)
still holds an earlier `Remove(u2, u1)` job. -/
theorem follow_twice_idempotent_witness :
    ∃ s1 s2 r1 r2,
      relationshipService.Follow ⟨⟨"id1", 7, none⟩, 8⟩
        ⟨DB.empty, some ⟨4, [⟨actionRemove, "u2", "u1", 1⟩], [], false⟩⟩ "u1" "u2" =
          (none, s1) ∧
      relationshipService.Follow ⟨⟨"id2", 9, none⟩, 10⟩ s1 "u1" "u2" = (none, s2) ∧
      s1.replicator = some r1 ∧ s2.replicator = some r2 ∧
      r1.ch.length = 1 + 1 ∧ r2.ch.length = 1 + 2 ∧
      (runWorkers ([⟨⟨"id0", 6, none⟩, none, 3⟩] ++
          [⟨⟨"id3", 11, none⟩, none, 3⟩, ⟨⟨"id4", 12, none⟩, none, 3⟩])
        (s2.db, r2)).2.ch = [] ∧
      (runWorkers ([⟨⟨"id0", 6, none⟩, none, 3⟩] ++ [⟨⟨"id3", 11, none⟩, none, 3⟩])
        (s1.db, r1)).2.ch = [] ∧
      followCount (runWorkers ([⟨⟨"id0", 6, none⟩, none, 3⟩] ++
          [⟨⟨"id3", 11, none⟩, none, 3⟩, ⟨⟨"id4", 12, none⟩, none, 3⟩])
        (s2.db, r2)).1 "u1" "u2" = 1 ∧
      fanCount (runWorkers ([⟨⟨"id0", 6, none⟩, none, 3⟩] ++
          [⟨⟨"id3", 11, none⟩, none, 3⟩, ⟨⟨"id4", 12, none⟩, none, 3⟩])
        (s2.db, r2)).1 "u2" "u1" = 1 ∧
      (runWorkers ([⟨⟨"id0", 6, none⟩, none, 3⟩] ++
          [⟨⟨"id3", 11, none⟩, none, 3⟩, ⟨⟨"id4", 12, none⟩, none, 3⟩])
        (s2.db, r2)).1 =
        (runWorkers ([⟨⟨"id0", 6, none⟩, none, 3⟩] ++ [⟨⟨"id3", 11, none⟩, none, 3⟩])
          (s1.db, r1)).1 :=
  follow_twice_idempotent ⟨⟨"id1", 7, none⟩, 8⟩ ⟨⟨"id2", 9, none⟩, 10⟩
    [⟨⟨"id0", 6, none⟩, none, 3⟩]
    ⟨⟨"id3", 11, none⟩, none, 3⟩ ⟨⟨"id4", 12, none⟩, none, 3⟩ DB.empty
    ⟨4, [⟨actionRemove, "u2", "u1", 1⟩], [], false⟩
    "u1" "u2" (by decide) rfl (by decide) (by decide) (by decide) rfl rfl rfl
    (by intro q hq; cases hq) (by intro q hq; cases hq) (by decide)

theorem followDelete_err {db : DB} {a b : String} {e : Err} :
    followRepository.Delete (some e) db a b = (some e, db) := rfl

/-- C10. When the store `Delete` does not fail, `Unfollow(from, to)` returns nil, whether
or not the edge existed; afterwards the follow store is the old one without the rows of
the pair (so the edge `from → to` is gone, and a store without the edge is unchanged),
no other table changes, and a queue with room gains, at its tail, exactly one job:
`Remove` with owner `to` and fan `from`. When the store `Delete` fails, that error is
returned and the state, the queue included, is unchanged. -/
theorem unfollow_spec (env : UnfollowEnv) (s : RelState) (fromUserID toUserID : String) :
    (env.deleteErr = none →
      (relationshipService.Unfollow env s fromUserID toUserID).1 = none ∧
      (relationshipService.Unfollow env s fromUserID toUserID).2.db =
        { s.db with follows := s.db.follows.filter (fun q =>
            !(q.FollowerID == fromUserID && q.FolloweeID == toUserID)) } ∧
      ¬ HasFollow (relationshipService.Unfollow env s fromUserID toUserID).2.db
          fromUserID toUserID ∧
      (¬ HasFollow s.db fromUserID toUserID →
        (relationshipService.Unfollow env s fromUserID toUserID).2.db = s.db) ∧
      (∀ r, s.replicator = some r → r.ch.length < r.cap →
        ∃ job, (relationshipService.Unfollow env s fromUserID toUserID).2.replicator =
            some { r with ch := r.ch ++ [job] } ∧
          job.action = actionRemove ∧ job.userID = toUserID ∧ job.fanID = fromUserID))
    ∧ (∀ e, env.deleteErr = some e →
        relationshipService.Unfollow env s fromUserID toUserID = (some e, s)) := by
  constructor
  · intro herr
    have hU : relationshipService.Unfollow env s fromUserID toUserID =
        (none, { db := { s.db with follows := s.db.follows.filter (fun q =>
                    !(q.FollowerID == fromUserID && q.FolloweeID == toUserID)) },
                 replicator := s.replicator.map
                    (fun r => r.EnqueueRemove env.enqAt toUserID fromUserID) }) := by
      unfold relationshipService.Unfollow followRepository.Delete
      simp only [herr]
      cases s.replicator <;> rfl
    rw [hU]
    refine ⟨rfl, rfl, ?_, ?_, ?_⟩
    · rintro ⟨q, hq, h1, h2⟩
      simp only [List.mem_filter] at hq
      simp [h1, h2] at hq
    · intro hno
      have : s.db.follows.filter (fun q =>
          !(q.FollowerID == fromUserID && q.FolloweeID == toUserID)) = s.db.follows := by
        rw [List.filter_eq_self]
        intro q hq
        by_contra hc
        simp only [Bool.not_eq_true, Bool.not_eq_false', Bool.and_eq_true, beq_iff_eq,
          Bool.not_eq_eq_eq_not, Bool.not_true] at hc
        exact hno ⟨q, hq, by simpa using hc⟩
      simp only [this]
    · intro r hr hroom
      refine ⟨⟨actionRemove, toUserID, fromUserID, env.enqAt⟩, ?_, rfl, rfl, rfl⟩
      simp [hr, FanReplicator.EnqueueRemove, FanReplicator.trySend, hroom]
  · intro e herr
    unfold relationshipService.Unfollow
    simp [herr, followRepository.Delete]

/-- Witness for C10: unfollowing an edge that does not exist returns nil, leaves the store
unchanged and queues the `Remove` job. -/
theorem unfollow_spec_witness :
    (relationshipService.Unfollow ⟨none, 5⟩ ⟨DB.empty, some ⟨4, [], [], false⟩⟩ "u1" "u2").1
      = none ∧
    (relationshipService.Unfollow ⟨none, 5⟩ ⟨DB.empty, some ⟨4, [], [], false⟩⟩ "u1" "u2").2.db
      = DB.empty ∧
    ∃ job, (relationshipService.Unfollow ⟨none, 5⟩
          ⟨DB.empty, some ⟨4, [], [], false⟩⟩ "u1" "u2").2.replicator =
        some ⟨4, [] ++ [job], [], false⟩ ∧
      job.action = actionRemove ∧ job.userID = "u2" ∧ job.fanID = "u1" :=
  have h := (unfollow_spec ⟨none, 5⟩ ⟨DB.empty, some ⟨4, [], [], false⟩⟩ "u1" "u2").1 rfl
  ⟨h.1, h.2.2.2.1 (by rintro ⟨q, hq, _⟩; cases hq), h.2.2.2.2 ⟨4, [], [], false⟩ rfl (by decide)⟩

/-! ### Fan-out worker -/

theorem buildRecords_pairs (uuid : Nat → String) (b : ob) (now : Time) (i : Nat)
    (fans : List Fan) :
    inboxPairs (buildRecords uuid b now i fans) = fans.map (fun f => (f.FanID, b.PostID)) := by
  induction fans generalizing i with
  | nil => rfl
  | cons f fs ih =>
    have := ih (i + 1)
    simp only [inboxPairs] at this ⊢
    simp [buildRecords, this]

theorem buildRecords_length (uuid : Nat → String) (b : ob) (now : Time) (i : Nat)
    (fans : List Fan) : (buildRecords uuid b now i fans).length = fans.length := by
  induction fans generalizing i with
  | nil => rfl
  | cons f fs ih => simp [buildRecords, ih]

theorem createInbox_frame (err : Option Err) (db : DB) (records : List Inbox) :
    createInbox err db records = { db with inbox := (createInbox err db records).inbox } := by
  unfold createInbox
  cases err <;> rfl

theorem createInbox_fans (err : Option Err) (db : DB) (records : List Inbox) :
    (createInbox err db records).fans = db.fans := by
  unfold createInbox
  cases err <;> rfl

theorem insertIgnore_append (inbox a b : List Inbox) :
    insertIgnore inbox (a ++ b) = insertIgnore (insertIgnore inbox a) b := by
  simp [insertIgnore, List.foldl_append]

theorem fanoutPages_complete (w : FanoutWorker) (env : Nat → PageEnv) (b : ob)
    (hp : 1 ≤ w.batchSize) (hlist : ∀ k, (env k).listErr = none) :
    ∀ (fuel k : Nat) (st : PagingState) (m : Nat), st.offset = (m : Int) →
      ((fansOf st.db b.AuthorID).drop m).length / w.batchSize.toNat + 1 ≤ fuel →
      ∃ st1 new, fanoutPages w env b fuel k st = some st1 ∧
        st1.totalWritten = st.totalWritten + (((fansOf st.db b.AuthorID).drop m).length : Int) ∧
        st1.submitted = st.submitted ++ new ∧
        inboxPairs new = ((fansOf st.db b.AuthorID).drop m).map (fun f => (f.FanID, b.PostID)) ∧
        st1.db = { st.db with inbox := st1.db.inbox } ∧
        ((∀ j, (env j).insertErr = none) → st1.db.inbox = insertIgnore st.db.inbox new) := by
  intro fuel
  induction fuel with
  | zero => intro k st m _ h; exact absurd h (Nat.not_succ_le_zero _)
  | succ fuel ih =>
    intro k st m hoff hfuel
    obtain ⟨P, hP⟩ : ∃ P : Nat, w.batchSize = (P : Int) := ⟨w.batchSize.toNat, by omega⟩
    have hP1 : 1 ≤ P := by omega
    have hPn : w.batchSize.toNat = P := by omega
    rw [hPn] at hfuel
    have hfans : fanRepository.ListFans (env k).listErr st.db b.AuthorID st.offset w.batchSize
        = (((fansOf st.db b.AuthorID).drop m).take P, none) := by
      simp [fanRepository.ListFans, hlist k, offsetLimit_nat, fansOf, hoff, hP]
    unfold fanoutPages
    simp only [hfans]
    generalize hrest : (fansOf st.db b.AuthorID).drop m = rest at hfuel ⊢
    by_cases h0 : (rest.take P).length = 0
    · have hr0 : rest.length = 0 := by
        rw [List.length_take] at h0
        omega
      refine ⟨st, [], by simp [h0], by simp [hr0], by simp, ?_, by cases st; rfl, ?_⟩
      · simp [List.length_eq_zero.mp hr0, inboxPairs]
      · intro _; rfl
    · simp only [h0, if_false]
      by_cases hshort : ((rest.take P).length : Int) < w.batchSize
      · simp only [hshort, if_true]
        have hlt : rest.length < P := by
          rw [List.length_take, hP] at hshort
          omega
        have htake : rest.take P = rest := List.take_of_length_le (by omega)
        refine ⟨_, buildRecords (env k).uuid b (env k).now 0 rest, rfl, ?_, ?_, ?_, ?_, ?_⟩
        · simp [buildRecords_length, htake]
        · simp [htake]
        · exact buildRecords_pairs _ _ _ _ _
        · exact createInbox_frame _ _ _
        · intro hins
          simp [createInbox, hins k, htake]
      · simp only [hshort, if_false]
        have hge : P ≤ rest.length := by
          rw [List.length_take, hP] at hshort
          omega
        have hlen : (rest.take P).length = P := by rw [List.length_take]; omega
        set recs := buildRecords (env k).uuid b (env k).now 0 (rest.take P) with hrecs
        set db1 := createInbox (env k).insertErr st.db recs with hdb1
        have hfo : fansOf db1 b.AuthorID = fansOf st.db b.AuthorID := by
          simp [fansOf, hdb1, createInbox_fans]
        have hdrop : (fansOf db1 b.AuthorID).drop (m + P) = rest.drop P := by
          rw [hfo, ← hrest, List.drop_drop]
        have hdiv : (rest.drop P).length / P + 1 ≤ fuel := by
          rw [List.length_drop]
          have : rest.length / P = (rest.length - P) / P + 1 := by
            rw [Nat.div_eq_sub_div (by omega) hge]
          omega
        obtain ⟨st1, new, h1, h2, h3, h4, h5, h6⟩ := ih (k + 1)
          { db := db1, offset := st.offset + w.batchSize,
            totalWritten := st.totalWritten + (recs.length : Int),
            submitted := st.submitted ++ recs }
          (m + P) (by simp [hoff, hP]) (by simp only [hdrop, hPn]; exact hdiv)
        refine ⟨st1, recs ++ new, h1, ?_, ?_, ?_, ?_, ?_⟩
        · rw [h2]
          simp only [hdrop, hrecs, buildRecords_length, hlen, List.length_drop]
          omega
        · rw [h3, List.append_assoc]
        · have hb := buildRecords_pairs (env k).uuid b (env k).now 0 (rest.take P)
          simp only [hdrop] at h4
          simp only [inboxPairs] at hb h4 ⊢
          rw [List.map_append, hb, h4, ← List.map_append, List.take_append_drop]
        · rw [h5]
          simp only
          rw [createInbox_frame (env k).insertErr st.db _] at hdb1
          rw [hdb1]
        · intro hins
          rw [h6 hins, insertIgnore_append]
          simp [hdb1, createInbox, hins k]

theorem fansOf_scenarioDB (n : Nat) : fansOf (scenarioDB n) "author" = (scenarioDB n).fans := by
  simp [fansOf, scenarioDB, List.filter_eq_self]

theorem scenarioDB_fans_length (n : Nat) : (scenarioDB n).fans.length = n := by
  simp [scenarioDB]

/-- C2. Fan-out covers every fan. For an event `b` whose author has `n` fans, a batch size
of at least 1, and no failing store call, the paging loop leaves through a `break` as soon
as it is given `n / batchSize + 1` rounds; the records it hands to the inbox insert are,
in the order of the fan listing, exactly one per fan, with `user_id` the fan's `FanID` and
`post_id` the event's `PostID` (so `n` records in all); the inbox is the old inbox with
those records inserted under conflict-ignore; and every outbox row with the event's id is
written `done` with `processed_at` set and `fanout_count = n`, the other rows and tables
being untouched. -/
theorem fanout_covers_every_fan (w : FanoutWorker) (env : EventEnv) (b : ob) (db : DB)
    (metricsCh : List Int) (fuel : Nat) (hbatch : 1 ≤ w.batchSize)
    (hlist : ∀ k, (env.page k).listErr = none) (hins : ∀ k, (env.page k).insertErr = none)
    (hdone : env.doneErr = none)
    (hfuel : (fansOf db b.AuthorID).length / w.batchSize.toNat + 1 ≤ fuel) :
    ∃ r, fanoutEvent w env fuel b db metricsCh = some r ∧
      inboxPairs r.submitted = (fansOf db b.AuthorID).map (fun f => (f.FanID, b.PostID)) ∧
      r.submitted.length = (fansOf db b.AuthorID).length ∧
      r.db.inbox = insertIgnore db.inbox r.submitted ∧
      r.db.outbox = db.outbox.map (fun o =>
        if o.ID = b.ID then
          { o with Status := "done", ProcessedAt := some env.doneNow,
                   FanoutCount := ((fansOf db b.AuthorID).length : Int) }
        else o) ∧
      r.db.fans = db.fans ∧ r.db.posts = db.posts ∧ r.db.follows = db.follows ∧
      r.db.users = db.users := by
  obtain ⟨st1, new, h1, h2, h3, h4, h5, h6⟩ := fanoutPages_complete w env.page b hbatch hlist
    fuel 0 { db := db, offset := 0, totalWritten := 0, submitted := [] } 0 rfl
    (by simpa using hfuel)
  simp only [List.drop_zero, List.nil_append, zero_add] at h2 h3 h4 h5 h6
  have hpairs : inboxPairs st1.submitted =
      (fansOf db b.AuthorID).map (fun f => (f.FanID, b.PostID)) := by rw [h3, h4]
  refine ⟨{ db := markDone env.doneErr st1.db b.ID env.doneNow st1.totalWritten,
            metricsCh := if !IsZero b.CreatedAt then offerMetric metricsCh env.since
                         else metricsCh,
            submitted := st1.submitted },
    by simp only [fanoutEvent, h1], hpairs, ?_, ?_, ?_, ?_, ?_, ?_, ?_⟩
  · have := congrArg List.length hpairs
    simpa [inboxPairs] using this
  · simp only [markDone, hdone]
    rw [h6 hins, h3]
  · simp only [markDone, hdone, h2]
    rw [h5]
    simp
  · simp only [markDone, hdone]; rw [h5]
  · simp only [markDone, hdone]; rw [h5]
  · simp only [markDone, hdone]; rw [h5]
  · simp only [markDone, hdone]; rw [h5]

/-- Witness for C2: an author with 1000 fans and batch size 500; the loop finishes within
3 rounds, hands over 1000 records and writes `fanout_count = 1000`. -/
theorem fanout_covers_every_fan_witness :
    ∃ r, fanoutEvent (NewFanoutWorker 4 500 128 20000000) quietEventEnv 3
        ⟨"o1", "p1", "author", 1⟩ (scenarioDB 1000) [] = some r ∧
      r.submitted.length = 1000 ∧
      inboxPairs r.submitted =
        (fansOf (scenarioDB 1000) "author").map (fun f => (f.FanID, "p1")) ∧
      r.db.outbox = [{ ID := "o1", PostID := "p1", AuthorID := "author", CreatedAt := 1,
                       Status := "done", ProcessedAt := some 99, FanoutCount := 1000 }] := by
  have hlen : (fansOf (scenarioDB 1000) "author").length = 1000 := by
    rw [fansOf_scenarioDB, scenarioDB_fans_length]
  obtain ⟨r, h1, h2, h3, _, h5, _⟩ := fanout_covers_every_fan (NewFanoutWorker 4 500 128 20000000)
    quietEventEnv ⟨"o1", "p1", "author", 1⟩ (scenarioDB 1000) [] 3 (by decide)
    (fun _ => rfl) (fun _ => rfl) rfl
    (by rw [hlen]; decide)
  refine ⟨r, h1, by rw [h3, hlen], h2, ?_⟩
  rw [h5, hlen]
  simp [scenarioDB, quietEventEnv]

theorem insertIgnore_noop (inbox records : List Inbox)
    (h : ∀ r ∈ records, (r.UserID, r.PostID) ∈ inboxPairs inbox) :
    insertIgnore inbox records = inbox := by
  induction records with
  | nil => rfl
  | cons r rs ih =>
    have hr := h r (List.mem_cons_self _ _)
    simp only [inboxPairs, List.mem_map, Prod.mk.injEq] at hr
    obtain ⟨q, hq, h1, h2⟩ := hr
    have hany : inbox.any (fun q => q.ID == r.ID ||
        (q.UserID == r.UserID && q.PostID == r.PostID)) = true :=
      List.any_eq_true.mpr ⟨q, hq, by simp [h1, h2]⟩
    have hstep : insertIgnore inbox (r :: rs) = insertIgnore inbox rs := by
      simp only [insertIgnore, List.foldl_cons, hany, if_true]
    rw [hstep]
    exact ih (fun x hx => h x (List.mem_cons_of_mem _ hx))

theorem insertIgnore_unique (inbox records : List Inbox) (h : (inboxPairs inbox).Nodup) :
    (inboxPairs (insertIgnore inbox records)).Nodup := by
  induction records generalizing inbox with
  | nil => exact h
  | cons r rs ih =>
    simp only [insertIgnore, List.foldl_cons]
    by_cases hany : inbox.any (fun q => q.ID == r.ID ||
        (q.UserID == r.UserID && q.PostID == r.PostID)) = true
    · simp only [hany, if_true]
      exact ih inbox h
    · simp only [hany, if_false]
      refine ih (inbox ++ [r]) ?_
      have hnot : (r.UserID, r.PostID) ∉ inboxPairs inbox := by
        intro hmem
        simp only [inboxPairs, List.mem_map, Prod.mk.injEq] at hmem
        obtain ⟨q, hq, h1, h2⟩ := hmem
        exact hany (List.any_eq_true.mpr ⟨q, hq, by simp [h1, h2]⟩)
      simp only [inboxPairs, List.map_append, List.map_cons, List.map_nil]
      rw [List.nodup_append]
      refine ⟨h, List.nodup_singleton _, ?_⟩
      intro x hx hx2
      rw [List.mem_singleton] at hx2
      subst hx2
      exact hnot hx

theorem buildRecords_mem (uuid : Nat → String) (b : ob) (now : Time) (i : Nat)
    (fans : List Fan) (r : Inbox) (hr : r ∈ buildRecords uuid b now i fans) :
    ∃ f ∈ fans, r.UserID = f.FanID ∧ r.PostID = b.PostID := by
  have h := buildRecords_pairs uuid b now i fans
  have hm : (r.UserID, r.PostID) ∈ inboxPairs (buildRecords uuid b now i fans) :=
    List.mem_map.mpr ⟨r, hr, rfl⟩
  rw [h, List.mem_map] at hm
  obtain ⟨f, hf, he⟩ := hm
  simp only [Prod.mk.injEq] at he
  exact ⟨f, hf, he.1.symm, he.2.symm⟩

theorem listFans_subset (err : Option Err) (db : DB) (userID : String) (offset limit : Int)
    (f : Fan) (hf : f ∈ (fanRepository.ListFans err db userID offset limit).1) :
    f ∈ fansOf db userID := by
  unfold fanRepository.ListFans at hf
  cases err with
  | some e => simp at hf
  | none =>
    exact mem_offsetLimit _ offset limit f hf

theorem fanoutPages_noop (w : FanoutWorker) (env : Nat → PageEnv) (b : ob) :
    ∀ (fuel k : Nat) (st st1 : PagingState), FullyFannedOut st.db b →
      fanoutPages w env b fuel k st = some st1 → st1.db = st.db := by
  intro fuel
  induction fuel with
  | zero => intro k st st1 _ h; simp [fanoutPages] at h
  | succ fuel ih =>
    intro k st st1 hfull h
    unfold fanoutPages at h
    have hsub := listFans_subset (env k).listErr st.db b.AuthorID st.offset w.batchSize
    rcases hL : fanRepository.ListFans (env k).listErr st.db b.AuthorID st.offset w.batchSize
      with ⟨fans, err⟩
    simp only [hL] at h hsub
    cases err with
    | some e =>
      simp only [Option.some.injEq] at h
      rw [← h]
    | none =>
      simp only at h hsub
      by_cases h0 : fans.length = 0
      · simp only [h0, if_true, Option.some.injEq] at h
        rw [← h]
      · simp only [h0, if_false] at h
        have hdb : createInbox (env k).insertErr st.db
            (buildRecords (env k).uuid b (env k).now 0 fans) = st.db := by
          unfold createInbox
          cases (env k).insertErr with
          | some e => rfl
          | none =>
            have : insertIgnore st.db.inbox (buildRecords (env k).uuid b (env k).now 0 fans)
                = st.db.inbox := by
              apply insertIgnore_noop
              intro r hr
              obtain ⟨f, hf, h1, h2⟩ := buildRecords_mem _ _ _ _ _ r hr
              rw [h1, h2]
              exact hfull f (hsub f hf)
            simp only [this]
        rw [hdb] at h
        by_cases hshort : (fans.length : Int) < w.batchSize
        · simp only [hshort, if_true, Option.some.injEq] at h
          rw [← h]
        · simp only [hshort, if_false] at h
          exact ih (k + 1)
            { db := st.db, offset := st.offset + w.batchSize,
              totalWritten := st.totalWritten +
                ((buildRecords (env k).uuid b (env k).now 0 fans).length : Int),
              submitted := st.submitted ++ buildRecords (env k).uuid b (env k).now 0 fans }
            st1 hfull h

theorem fanoutPages_unique (w : FanoutWorker) (env : Nat → PageEnv) (b : ob) :
    ∀ (fuel k : Nat) (st st1 : PagingState), InboxUnique st.db →
      fanoutPages w env b fuel k st = some st1 → InboxUnique st1.db := by
  intro fuel
  induction fuel with
  | zero => intro k st st1 _ h; simp [fanoutPages] at h
  | succ fuel ih =>
    intro k st st1 huniq h
    unfold fanoutPages at h
    rcases hL : fanRepository.ListFans (env k).listErr st.db b.AuthorID st.offset w.batchSize
      with ⟨fans, err⟩
    simp only [hL] at h
    cases err with
    | some e =>
      simp only [Option.some.injEq] at h
      rw [← h]; exact huniq
    | none =>
      simp only at h
      by_cases h0 : fans.length = 0
      · simp only [h0, if_true, Option.some.injEq] at h
        rw [← h]; exact huniq
      · simp only [h0, if_false] at h
        have hu : InboxUnique (createInbox (env k).insertErr st.db
            (buildRecords (env k).uuid b (env k).now 0 fans)) := by
          unfold createInbox
          cases (env k).insertErr with
          | some e => exact huniq
          | none => exact insertIgnore_unique _ _ huniq
        by_cases hshort : (fans.length : Int) < w.batchSize
        · simp only [hshort, if_true, Option.some.injEq] at h
          rw [← h]; exact hu
        · simp only [hshort, if_false] at h
          exact ih (k + 1) _ st1 hu h

theorem markDone_inbox (err : Option Err) (db : DB) (id : String) (now : Time) (n : Int) :
    (markDone err db id now n).inbox = db.inbox := by
  unfold markDone
  cases err <;> rfl

/-- C3. Re-fan-out is idempotent on the inbox. When every fan of the event's author
already has an inbox row for the event's post (the event is fully fanned out), running the
fan-out step for that event again finishes (batch size at least 1, no failing fan
listing, `n / batchSize + 1` rounds) and leaves the inbox exactly as it was, so it adds
zero rows; indeed any finished run of the step does, whatever fails on the way. And a
fan-out step never breaks uniqueness of `(user_id, post_id)`: if no two inbox rows share
the pair before the step, none do after it. -/
theorem refanout_idempotent (w : FanoutWorker) (env : EventEnv) (b : ob) (db : DB)
    (metricsCh : List Int) (fuel : Nat) :
    (FullyFannedOut db b →
      (∀ r, fanoutEvent w env fuel b db metricsCh = some r → r.db.inbox = db.inbox) ∧
      (1 ≤ w.batchSize → (∀ k, (env.page k).listErr = none) →
        (fansOf db b.AuthorID).length / w.batchSize.toNat + 1 ≤ fuel →
        ∃ r, fanoutEvent w env fuel b db metricsCh = some r ∧ r.db.inbox = db.inbox ∧
          r.db.inbox.length = db.inbox.length))
    ∧ (InboxUnique db →
        ∀ r, fanoutEvent w env fuel b db metricsCh = some r → InboxUnique r.db) := by
  have hnoop : FullyFannedOut db b →
      ∀ r, fanoutEvent w env fuel b db metricsCh = some r → r.db.inbox = db.inbox := by
    intro hfull r hr
    unfold fanoutEvent at hr
    cases hp : fanoutPages w env.page b fuel 0
        { db := db, offset := 0, totalWritten := 0, submitted := [] } with
    | none => simp [hp] at hr
    | some st =>
      simp only [hp, Option.some.injEq] at hr
      have := fanoutPages_noop w env.page b fuel 0 _ st hfull hp
      rw [← hr]
      simp only [markDone_inbox, this]
  refine ⟨fun hfull => ⟨hnoop hfull, ?_⟩, ?_⟩
  · intro hbatch hlist hfuel
    obtain ⟨st1, new, h1, -⟩ := fanoutPages_complete w env.page b hbatch hlist
      fuel 0 { db := db, offset := 0, totalWritten := 0, submitted := [] } 0 rfl
      (by simpa using hfuel)
    have hex : ∃ r, fanoutEvent w env fuel b db metricsCh = some r := by
      simp only [fanoutEvent, h1]
      exact ⟨_, rfl⟩
    obtain ⟨r, hr⟩ := hex
    have := hnoop hfull r hr
    exact ⟨r, hr, this, by rw [this]⟩
  · intro huniq r hr
    unfold fanoutEvent at hr
    cases hp : fanoutPages w env.page b fuel 0
        { db := db, offset := 0, totalWritten := 0, submitted := [] } with
    | none => simp [hp] at hr
    | some st =>
      simp only [hp, Option.some.injEq] at hr
      have := fanoutPages_unique w env.page b fuel 0 _ st huniq hp
      rw [← hr]
      simpa only [InboxUnique, markDone_inbox] using this

theorem insertIgnore_mono (inbox records : List Inbox) :
    ∀ q ∈ inbox, q ∈ insertIgnore inbox records := by
  induction records generalizing inbox with
  | nil => intro q hq; exact hq
  | cons r rs ih =>
    intro q hq
    simp only [insertIgnore, List.foldl_cons]
    split
    · exact ih inbox q hq
    · exact ih (inbox ++ [r]) q (List.mem_append_left _ hq)

theorem insertIgnore_covers (inbox records : List Inbox)
    (hnodup : (records.map (fun r => r.ID)).Nodup)
    (hfresh : ∀ x ∈ records, ∀ q ∈ inbox, q.ID ≠ x.ID) :
    ∀ x ∈ records, (x.UserID, x.PostID) ∈ inboxPairs (insertIgnore inbox records) := by
  induction records generalizing inbox with
  | nil => intro x hx; cases hx
  | cons r rs ih =>
    intro x hx
    rw [List.map_cons, List.nodup_cons] at hnodup
    have hstep : insertIgnore inbox (r :: rs) =
        insertIgnore (if inbox.any (fun q => q.ID == r.ID ||
          (q.UserID == r.UserID && q.PostID == r.PostID)) then inbox else inbox ++ [r]) rs := by
      simp only [insertIgnore, List.foldl_cons]
    rw [hstep]
    rcases List.mem_cons.mp hx with hxr | hxs
    · subst hxr
      by_cases hany : inbox.any (fun q => q.ID == x.ID ||
          (q.UserID == x.UserID && q.PostID == x.PostID)) = true
      · simp only [hany, if_true]
        obtain ⟨q, hq, hc⟩ := List.any_eq_true.mp hany
        simp only [Bool.or_eq_true, beq_iff_eq, Bool.and_eq_true] at hc
        rcases hc with hid | hpair
        · exact absurd hid (hfresh x (List.mem_cons_self _ _) q hq)
        · have := insertIgnore_mono inbox rs q hq
          exact List.mem_map.mpr ⟨q, this, by rw [hpair.1, hpair.2]⟩
      · simp only [hany, if_false]
        have := insertIgnore_mono (inbox ++ [x]) rs x
          (List.mem_append_right _ (List.mem_singleton.mpr rfl))
        exact List.mem_map.mpr ⟨x, this, rfl⟩
    · apply ih _ hnodup.2 _ x hxs
      intro y hy q hq
      have hq2 : q ∈ inbox ∨ q = r := by
        split at hq
        · exact Or.inl hq
        · simpa using hq
      rcases hq2 with hq2 | hq2
      · exact hfresh y (List.mem_cons_of_mem _ hy) q hq2
      · rw [hq2]
        intro heq
        exact hnodup.1 (List.mem_map.mpr ⟨y, hy, heq.symm⟩)

/-- A fan-out step that finishes without a failing store call, and whose generated ids are
pairwise different and new to the inbox, leaves the event fully fanned out. -/
theorem fanout_fully_fans_out (w : FanoutWorker) (env : EventEnv) (b : ob) (db : DB)
    (metricsCh : List Int) (fuel : Nat) (hbatch : 1 ≤ w.batchSize)
    (hlist : ∀ k, (env.page k).listErr = none) (hins : ∀ k, (env.page k).insertErr = none)
    (hfuel : (fansOf db b.AuthorID).length / w.batchSize.toNat + 1 ≤ fuel)
    (hids : ∀ r, fanoutEvent w env fuel b db metricsCh = some r →
      (r.submitted.map (fun x => x.ID)).Nodup ∧
      ∀ x ∈ r.submitted, ∀ q ∈ db.inbox, q.ID ≠ x.ID) :
    ∃ r, fanoutEvent w env fuel b db metricsCh = some r ∧ FullyFannedOut r.db b := by
  obtain ⟨st1, new, h1, -, h3, h4, h5, h6⟩ := fanoutPages_complete w env.page b hbatch hlist
    fuel 0 { db := db, offset := 0, totalWritten := 0, submitted := [] } 0 rfl
    (by simpa using hfuel)
  simp only [List.drop_zero, List.nil_append] at h3 h4 h5 h6
  have hr : fanoutEvent w env fuel b db metricsCh =
      some { db := markDone env.doneErr st1.db b.ID env.doneNow st1.totalWritten,
             metricsCh := if !IsZero b.CreatedAt then offerMetric metricsCh env.since
                          else metricsCh,
             submitted := st1.submitted } := by
    simp only [fanoutEvent, h1]
  obtain ⟨hnodup, hfresh⟩ := hids _ hr
  simp only [h3] at hnodup hfresh
  refine ⟨_, hr, ?_⟩
  have hfans : (markDone env.doneErr st1.db b.ID env.doneNow st1.totalWritten).fans = db.fans := by
    have : (markDone env.doneErr st1.db b.ID env.doneNow st1.totalWritten).fans = st1.db.fans := by
      unfold markDone
      cases env.doneErr <;> rfl
    rw [this, h5]
  intro f hf
  simp only [fansOf, hfans] at hf
  simp only [markDone_inbox, h6 hins]
  have hmem : (f.FanID, b.PostID) ∈ inboxPairs new := by
    rw [h4]
    exact List.mem_map.mpr ⟨f, hf, rfl⟩
  obtain ⟨x, hx, hxe⟩ := List.mem_map.mp hmem
  have := insertIgnore_covers db.inbox new hnodup hfresh x hx
  simp only [Prod.mk.injEq] at hxe
  rw [hxe.1, hxe.2] at this
  exact this

/-- Witness for C3: an author with two fans whose event has been fanned out once; a second
run of the step, with other generated ids and batch size 1, adds no inbox row and the
pairs stay unique. -/
theorem refanout_idempotent_witness :
    FullyFannedOut (scenarioAfterFanout 2) ⟨"o1", "p1", "author", 1⟩ ∧
    InboxUnique (scenarioAfterFanout 2) ∧
    (scenarioAfterFanout 2).inbox.length = 2 ∧
    ∃ r, fanoutEvent (NewFanoutWorker 4 1 128 0)
        { quietEventEnv with page := fun k =>
            { listErr := none, now := 50 + k, uuid := fun i => "again-" ++ toString (k + i),
              insertErr := none } } 3
        ⟨"o1", "p1", "author", 1⟩ (scenarioAfterFanout 2) [] = some r ∧
      r.db.inbox = (scenarioAfterFanout 2).inbox ∧ r.db.inbox.length = 2 ∧
      InboxUnique r.db := by
  have hfull : FullyFannedOut (scenarioAfterFanout 2) ⟨"o1", "p1", "author", 1⟩ := by
    unfold FullyFannedOut
    decide
  have huniq : InboxUnique (scenarioAfterFanout 2) := by
    unfold InboxUnique
    decide
  have hlen : (scenarioAfterFanout 2).inbox.length = 2 := by decide
  have h := refanout_idempotent (NewFanoutWorker 4 1 128 0)
    { quietEventEnv with page := fun k =>
        { listErr := none, now := 50 + k, uuid := fun i => "again-" ++ toString (k + i),
          insertErr := none } }
    ⟨"o1", "p1", "author", 1⟩ (scenarioAfterFanout 2) [] 3
  obtain ⟨r, hr, hin, hl⟩ := (h.1 hfull).2 (by decide) (fun _ => rfl) (by decide)
  exact ⟨hfull, huniq, hlen, r, hr, hin, by rw [hl, hlen], h.2 huniq r hr⟩

/-! ### Follower-list cache -/

open FollowerService

theorem userKey_ne_indexKey (id userID : String) :
    "user:" ++ id ≠ "followers:index:" ++ userID := by
  intro h
  have := congrArg String.data h
  simp [String.data_append] at this

theorem userKey_inj {a b : String} (h : "user:" ++ a = "user:" ++ b) : a = b := by
  have := congrArg String.data h
  simp only [String.data_append, List.append_cancel_left_eq] at this
  exact String.ext this

theorem collectHits_apply (j : JSONCodec) (c : Redis) (id : String) :
    ∀ (ids : List String) (cached : SnapMap),
      collectHits j ids (ids.map (fun i => Redis.Get c ("user:" ++ i))) cached id =
        if id ∈ ids then
          (match cachedSnapshot j c id with
           | some snap => some snap
           | none => cached id)
        else cached id := by
  intro ids
  induction ids with
  | nil => intro cached; simp [collectHits]
  | cons i is ih =>
    intro cached
    simp only [List.map_cons, collectHits]
    cases hg : Redis.Get c ("user:" ++ i) with
    | none =>
      simp only []
      rw [ih]
      by_cases hi : id = i
      · subst hi
        simp [cachedSnapshot, hg]
      · simp [hi]
    | some str =>
      simp only []
      cases hu : j.unmarshal str with
      | none =>
        simp only []
        rw [ih]
        by_cases hi : id = i
        · subst hi
          simp [cachedSnapshot, hg, hu]
        · simp [hi]
      | some snap =>
        simp only []
        rw [ih]
        by_cases hi : id = i
        · subst hi
          simp [cachedSnapshot, hg, hu, SnapMap.set]
        · simp [hi, SnapMap.set]

theorem storeUsers_map (j : JSONCodec) (setErr : String → Bool) (ttl : Int) (id : String) :
    ∀ (users : List User) (cached : SnapMap) (cache : Redis),
      (storeUsers j setErr ttl users (cached, cache)).1 id =
        match (users.filter (fun u => u.ID == id)).getLast? with
        | some u => some (snapshotOfUser u)
        | none => cached id := by
  intro users
  induction users with
  | nil => intro cached cache; simp [storeUsers]
  | cons u us ih =>
    intro cached cache
    simp only [storeUsers]
    rw [ih]
    by_cases hu : u.ID = id
    · simp only [List.filter_cons, hu, beq_self_eq_true, if_true, List.getLast?_cons]
      cases (us.filter (fun u => u.ID == id)).getLast? with
      | none => simp [SnapMap.set, hu]
      | some x => simp
    · have : (u.ID == id) = false := by simpa using hu
      simp only [List.filter_cons, this, Bool.false_eq_true, if_false]
      cases (us.filter (fun u => u.ID == id)).getLast? with
      | none => simp [SnapMap.set, Ne.symm hu]
      | some x => simp

theorem collectHits_quiet (j : JSONCodec) (c : Redis) (ids : List String) (id : String) :
    collectHits j ids (Redis.MGet c (ids.map (fun i => "user:" ++ i))) (fun _ => none) id =
      if id ∈ ids then cachedSnapshot j c id else none := by
  have h := collectHits_apply j c id ids (fun _ => none)
  have hm : Redis.MGet c (ids.map (fun i => "user:" ++ i)) =
      ids.map (fun i => Redis.Get c ("user:" ++ i)) := by
    simp [Redis.MGet, List.map_map, Function.comp_def]
  rw [hm, h]
  by_cases hi : id ∈ ids
  · simp only [hi, if_true]
    cases cachedSnapshot j c id <;> rfl
  · simp [hi]

theorem snapshotFor_of_hit {j : JSONCodec} {s : FollowerService} {id : String}
    {snap : FollowerSnapshot} (h : cachedSnapshot j s.cache id = some snap) :
    snapshotFor j s id = some snap := by
  simp [snapshotFor, h]

theorem snapshotFor_of_miss {j : JSONCodec} {s : FollowerService} {id : String}
    (h : cachedSnapshot j s.cache id = none) :
    snapshotFor j s id = storedSnapshot s.db id := by
  simp [snapshotFor, h]

theorem loadUsers_quiet (j : JSONCodec) (s : FollowerService) (ids : List String) :
    (loadUsers j s FetchEnv.quiet ids).1 = .ok (ids.filterMap (snapshotFor j s)) := by
  unfold loadUsers
  by_cases h0 : ids.length = 0
  · simp [h0, List.length_eq_zero.mp h0]
  · simp only [h0, if_false, FetchEnv.quiet, Bool.false_eq_true]
    have hc := collectHits_quiet j s.cache ids
    generalize collectHits j ids (Redis.MGet s.cache (ids.map (fun id => "user:" ++ id)))
      (fun _ => none) = cached at hc
    by_cases hm : 0 < (ids.filter (fun id => (cached id).isNone)).length
    · simp only [hm, if_true]
      congr 1
      apply List.filterMap_congr
      intro id hid
      rw [storeUsers_map, List.filter_filter]
      have hcid := hc id
      simp only [hid, if_true] at hcid
      cases hcs : cachedSnapshot j s.cache id with
      | some snap =>
        rw [hcs] at hcid
        have hnil : s.db.users.filter (fun u =>
            u.ID == id && (ids.filter (fun id => (cached id).isNone)).contains u.ID) = [] := by
          rw [List.filter_eq_nil_iff]
          intro u _ hu
          simp only [Bool.and_eq_true, beq_iff_eq, List.contains_iff_exists_mem_beq,
            List.mem_filter] at hu
          obtain ⟨hu2, ⟨x, ⟨_, hx2⟩, hx3⟩⟩ := hu
          have : x = id := by rw [← hu2]; exact (by simpa using hx3 : u.ID = x).symm
          rw [this, hcid] at hx2
          simp at hx2
        rw [hnil]
        simp only [List.getLast?_nil]
        rw [hcid, snapshotFor_of_hit hcs]
      | none =>
        rw [hcs] at hcid
        have hfil : s.db.users.filter (fun u =>
            u.ID == id && (ids.filter (fun id => (cached id).isNone)).contains u.ID) =
            s.db.users.filter (fun u => u.ID == id) := by
          apply List.filter_congr
          intro u _
          by_cases hu : u.ID = id
          · have : (ids.filter (fun id => (cached id).isNone)).contains u.ID = true := by
              rw [hu, List.contains_iff_exists_mem_beq]
              exact ⟨id, List.mem_filter.mpr ⟨hid, by simp [hcid]⟩, by simp⟩
            rw [this, Bool.and_true]
          · have : (u.ID == id) = false := by simpa using hu
            rw [this, Bool.false_and]
        rw [hfil, snapshotFor_of_miss hcs, storedSnapshot, hcid]
        cases (s.db.users.filter (fun u => u.ID == id)).getLast? <;> rfl
    · simp only [hm, if_false]
      congr 1
      apply List.filterMap_congr
      intro id hid
      have hcid := hc id
      simp only [hid, if_true] at hcid
      cases hcs : cached id with
      | none =>
        exfalso
        apply hm
        apply List.length_pos_of_mem (a := id)
        exact List.mem_filter.mpr ⟨hid, by simp [hcs]⟩
      | some snap =>
        rw [hcs] at hcid
        exact (snapshotFor_of_hit hcid.symm).symm

theorem take_clip {α : Type} (l : List α) (k sz : Nat)
    (h : k = sz ∨ (l.length ≤ k ∧ l.length ≤ sz)) : l.take k = l.take sz := by
  rcases h with h | ⟨h1, h2⟩
  · rw [h]
  · rw [List.take_of_length_le h1, List.take_of_length_le h2]

theorem lrange_page (c : Redis) (key : String) (xs : List String) (ttl : Option Int)
    (n sz : Nat) (hsz : 1 ≤ sz) (hc : c key = some ⟨.list xs, ttl⟩) :
    Redis.LRange c key (n : Int) ((n : Int) + (sz : Int) - 1) = (xs.drop n).take sz := by
  unfold Redis.LRange
  simp only [hc]
  have h1 : ¬ ((n : Int) < 0) := by omega
  have h2 : ¬ ((n : Int) + (sz : Int) - 1 < 0) := by omega
  simp only [h1, h2, if_false]
  by_cases hlen : (n : Int) ≥ (xs.length : Int)
  · have : xs.drop n = [] := List.drop_eq_nil_of_le (by omega)
    simp [hlen, this]
  · have h3 : ¬ ((n : Int) > (n : Int) + (sz : Int) - 1 ∨ (n : Int) ≥ (xs.length : Int)) := by
      omega
    simp only [h3, if_false, Int.toNat_ofNat]
    apply take_clip
    rw [List.length_drop]
    by_cases hs : (n : Int) + (sz : Int) - 1 ≥ (xs.length : Int)
    · simp only [hs, if_true]
      right
      omega
    · simp only [hs, if_false]
      left
      omega

theorem goSlice_page (xs : List String) (n sz : Nat) (hsz : 1 ≤ sz) (hn : n < xs.length) :
    goSlice xs (n : Int)
      (if (n : Int) + (sz : Int) > (xs.length : Int) then (xs.length : Int)
       else (n : Int) + (sz : Int)) = some ((xs.drop n).take sz) := by
  unfold goSlice
  by_cases hs : (n : Int) + (sz : Int) > (xs.length : Int)
  · simp only [hs, if_true]
    have : (0 : Int) ≤ n ∧ (n : Int) ≤ xs.length ∧ (xs.length : Int) ≤ xs.length := by omega
    simp only [this, and_self, if_true, Int.toNat_ofNat, Option.some.injEq]
    apply take_clip
    rw [List.length_drop]
    right
    omega
  · simp only [hs, if_false]
    have : (0 : Int) ≤ n ∧ (n : Int) ≤ (n : Int) + sz ∧ (n : Int) + sz ≤ xs.length := by omega
    simp only [this, and_self, if_true, Int.toNat_ofNat, Option.some.injEq]
    apply take_clip
    left
    omega

theorem indexPipeline_eq (c : Redis) (key : String) (ids : List String) (ttl : Int) :
    Redis.Expire (Redis.RPush (Redis.Del c key) key ids) key ttl =
      fun k => if k = key then (if ttl ≤ 0 then none else some ⟨.list ids, some ttl⟩)
               else c k := by
  have hdel : Redis.Del c key key = none := by simp [Redis.Del]
  have hpush : Redis.RPush (Redis.Del c key) key ids =
      fun k => if k = key then some ⟨.list ids, none⟩ else c k := by
    unfold Redis.RPush
    rw [hdel]
    funext k
    by_cases hk : k = key <;> simp [hk, Redis.Del]
  rw [hpush]
  unfold Redis.Expire
  simp only [if_true]
  by_cases ht : ttl ≤ 0
  · simp only [ht, if_true]
    funext k
    by_cases hk : k = key <;> simp [hk, Redis.Del]
  · simp only [ht, if_false]
    funext k
    by_cases hk : k = key <;> simp [hk]

theorem loadIDs_quiet (s : FollowerService) (userID : String) :
    ∃ s1, loadFollowerIDsAndCache s FetchEnv.quiet userID = (.ok (fanIDsDesc s.db userID), s1) ∧
      s1.db = s.db ∧ s1.ttl = s.ttl ∧
      (∀ k, k ≠ "followers:index:" ++ userID → s1.cache k = s.cache k) ∧
      s1.cache ("followers:index:" ++ userID) =
        (if 0 < (fanIDsDesc s.db userID).length then
           (if s.ttl ≤ 0 then none else some ⟨.list (fanIDsDesc s.db userID), some s.ttl⟩)
         else s.cache ("followers:index:" ++ userID)) := by
  unfold loadFollowerIDsAndCache
  simp only [FetchEnv.quiet, and_true]
  by_cases hl : 0 < (fanIDsDesc s.db userID).length
  · simp only [hl, if_true]
    refine ⟨_, rfl, rfl, rfl, ?_, ?_⟩
    · intro k hk
      simp only [indexPipeline_eq, hk, if_false]
    · simp only [indexPipeline_eq, if_true]
  · simp only [hl, if_false]
    exact ⟨_, rfl, rfl, rfl, fun _ _ => rfl, rfl⟩

theorem snapshotFor_congr (j : JSONCodec) (s s1 : FollowerService) (hdb : s1.db = s.db)
    (hc : ∀ id, s1.cache ("user:" ++ id) = s.cache ("user:" ++ id)) (id : String) :
    snapshotFor j s1 id = snapshotFor j s id := by
  simp only [snapshotFor, cachedSnapshot, Redis.Get, hc, hdb]

theorem fetch_miss_quiet (j : JSONCodec) (s : FollowerService) (userID : String)
    (n sz : Nat) (hsz : 1 ≤ sz) :
    (match loadFollowerIDsAndCache s FetchEnv.quiet userID with
      | (.error e, s1) => (FetchResult.err e, s1)
      | (.ok allIDs, s1) =>
        if (n : Int) ≥ (allIDs.length : Int) then (.ok [], s1)
        else
          match goSlice allIDs (n : Int)
              (if (n : Int) + (sz : Int) > (allIDs.length : Int) then (allIDs.length : Int)
               else (n : Int) + (sz : Int)) with
          | none => (.panic, s1)
          | some ids => loadUsers j s1 FetchEnv.quiet ids).1 =
      .ok ((((fanIDsDesc s.db userID).drop n).take sz).filterMap (snapshotFor j s)) := by
  obtain ⟨s1, h1, hdb, _, hother, _⟩ := loadIDs_quiet s userID
  rw [h1]
  simp only
  by_cases hlen : (n : Int) ≥ ((fanIDsDesc s.db userID).length : Int)
  · have : (fanIDsDesc s.db userID).drop n = [] := List.drop_eq_nil_of_le (by omega)
    simp [hlen, this]
  · simp only [hlen, if_false]
    rw [goSlice_page _ n sz hsz (by omega)]
    simp only
    rw [loadUsers_quiet]
    congr 1
    apply List.filterMap_congr
    intro id _
    exact snapshotFor_congr j s s1 hdb (fun i => hother _ (userKey_ne_indexKey i userID)) id

theorem storedSnapshot_eq_none (db : DB) (id : String) :
    storedSnapshot db id = none ↔ ∀ u ∈ db.users, u.ID ≠ id := by
  unfold storedSnapshot
  rw [Option.map_eq_none', List.getLast?_eq_none_iff, List.filter_eq_nil_iff]
  constructor
  · intro h u hu he
    exact h u hu (by simp [he])
  · intro h u hu he
    exact h u hu (by simpa using he)

theorem fetch_quiet_result (j : JSONCodec) (s : FollowerService) (userID : String)
    (page size : Int) (hpage : 1 ≤ page) (hsize : 1 ≤ size) (hbound : page * size < 2 ^ 63)
    (hidx : IndexAbsentOrFull s userID) :
    (FetchFollowersOptimized j s FetchEnv.quiet userID page size).1 =
      .ok ((pageSlice (fanIDsDesc s.db userID) page size).filterMap (snapshotFor j s)) := by
  obtain ⟨n, hn⟩ : ∃ n : Nat, (page - 1) * size = (n : Int) :=
    ⟨((page - 1) * size).toNat, (Int.toNat_of_nonneg (mul_nonneg (by omega) (by omega))).symm⟩
  obtain ⟨sz, hsz⟩ : ∃ sz : Nat, size = (sz : Int) := ⟨size.toNat, by omega⟩
  have hsz1 : 1 ≤ sz := by omega
  have hslice : pageSlice (fanIDsDesc s.db userID) page size =
      ((fanIDsDesc s.db userID).drop n).take sz := by
    unfold pageSlice
    rw [hn, hsz]
    simp
  rw [hslice]
  have hmiss := fetch_miss_quiet j s userID n sz hsz1
  obtain ⟨w1, w2, w3⟩ := page_no_wrap page size hpage hsize hbound
  unfold FetchFollowersOptimized
  simp only [w1, w2, w3]
  simp only [hn]
  rw [hsz] at *
  rcases hidx with habs | ⟨ttl, hfull⟩
  · have hex : Redis.Exists s.cache ("followers:index:" ++ userID) = 0 := by
      simp [Redis.Exists, habs]
    simp only [FetchEnv.quiet, Bool.false_eq_true, if_false, hex, gt_iff_lt, lt_self_iff_false,
      List.length_nil, if_true]
    exact hmiss
  · have hex : Redis.Exists s.cache ("followers:index:" ++ userID) = 1 := by
      simp [Redis.Exists, hfull]
    have hlr := lrange_page s.cache _ (fanIDsDesc s.db userID) ttl n sz hsz1 hfull
    simp only [FetchEnv.quiet, Bool.false_eq_true, if_false, hex, gt_iff_lt, zero_lt_one,
      if_true, hlr]
    by_cases h0 : (((fanIDsDesc s.db userID).drop n).take sz).length = 0
    · simp only [h0, if_true]
      exact hmiss
    · simp only [h0, if_false]
      exact loadUsers_quiet j s _

/-- **C4**, counterexample. The index computations are done in 64-bit `int` and wrap:
for page 4611686018427387905 (`2^62 + 1`) of size 4 of an owner with three fans, the
position `(page-1)*size = 2^64` is past the end of the list, so the claim asks for the
empty list, but `start` is 0 in the code and the call returns the three fans of page 1,
on a flushed cache and again with the index cached. -/
theorem fetch_page_index_wraps :
    ((fanIDsDesc cacheScenario.db "owner").length : Int) ≤ (4611686018427387905 - 1) * 4 ∧
    (FetchFollowersOptimized lineCodec cacheScenario FetchEnv.quiet "owner"
        4611686018427387905 4).1 =
      .ok [⟨"f3", "cy", "cy@x", 33⟩, ⟨"f2", "bob", "bob@x", 32⟩, ⟨"f1", "ann", "ann@x", 31⟩] ∧
    (FetchFollowersOptimized lineCodec
        (FetchFollowersOptimized lineCodec cacheScenario FetchEnv.quiet "owner"
          4611686018427387905 4).2
        FetchEnv.quiet "owner" 4611686018427387905 4).1 =
      .ok [⟨"f3", "cy", "cy@x", 33⟩, ⟨"f2", "bob", "bob@x", 32⟩, ⟨"f1", "ann", "ann@x", 31⟩] := by
  refine ⟨by decide, by decide, by decide⟩

/-- **C4**, as the code has it. With nothing failing, for `page ≥ 1` and `size ≥ 1` whose
product `page * size` is in the range of `int` (below `2^63`), and whether the index key
is absent or holds the owner's full fan-ID list (newest first), `FetchFollowersOptimized`
returns, in order, the snapshots of the fan ids at positions `(page-1)*size ..
page*size-1` of that list: for each id the cached snapshot if there is one, else the one
of the user row, the id being left out exactly when it has neither. When `(page-1)*size`
is at or past the end of the list the result is the empty list. -/
theorem fetch_optimized_page (j : JSONCodec) (s : FollowerService) (userID : String)
    (page size : Int) (hpage : 1 ≤ page) (hsize : 1 ≤ size) (hbound : page * size < 2 ^ 63)
    (hidx : IndexAbsentOrFull s userID) :
    (FetchFollowersOptimized j s FetchEnv.quiet userID page size).1 =
      .ok ((pageSlice (fanIDsDesc s.db userID) page size).filterMap (snapshotFor j s))
    ∧ (∀ id, snapshotFor j s id = none ↔
        (cachedSnapshot j s.cache id = none ∧ ∀ u ∈ s.db.users, u.ID ≠ id))
    ∧ (((fanIDsDesc s.db userID).length : Int) ≤ (page - 1) * size →
        (FetchFollowersOptimized j s FetchEnv.quiet userID page size).1 = .ok []) := by
  have h1 := fetch_quiet_result j s userID page size hpage hsize hbound hidx
  refine ⟨h1, ?_, ?_⟩
  · intro id
    unfold snapshotFor
    cases hc : cachedSnapshot j s.cache id with
    | some snap => simp
    | none => simp [storedSnapshot_eq_none]
  · intro hpast
    rw [h1]
    have : pageSlice (fanIDsDesc s.db userID) page size = [] := by
      unfold pageSlice
      rw [List.drop_eq_nil_of_le (by omega)]
      exact List.take_nil
    rw [this]
    rfl

/-- Witness for C4, one per cache state: on a flushed cache, page 1 of size 2 of an owner
with three fans is the two newest fans, in that order; after that call the index key
holds the full list, and page 2 of size 2 is the oldest fan. -/
theorem fetch_optimized_page_witness :
    ((FetchFollowersOptimized lineCodec cacheScenario FetchEnv.quiet "owner" 1 2).1 =
      .ok ((pageSlice (fanIDsDesc cacheScenario.db "owner") 1 2).filterMap
        (snapshotFor lineCodec cacheScenario))
    ∧ (pageSlice (fanIDsDesc cacheScenario.db "owner") 1 2).filterMap
        (snapshotFor lineCodec cacheScenario) =
      [⟨"f3", "cy", "cy@x", 33⟩, ⟨"f2", "bob", "bob@x", 32⟩])
    ∧ ((FetchFollowersOptimized lineCodec
          (FetchFollowersOptimized lineCodec cacheScenario FetchEnv.quiet "owner" 1 2).2
          FetchEnv.quiet "owner" 2 2).1 =
      .ok ((pageSlice (fanIDsDesc
          (FetchFollowersOptimized lineCodec cacheScenario FetchEnv.quiet "owner" 1 2).2.db
          "owner") 2 2).filterMap
        (snapshotFor lineCodec
          (FetchFollowersOptimized lineCodec cacheScenario FetchEnv.quiet "owner" 1 2).2))
    ∧ (pageSlice (fanIDsDesc
          (FetchFollowersOptimized lineCodec cacheScenario FetchEnv.quiet "owner" 1 2).2.db
          "owner") 2 2).filterMap
        (snapshotFor lineCodec
          (FetchFollowersOptimized lineCodec cacheScenario FetchEnv.quiet "owner" 1 2).2) =
      [⟨"f1", "ann", "ann@x", 31⟩]) :=
  ⟨⟨(fetch_optimized_page lineCodec cacheScenario "owner" 1 2 (by decide) (by decide)
      (by decide) (Or.inl rfl)).1, by decide⟩,
   ⟨(fetch_optimized_page lineCodec
      (FetchFollowersOptimized lineCodec cacheScenario FetchEnv.quiet "owner" 1 2).2
      "owner" 2 2 (by decide) (by decide) (by decide)
      (Or.inr ⟨some 600000000000, by decide⟩)).1,
    by decide⟩⟩

theorem filter_missing (users : List User) (missing : List String) (id : String) :
    (users.filter (fun u => missing.contains u.ID)).filter (fun u => u.ID == id) =
      if id ∈ missing then users.filter (fun u => u.ID == id) else [] := by
  rw [List.filter_filter]
  by_cases hm : id ∈ missing
  · simp only [hm, if_true]
    apply List.filter_congr
    intro u _
    by_cases hu : u.ID = id
    · have : missing.contains u.ID = true := by rw [hu]; simpa using hm
      rw [this, Bool.and_true]
    · have : (u.ID == id) = false := by simpa using hu
      rw [this, Bool.false_and]
  · simp only [hm, if_false]
    rw [List.filter_eq_nil_iff]
    intro u _ hu
    simp only [Bool.and_eq_true, beq_iff_eq] at hu
    apply hm
    rw [← hu.1]
    simpa using hu.2

theorem storeUsers_cache (j : JSONCodec) (ttl : Int) (k : String) :
    ∀ (users : List User) (cached : SnapMap) (cache : Redis),
      (storeUsers j (fun _ => false) ttl users (cached, cache)).2 k =
        match (users.filter (fun u => "user:" ++ u.ID == k)).getLast? with
        | some u => some ⟨.str (j.marshal (snapshotOfUser u)), if 0 < ttl then some ttl else none⟩
        | none => cache k := by
  intro users
  induction users with
  | nil => intro cached cache; simp [storeUsers]
  | cons u us ih =>
    intro cached cache
    simp only [storeUsers, Bool.false_eq_true, if_false]
    rw [ih]
    by_cases hu : "user:" ++ u.ID = k
    · simp only [List.filter_cons, hu, beq_self_eq_true, if_true, List.getLast?_cons]
      cases (us.filter (fun u => "user:" ++ u.ID == k)).getLast? with
      | none => simp [Redis.Set, hu]
      | some x => simp
    · have : ("user:" ++ u.ID == k) = false := by simpa using hu
      simp only [List.filter_cons, this, Bool.false_eq_true, if_false]
      cases (us.filter (fun u => "user:" ++ u.ID == k)).getLast? with
      | none => simp [Redis.Set, Ne.symm hu]
      | some x => simp

theorem filter_userKey (users : List User) (id : String) :
    users.filter (fun u => "user:" ++ u.ID == "user:" ++ id) =
      users.filter (fun u => u.ID == id) := by
  apply List.filter_congr
  intro u _
  by_cases hu : u.ID = id
  · simp [hu]
  · have h1 : (u.ID == id) = false := by simpa using hu
    have h2 : ("user:" ++ u.ID == "user:" ++ id) = false := by
      simpa using fun h => hu (userKey_inj h)
    rw [h1, h2]

theorem filter_userKey_index (users : List User) (userID : String) :
    users.filter (fun u => "user:" ++ u.ID == "followers:index:" ++ userID) = [] := by
  rw [List.filter_eq_nil_iff]
  intro u _ hu
  exact userKey_ne_indexKey _ _ (by simpa using hu)

/-- The state after `loadUsers` when nothing fails: the store, the TTL and the index key
are untouched, and every requested id shows the same snapshot as before (`encoding/json`
round-tripping the snapshots of the user rows). -/
theorem loadUsers_quiet_state (j : JSONCodec) (s : FollowerService) (ids : List String)
    (userID : String)
    (hrt : ∀ u ∈ s.db.users, j.unmarshal (j.marshal (snapshotOfUser u)) = some (snapshotOfUser u)) :
    (loadUsers j s FetchEnv.quiet ids).2.db = s.db ∧
    (loadUsers j s FetchEnv.quiet ids).2.cache ("followers:index:" ++ userID) =
      s.cache ("followers:index:" ++ userID) ∧
    ∀ id ∈ ids, snapshotFor j (loadUsers j s FetchEnv.quiet ids).2 id = snapshotFor j s id := by
  unfold loadUsers
  by_cases h0 : ids.length = 0
  · simp only [h0, if_true]
    exact ⟨trivial, trivial, fun _ _ => trivial⟩
  · simp only [h0, if_false, FetchEnv.quiet, Bool.false_eq_true]
    have hc := collectHits_quiet j s.cache ids
    generalize collectHits j ids (Redis.MGet s.cache (ids.map (fun id => "user:" ++ id)))
      (fun _ => none) = cached at hc
    by_cases hm : 0 < (ids.filter (fun id => (cached id).isNone)).length
    · simp only [hm, if_true]
      refine ⟨trivial, ?_, ?_⟩
      · rw [storeUsers_cache, filter_userKey_index]
        rfl
      · intro id hid
        have hcid := hc id
        simp only [hid, if_true] at hcid
        have hkey : (storeUsers j (fun _ => false) s.ttl
            (s.db.users.filter (fun u =>
              (ids.filter (fun id => (cached id).isNone)).contains u.ID))
            (cached, s.cache)).2 ("user:" ++ id) =
            match ((s.db.users.filter (fun u =>
                (ids.filter (fun id => (cached id).isNone)).contains u.ID)).filter
                  (fun u => u.ID == id)).getLast? with
            | some u => some ⟨.str (j.marshal (snapshotOfUser u)),
                if 0 < s.ttl then some s.ttl else none⟩
            | none => s.cache ("user:" ++ id) := by
          rw [storeUsers_cache, filter_userKey]
        rw [filter_missing] at hkey
        cases hcs : cachedSnapshot j s.cache id with
        | some snap =>
          rw [hcs] at hcid
          have hnm : id ∉ ids.filter (fun id => (cached id).isNone) := by
            simp [List.mem_filter, hcid]
          simp only [hnm, if_false, List.getLast?_nil] at hkey
          simp only [snapshotFor, cachedSnapshot, Redis.Get, hkey]
        | none =>
          rw [hcs] at hcid
          have hmm : id ∈ ids.filter (fun id => (cached id).isNone) := by
            simp [List.mem_filter, hcid, hid]
          simp only [hmm, if_true] at hkey
          cases hl : (s.db.users.filter (fun u => u.ID == id)).getLast? with
          | none =>
            rw [hl] at hkey
            simp only [snapshotFor, cachedSnapshot, Redis.Get, hkey]
          | some u =>
            rw [hl] at hkey
            have hu : u ∈ s.db.users :=
              List.mem_of_mem_filter (List.mem_of_mem_getLast? hl)
            have h1 : snapshotFor j s id = some (snapshotOfUser u) := by
              rw [snapshotFor_of_miss hcs, storedSnapshot, hl]
              rfl
            rw [h1]
            simp only [snapshotFor, cachedSnapshot, Redis.Get, hkey, hrt u hu]
    · simp only [hm, if_false]
      exact ⟨trivial, trivial, fun _ _ => trivial⟩

theorem indexAbsentOrFull_of (s s1 : FollowerService) (userID : String) (hdb : s1.db = s.db)
    (hk : s1.cache ("followers:index:" ++ userID) = s.cache ("followers:index:" ++ userID))
    (h : IndexAbsentOrFull s userID) : IndexAbsentOrFull s1 userID := by
  unfold IndexAbsentOrFull at h ⊢
  rw [hk, hdb]
  exact h

theorem fetch_miss_quiet_state (j : JSONCodec) (s : FollowerService) (userID : String)
    (n sz : Nat) (hsz : 1 ≤ sz) (hidx : IndexAbsentOrFull s userID)
    (hrt : ∀ u ∈ s.db.users, j.unmarshal (j.marshal (snapshotOfUser u)) = some (snapshotOfUser u)) :
    ∀ r, r = (match loadFollowerIDsAndCache s FetchEnv.quiet userID with
      | (.error e, s1) => (FetchResult.err e, s1)
      | (.ok allIDs, s1) =>
        if (n : Int) ≥ (allIDs.length : Int) then (.ok [], s1)
        else
          match goSlice allIDs (n : Int)
              (if (n : Int) + (sz : Int) > (allIDs.length : Int) then (allIDs.length : Int)
               else (n : Int) + (sz : Int)) with
          | none => (.panic, s1)
          | some ids => loadUsers j s1 FetchEnv.quiet ids) →
      r.2.db = s.db ∧ IndexAbsentOrFull r.2 userID ∧
      ∀ id ∈ ((fanIDsDesc s.db userID).drop n).take sz,
        snapshotFor j r.2 id = snapshotFor j s id := by
  intro r hr
  obtain ⟨s1, h1, hdb, _, hother, hkey⟩ := loadIDs_quiet s userID
  rw [h1] at hr
  simp only at hr
  have hidx1 : IndexAbsentOrFull s1 userID := by
    by_cases hl : 0 < (fanIDsDesc s.db userID).length
    · simp only [hl, if_true] at hkey
      unfold IndexAbsentOrFull
      rw [hkey, hdb]
      by_cases ht : s.ttl ≤ 0
      · simp [ht]
      · simp only [ht, if_false]
        exact Or.inr ⟨_, rfl⟩
    · simp only [hl, if_false] at hkey
      exact indexAbsentOrFull_of s s1 userID hdb hkey hidx
  have hsnap : ∀ id, snapshotFor j s1 id = snapshotFor j s id :=
    snapshotFor_congr j s s1 hdb (fun i => hother _ (userKey_ne_indexKey i userID))
  by_cases hlen : (n : Int) ≥ ((fanIDsDesc s.db userID).length : Int)
  · simp only [hlen, if_true] at hr
    subst hr
    exact ⟨hdb, hidx1, fun id _ => hsnap id⟩
  · simp only [hlen, if_false] at hr
    rw [goSlice_page _ n sz hsz (by omega)] at hr
    simp only at hr
    subst hr
    obtain ⟨g1, g2, g3⟩ := loadUsers_quiet_state j s1
      (((fanIDsDesc s.db userID).drop n).take sz) userID (by rw [hdb]; exact hrt)
    refine ⟨g1.trans hdb, indexAbsentOrFull_of s1 _ userID g1 g2 hidx1, ?_⟩
    intro id hid
    rw [g3 id hid, hsnap]

theorem fetch_quiet_state (j : JSONCodec) (s : FollowerService) (userID : String)
    (page size : Int) (hpage : 1 ≤ page) (hsize : 1 ≤ size) (hbound : page * size < 2 ^ 63)
    (hidx : IndexAbsentOrFull s userID)
    (hrt : ∀ u ∈ s.db.users, j.unmarshal (j.marshal (snapshotOfUser u)) = some (snapshotOfUser u)) :
    (FetchFollowersOptimized j s FetchEnv.quiet userID page size).2.db = s.db ∧
    IndexAbsentOrFull (FetchFollowersOptimized j s FetchEnv.quiet userID page size).2 userID ∧
    ∀ id ∈ pageSlice (fanIDsDesc s.db userID) page size,
      snapshotFor j (FetchFollowersOptimized j s FetchEnv.quiet userID page size).2 id =
        snapshotFor j s id := by
  obtain ⟨n, hn⟩ : ∃ n : Nat, (page - 1) * size = (n : Int) :=
    ⟨((page - 1) * size).toNat, (Int.toNat_of_nonneg (mul_nonneg (by omega) (by omega))).symm⟩
  obtain ⟨sz, hsz⟩ : ∃ sz : Nat, size = (sz : Int) := ⟨size.toNat, by omega⟩
  have hsz1 : 1 ≤ sz := by omega
  have hslice : pageSlice (fanIDsDesc s.db userID) page size =
      ((fanIDsDesc s.db userID).drop n).take sz := by
    unfold pageSlice
    rw [hn, hsz]
    simp
  rw [hslice]
  have hmiss := fetch_miss_quiet_state j s userID n sz hsz1 hidx hrt
  obtain ⟨w1, w2, w3⟩ := page_no_wrap page size hpage hsize hbound
  unfold FetchFollowersOptimized
  simp only [w1, w2, w3]
  simp only [hn]
  rw [hsz] at *
  rcases hidx with habs | ⟨ttl, hfull⟩
  · have hex : Redis.Exists s.cache ("followers:index:" ++ userID) = 0 := by
      simp [Redis.Exists, habs]
    simp only [FetchEnv.quiet, Bool.false_eq_true, if_false, hex, gt_iff_lt, lt_self_iff_false,
      List.length_nil, if_true]
    exact hmiss _ rfl
  · have hex : Redis.Exists s.cache ("followers:index:" ++ userID) = 1 := by
      simp [Redis.Exists, hfull]
    have hlr := lrange_page s.cache _ (fanIDsDesc s.db userID) ttl n sz hsz1 hfull
    simp only [FetchEnv.quiet, Bool.false_eq_true, if_false, hex, gt_iff_lt, zero_lt_one,
      if_true, hlr]
    by_cases h0 : (((fanIDsDesc s.db userID).drop n).take sz).length = 0
    · simp only [h0, if_true]
      exact hmiss _ rfl
    · simp only [h0, if_false]
      obtain ⟨g1, g2, g3⟩ := loadUsers_quiet_state j s
        (((fanIDsDesc s.db userID).drop n).take sz) userID hrt
      exact ⟨g1, indexAbsentOrFull_of s _ userID g1 g2 (Or.inr ⟨ttl, hfull⟩), g3⟩

/-- Determinism on the valid domain: for `page ≥ 1` and `size ≥ 1` whose product is in the
range of `int`, with nothing failing,
the store unchanged and `encoding/json` round-tripping the snapshots of the user rows,
two consecutive calls of `FetchFollowersOptimized` return the same list; this holds from
a flushed cache and from any cache whose index key is absent or complete. -/
theorem fetch_twice_same (j : JSONCodec) (s : FollowerService) (userID : String)
    (page size : Int) (hpage : 1 ≤ page) (hsize : 1 ≤ size) (hbound : page * size < 2 ^ 63)
    (hidx : IndexAbsentOrFull s userID)
    (hrt : ∀ u ∈ s.db.users, j.unmarshal (j.marshal (snapshotOfUser u)) = some (snapshotOfUser u)) :
    (FetchFollowersOptimized j
        (FetchFollowersOptimized j s FetchEnv.quiet userID page size).2
        FetchEnv.quiet userID page size).1 =
      (FetchFollowersOptimized j s FetchEnv.quiet userID page size).1 := by
  obtain ⟨g1, g2, g3⟩ := fetch_quiet_state j s userID page size hpage hsize hbound hidx hrt
  rw [fetch_quiet_result j _ userID page size hpage hsize hbound g2,
    fetch_quiet_result j s userID page size hpage hsize hbound hidx, g1]
  congr 1
  exact List.filterMap_congr g3

/-- C5 fails on the code where the page arguments are not coerced: on a flushed cache,
`FetchFollowersOptimized(owner, 1, 0)` first returns the empty list (the slice
`allIDs[0:0]`) and, called again, returns all three followers (`LRANGE 0 -1`);
`FetchFollowersOptimized(owner, 0, 1)` first panics on `allIDs[-1:0]` and, called again,
returns the oldest follower (`LRANGE -1 -1`). -/
theorem fetch_twice_differs :
    (FetchFollowersOptimized lineCodec cacheScenario FetchEnv.quiet "owner" 1 0).1 = .ok [] ∧
    (FetchFollowersOptimized lineCodec
        (FetchFollowersOptimized lineCodec cacheScenario FetchEnv.quiet "owner" 1 0).2
        FetchEnv.quiet "owner" 1 0).1 =
      .ok [⟨"f3", "cy", "cy@x", 33⟩, ⟨"f2", "bob", "bob@x", 32⟩, ⟨"f1", "ann", "ann@x", 31⟩] ∧
    (FetchFollowersOptimized lineCodec cacheScenario FetchEnv.quiet "owner" 0 1).1 = .panic ∧
    (FetchFollowersOptimized lineCodec
        (FetchFollowersOptimized lineCodec cacheScenario FetchEnv.quiet "owner" 0 1).2
        FetchEnv.quiet "owner" 0 1).1 = .ok [⟨"f1", "ann", "ann@x", 31⟩] := by
  refine ⟨by decide, by decide, by decide, by decide⟩

/-- The valid-domain determinism at a concrete input: page 1 of size 2 on a flushed
cache, twice. -/
theorem fetch_twice_same_witness :
    (FetchFollowersOptimized lineCodec
        (FetchFollowersOptimized lineCodec cacheScenario FetchEnv.quiet "owner" 1 2).2
        FetchEnv.quiet "owner" 1 2).1 =
      (FetchFollowersOptimized lineCodec cacheScenario FetchEnv.quiet "owner" 1 2).1 :=
  fetch_twice_same lineCodec cacheScenario "owner" 1 2 (by decide) (by decide) (by decide)
    (Or.inl rfl) (by decide)

/-! ### Runs of the relationship service -/

theorem followCreate_hasFollow_iff {env : CreateEnv} {db : DB} {a b : String}
    (herr : env.err = none) (hfresh : ∀ q ∈ db.follows, q.ID ≠ env.uuid) (x y : String) :
    HasFollow (followRepository.Create env db a b).2 x y ↔
      HasFollow db x y ∨ (x = a ∧ y = b) := by
  by_cases hh : HasFollow db a b
  · rw [followCreate_dup hh]
    constructor
    · exact Or.inl
    · rintro (h | ⟨rfl, rfl⟩)
      · exact h
      · exact hh
  · have h0 : followCount db a b = 0 := by
      unfold followCount
      rw [List.length_eq_zero, List.filter_eq_nil_iff]
      intro q hq hc
      simp only [Bool.and_eq_true, beq_iff_eq] at hc
      exact hh ⟨q, hq, hc⟩
    rw [followCreate_new herr hfresh h0]
    unfold HasFollow
    simp only [List.mem_append, List.mem_singleton]
    constructor
    · rintro ⟨q, hq | rfl, h1, h2⟩
      · exact Or.inl ⟨q, hq, h1, h2⟩
      · exact Or.inr ⟨h1.symm, h2.symm⟩
    · rintro (⟨q, hq, h1, h2⟩ | ⟨rfl, rfl⟩)
      · exact ⟨q, Or.inl hq, h1, h2⟩
      · exact ⟨_, Or.inr rfl, rfl, rfl⟩

theorem followDelete_hasFollow_iff {db : DB} {a b : String} (x y : String) :
    HasFollow (followRepository.Delete none db a b).2 x y ↔
      HasFollow db x y ∧ ¬ (x = a ∧ y = b) := by
  unfold followRepository.Delete HasFollow
  simp only [List.mem_filter]
  constructor
  · rintro ⟨q, ⟨hq, hc⟩, h1, h2⟩
    refine ⟨⟨q, hq, h1, h2⟩, ?_⟩
    rintro ⟨rfl, rfl⟩
    simp [h1, h2] at hc
  · rintro ⟨⟨q, hq, h1, h2⟩, hne⟩
    refine ⟨q, ⟨hq, ?_⟩, h1, h2⟩
    simp only [Bool.not_eq_true', Bool.and_eq_false_iff, beq_eq_false_iff_ne, ne_eq]
    by_contra hc
    push_neg at hc
    exact hne ⟨h1.symm.trans hc.1, h2.symm.trans hc.2⟩

theorem fanCreate_hasFan_iff {env : CreateEnv} {db : DB} {a b : String}
    (herr : env.err = none) (hfresh : ∀ q ∈ db.fans, q.ID ≠ env.uuid) (x y : String) :
    HasFan (fanRepository.Create env db a b).2 x y ↔ HasFan db x y ∨ (x = a ∧ y = b) := by
  by_cases hh : HasFan db a b
  · rw [fanCreate_dup hh]
    constructor
    · exact Or.inl
    · rintro (h | ⟨rfl, rfl⟩)
      · exact h
      · exact hh
  · have h0 : fanCount db a b = 0 := by
      by_contra hc
      exact hh (hasFan_of_fanCount (Nat.pos_of_ne_zero hc))
    rw [fanCreate_new herr hfresh h0]
    unfold HasFan
    simp only [List.mem_append, List.mem_singleton]
    constructor
    · rintro ⟨q, hq | rfl, h1, h2⟩
      · exact Or.inl ⟨q, hq, h1, h2⟩
      · exact Or.inr ⟨h1.symm, h2.symm⟩
    · rintro (⟨q, hq, h1, h2⟩ | ⟨rfl, rfl⟩)
      · exact ⟨q, Or.inl hq, h1, h2⟩
      · exact ⟨_, Or.inr rfl, rfl, rfl⟩

theorem fanDelete_hasFan_iff {db : DB} {a b : String} (x y : String) :
    HasFan (fanRepository.Delete none db a b).2 x y ↔ HasFan db x y ∧ ¬ (x = a ∧ y = b) := by
  unfold fanRepository.Delete HasFan
  simp only [List.mem_filter]
  constructor
  · rintro ⟨q, ⟨hq, hc⟩, h1, h2⟩
    refine ⟨⟨q, hq, h1, h2⟩, ?_⟩
    rintro ⟨rfl, rfl⟩
    simp [h1, h2] at hc
  · rintro ⟨⟨q, hq, h1, h2⟩, hne⟩
    refine ⟨q, ⟨hq, ?_⟩, h1, h2⟩
    simp only [Bool.not_eq_true', Bool.and_eq_false_iff, beq_eq_false_iff_ne, ne_eq]
    by_contra hc
    push_neg at hc
    exact hne ⟨h1.symm.trans hc.1, h2.symm.trans hc.2⟩

theorem applyJob_effect (env : WorkerEnv) (db : DB) (job : replicateJob)
    (hc : env.create.err = none) (hd : env.deleteErr = none)
    (hfresh : ∀ q ∈ db.fans, q.ID ≠ env.create.uuid) :
    (fun u f => HasFan (applyJob env db job) u f) = jobEffect job (fun u f => HasFan db u f) := by
  funext u f
  apply propext
  unfold applyJob jobEffect
  by_cases h1 : job.action = actionAdd
  · simp only [h1, if_true]
    exact fanCreate_hasFan_iff hc hfresh u f
  · simp only [h1, if_false]
    by_cases h2 : job.action = actionRemove
    · simp only [h2, if_true, hd]
      exact fanDelete_hasFan_iff u f
    · simp only [h2, if_false]

theorem pendingEffect_append (q : List replicateJob) (job : replicateJob)
    (P : String → String → Prop) :
    pendingEffect (q ++ [job]) P = jobEffect job (pendingEffect q P) := by
  induction q generalizing P with
  | nil => rfl
  | cons j js ih => exact ih (jobEffect j P)

theorem hasRoom_iff {s : RelState} :
    hasRoom s = true ↔ ∃ r, s.replicator = some r ∧ r.ch.length < r.cap := by
  unfold hasRoom
  cases s.replicator with
  | none => simp
  | some r => simp

theorem follow_clean_state (env : FollowEnv) (db : DB) (r : FanReplicator) (a b : String)
    (hab : a ≠ b) (herr : env.create.err = none) (hroom : r.ch.length < r.cap) :
    (relationshipService.Follow env ⟨db, some r⟩ a b).2 =
      ⟨(followRepository.Create env.create db a b).2,
        some { r with ch := r.ch ++ [⟨actionAdd, b, a, env.enqAt⟩] }⟩ := by
  have h1 := @followCreate_fst env.create db a b
  unfold relationshipService.Follow
  simp only [hab, if_false]
  rcases hc : followRepository.Create env.create db a b with ⟨err, d⟩
  rw [hc, herr] at h1
  simp only at h1
  subst h1
  simp [FanReplicator.EnqueueAdd, FanReplicator.trySend, hroom]

theorem unfollow_clean_state (env : UnfollowEnv) (db : DB) (r : FanReplicator) (a b : String)
    (herr : env.deleteErr = none) (hroom : r.ch.length < r.cap) :
    (relationshipService.Unfollow env ⟨db, some r⟩ a b).2 =
      ⟨(followRepository.Delete none db a b).2,
        some { r with ch := r.ch ++ [⟨actionRemove, b, a, env.enqAt⟩] }⟩ := by
  unfold relationshipService.Unfollow
  simp [herr, followRepository.Delete, FanReplicator.EnqueueRemove, FanReplicator.trySend,
    hroom]

theorem followCreate_fans (env : CreateEnv) (db : DB) (a b : String) :
    (followRepository.Create env db a b).2.fans = db.fans := by
  unfold followRepository.Create
  cases env.err with
  | some e => rfl
  | none => simp only []; split <;> rfl

theorem followDelete_fans (err : Option Err) (db : DB) (a b : String) :
    (followRepository.Delete err db a b).2.fans = db.fans := by
  unfold followRepository.Delete
  cases err <;> rfl

theorem hasFan_congr {db1 db : DB} (h : db1.fans = db.fans) :
    (fun u f => HasFan db1 u f) = fun u f => HasFan db u f := by
  funext u f
  unfold HasFan
  rw [h]

theorem follow_self_state (env : FollowEnv) (s : RelState) (x : String) :
    (relationshipService.Follow env s x x).2 = s := by
  simp [relationshipService.Follow]

theorem workerStep_follows (env : WorkerEnv) (st : DB × FanReplicator) :
    (workerStep env st).1.follows = st.1.follows := by
  unfold workerStep
  split
  · rfl
  · exact applyJob_follows _ _ _

theorem mirrorInv_step (s : RelState) (e : RelEvent) (hinv : MirrorInv s)
    (hclean : cleanStep s e = true) : MirrorInv (stepEvent s e) := by
  obtain ⟨r, hr, hiff⟩ := hinv
  obtain ⟨db, rep⟩ := s
  simp only at hr hiff
  subst hr
  cases e with
  | follow env a b =>
    simp only [cleanStep, Bool.and_eq_true, Bool.or_eq_true, beq_iff_eq, Option.isNone_iff_eq_none,
      List.all_eq_true, bne_iff_ne, ne_eq] at hclean
    obtain ⟨⟨herr, hfresh⟩, hroom⟩ := hclean
    by_cases hab : a = b
    · subst hab
      simp only [stepEvent, follow_self_state]
      exact ⟨r, rfl, hiff⟩
    · have hroom2 : r.ch.length < r.cap := by
        rcases hroom with h | h
        · exact absurd h hab
        · obtain ⟨r1, h1, h2⟩ := hasRoom_iff.mp h
          simp only [Option.some.injEq] at h1
          subst h1
          exact h2
      simp only [stepEvent, follow_clean_state env db r a b hab herr hroom2]
      refine ⟨_, rfl, ?_⟩
      intro x y
      simp only [pendingEffect_append, hasFan_congr (followCreate_fans env.create db a b)]
      rw [followCreate_hasFollow_iff herr hfresh, hiff x y]
      simp only [jobEffect, if_true]
      constructor
      · rintro (h | ⟨h1, h2⟩)
        · exact Or.inl h
        · exact Or.inr ⟨h2, h1⟩
      · rintro (h | ⟨h1, h2⟩)
        · exact Or.inl h
        · exact Or.inr ⟨h2, h1⟩
  | unfollow env a b =>
    simp only [cleanStep, Bool.and_eq_true, Option.isNone_iff_eq_none] at hclean
    obtain ⟨herr, hroom⟩ := hclean
    obtain ⟨r1, h1, hroom2⟩ := hasRoom_iff.mp hroom
    simp only [Option.some.injEq] at h1
    subst h1
    simp only [stepEvent, unfollow_clean_state env db r a b herr hroom2]
    refine ⟨_, rfl, ?_⟩
    intro x y
    simp only [pendingEffect_append, hasFan_congr (followDelete_fans none db a b)]
    rw [followDelete_hasFollow_iff, hiff x y]
    have hne : actionRemove ≠ actionAdd := by decide
    simp only [jobEffect, hne, if_false, if_true]
    constructor
    · rintro ⟨h, hn⟩
      exact ⟨h, fun hc => hn ⟨hc.2, hc.1⟩⟩
    · rintro ⟨h, hn⟩
      exact ⟨h, fun hc => hn ⟨hc.2, hc.1⟩⟩
  | work env =>
    simp only [cleanStep, Bool.and_eq_true, Option.isNone_iff_eq_none, List.all_eq_true,
      bne_iff_ne, ne_eq] at hclean
    obtain ⟨⟨hc, hd⟩, hfresh⟩ := hclean
    simp only [stepEvent]
    refine ⟨_, rfl, ?_⟩
    cases hch : r.ch with
    | nil =>
      have : workerStep env (db, r) = (db, r) := by simp [workerStep, hch]
      rw [this]
      simp only [hch] at hiff ⊢
      exact hiff
    | cons job rest =>
      have h1 : (workerStep env (db, r)).1 = applyJob env db job := by simp [workerStep, hch]
      have h2 : (workerStep env (db, r)).2.ch = rest := by simp [workerStep, hch]
      intro x y
      rw [h2, h1, applyJob_effect env db job hc hd hfresh]
      have hf : (workerStep env (db, r)).1.follows = db.follows := workerStep_follows env (db, r)
      have hF : HasFollow (applyJob env db job) x y ↔ HasFollow db x y := by
        unfold HasFollow
        rw [applyJob_follows]
      rw [hF, hiff x y, hch]
      rfl

theorem runEvents_cons (e : RelEvent) (es : List RelEvent) (s : RelState) :
    runEvents (e :: es) s = runEvents es (stepEvent s e) := rfl

theorem mirrorInv_run :
    ∀ (es : List RelEvent) (s : RelState), MirrorInv s → cleanRun es s = true →
      MirrorInv (runEvents es s) := by
  intro es
  induction es with
  | nil => intro s h _; exact h
  | cons e es ih =>
    intro s hinv hclean
    simp only [cleanRun, Bool.and_eq_true] at hclean
    rw [runEvents_cons]
    exact ih _ (mirrorInv_step s e hinv hclean.1) hclean.2

/-- C11. Fan redundancy mirrors the follow edges after drain (N2). Start from empty follow
and fan stores and an empty queue, and let any finite sequence of `Follow` calls,
`Unfollow` calls and worker steps (each taking the oldest queued job) happen, with no
enqueue dropped, no store call failing and generated ids new to their tables. If the
queue is empty at the end, so that every queued job has been applied, in enqueue order,
then the fan store holds the pair `(owner = b, fan = a)` if and only if the follow store
holds the edge `a → b`. -/
theorem fan_mirrors_follow_after_drain (es : List RelEvent) (db : DB) (r : FanReplicator)
    (hf : db.follows = []) (hn : db.fans = []) (hq : r.ch = [])
    (hclean : cleanRun es ⟨db, some r⟩ = true)
    (hdrained : ∃ r1, (runEvents es ⟨db, some r⟩).replicator = some r1 ∧ r1.ch = []) :
    ∀ a b, HasFan (runEvents es ⟨db, some r⟩).db b a ↔
      HasFollow (runEvents es ⟨db, some r⟩).db a b := by
  have h0 : MirrorInv ⟨db, some r⟩ := by
    refine ⟨r, rfl, ?_⟩
    intro a b
    simp only [hq, pendingEffect, HasFollow, HasFan, hf, hn, List.not_mem_nil, false_and,
      exists_false]
  obtain ⟨r2, hr2, hiff⟩ := mirrorInv_run es _ h0 hclean
  obtain ⟨r1, hr1, hempty⟩ := hdrained
  rw [hr1] at hr2
  simp only [Option.some.injEq] at hr2
  subst hr2
  intro a b
  rw [hiff a b, hempty]
  rfl

/-- Witness for C11: in `mirrorScenario` on an empty store with a queue of capacity 4, the
run is clean, the queue ends empty, `u3 → u2` is in both stores and `u1 → u2` in neither. -/
theorem fan_mirrors_follow_after_drain_witness :
    cleanRun mirrorScenario ⟨DB.empty, some (NewFanReplicator 4)⟩ = true ∧
    (HasFan (runEvents mirrorScenario ⟨DB.empty, some (NewFanReplicator 4)⟩).db "u2" "u3" ↔
      HasFollow (runEvents mirrorScenario ⟨DB.empty, some (NewFanReplicator 4)⟩).db "u3" "u2") ∧
    (HasFan (runEvents mirrorScenario ⟨DB.empty, some (NewFanReplicator 4)⟩).db "u2" "u1" ↔
      HasFollow (runEvents mirrorScenario ⟨DB.empty, some (NewFanReplicator 4)⟩).db "u1" "u2") ∧
    fanCount (runEvents mirrorScenario ⟨DB.empty, some (NewFanReplicator 4)⟩).db "u2" "u3" = 1 ∧
    fanCount (runEvents mirrorScenario ⟨DB.empty, some (NewFanReplicator 4)⟩).db "u2" "u1" = 0 :=
  have h := fan_mirrors_follow_after_drain mirrorScenario DB.empty (NewFanReplicator 4)
    rfl rfl rfl (by decide) ⟨⟨4, [], [1, 1, 1], false⟩, by decide, rfl⟩
  ⟨by decide, h "u3" "u2", h "u1" "u2", by decide, by decide⟩
theorem followCreate_noSelf (env : CreateEnv) (db : DB) (a b : String) (hab : a ≠ b)
    (h : NoSelfFollow db) : NoSelfFollow (followRepository.Create env db a b).2 := by
  unfold followRepository.Create
  cases env.err with
  | some e => exact h
  | none =>
    simp only []
    split
    · exact h
    · intro q hq
      simp only [List.mem_append, List.mem_singleton] at hq
      rcases hq with hq | rfl
      · exact h q hq
      · exact hab

theorem followDelete_noSelf (err : Option Err) (db : DB) (a b : String)
    (h : NoSelfFollow db) : NoSelfFollow (followRepository.Delete err db a b).2 := by
  unfold followRepository.Delete
  cases err with
  | some e => exact h
  | none => exact fun q hq => h q (List.mem_of_mem_filter hq)

theorem trySend_mem (r : FanReplicator) (job x : replicateJob) (hx : x ∈ (r.trySend job).ch) :
    x ∈ r.ch ∨ x = job := by
  unfold FanReplicator.trySend at hx
  split at hx
  · simpa using hx
  · exact Or.inl hx

theorem workerStep_ch_subset (env : WorkerEnv) (st : DB × FanReplicator) (x : replicateJob)
    (hx : x ∈ (workerStep env st).2.ch) : x ∈ st.2.ch := by
  unfold workerStep at hx
  split at hx
  · exact hx
  · rename_i job rest hch
    rw [hch]
    exact List.mem_cons_of_mem _ hx

theorem follow_db_eq (env : FollowEnv) (s : RelState) (a b : String) (hab : a ≠ b) :
    (relationshipService.Follow env s a b).2.db = (followRepository.Create env.create s.db a b).2 := by
  unfold relationshipService.Follow
  simp only [hab, if_false]
  rcases followRepository.Create env.create s.db a b with ⟨err, d⟩
  cases err with
  | some e => rfl
  | none => cases s.replicator <;> rfl

theorem unfollow_db_eq (env : UnfollowEnv) (s : RelState) (a b : String) :
    (relationshipService.Unfollow env s a b).2.db =
      (followRepository.Delete env.deleteErr s.db a b).2 := by
  unfold relationshipService.Unfollow
  rcases followRepository.Delete env.deleteErr s.db a b with ⟨err, d⟩
  cases err with
  | some e => rfl
  | none => cases s.replicator <;> rfl

/-- The jobs a step leaves in the queue are jobs that were there, or the one job the step
enqueued: `Add(to, from)` with `from ≠ to` for `Follow`, a `Remove` for `Unfollow`. -/
theorem stepEvent_queue (s : RelState) (e : RelEvent) (r r1 : FanReplicator)
    (hr : s.replicator = some r) (hr1 : (stepEvent s e).replicator = some r1) :
    ∀ job ∈ r1.ch, job ∈ r.ch ∨ ¬ (job.action = actionAdd ∧ job.userID = job.fanID) := by
  obtain ⟨db, rep⟩ := s
  simp only at hr
  subst hr
  intro job hjob
  cases e with
  | follow env a b =>
    by_cases hab : a = b
    · subst hab
      simp only [stepEvent, follow_self_state, Option.some.injEq] at hr1
      subst hr1
      exact Or.inl hjob
    · simp only [stepEvent, relationshipService.Follow, hab, if_false] at hr1
      generalize followRepository.Create env.create db a b = res at hr1
      rcases res with ⟨err, d⟩
      cases err with
      | some e =>
        simp only [Option.some.injEq] at hr1
        subst hr1
        exact Or.inl hjob
      | none =>
        simp only [Option.some.injEq] at hr1
        subst hr1
        rcases trySend_mem _ _ _ hjob with h | h
        · exact Or.inl h
        · right
          rw [h]
          rintro ⟨_, h2⟩
          exact hab h2.symm
  | unfollow env a b =>
    simp only [stepEvent, relationshipService.Unfollow] at hr1
    generalize followRepository.Delete env.deleteErr db a b = res at hr1
    rcases res with ⟨err, d⟩
    cases err with
    | some e =>
      simp only [Option.some.injEq] at hr1
      subst hr1
      exact Or.inl hjob
    | none =>
      simp only [Option.some.injEq] at hr1
      subst hr1
      rcases trySend_mem _ _ _ hjob with h | h
      · exact Or.inl h
      · right
        rw [h]
        rintro ⟨h1, _⟩
        have hne : actionRemove ≠ actionAdd := by decide
        exact hne h1
  | work env =>
    simp only [stepEvent, Option.some.injEq] at hr1
    subst hr1
    exact Or.inl (workerStep_ch_subset env (db, r) job hjob)

theorem stepEvent_replicator_none (s : RelState) (e : RelEvent) (h : s.replicator = none) :
    (stepEvent s e).replicator = none := by
  obtain ⟨db, rep⟩ := s
  simp only at h
  subst h
  cases e with
  | follow env a b =>
    simp only [stepEvent, relationshipService.Follow]
    split
    · rfl
    · rcases followRepository.Create env.create db a b with ⟨err, d⟩
      cases err <;> rfl
  | unfollow env a b =>
    simp only [stepEvent, relationshipService.Unfollow]
    rcases followRepository.Delete env.deleteErr db a b with ⟨err, d⟩
    cases err <;> rfl
  | work env => rfl

theorem noSelf_step (s : RelState) (e : RelEvent) (h1 : NoSelfFollow s.db) :
    NoSelfFollow (stepEvent s e).db ∧ (NoSelfAdd s → NoSelfAdd (stepEvent s e)) := by
  constructor
  · cases e with
    | follow env a b =>
      by_cases hab : a = b
      · subst hab
        simp only [stepEvent, follow_self_state]
        exact h1
      · simp only [stepEvent, follow_db_eq env s a b hab]
        exact followCreate_noSelf _ _ _ _ hab h1
    | unfollow env a b =>
      simp only [stepEvent, unfollow_db_eq]
      exact followDelete_noSelf _ _ _ _ h1
    | work env =>
      simp only [stepEvent]
      cases hr : s.replicator with
      | none => exact h1
      | some r =>
        intro q hq
        simp only [workerStep_follows] at hq
        exact h1 q hq
  · intro h2 r1 hr1 job hjob hadd
    cases hr : s.replicator with
    | none =>
      rw [stepEvent_replicator_none s e hr] at hr1
      cases hr1
    | some r =>
      rcases stepEvent_queue s e r r1 hr hr1 job hjob with h | h
      · exact h2 r hr job h hadd
      · exact fun heq => h ⟨hadd, heq⟩

/-- C12. Invariant F2 is preserved by the service. If the follow store holds no row with
`follower_id = followee_id`, then after any sequence of `Follow` calls, `Unfollow` calls
and worker steps, whatever fails on the way, it holds none; a queue without an `Add` job
with `owner = fan` stays without one; and every job a step adds to the queue is not such
a job, so the queue never receives one. -/
theorem self_follow_never_written (es : List RelEvent) (s : RelState)
    (h1 : NoSelfFollow s.db) :
    NoSelfFollow (runEvents es s).db ∧
    (NoSelfAdd s → NoSelfAdd (runEvents es s)) ∧
    (∀ (t : RelState) (e : RelEvent) (r r1 : FanReplicator), t.replicator = some r →
      (stepEvent t e).replicator = some r1 →
      ∀ job ∈ r1.ch, job ∈ r.ch ∨ ¬ (job.action = actionAdd ∧ job.userID = job.fanID)) := by
  refine ⟨?_, ?_, stepEvent_queue⟩
  · induction es generalizing s with
    | nil => exact h1
    | cons e es ih =>
      rw [runEvents_cons]
      exact ih _ (noSelf_step s e h1).1
  · induction es generalizing s with
    | nil => exact id
    | cons e es ih =>
      intro h2
      rw [runEvents_cons]
      exact ih _ (noSelf_step s e h1).1 ((noSelf_step s e h1).2 h2)

/-- Witness for C12: a run that tries `Follow(u1, u1)` and `Unfollow(u2, u2)` next to an
ordinary follow, from the empty store. -/
theorem self_follow_never_written_witness :
    NoSelfFollow (runEvents
      [.follow ⟨⟨"id1", 1, none⟩, 1⟩ "u1" "u1", .follow ⟨⟨"id2", 2, none⟩, 2⟩ "u1" "u2",
       .unfollow ⟨none, 3⟩ "u2" "u2"] ⟨DB.empty, some (NewFanReplicator 4)⟩).db ∧
    NoSelfAdd (runEvents
      [.follow ⟨⟨"id1", 1, none⟩, 1⟩ "u1" "u1", .follow ⟨⟨"id2", 2, none⟩, 2⟩ "u1" "u2",
       .unfollow ⟨none, 3⟩ "u2" "u2"] ⟨DB.empty, some (NewFanReplicator 4)⟩) :=
  have h := self_follow_never_written
    [.follow ⟨⟨"id1", 1, none⟩, 1⟩ "u1" "u1", .follow ⟨⟨"id2", 2, none⟩, 2⟩ "u1" "u2",
     .unfollow ⟨none, 3⟩ "u2" "u2"] ⟨DB.empty, some (NewFanReplicator 4)⟩
    (by intro q hq; cases hq)
  ⟨h.1, h.2.1 (by
    intro r hr job hjob
    simp only [Option.some.injEq] at hr
    subst hr
    cases hjob)⟩
/-! ### The replicator queue -/

theorem trySend_cap (r : FanReplicator) (job : replicateJob) : (r.trySend job).cap = r.cap := by
  unfold FanReplicator.trySend
  split <;> rfl

theorem trySend_len (r : FanReplicator) (job : replicateJob) (h : r.ch.length ≤ r.cap) :
    (r.trySend job).ch.length ≤ r.cap := by
  unfold FanReplicator.trySend
  split
  · rename_i hlt
    simp only [List.length_append, List.length_singleton]
    omega
  · exact h

theorem trySend_room (r : FanReplicator) (job : replicateJob) (h : r.ch.length < r.cap) :
    r.trySend job = { r with ch := r.ch ++ [job] } := by
  simp [FanReplicator.trySend, h]

theorem trySend_full (r : FanReplicator) (job : replicateJob) (h : r.cap ≤ r.ch.length) :
    r.trySend job = r := by
  simp [FanReplicator.trySend, Nat.not_lt.mpr h]

theorem workerStep_cap (env : WorkerEnv) (st : DB × FanReplicator) :
    (workerStep env st).2.cap = st.2.cap := by
  unfold workerStep
  split <;> rfl

theorem workerStep_len (env : WorkerEnv) (st : DB × FanReplicator) :
    (workerStep env st).2.ch.length ≤ st.2.ch.length := by
  unfold workerStep
  split
  · exact le_refl _
  · rename_i job rest hch
    simp only [hch, List.length_cons]
    omega

theorem workerStep_head (env : WorkerEnv) (db : DB) (r : FanReplicator) (job : replicateJob)
    (rest : List replicateJob) (h : r.ch = job :: rest) :
    (workerStep env (db, r)).2.ch = rest ∧ (workerStep env (db, r)).1 = applyJob env db job := by
  simp [workerStep, h]

theorem stepQueue_bound (st : DB × FanReplicator) (op : QueueOp) (h : st.2.ch.length ≤ st.2.cap) :
    (stepQueue st op).2.ch.length ≤ (stepQueue st op).2.cap ∧
    (stepQueue st op).2.cap = st.2.cap := by
  cases op with
  | enqueueAdd now u f =>
    simp only [stepQueue, FanReplicator.EnqueueAdd, trySend_cap]
    exact ⟨trySend_len _ _ h, trivial⟩
  | enqueueRemove now u f =>
    simp only [stepQueue, FanReplicator.EnqueueRemove, trySend_cap]
    exact ⟨trySend_len _ _ h, trivial⟩
  | work env =>
    simp only [stepQueue, workerStep_cap]
    exact ⟨le_trans (workerStep_len env st) h, trivial⟩

theorem runQueue_bound :
    ∀ (ops : List QueueOp) (st : DB × FanReplicator), st.2.ch.length ≤ st.2.cap →
      (runQueue ops st).2.ch.length ≤ st.2.cap ∧ (runQueue ops st).2.cap = st.2.cap := by
  intro ops
  induction ops with
  | nil => intro st h; exact ⟨h, rfl⟩
  | cons op ops ih =>
    intro st h
    have hs := stepQueue_bound st op h
    have := ih (stepQueue st op) hs.1
    rw [hs.2] at this
    exact this

/-- C13. The replicator queue is a bounded FIFO with drop-newest overflow. A replicator
made by `NewFanReplicator(queueSize)` has capacity `Q = queueSize`, or `Q = 10000` when
`queueSize ≤ 0`, and starts empty; after any sequence of `EnqueueAdd`, `EnqueueRemove`
and worker steps `QueueLen()` is at most `Q`. On a queue holding fewer jobs than its
capacity `EnqueueAdd` and `EnqueueRemove` append their job at the tail; on a full queue
they leave the replicator exactly as it was. A worker step takes the job at the head,
which is the job it applies, and leaves the rest in order. -/
theorem queue_bounded_fifo (queueSize : Int) :
    ((NewFanReplicator queueSize).cap = (if queueSize ≤ 0 then 10000 else queueSize).toNat ∧
      (NewFanReplicator queueSize).ch = []) ∧
    (∀ (ops : List QueueOp) (db : DB),
      (runQueue ops (db, NewFanReplicator queueSize)).2.QueueLen ≤
        (if queueSize ≤ 0 then 10000 else queueSize)) ∧
    (∀ (r : FanReplicator) (now : Time) (u f : String), r.ch.length < r.cap →
      (r.EnqueueAdd now u f).ch = r.ch ++ [⟨actionAdd, u, f, now⟩] ∧
      (r.EnqueueRemove now u f).ch = r.ch ++ [⟨actionRemove, u, f, now⟩]) ∧
    (∀ (r : FanReplicator) (now : Time) (u f : String), r.cap ≤ r.ch.length →
      r.EnqueueAdd now u f = r ∧ r.EnqueueRemove now u f = r) ∧
    (∀ (env : WorkerEnv) (db : DB) (r : FanReplicator) (job : replicateJob)
      (rest : List replicateJob), r.ch = job :: rest →
      (workerStep env (db, r)).2.ch = rest ∧
      (workerStep env (db, r)).1 = applyJob env db job) := by
  refine ⟨⟨rfl, rfl⟩, ?_, ?_, ?_, workerStep_head⟩
  · intro ops db
    have h := runQueue_bound ops (db, NewFanReplicator queueSize) (Nat.zero_le _)
    have hcap : ((NewFanReplicator queueSize).cap : Int) =
        (if queueSize ≤ 0 then 10000 else queueSize) := by
      show (((if queueSize ≤ 0 then 10000 else queueSize : Int).toNat : Nat) : Int) = _
      apply Int.toNat_of_nonneg
      split <;> omega
    unfold FanReplicator.QueueLen
    rw [← hcap]
    exact_mod_cast h.1
  · intro r now u f hroom
    simp only [FanReplicator.EnqueueAdd, FanReplicator.EnqueueRemove, trySend_room _ _ hroom]
    exact ⟨trivial, trivial⟩
  · intro r now u f hfull
    simp only [FanReplicator.EnqueueAdd, FanReplicator.EnqueueRemove, trySend_full _ _ hfull]
    exact ⟨trivial, trivial⟩

/-- Witness for C13: a queue of size 2 takes two jobs in order and drops the third. -/
theorem queue_bounded_fifo_witness :
    (((NewFanReplicator 2).EnqueueAdd 1 "a" "b").EnqueueRemove 2 "c" "d").ch =
      [⟨actionAdd, "a", "b", 1⟩] ++ [⟨actionRemove, "c", "d", 2⟩] ∧
    ((((NewFanReplicator 2).EnqueueAdd 1 "a" "b").EnqueueRemove 2 "c" "d").EnqueueAdd
        3 "e" "f") =
      (((NewFanReplicator 2).EnqueueAdd 1 "a" "b").EnqueueRemove 2 "c" "d") ∧
    (runQueue [.enqueueAdd 1 "a" "b", .enqueueRemove 2 "c" "d", .enqueueAdd 3 "e" "f"]
      (DB.empty, NewFanReplicator 2)).2.QueueLen ≤ (if (2 : Int) ≤ 0 then 10000 else 2) :=
  ⟨((queue_bounded_fifo 2).2.2.1 ((NewFanReplicator 2).EnqueueAdd 1 "a" "b") 2 "c" "d"
      (by decide)).2,
   ((queue_bounded_fifo 2).2.2.2.1
      (((NewFanReplicator 2).EnqueueAdd 1 "a" "b").EnqueueRemove 2 "c" "d") 3 "e" "f"
      (by decide)).1,
   (queue_bounded_fifo 2).2.1 _ _⟩

/-- C14 fails on the code: `EnqueueAdd` and `EnqueueRemove` never look at `stopCh`. On a
replicator of capacity 4 whose stop function has been called, an enqueue makes
`QueueLen()` grow from 0 to 1, and a worker whose `select` takes the job branch applies
that job to the fan store. -/
theorem enqueue_after_stop_buffers :
    (NewFanReplicator 4).stop.QueueLen = 0 ∧
    ((NewFanReplicator 4).stop.EnqueueAdd 5 "u2" "u1").QueueLen = 1 ∧
    ((NewFanReplicator 4).stop.EnqueueRemove 5 "u2" "u1").QueueLen = 1 ∧
    fanCount (workerSelect true ⟨⟨"id1", 6, none⟩, none, 1⟩
      (DB.empty, (NewFanReplicator 4).stop.EnqueueAdd 5 "u2" "u1")).1.1 "u2" "u1" = 1 := by
  refine ⟨by decide, by decide, by decide, by decide⟩

/-- C14 as the code has it. Once the stop function has been called, `EnqueueAdd` and
`EnqueueRemove` do what they did before: on a queue with room the job is appended at the
tail and `QueueLen()` grows by one, and only on a full queue is the job dropped, the
replicator staying as it was. A worker that has not returned yet still applies the oldest
queued job when its `select` takes the job branch, and returns without touching the
queue when it takes the stop branch. -/
theorem enqueue_after_stop (r : FanReplicator) (now : Time) (u f : String)
    (hstop : r.stopped = true) :
    (r.ch.length < r.cap →
      (r.EnqueueAdd now u f).ch = r.ch ++ [⟨actionAdd, u, f, now⟩] ∧
      (r.EnqueueAdd now u f).QueueLen = r.QueueLen + 1 ∧
      (r.EnqueueRemove now u f).ch = r.ch ++ [⟨actionRemove, u, f, now⟩] ∧
      (r.EnqueueRemove now u f).QueueLen = r.QueueLen + 1) ∧
    (r.cap ≤ r.ch.length → r.EnqueueAdd now u f = r ∧ r.EnqueueRemove now u f = r) ∧
    (∀ (env : WorkerEnv) (db : DB) (job : replicateJob) (rest : List replicateJob),
      r.ch = job :: rest →
      (workerSelect true env (db, r)).1.1 = applyJob env db job ∧
      (workerSelect true env (db, r)).1.2.ch = rest ∧
      (workerSelect true env (db, r)).2 = false ∧
      workerSelect false env (db, r) = ((db, r), true)) := by
  refine ⟨?_, ?_, ?_⟩
  · intro hroom
    simp only [FanReplicator.EnqueueAdd, FanReplicator.EnqueueRemove, trySend_room _ _ hroom,
      FanReplicator.QueueLen, List.length_append, List.length_singleton]
    refine ⟨trivial, ?_, trivial, ?_⟩ <;> push_cast <;> rfl
  · intro hfull
    simp only [FanReplicator.EnqueueAdd, FanReplicator.EnqueueRemove, trySend_full _ _ hfull]
    exact ⟨trivial, trivial⟩
  · intro env db job rest hch
    have h := workerStep_head env db r job rest hch
    simp only [workerSelect, hch, hstop, if_true]
    exact ⟨h.2, h.1, trivial, by simp⟩

/-- Witness for the code's version of C14: a stopped replicator of capacity 1 buffers one
job and drops the next. -/
theorem enqueue_after_stop_witness :
    ((NewFanReplicator 1).stop.EnqueueAdd 5 "u2" "u1").ch =
      (NewFanReplicator 1).stop.ch ++ [⟨actionAdd, "u2", "u1", 5⟩] ∧
    (((NewFanReplicator 1).stop.EnqueueAdd 5 "u2" "u1").EnqueueRemove 6 "u2" "u1") =
      ((NewFanReplicator 1).stop.EnqueueAdd 5 "u2" "u1") :=
  ⟨((enqueue_after_stop (NewFanReplicator 1).stop 5 "u2" "u1" rfl).1 (by decide)).1,
   ((enqueue_after_stop ((NewFanReplicator 1).stop.EnqueueAdd 5 "u2" "u1") 6 "u2" "u1"
      (by decide)).2.1 (by decide)).2⟩

/-! ### The claim transaction and the outbox lifecycle -/

theorem processOnce_eq (w : FanoutWorker) (env : ProcessEnv) (fuel : Nat) (st : DB × List Int) :
    processOnce w env fuel st =
      match (claimOutbox w env st.1).1 with
      | some err => some (some err, ((claimOutbox w env st.1).2.2, st.2))
      | none =>
        if (claimOutbox w env st.1).2.1.length = 0 then
          some (none, ((claimOutbox w env st.1).2.2, st.2))
        else
          match fanoutBatch w env.event fuel 0 (claimOutbox w env st.1).2.1
              ((claimOutbox w env st.1).2.2, st.2) with
          | none => none
          | some st1 => some (none, st1) := rfl

theorem fanoutPages_induct (w : FanoutWorker) (env : Nat → PageEnv) (b : ob)
    (I : PagingState → Prop)
    (hstep : ∀ (st : PagingState) (k : Nat) (fans : List Fan) (off : Int), I st →
      I { db := createInbox (env k).insertErr st.db
                  (buildRecords (env k).uuid b (env k).now 0 fans),
          offset := off,
          totalWritten := st.totalWritten +
            ((buildRecords (env k).uuid b (env k).now 0 fans).length : Int),
          submitted := st.submitted ++ buildRecords (env k).uuid b (env k).now 0 fans }) :
    ∀ (fuel k : Nat) (st st1 : PagingState), I st →
      fanoutPages w env b fuel k st = some st1 → I st1 := by
  intro fuel
  induction fuel with
  | zero => intro k st st1 _ h; simp [fanoutPages] at h
  | succ fuel ih =>
    intro k st st1 hI h
    unfold fanoutPages at h
    rcases hL : fanRepository.ListFans (env k).listErr st.db b.AuthorID st.offset w.batchSize
      with ⟨fans, err⟩
    simp only [hL] at h
    cases err with
    | some e =>
      simp only [Option.some.injEq] at h
      rw [← h]; exact hI
    | none =>
      simp only at h
      by_cases h0 : fans.length = 0
      · simp only [h0, if_true, Option.some.injEq] at h
        rw [← h]; exact hI
      · simp only [h0, if_false] at h
        by_cases hshort : (fans.length : Int) < w.batchSize
        · simp only [hshort, if_true, Option.some.injEq] at h
          rw [← h]
          exact hstep st k fans st.offset hI
        · simp only [hshort, if_false] at h
          exact ih (k + 1) _ st1 (hstep st k fans (st.offset + w.batchSize) hI) h

/-- What the paging loop leaves behind, whatever fails: only the inbox has changed, and
`totalWritten` is the number of records handed to the insert. -/
theorem fanoutPages_frame (w : FanoutWorker) (env : Nat → PageEnv) (b : ob) (db : DB)
    (fuel k : Nat) (st1 : PagingState)
    (h : fanoutPages w env b fuel k
      { db := db, offset := 0, totalWritten := 0, submitted := [] } = some st1) :
    st1.db = { db with inbox := st1.db.inbox } ∧
    st1.totalWritten = (st1.submitted.length : Int) := by
  refine fanoutPages_induct w env b
    (fun st => st.db = { db with inbox := st.db.inbox } ∧
      st.totalWritten = (st.submitted.length : Int))
    ?_ fuel k _ st1 ⟨rfl, rfl⟩ h
  intro st k fans off hI
  constructor
  · simp only
    rw [createInbox_frame, hI.1]
  · simp only [List.length_append, Nat.cast_add, hI.2]

theorem fanoutPages_terminates (w : FanoutWorker) (env : Nat → PageEnv) (b : ob)
    (hp : 1 ≤ w.batchSize) :
    ∀ (fuel k : Nat) (st : PagingState) (m : Nat), st.offset = (m : Int) →
      ((fansOf st.db b.AuthorID).drop m).length / w.batchSize.toNat + 1 ≤ fuel →
      ∃ st1, fanoutPages w env b fuel k st = some st1 := by
  intro fuel
  induction fuel with
  | zero => intro k st m _ h; exact absurd h (Nat.not_succ_le_zero _)
  | succ fuel ih =>
    intro k st m hoff hfuel
    obtain ⟨P, hP⟩ : ∃ P : Nat, w.batchSize = (P : Int) := ⟨w.batchSize.toNat, by omega⟩
    have hP1 : 1 ≤ P := by omega
    have hPn : w.batchSize.toNat = P := by omega
    rw [hPn] at hfuel
    unfold fanoutPages
    cases hle : (env k).listErr with
    | some e => exact ⟨st, by simp [fanRepository.ListFans]⟩
    | none =>
      have hfans : fanRepository.ListFans none st.db b.AuthorID st.offset w.batchSize
          = (((fansOf st.db b.AuthorID).drop m).take P, none) := by
        simp [fanRepository.ListFans, offsetLimit_nat, fansOf, hoff, hP]
      simp only [hfans]
      generalize hrest : (fansOf st.db b.AuthorID).drop m = rest at hfuel ⊢
      by_cases h0 : (rest.take P).length = 0
      · exact ⟨st, by simp [h0]⟩
      · simp only [h0, if_false]
        by_cases hshort : ((rest.take P).length : Int) < w.batchSize
        · simp only [hshort, if_true]
          exact ⟨_, rfl⟩
        · simp only [hshort, if_false]
          have hge : P ≤ rest.length := by
            rw [List.length_take, hP] at hshort
            omega
          set recs := buildRecords (env k).uuid b (env k).now 0 (rest.take P) with hrecs
          set db1 := createInbox (env k).insertErr st.db recs with hdb1
          have hfo : fansOf db1 b.AuthorID = fansOf st.db b.AuthorID := by
            simp [fansOf, hdb1, createInbox_fans]
          have hdrop : (fansOf db1 b.AuthorID).drop (m + P) = rest.drop P := by
            rw [hfo, ← hrest, List.drop_drop]
          have hdiv : (rest.drop P).length / P + 1 ≤ fuel := by
            rw [List.length_drop]
            have : rest.length / P = (rest.length - P) / P + 1 := by
              rw [Nat.div_eq_sub_div (by omega) hge]
            omega
          exact ih (k + 1)
            { db := db1, offset := st.offset + w.batchSize,
              totalWritten := st.totalWritten + (recs.length : Int),
              submitted := st.submitted ++ recs }
            (m + P) (by simp [hoff, hP]) (by simp only [hdrop, hPn]; exact hdiv)

/-- Shape of the result of handling one event, whatever fails: the paging loop changed the
inbox only, then the final update ran with the number of records handed over. -/
theorem fanoutEvent_shape (w : FanoutWorker) (env : EventEnv) (fuel : Nat) (b : ob) (db : DB)
    (metricsCh : List Int) (r : EventResult)
    (h : fanoutEvent w env fuel b db metricsCh = some r) :
    r.db = markDone env.doneErr { db with inbox := r.db.inbox } b.ID env.doneNow
      (r.submitted.length : Int) := by
  unfold fanoutEvent at h
  cases hp : fanoutPages w env.page b fuel 0
      { db := db, offset := 0, totalWritten := 0, submitted := [] } with
  | none => simp [hp] at h
  | some st =>
    simp only [hp, Option.some.injEq] at h
    obtain ⟨h1, h2⟩ := fanoutPages_frame w env.page b db fuel 0 st hp
    rw [← h]
    simp only [markDone_inbox]
    rw [h2]
    congr 1

theorem fanoutEvent_terminates (w : FanoutWorker) (env : EventEnv) (fuel : Nat) (b : ob)
    (db : DB) (metricsCh : List Int) (hp : 1 ≤ w.batchSize)
    (hfuel : db.fans.length + 1 ≤ fuel) :
    ∃ r, fanoutEvent w env fuel b db metricsCh = some r := by
  have hdiv : ((fansOf db b.AuthorID).drop 0).length / w.batchSize.toNat + 1 ≤ fuel := by
    have h1 : (fansOf db b.AuthorID).length ≤ db.fans.length := List.length_filter_le _ _
    have h2 : (fansOf db b.AuthorID).length / w.batchSize.toNat ≤ (fansOf db b.AuthorID).length :=
      Nat.div_le_self _ _
    simp only [List.drop_zero]
    omega
  obtain ⟨st1, h1⟩ := fanoutPages_terminates w env.page b hp fuel 0
    { db := db, offset := 0, totalWritten := 0, submitted := [] } 0 rfl hdiv
  exact ⟨_, by simp only [fanoutEvent, h1]; rfl⟩
theorem forall2_map_self {α : Type} (R : α → α → Prop) (f : α → α) (l : List α)
    (h : ∀ x ∈ l, R x (f x)) : List.Forall₂ R l (l.map f) := by
  induction l with
  | nil => exact List.Forall₂.nil
  | cons a l ih =>
    exact List.Forall₂.cons (h a (List.mem_cons_self _ _))
      (ih (fun x hx => h x (List.mem_cons_of_mem _ hx)))

theorem contains_iff (l : List String) (a : String) : l.contains a = true ↔ a ∈ l := by
  simp

theorem changedOnlyAt_refl (ids : List String) (l : List Outbox) :
    OutboxChangedOnlyAt ids l l := by
  induction l with
  | nil => exact List.Forall₂.nil
  | cons a l ih => exact List.Forall₂.cons ⟨rfl, fun _ => rfl⟩ ih

theorem changedOnlyAt_trans (ids : List String) {a b c : List Outbox}
    (h1 : OutboxChangedOnlyAt ids a b) (h2 : OutboxChangedOnlyAt ids b c) :
    OutboxChangedOnlyAt ids a c := by
  unfold OutboxChangedOnlyAt at *
  induction h1 generalizing c with
  | nil => cases h2; exact List.Forall₂.nil
  | cons hab _ ih =>
    cases h2 with
    | cons hbc h2 =>
      refine List.Forall₂.cons ⟨hbc.1.trans hab.1, fun hn => ?_⟩ (ih h2)
      have e1 := hab.2 hn
      subst e1
      exact hbc.2 hn

theorem markProcessing_changed (ids : List String) (db : DB) :
    OutboxChangedOnlyAt ids db.outbox (markProcessing db ids).outbox := by
  unfold OutboxChangedOnlyAt markProcessing
  refine forall2_map_self _ _ _ (fun o _ => ?_)
  by_cases h : ids.contains o.ID = true
  · rw [if_pos h]
    exact ⟨rfl, fun hn => absurd ((contains_iff _ _).mp h) hn⟩
  · rw [if_neg h]
    exact ⟨rfl, fun _ => rfl⟩

theorem markDone_changed (ids : List String) (err : Option Err) (db : DB) (id : String)
    (now : Time) (n : Int) (hid : id ∈ ids) :
    OutboxChangedOnlyAt ids db.outbox (markDone err db id now n).outbox := by
  cases err with
  | some e => exact changedOnlyAt_refl ids _
  | none =>
    unfold OutboxChangedOnlyAt markDone
    refine forall2_map_self _ _ _ (fun o _ => ?_)
    by_cases h : (o.ID == id) = true
    · rw [if_pos h]
      have e : o.ID = id := by simpa using h
      exact ⟨rfl, fun hn => absurd (e ▸ hid) hn⟩
    · rw [if_neg h]
      exact ⟨rfl, fun _ => rfl⟩

theorem fanoutEvent_changed (ids : List String) (w : FanoutWorker) (env : EventEnv)
    (fuel : Nat) (b : ob) (db : DB) (metricsCh : List Int) (r : EventResult)
    (hid : b.ID ∈ ids) (h : fanoutEvent w env fuel b db metricsCh = some r) :
    OutboxChangedOnlyAt ids db.outbox r.db.outbox := by
  rw [fanoutEvent_shape w env fuel b db metricsCh r h]
  exact markDone_changed ids env.doneErr { db with inbox := r.db.inbox } b.ID env.doneNow _ hid

theorem fanoutEvent_fans (w : FanoutWorker) (env : EventEnv) (fuel : Nat) (b : ob) (db : DB)
    (metricsCh : List Int) (r : EventResult)
    (h : fanoutEvent w env fuel b db metricsCh = some r) : r.db.fans = db.fans := by
  rw [fanoutEvent_shape w env fuel b db metricsCh r h]
  cases env.doneErr <;> rfl

theorem fanoutBatch_changed (ids : List String) (w : FanoutWorker) (env : Nat → EventEnv)
    (fuel : Nat) :
    ∀ (bs : List ob) (i : Nat) (st st1 : DB × List Int), (∀ b ∈ bs, b.ID ∈ ids) →
      fanoutBatch w env fuel i bs st = some st1 →
      OutboxChangedOnlyAt ids st.1.outbox st1.1.outbox := by
  intro bs
  induction bs with
  | nil =>
    intro i st st1 _ h
    simp only [fanoutBatch, Option.some.injEq] at h
    rw [← h]
    exact changedOnlyAt_refl ids _
  | cons b bs ih =>
    intro i st st1 hids h
    simp only [fanoutBatch] at h
    cases hr : fanoutEvent w (env i) fuel b st.1 st.2 with
    | none => simp [hr] at h
    | some r =>
      simp only [hr] at h
      exact changedOnlyAt_trans ids
        (fanoutEvent_changed ids w (env i) fuel b st.1 st.2 r
          (hids b (List.mem_cons_self _ _)) hr)
        (ih (i + 1) (r.db, r.metricsCh) st1
          (fun c hc => hids c (List.mem_cons_of_mem _ hc)) h)

theorem fanoutBatch_terminates (w : FanoutWorker) (env : Nat → EventEnv) (fuel : Nat)
    (hp : 1 ≤ w.batchSize) :
    ∀ (bs : List ob) (i : Nat) (st : DB × List Int), st.1.fans.length + 1 ≤ fuel →
      ∃ st1, fanoutBatch w env fuel i bs st = some st1 := by
  intro bs
  induction bs with
  | nil => intro i st _; exact ⟨st, rfl⟩
  | cons b bs ih =>
    intro i st hfuel
    obtain ⟨r, hr⟩ := fanoutEvent_terminates w (env i) fuel b st.1 st.2 hp hfuel
    have hf := fanoutEvent_fans w (env i) fuel b st.1 st.2 r hr
    obtain ⟨st1, h1⟩ := ih (i + 1) (r.db, r.metricsCh) (by simp only [hf]; exact hfuel)
    exact ⟨st1, by simp only [fanoutBatch, hr, h1]⟩

/-- The claim transaction when nothing fails and no row is locked by others. -/
theorem claimOutbox_quiet (w : FanoutWorker) (env : ProcessEnv) (db : DB)
    (hbegin : env.beginErr = none) (hquery : env.queryErr = none)
    (hupdate : env.updateErr = none) (hcommit : env.commitErr = none) :
    claimOutbox w env db =
      (none, claimQuery env.locked db w.claimLimit,
        if (claimQuery env.locked db w.claimLimit).length = 0 then db
        else markProcessing db ((claimQuery env.locked db w.claimLimit).map (fun b => b.ID))) := by
  unfold claimOutbox
  simp only [hbegin, hquery, hupdate, hcommit, Transaction]
  by_cases h0 : (claimQuery env.locked db w.claimLimit).length = 0
  · simp only [h0, if_true]
  · simp only [h0, if_false]

theorem claimQuery_unlocked (locked : String → Bool) (db : DB) (limit : Int)
    (hlocked : ∀ id, locked id = false) :
    claimQuery locked db limit =
      (((pendingRows db).insertionSort (fun x y => x.CreatedAt ≤ y.CreatedAt)).take
        limit.toNat).map
        (fun o => { ID := o.ID, PostID := o.PostID, AuthorID := o.AuthorID,
                    CreatedAt := o.CreatedAt }) := by
  unfold claimQuery pendingRows
  simp only [hlocked, Bool.not_false, Bool.and_true]

theorem sorted_createdAt (l : List Outbox) :
    List.Pairwise (fun x y : Outbox => x.CreatedAt ≤ y.CreatedAt)
      (l.insertionSort (fun x y => x.CreatedAt ≤ y.CreatedAt)) := by
  haveI : IsTotal Outbox (fun x y => x.CreatedAt ≤ y.CreatedAt) :=
    ⟨fun a b => le_total a.CreatedAt b.CreatedAt⟩
  haveI : IsTrans Outbox (fun x y => x.CreatedAt ≤ y.CreatedAt) :=
    ⟨fun a b c h1 h2 => le_trans h1 h2⟩
  exact List.sorted_insertionSort _ l

theorem mem_pendingRows (db : DB) (o : Outbox) :
    o ∈ pendingRows db ↔ o ∈ db.outbox ∧ o.Status = "pending" := by
  simp [pendingRows]

/-- Counting the rows with one of a duplicate-free list of keys. -/
theorem filter_keys_length {α : Type} (f : α → String) (l : List α) (ids : List String)
    (hl : (l.map f).Nodup) (hids : ids.Nodup) (hsub : ∀ i ∈ ids, i ∈ l.map f) :
    (l.filter (fun o => ids.contains (f o))).length = ids.length := by
  have hnd : ((l.filter (fun o => ids.contains (f o))).map f).Nodup :=
    List.Nodup.sublist (List.Sublist.map f (List.filter_sublist l)) hl
  have hperm : ((l.filter (fun o => ids.contains (f o))).map f).Perm ids := by
    rw [List.perm_ext_iff_of_nodup hnd hids]
    intro a
    constructor
    · intro ha
      obtain ⟨o, ho, rfl⟩ := List.mem_map.mp ha
      have := (List.mem_filter.mp ho).2
      exact (contains_iff _ _).mp this
    · intro ha
      obtain ⟨o, ho, hfo⟩ := List.mem_map.mp (hsub a ha)
      refine List.mem_map.mpr ⟨o, List.mem_filter.mpr ⟨ho, ?_⟩, hfo⟩
      rw [hfo]
      exact (contains_iff _ _).mpr ha
  have := hperm.length_eq
  simpa using this

theorem forall2_refl {α : Type} (R : α → α → Prop) (hrefl : ∀ x, R x x) (l : List α) :
    List.Forall₂ R l l :=
  forall2_map_self R id l (fun x _ => hrefl x) |> fun h => by simpa using h

theorem forall2_trans {α : Type} (R : α → α → Prop) (htrans : ∀ x y z, R x y → R y z → R x z)
    {a b c : List α} (h1 : List.Forall₂ R a b) (h2 : List.Forall₂ R b c) :
    List.Forall₂ R a c := by
  induction h1 generalizing c with
  | nil => cases h2; exact List.Forall₂.nil
  | cons hab _ ih =>
    cases h2 with
    | cons hbc h2 => exact List.Forall₂.cons (htrans _ _ _ hab hbc) (ih h2)

/-- The store after the claim transaction, whatever fails: untouched, or with the claimed
rows set to `processing`. -/
theorem claimOutbox_db (w : FanoutWorker) (env : ProcessEnv) (db : DB) :
    (claimOutbox w env db).2.2 = db ∨
    (claimOutbox w env db).2.2 = markProcessing db (claimedIDs w env db) := by
  unfold claimedIDs claimOutbox Transaction
  cases env.beginErr with
  | some e => left; rfl
  | none =>
    cases env.queryErr with
    | some e => left; rfl
    | none =>
      simp only
      by_cases h0 : (claimQuery env.locked db w.claimLimit).length = 0
      · left; simp only [h0, if_true]; cases env.commitErr <;> rfl
      · simp only [h0, if_false]
        cases env.updateErr with
        | some e => left; rfl
        | none =>
          cases env.commitErr with
          | some e => left; rfl
          | none => right; rfl

/-- Row by row, one `processOnce` call relates the outbox before and after by any relation
that is reflexive and transitive and covers the two updates the call makes: setting a row
to `processing`, and setting a row to `done` with a time and a non-negative count. -/
theorem processOnce_rows (R : Outbox → Outbox → Prop) (hrefl : ∀ x, R x x)
    (htrans : ∀ x y z, R x y → R y z → R x z)
    (hproc : ∀ o : Outbox, R o { o with Status := "processing" })
    (hdone : ∀ (o : Outbox) (now : Time) (n : Int), 0 ≤ n →
      R o { o with Status := "done", ProcessedAt := some now, FanoutCount := n })
    (w : FanoutWorker) (env : ProcessEnv) (fuel : Nat) (st st1 : DB × List Int)
    (e : Option Err) (hrun : processOnce w env fuel st = some (e, st1)) :
    List.Forall₂ R st.1.outbox st1.1.outbox := by
  have hmp : ∀ (db : DB) (ids : List String),
      List.Forall₂ R db.outbox (markProcessing db ids).outbox := by
    intro db ids
    unfold markProcessing
    refine forall2_map_self _ _ _ (fun o _ => ?_)
    by_cases h : ids.contains o.ID = true
    · rw [if_pos h]; exact hproc o
    · rw [if_neg h]; exact hrefl o
  have hmd : ∀ (err : Option Err) (db : DB) (id : String) (now : Time) (n : Int), 0 ≤ n →
      List.Forall₂ R db.outbox (markDone err db id now n).outbox := by
    intro err db id now n hn
    cases err with
    | some e => exact forall2_refl R hrefl _
    | none =>
      unfold markDone
      refine forall2_map_self _ _ _ (fun o _ => ?_)
      by_cases h : (o.ID == id) = true
      · rw [if_pos h]; exact hdone o now n hn
      · rw [if_neg h]; exact hrefl o
  have hev : ∀ (ev : EventEnv) (b : ob) (db : DB) (m : List Int) (r : EventResult),
      fanoutEvent w ev fuel b db m = some r → List.Forall₂ R db.outbox r.db.outbox := by
    intro ev b db m r h
    rw [fanoutEvent_shape w ev fuel b db m r h]
    exact hmd ev.doneErr { db with inbox := r.db.inbox } b.ID ev.doneNow _ (Int.natCast_nonneg _)
  have hbatch : ∀ (bs : List ob) (i : Nat) (s s1 : DB × List Int),
      fanoutBatch w env.event fuel i bs s = some s1 →
      List.Forall₂ R s.1.outbox s1.1.outbox := by
    intro bs
    induction bs with
    | nil =>
      intro i s s1 h
      simp only [fanoutBatch, Option.some.injEq] at h
      rw [← h]
      exact forall2_refl R hrefl _
    | cons b bs ih =>
      intro i s s1 h
      simp only [fanoutBatch] at h
      cases hr : fanoutEvent w (env.event i) fuel b s.1 s.2 with
      | none => simp [hr] at h
      | some r =>
        simp only [hr] at h
        exact forall2_trans R htrans (hev (env.event i) b s.1 s.2 r hr)
          (ih (i + 1) (r.db, r.metricsCh) s1 h)
  have hclaim : List.Forall₂ R st.1.outbox (claimOutbox w env st.1).2.2.outbox := by
    rcases claimOutbox_db w env st.1 with h | h
    · rw [h]; exact forall2_refl R hrefl _
    · rw [h]; exact hmp _ _
  rw [processOnce_eq] at hrun
  cases h1 : (claimOutbox w env st.1).1 with
  | some err =>
    simp only [h1, Option.some.injEq, Prod.mk.injEq] at hrun
    rw [← hrun.2]
    exact hclaim
  | none =>
    simp only [h1] at hrun
    by_cases h0 : (claimOutbox w env st.1).2.1.length = 0
    · simp only [h0, if_true, Option.some.injEq, Prod.mk.injEq] at hrun
      rw [← hrun.2]
      exact hclaim
    · simp only [h0, if_false] at hrun
      cases hb : fanoutBatch w env.event fuel 0 (claimOutbox w env st.1).2.1
          ((claimOutbox w env st.1).2.2, st.2) with
      | none => simp [hb] at hrun
      | some st2 =>
        simp only [hb, Option.some.injEq, Prod.mk.injEq] at hrun
        rw [← hrun.2]
        exact forall2_trans R htrans hclaim (hbatch _ 0 _ st2 hb)

theorem forall2_and {α : Type} {R S : α → α → Prop} {a b : List α}
    (h1 : List.Forall₂ R a b) (h2 : List.Forall₂ S a b) :
    List.Forall₂ (fun x y => R x y ∧ S x y) a b := by
  induction h1 with
  | nil => exact List.Forall₂.nil
  | cons hab _ ih =>
    cases h2 with
    | cons hs h2 => exact List.Forall₂.cons ⟨hab, hs⟩ (ih h2)

theorem forall2_comp {α : Type} {R S T : α → α → Prop}
    (h : ∀ x y z, R x y → S y z → T x z) {a b c : List α}
    (h1 : List.Forall₂ R a b) (h2 : List.Forall₂ S b c) : List.Forall₂ T a c := by
  induction h1 generalizing c with
  | nil => cases h2; exact List.Forall₂.nil
  | cons hab _ ih =>
    cases h2 with
    | cons hbc h2 => exact List.Forall₂.cons (h _ _ _ hab hbc) (ih h2)

/-- Row by row, the loop over the claimed events relates the outbox before and after by any
relation that is reflexive and transitive and covers the update the loop makes: setting a
row to `done` with a time and a count. -/
theorem fanoutBatch_rows (R : Outbox → Outbox → Prop) (hrefl : ∀ x, R x x)
    (htrans : ∀ x y z, R x y → R y z → R x z)
    (hdone : ∀ (o : Outbox) (now : Time) (n : Int),
      R o { o with Status := "done", ProcessedAt := some now, FanoutCount := n })
    (w : FanoutWorker) (env : Nat → EventEnv) (fuel : Nat) :
    ∀ (bs : List ob) (i : Nat) (s s1 : DB × List Int),
      fanoutBatch w env fuel i bs s = some s1 →
      List.Forall₂ R s.1.outbox s1.1.outbox := by
  have hmd : ∀ (err : Option Err) (db : DB) (id : String) (now : Time) (n : Int),
      List.Forall₂ R db.outbox (markDone err db id now n).outbox := by
    intro err db id now n
    cases err with
    | some e => exact forall2_refl R hrefl _
    | none =>
      unfold markDone
      refine forall2_map_self _ _ _ (fun o _ => ?_)
      by_cases h : (o.ID == id) = true
      · rw [if_pos h]; exact hdone o now n
      · rw [if_neg h]; exact hrefl o
  intro bs
  induction bs with
  | nil =>
    intro i s s1 h
    simp only [fanoutBatch, Option.some.injEq] at h
    rw [← h]
    exact forall2_refl R hrefl _
  | cons b bs ih =>
    intro i s s1 h
    simp only [fanoutBatch] at h
    cases hr : fanoutEvent w (env i) fuel b s.1 s.2 with
    | none => simp [hr] at h
    | some r =>
      simp only [hr] at h
      have hev : List.Forall₂ R s.1.outbox r.db.outbox := by
        rw [fanoutEvent_shape w (env i) fuel b s.1 s.2 r hr]
        exact hmd (env i).doneErr { s.1 with inbox := r.db.inbox } b.ID (env i).doneNow _
      exact forall2_trans R htrans hev (ih (i + 1) (r.db, r.metricsCh) s1 h)

/-- **C15**, counterexample. The outbox holds three pending rows, created at 30 (`o1`), 10
(`o3`) and 20 (`o5`), and the claim limit is 2. When another transaction holds `o3`
locked, `SKIP LOCKED` passes over it: the call claims `o5` and `o1` and leaves `o3`, the
pending row with the smallest `created_at`, pending. When the claim transaction cannot
begin, the call returns the error and claims nothing, although three rows are pending. -/
theorem claim_skips_locked_rows :
    (pendingRows claimScenarioDB).map (fun o => (o.ID, o.CreatedAt)) =
      [("o1", 30), ("o3", 10), ("o5", 20)] ∧
    (∃ st1, processOnce (NewFanoutWorker 4 500 2 0)
        { processEnvOf quietEventEnv with locked := fun id => id == "o3" } 3
        (claimScenarioDB, []) = some (none, st1) ∧
      st1.1.outbox.map (fun o => (o.ID, o.Status)) =
        [("o1", "done"), ("o2", "done"), ("o3", "pending"), ("o4", "processing"),
         ("o5", "done")]) ∧
    processOnce (NewFanoutWorker 4 500 2 0)
        { processEnvOf quietEventEnv with beginErr := some "driver: bad connection" } 3
        (claimScenarioDB, []) =
      some (some "driver: bad connection", (claimScenarioDB, [])) := by
  refine ⟨by decide, ⟨(((processOnce (NewFanoutWorker 4 500 2 0)
        { processEnvOf quietEventEnv with locked := fun id => id == "o3" } 3
        (claimScenarioDB, [])).map (fun r => r.2)).getD (claimScenarioDB, [])), ?_, ?_⟩, ?_⟩ <;>
  decide

/-- **C15**, as the code has it (claim protocol). When no statement of the claim
transaction fails and no outbox row is locked by another transaction, one `processOnce`
call with `claimLimit = K ≥ 1` (and `batchSize ≥ 1`, the paging loops being given
`len(fans) + 1` rounds) returns nil, and there is a list of claimed rows such that: it has
`min(K, number of pending rows)` rows; they are rows of the pending ones, each taken once;
no pending row whose id is not claimed has a smaller `created_at` than a claimed one; in
the outbox after the call every row is in its place with its id, a row whose id is not
claimed is unchanged, and a row whose id is claimed is `processing` or `done`. Without a
pending row the call changes nothing. -/
theorem claim_protocol (w : FanoutWorker) (env : ProcessEnv) (db : DB) (metricsCh : List Int)
    (fuel : Nat) (_hK : 1 ≤ w.claimLimit)
    (hbegin : env.beginErr = none) (hquery : env.queryErr = none)
    (hupdate : env.updateErr = none) (hcommit : env.commitErr = none)
    (hlocked : ∀ id, env.locked id = false)
    (hbatchSize : 1 ≤ w.batchSize) (hfuel : db.fans.length + 1 ≤ fuel) :
    ∃ (claimed : List Outbox) (st1 : DB × List Int),
      processOnce w env fuel (db, metricsCh) = some (none, st1) ∧
      claimed.length = min w.claimLimit.toNat (pendingRows db).length ∧
      claimed.Subperm (pendingRows db) ∧
      (∀ c ∈ claimed, ∀ o ∈ pendingRows db, o.ID ∉ claimed.map (fun r => r.ID) →
        c.CreatedAt ≤ o.CreatedAt) ∧
      List.Forall₂ (fun o o1 : Outbox => o1.ID = o.ID ∧
          (o.ID ∉ claimed.map (fun r => r.ID) → o1 = o) ∧
          (o.ID ∈ claimed.map (fun r => r.ID) →
            o1.Status = "processing" ∨ o1.Status = "done"))
        db.outbox st1.1.outbox ∧
      (pendingRows db = [] → st1 = (db, metricsCh)) := by
  have hq := claimOutbox_quiet w env db hbegin hquery hupdate hcommit
  have hcq := claimQuery_unlocked env.locked db w.claimLimit hlocked
  set sorted := (pendingRows db).insertionSort (fun x y => x.CreatedAt ≤ y.CreatedAt)
    with hsorted
  set K := w.claimLimit.toNat with hKdef
  set toOb : Outbox → ob := fun o =>
    { ID := o.ID, PostID := o.PostID, AuthorID := o.AuthorID, CreatedAt := o.CreatedAt }
    with htoOb
  have hbatch : (claimOutbox w env db).2.1 = (sorted.take K).map toOb := by
    rw [hq]; exact hcq
  have hperm : sorted.Perm (pendingRows db) := List.perm_insertionSort _ _
  have hids : (claimOutbox w env db).2.1.map (fun b => b.ID) =
      (sorted.take K).map (fun r => r.ID) := by
    rw [hbatch, List.map_map]
    rfl
  have hlen : (sorted.take K).length = min K (pendingRows db).length := by
    rw [List.length_take, hperm.length_eq]
  have hlenb : (claimOutbox w env db).2.1.length = (sorted.take K).length := by
    rw [hbatch, List.length_map]
  have hdb1 : (claimOutbox w env db).2.2 =
      if (claimOutbox w env db).2.1.length = 0 then db
      else markProcessing db ((sorted.take K).map (fun r => r.ID)) := by
    rw [← hids, hq]
  have h1 : (claimOutbox w env db).1 = none := by rw [hq]
  have hsmall : ∀ c ∈ sorted.take K, ∀ o ∈ pendingRows db,
      o.ID ∉ (sorted.take K).map (fun r => r.ID) → c.CreatedAt ≤ o.CreatedAt := by
    intro c hc o ho hnot
    have ho1 : o ∈ sorted := hperm.symm.subset ho
    rw [← List.take_append_drop K sorted] at ho1
    rcases List.mem_append.mp ho1 with h2 | h2
    · exact absurd (List.mem_map.mpr ⟨o, h2, rfl⟩) hnot
    · have hpw := sorted_createdAt (pendingRows db)
      rw [← hsorted, ← List.take_append_drop K sorted, List.pairwise_append] at hpw
      exact hpw.2.2 c hc o h2
  have hsub : (sorted.take K).Subperm (pendingRows db) :=
    (List.take_sublist K sorted).subperm.trans hperm.subperm
  by_cases h0 : (claimOutbox w env db).2.1.length = 0
  · have hnil : sorted.take K = [] := List.length_eq_zero.mp (hlenb ▸ h0)
    have hdb : (claimOutbox w env db).2.2 = db := by
      rw [hdb1, if_pos h0]
    refine ⟨sorted.take K, (db, metricsCh), ?_, hlen, hsub, hsmall, ?_, fun _ => rfl⟩
    · rw [processOnce_eq]
      simp only [h1, h0, if_true, hdb]
    · rw [hnil]
      exact forall2_refl _ (fun o => ⟨rfl, fun _ => rfl,
        fun h => absurd h (List.not_mem_nil _)⟩) _
  · have hdb : (claimOutbox w env db).2.2 =
        markProcessing db ((sorted.take K).map (fun r => r.ID)) := by
      rw [hdb1, if_neg h0]
    have hfans : (claimOutbox w env db).2.2.fans = db.fans := by
      rw [hdb]
      rfl
    obtain ⟨st2, h2⟩ := fanoutBatch_terminates w env.event fuel hbatchSize
      (claimOutbox w env db).2.1 0 ((claimOutbox w env db).2.2, metricsCh)
      (by simp only [hfans]; exact hfuel)
    have hmemids : ∀ b ∈ (claimOutbox w env db).2.1,
        b.ID ∈ (sorted.take K).map (fun r => r.ID) := by
      intro b hb
      rw [← hids]
      exact List.mem_map.mpr ⟨b, hb, rfl⟩
    have hclaim : List.Forall₂ (fun o o1 : Outbox => o1.ID = o.ID ∧
          (o.ID ∉ (sorted.take K).map (fun r => r.ID) → o1 = o) ∧
          (o.ID ∈ (sorted.take K).map (fun r => r.ID) → o1.Status = "processing"))
        db.outbox (claimOutbox w env db).2.2.outbox := by
      rw [hdb]
      unfold markProcessing
      refine forall2_map_self _ _ _ (fun o _ => ?_)
      by_cases h : ((sorted.take K).map (fun r => r.ID)).contains o.ID = true
      · rw [if_pos h]
        exact ⟨rfl, fun hn => absurd ((contains_iff _ _).mp h) hn, fun _ => rfl⟩
      · rw [if_neg h]
        exact ⟨rfl, fun _ => rfl, fun hm => absurd ((contains_iff _ _).mpr hm) h⟩
    have hch := fanoutBatch_changed ((sorted.take K).map (fun r => r.ID)) w env.event fuel
      _ 0 _ st2 hmemids h2
    have hrows := fanoutBatch_rows
      (fun o o1 : Outbox => o1 = o ∨ o1.Status = "done")
      (fun _ => Or.inl rfl)
      (fun x y z hxy hyz => by
        rcases hyz with hyz | hyz
        · rw [hyz]; exact hxy
        · exact Or.inr hyz)
      (fun _ _ _ => Or.inr rfl) w env.event fuel _ 0 _ st2 h2
    unfold OutboxChangedOnlyAt at hch
    have hfinal := forall2_comp
      (T := fun o o1 : Outbox => o1.ID = o.ID ∧
          (o.ID ∉ (sorted.take K).map (fun r => r.ID) → o1 = o) ∧
          (o.ID ∈ (sorted.take K).map (fun r => r.ID) →
            o1.Status = "processing" ∨ o1.Status = "done"))
      (fun x y z hxy hyz => by
        obtain ⟨a1, a2, a3⟩ := hxy
        obtain ⟨⟨b1, b2⟩, b3⟩ := hyz
        refine ⟨b1.trans a1, fun hn => ?_, fun hm => ?_⟩
        · have e1 := a2 hn
          rw [b2 (by rw [e1]; exact hn), e1]
        · rcases b3 with b3 | b3
          · rw [b3]; exact Or.inl (a3 hm)
          · exact Or.inr b3)
      hclaim (forall2_and hch hrows)
    refine ⟨sorted.take K, st2, ?_, hlen, hsub, hsmall, hfinal, ?_⟩
    · rw [processOnce_eq]
      simp only [h1, h0, if_false, h2]
    · intro hnone
      exfalso
      apply h0
      rw [hlenb, hlen, hnone]
      simp

theorem claim_protocol_witness :
    (1 : Int) ≤ (NewFanoutWorker 4 500 2 0).claimLimit ∧
    (∃ st1, processOnce (NewFanoutWorker 4 500 2 0) (processEnvOf quietEventEnv) 3
        (claimScenarioDB, []) = some (none, st1) ∧
      st1.1.outbox.map (fun o => (o.ID, o.Status)) =
        [("o1", "pending"), ("o2", "done"), ("o3", "done"), ("o4", "processing"),
         ("o5", "done")]) ∧
    ∃ (claimed : List Outbox) (st1 : DB × List Int),
      processOnce (NewFanoutWorker 4 500 2 0) (processEnvOf quietEventEnv) 3
        (claimScenarioDB, []) = some (none, st1) ∧
      claimed.length = min (NewFanoutWorker 4 500 2 0).claimLimit.toNat
        (pendingRows claimScenarioDB).length ∧
      claimed.Subperm (pendingRows claimScenarioDB) ∧
      (∀ c ∈ claimed, ∀ o ∈ pendingRows claimScenarioDB,
        o.ID ∉ claimed.map (fun r => r.ID) → c.CreatedAt ≤ o.CreatedAt) ∧
      List.Forall₂ (fun o o1 : Outbox => o1.ID = o.ID ∧
          (o.ID ∉ claimed.map (fun r => r.ID) → o1 = o) ∧
          (o.ID ∈ claimed.map (fun r => r.ID) →
            o1.Status = "processing" ∨ o1.Status = "done"))
        claimScenarioDB.outbox st1.1.outbox ∧
      (pendingRows claimScenarioDB = [] → st1 = (claimScenarioDB, [])) :=
  ⟨by decide,
    ⟨(((processOnce (NewFanoutWorker 4 500 2 0) (processEnvOf quietEventEnv) 3
        (claimScenarioDB, [])).map (fun r => r.2)).getD (claimScenarioDB, [])),
      by decide, by decide⟩,
    claim_protocol (NewFanoutWorker 4 500 2 0) (processEnvOf quietEventEnv)
      claimScenarioDB [] 3 (by decide) rfl rfl rfl rfl (fun _ => rfl) (by decide)
      (by decide)⟩

/-- The outbox after `Publish`: as before, or with the new `pending` row at the end. -/
theorem publish_outbox (env : PublishEnv) (db : DB) (authorID payload : String) :
    (Publish env db authorID payload).2.outbox = db.outbox ∨
    (Publish env db authorID payload).2.outbox = db.outbox ++ [publishOutbox env authorID] := by
  unfold Publish Transaction
  cases env.beginErr with
  | some e => left; rfl
  | none =>
    cases h1 : createPost env.createPostErr db (publishPost env authorID payload) with
    | error e => left; simp only [h1]
    | ok tx1 =>
      cases h2 : createOutbox env.createOutboxErr tx1 (publishOutbox env authorID) with
      | error e => left; simp only [h1, h2]
      | ok tx2 =>
        cases env.commitErr with
        | some e => left; simp only [h1, h2]
        | none =>
          right
          simp only [h1, h2]
          rw [(createOutbox_ok h2).2, (createPost_ok h1).2]

theorem processing_ne_done : ("processing" : String) ≠ "done" := by decide

theorem pending_ne_done : ("pending" : String) ≠ "done" := by decide

theorem processing_ne_pending : ("processing" : String) ≠ "pending" := by decide

theorem done_ne_pending : ("done" : String) ≠ "pending" := by decide

/-- The row invariant behind `LifecycleOK`. -/
theorem lifecycle_rows (before after : List Outbox)
    (h : List.Forall₂ (fun o o1 : Outbox =>
      ((o.Status = "pending" ∨ o.Status = "processing" ∨ o.Status = "done") ∧
        (o.Status = "done" → o.ProcessedAt.isSome = true ∧ 0 ≤ o.FanoutCount)) →
      ((o1.Status = "pending" ∨ o1.Status = "processing" ∨ o1.Status = "done") ∧
        (o1.Status = "done" → o1.ProcessedAt.isSome = true ∧ 0 ≤ o1.FanoutCount)))
      before after)
    (hb : ∀ o ∈ before,
      (o.Status = "pending" ∨ o.Status = "processing" ∨ o.Status = "done") ∧
      (o.Status = "done" → o.ProcessedAt.isSome = true ∧ 0 ≤ o.FanoutCount)) :
    ∀ o ∈ after,
      (o.Status = "pending" ∨ o.Status = "processing" ∨ o.Status = "done") ∧
      (o.Status = "done" → o.ProcessedAt.isSome = true ∧ 0 ≤ o.FanoutCount) := by
  induction h with
  | nil => intro o ho; exact absurd ho (List.not_mem_nil _)
  | cons hab _ ih =>
    intro o ho
    rcases List.mem_cons.mp ho with h1 | h1
    · rw [h1]; exact hab (hb _ (List.mem_cons_self _ _))
    · exact ih (fun p hp => hb p (List.mem_cons_of_mem _ hp)) o h1

theorem lifecycle_processOnce (w : FanoutWorker) (env : ProcessEnv) (fuel : Nat)
    (st st1 : DB × List Int) (e : Option Err)
    (hrun : processOnce w env fuel st = some (e, st1)) (h : LifecycleOK st.1) :
    LifecycleOK st1.1 := by
  refine lifecycle_rows st.1.outbox st1.1.outbox ?_ h
  refine processOnce_rows _ (fun x hx => hx) (fun x y z h1 h2 hx => h2 (h1 hx)) ?_ ?_
    w env fuel st st1 e hrun
  · intro o _
    exact ⟨Or.inr (Or.inl rfl), fun hd => absurd hd processing_ne_done⟩
  · intro o now n hn _
    exact ⟨Or.inr (Or.inr rfl), fun _ => ⟨rfl, hn⟩⟩

theorem lifecycle_publish (env : PublishEnv) (db : DB) (authorID payload : String)
    (h : LifecycleOK db) : LifecycleOK (Publish env db authorID payload).2 := by
  unfold LifecycleOK
  rcases publish_outbox env db authorID payload with h1 | h1
  · rw [h1]; exact h
  · rw [h1]
    intro o ho
    rcases List.mem_append.mp ho with h2 | h2
    · exact h o h2
    · have e : o = publishOutbox env authorID := by simpa using h2
      rw [e]
      exact ⟨Or.inl rfl, fun hd => absurd hd pending_ne_done⟩

/-- **C16** (outbox lifecycle, P6). In every state reachable from an empty outbox by calls of
`Publish` and of `processOnce`, every outbox row has status `pending`, `processing` or
`done`, and every `done` row has `processed_at` set and `fanout_count ≥ 0`. In any state at
all, a `Publish` call and a `processOnce` call keep every row in its place with its id
(`Publish` may add a row at the end), and a row that was `processing` or `done` (not
`pending`) before the call is not `pending` after it. -/
theorem outbox_lifecycle :
    (∀ st, OutboxReachable st → LifecycleOK st.1) ∧
    (∀ (env : PublishEnv) (db : DB) (authorID payload : String),
      NoBackToPending db.outbox (Publish env db authorID payload).2.outbox) ∧
    (∀ (w : FanoutWorker) (env : ProcessEnv) (fuel : Nat) (st st1 : DB × List Int)
      (e : Option Err), processOnce w env fuel st = some (e, st1) →
      NoBackToPending st.1.outbox st1.1.outbox) := by
  refine ⟨?_, ?_, ?_⟩
  · intro st hst
    induction hst with
    | init db m h =>
      intro o ho
      simp only [h] at ho
      exact absurd ho (List.not_mem_nil _)
    | publish env a p _ ih => exact lifecycle_publish env _ a p ih
    | process w env fuel err _ hrun ih => exact lifecycle_processOnce w env fuel _ _ err hrun ih
  · intro env db a p
    rcases publish_outbox env db a p with h1 | h1
    · exact ⟨db.outbox, [], by rw [h1, List.append_nil],
        forall2_refl _ (fun x => ⟨rfl, fun hx => hx⟩) _⟩
    · exact ⟨db.outbox, [publishOutbox env a], h1,
        forall2_refl _ (fun x => ⟨rfl, fun hx => hx⟩) _⟩
  · intro w env fuel st st1 e hrun
    refine ⟨st1.1.outbox, [], (List.append_nil _).symm, ?_⟩
    refine processOnce_rows _ (fun x => ⟨rfl, fun hx => hx⟩)
      (fun x y z h1 h2 => ⟨h2.1.trans h1.1, fun hx => h2.2 (h1.2 hx)⟩) ?_ ?_
      w env fuel st st1 e hrun
    · intro o
      exact ⟨rfl, fun _ => processing_ne_pending⟩
    · intro o now n _
      exact ⟨rfl, fun _ => done_ne_pending⟩
theorem outbox_lifecycle_witness :
    OutboxReachable lifecycleScenario ∧ LifecycleOK lifecycleScenario.1 :=
  have hr : OutboxReachable lifecycleScenario :=
    OutboxReachable.process (NewFanoutWorker 4 500 128 0) (processEnvOf quietEventEnv) 3 none
      (OutboxReachable.publish ⟨"p1", "o1", 5, none, none, none, none⟩ "author" "hello"
        (OutboxReachable.init { scenarioDB 2 with outbox := [] } [] rfl))
      (by decide)
  ⟨hr, outbox_lifecycle.1 lifecycleScenario hr⟩

/-- **C17**, counterexample. An author with three fans and one pending event. When listing
the fans fails, `processOnce` returns nil, no inbox row is written, and the event is
`done` with `fanout_count = 0`; when the inbox insert fails, no inbox row is written and
the event is `done` with `fanout_count = 3`. In both cases the next claim finds nothing
and the next `processOnce` call changes nothing: the event is not fanned out again. -/
theorem failed_fanout_marked_done :
    (∃ st1, processOnce (NewFanoutWorker 4 500 128 0) (processEnvOf listFailsEnv) 4
        (pendingScenarioDB 3, []) = some (none, st1) ∧
      st1.1.inbox = [] ∧ st1.1.outbox = [doneRow 0] ∧
      claimQuery (fun _ => false) st1.1 128 = [] ∧
      processOnce (NewFanoutWorker 4 500 128 0) (processEnvOf quietEventEnv) 4 st1
        = some (none, st1)) ∧
    (∃ st1, processOnce (NewFanoutWorker 4 500 128 0) (processEnvOf insertFailsEnv) 4
        (pendingScenarioDB 3, []) = some (none, st1) ∧
      st1.1.inbox = [] ∧ st1.1.outbox = [doneRow 3] ∧
      claimQuery (fun _ => false) st1.1 128 = [] ∧
      processOnce (NewFanoutWorker 4 500 128 0) (processEnvOf quietEventEnv) 4 st1
        = some (none, st1)) := by
  refine ⟨⟨({ pendingScenarioDB 3 with outbox := [doneRow 0] }, [98]), ?_, rfl, rfl, ?_, ?_⟩,
    ⟨({ pendingScenarioDB 3 with outbox := [doneRow 3] }, [98]), ?_, rfl, rfl, ?_, ?_⟩⟩ <;>
  decide

theorem claimQuery_mem (locked : String → Bool) (db : DB) (limit : Int) (c : ob)
    (h : c ∈ claimQuery locked db limit) :
    ∃ o ∈ db.outbox, o.Status = "pending" ∧ locked o.ID = false ∧ c.ID = o.ID := by
  unfold claimQuery at h
  obtain ⟨o, ho, rfl⟩ := List.mem_map.mp h
  have h1 := (List.perm_insertionSort _ _).subset (List.mem_of_mem_take ho)
  have h2 := List.mem_filter.mp h1
  have h3 : o.Status = "pending" ∧ locked o.ID = false := by simpa using h2.2
  exact ⟨o, h2.1, h3.1, h3.2, rfl⟩

/-- The paging loop when the listing of the first page fails: nothing is handed over. -/
theorem fanoutPages_list_fails (w : FanoutWorker) (env : Nat → PageEnv) (b : ob) (fuel : Nat)
    (st st1 : PagingState) (herr : (env 0).listErr ≠ none)
    (h : fanoutPages w env b fuel 0 st = some st1) : st1 = st := by
  cases fuel with
  | zero => simp [fanoutPages] at h
  | succ fuel =>
    unfold fanoutPages at h
    cases hle : (env 0).listErr with
    | none => exact absurd hle herr
    | some e =>
      simp only [hle, fanRepository.ListFans, Option.some.injEq] at h
      exact h.symm

/-- The paging loop when every inbox insert fails: the inbox is what it was. -/
theorem fanoutPages_insert_fails (w : FanoutWorker) (env : Nat → PageEnv) (b : ob)
    (fuel k : Nat) (st st1 : PagingState) (herr : ∀ k, (env k).insertErr ≠ none)
    (h : fanoutPages w env b fuel k st = some st1) : st1.db.inbox = st.db.inbox := by
  refine fanoutPages_induct w env b (fun s => s.db.inbox = st.db.inbox) ?_ fuel k st st1 rfl h
  intro s j fans off hI
  cases hie : (env j).insertErr with
  | none => exact absurd hie (herr j)
  | some e => simpa only [createInbox] using hI

/-- **C17**, as the code has it. Background store failures are not retried. Handling one
claimed event `b` (the body of the loop over the batch in `processOnce`) always finishes
(`batchSize ≥ 1`, `len(fans) + 1` rounds), whatever fails while listing fans or inserting
inbox rows, and, when the final update succeeds, every outbox row with the id of `b` is
written `done` with `processed_at` set and `fanout_count` equal to the number of inbox
records handed to the insert, delivered or not. No later claim returns the event. When the
first listing fails no record is handed over and the inbox is unchanged; when every insert
fails the inbox is unchanged although the records are counted. -/
theorem fanout_failure_still_done (w : FanoutWorker) (env : EventEnv) (fuel : Nat) (b : ob)
    (db : DB) (metricsCh : List Int)
    (hp : 1 ≤ w.batchSize) (hfuel : db.fans.length + 1 ≤ fuel) (hdone : env.doneErr = none) :
    ∃ r, fanoutEvent w env fuel b db metricsCh = some r ∧
      r.db.outbox = db.outbox.map (fun o =>
        if o.ID == b.ID then
          { o with Status := "done", ProcessedAt := some env.doneNow,
                   FanoutCount := (r.submitted.length : Int) }
        else o) ∧
      (∀ (locked : String → Bool) (limit : Int), ∀ c ∈ claimQuery locked r.db limit,
        c.ID ≠ b.ID) ∧
      ((env.page 0).listErr ≠ none → r.submitted = [] ∧ r.db.inbox = db.inbox) ∧
      ((∀ k, (env.page k).insertErr ≠ none) → r.db.inbox = db.inbox) := by
  obtain ⟨r, hr⟩ := fanoutEvent_terminates w env fuel b db metricsCh hp hfuel
  have hshape := fanoutEvent_shape w env fuel b db metricsCh r hr
  have hout : r.db.outbox = db.outbox.map (fun o =>
      if o.ID == b.ID then
        { o with Status := "done", ProcessedAt := some env.doneNow,
                 FanoutCount := (r.submitted.length : Int) }
      else o) := by
    rw [hshape, hdone]
    rfl
  have hpages : ∃ st, fanoutPages w env.page b fuel 0
      { db := db, offset := 0, totalWritten := 0, submitted := [] } = some st ∧
      r.submitted = st.submitted ∧ r.db.inbox = st.db.inbox := by
    unfold fanoutEvent at hr
    cases hpg : fanoutPages w env.page b fuel 0
        { db := db, offset := 0, totalWritten := 0, submitted := [] } with
    | none => simp [hpg] at hr
    | some st =>
      simp only [hpg, Option.some.injEq] at hr
      refine ⟨st, rfl, ?_, ?_⟩
      · rw [← hr]
      · rw [← hr]; simp only [markDone_inbox]
  obtain ⟨st, hst, hsub, hinb⟩ := hpages
  refine ⟨r, hr, hout, ?_, ?_, ?_⟩
  · intro locked limit c hc hcb
    obtain ⟨o, ho, hpend, _, hid⟩ := claimQuery_mem locked r.db limit c hc
    rw [hout] at ho
    obtain ⟨p, _, hpo⟩ := List.mem_map.mp ho
    by_cases hpb : (p.ID == b.ID) = true
    · rw [if_pos hpb] at hpo
      rw [← hpo] at hpend
      exact done_ne_pending hpend
    · rw [if_neg hpb] at hpo
      rw [← hpo] at hid
      exact hpb (by rw [← hid, hcb]; simp)
  · intro herr
    have e := fanoutPages_list_fails w env.page b fuel _ st herr hst
    rw [hsub, hinb, e]
    exact ⟨rfl, rfl⟩
  · intro herr
    rw [hinb]
    exact fanoutPages_insert_fails w env.page b fuel 0 _ st herr hst

theorem fanout_failure_still_done_witness :
    (1 : Int) ≤ (NewFanoutWorker 4 500 128 0).batchSize ∧
    (scenarioDB 3).fans.length + 1 ≤ 4 ∧ listFailsEnv.doneErr = none ∧
    ∃ r, fanoutEvent (NewFanoutWorker 4 500 128 0) listFailsEnv 4 ⟨"o1", "p1", "author", 1⟩
        (scenarioDB 3) [] = some r ∧
      r.db.outbox = (scenarioDB 3).outbox.map (fun o =>
        if o.ID == (⟨"o1", "p1", "author", 1⟩ : ob).ID then
          { o with Status := "done", ProcessedAt := some listFailsEnv.doneNow,
                   FanoutCount := (r.submitted.length : Int) }
        else o) ∧
      (∀ (locked : String → Bool) (limit : Int), ∀ c ∈ claimQuery locked r.db limit,
        c.ID ≠ (⟨"o1", "p1", "author", 1⟩ : ob).ID) ∧
      ((listFailsEnv.page 0).listErr ≠ none → r.submitted = [] ∧ r.db.inbox = (scenarioDB 3).inbox) ∧
      ((∀ k, (listFailsEnv.page k).insertErr ≠ none) → r.db.inbox = (scenarioDB 3).inbox) :=
  ⟨by decide, by decide, rfl,
    fanout_failure_still_done (NewFanoutWorker 4 500 128 0) listFailsEnv 4
      ⟨"o1", "p1", "author", 1⟩ (scenarioDB 3) [] (by decide) (by decide) rfl⟩
/-! ### The two branches of `FetchFollowersOptimized` -/

theorem fetch_eq (j : JSONCodec) (s : FollowerService) (env : FetchEnv) (userID : String)
    (page size : Int) :
    FetchFollowersOptimized j s env userID page size =
      if (fetchIDs s env userID page size).length = 0 then fetchOnMiss j s env userID page size
      else loadUsers j s env (fetchIDs s env userID page size) := rfl

/-- The `Set` calls of `loadUsers` touch only keys of the form `user:{id}`. -/
theorem storeUsers_other (j : JSONCodec) (setErr : String → Bool) (ttl : Int) (key : String)
    (hkey : ∀ id, key ≠ "user:" ++ id) :
    ∀ (users : List User) (cached : SnapMap) (cache : Redis),
      (storeUsers j setErr ttl users (cached, cache)).2 key = cache key := by
  intro users
  induction users with
  | nil => intro cached cache; rfl
  | cons u us ih =>
    intro cached cache
    simp only [storeUsers]
    rw [ih]
    by_cases he : setErr u.ID = true
    · simp only [he, if_true]
    · simp only [he, Bool.false_eq_true, if_false, Redis.Set, hkey u.ID]

/-- What `loadUsers` leaves alone, whatever fails: the store, the TTL, the counters
`IndexLoads` and `PageQueries`, and every cache key that is not of the form `user:{id}`. -/
theorem loadUsers_frame (j : JSONCodec) (s : FollowerService) (env : FetchEnv)
    (ids : List String) :
    (loadUsers j s env ids).2.db = s.db ∧
    (loadUsers j s env ids).2.ttl = s.ttl ∧
    (loadUsers j s env ids).2.indexLoads = s.indexLoads ∧
    (loadUsers j s env ids).2.pageQueries = s.pageQueries ∧
    ∀ key, (∀ id, key ≠ "user:" ++ id) → (loadUsers j s env ids).2.cache key = s.cache key := by
  unfold loadUsers
  by_cases h0 : ids.length = 0
  · rw [if_pos h0]
    exact ⟨rfl, rfl, rfl, rfl, fun _ _ => rfl⟩
  · rw [if_neg h0]
    dsimp only
    generalize (if env.mgetErr = true then (fun _ => none)
      else collectHits j ids (Redis.MGet s.cache (ids.map (fun id => "user:" ++ id)))
        (fun _ => none) : SnapMap) = cached
    by_cases hm : 0 < (ids.filter (fun id => (cached id).isNone)).length
    · rw [if_pos hm]
      cases env.usersErr with
      | some e => exact ⟨rfl, rfl, rfl, rfl, fun _ _ => rfl⟩
      | none =>
        refine ⟨rfl, rfl, rfl, rfl, fun key hkey => ?_⟩
        exact storeUsers_other j env.setErr s.ttl key hkey _ _ _
    · rw [if_neg hm]
      exact ⟨rfl, rfl, rfl, rfl, fun _ _ => rfl⟩

/-- What `loadFollowerIDsAndCache` does to the service, whatever fails: `IndexLoads` grows
by one, the other counters, the store and the TTL stay. -/
theorem loadIDs_frame (s : FollowerService) (env : FetchEnv) (userID : String) :
    (loadFollowerIDsAndCache s env userID).2.indexLoads = s.indexLoads + 1 ∧
    (loadFollowerIDsAndCache s env userID).2.pageQueries = s.pageQueries ∧
    (loadFollowerIDsAndCache s env userID).2.userBulkLoad = s.userBulkLoad ∧
    (loadFollowerIDsAndCache s env userID).2.db = s.db ∧
    (loadFollowerIDsAndCache s env userID).2.ttl = s.ttl := by
  unfold loadFollowerIDsAndCache
  cases env.indexErr with
  | some e => exact ⟨rfl, rfl, rfl, rfl, rfl⟩
  | none =>
    simp only
    split <;> exact ⟨rfl, rfl, rfl, rfl, rfl⟩

/-- The result of `loadFollowerIDsAndCache` when the fan-ID query succeeds. -/
theorem loadIDs_ok (s : FollowerService) (env : FetchEnv) (userID : String)
    (hindex : env.indexErr = none) :
    (loadFollowerIDsAndCache s env userID).1 = .ok (fanIDsDesc s.db userID) := by
  unfold loadFollowerIDsAndCache
  simp only [hindex]
  split <;> rfl

/-- The index key after `loadFollowerIDsAndCache` when the fan-ID query and the pipeline
succeed, the owner has a fan and the TTL is positive. -/
theorem loadIDs_index (s : FollowerService) (env : FetchEnv) (userID : String)
    (hindex : env.indexErr = none) (hpipe : env.pipelineErr = false)
    (hfans : 0 < (fanIDsDesc s.db userID).length) (httl : 0 < s.ttl) :
    (loadFollowerIDsAndCache s env userID).2.cache ("followers:index:" ++ userID) =
      some ⟨.list (fanIDsDesc s.db userID), some s.ttl⟩ := by
  unfold loadFollowerIDsAndCache
  simp only [hindex, hpipe, hfans, and_self, if_true, indexPipeline_eq]
  have : ¬ s.ttl ≤ 0 := by omega
  simp only [this, if_false]

/-- The service after the miss branch, in terms of the service after
`loadFollowerIDsAndCache`. -/
theorem fetchOnMiss_frame (j : JSONCodec) (s : FollowerService) (env : FetchEnv)
    (userID : String) (page size : Int) :
    (fetchOnMiss j s env userID page size).2.indexLoads = s.indexLoads + 1 ∧
    (fetchOnMiss j s env userID page size).2.pageQueries = s.pageQueries ∧
    (fetchOnMiss j s env userID page size).2.db = s.db ∧
    ∀ key, (∀ id, key ≠ "user:" ++ id) →
      (fetchOnMiss j s env userID page size).2.cache key =
        (loadFollowerIDsAndCache s env userID).2.cache key := by
  obtain ⟨f1, f2, _, f3, _⟩ := loadIDs_frame s env userID
  unfold fetchOnMiss
  rcases hL : loadFollowerIDsAndCache s env userID with ⟨res, s1⟩
  rw [hL] at f1 f2 f3
  simp only at f1 f2 f3
  cases res with
  | error e => exact ⟨f1, f2, f3, fun _ _ => rfl⟩
  | ok allIDs =>
    simp only
    split
    · exact ⟨f1, f2, f3, fun _ _ => rfl⟩
    · split
      · exact ⟨f1, f2, f3, fun _ _ => rfl⟩
      · rename_i ids _
        obtain ⟨g0, _, g1, g2, g3⟩ := loadUsers_frame j s1 env ids
        exact ⟨g1.trans f1, g2.trans f2, g0.trans f3, g3⟩

theorem indexKey_not_userKey (userID : String) :
    ∀ id, "followers:index:" ++ userID ≠ "user:" ++ id :=
  fun id h => userKey_ne_indexKey id userID h.symm

/-- With the index key absent, `Exists` answers 0 and no id is read from the cache. -/
theorem fetchIDs_absent (s : FollowerService) (env : FetchEnv) (userID : String)
    (page size : Int) (hidx : s.cache ("followers:index:" ++ userID) = none) :
    fetchIDs s env userID page size = [] := by
  unfold fetchIDs
  have : Redis.Exists s.cache ("followers:index:" ++ userID) = 0 := by
    simp only [Redis.Exists, hidx]
  cases env.existsErr <;> simp [this]

/-- Past the end of the cached list `LRANGE` answers the empty list. -/
theorem fetchIDs_past_end (s : FollowerService) (env : FetchEnv) (userID : String)
    (page size : Int) (l : List String) (ttl : Option Int)
    (hidx : s.cache ("followers:index:" ++ userID) = some ⟨.list l, ttl⟩)
    (hpage : 1 ≤ page) (hsize : 1 ≤ size) (hbound : page * size < 2 ^ 63)
    (hpast : (l.length : Int) ≤ (page - 1) * size) :
    fetchIDs s env userID page size = [] := by
  obtain ⟨w1, w2, _⟩ := page_no_wrap page size hpage hsize hbound
  unfold fetchIDs
  simp only [w1, w2]
  have hl : Redis.LRange s.cache ("followers:index:" ++ userID) ((page - 1) * size)
      ((page - 1) * size + size - 1) = [] := by
    unfold Redis.LRange
    simp only [hidx]
    have h0 : (0 : Int) ≤ (l.length : Int) := Int.natCast_nonneg _
    have h1 : ¬ ((page - 1) * size < 0) := by omega
    have h2 : ¬ ((page - 1) * size + size - 1 < 0) := by omega
    simp only [h1, h2, if_false]
    have h3 : (page - 1) * size > (page - 1) * size + size - 1 ∨
        (page - 1) * size ≥ (l.length : Int) := Or.inr hpast
    simp only [h3, if_true]
  simp only [hl, ite_self]

/-- The sibling `queryFollowers` does coerce its page arguments. -/
theorem queryFollowers_coerces (s : FollowerService) (err : Option Err) (userID : String)
    (page size : Int) :
    (page < 1 → queryFollowers s err userID page size = queryFollowers s err userID 1 size) ∧
    (size ≤ 0 → queryFollowers s err userID page size = queryFollowers s err userID page 20) := by
  constructor
  · intro h
    unfold queryFollowers
    simp only [h, if_true, show ¬ ((1 : Int) < 1) by decide, if_false]
  · intro h
    unfold queryFollowers
    simp only [h, if_true, show ¬ ((20 : Int) ≤ 0) by decide, if_false]

/-- **C18** fails on the code: `FetchFollowersOptimized` uses `page` and `size` as given.
With three followers and a flushed cache, page 0 of size 2 panics on `allIDs[-2:0]` while
page 1 of size 2 returns the two newest followers; page 1 of size -1 panics on
`allIDs[0:-1]` while page 1 of size 20 returns all three. With the index cached, page 0 of
size 2 returns the two oldest followers (`LRANGE -2 -1`) and page 1 of size -1 returns the
two newest (`LRANGE 0 -2`). The sibling `queryFollowers` returns the same for page 0 as
for page 1 and for size -1 as for size 20. -/
theorem optimized_fetch_not_coerced :
    (FetchFollowersOptimized lineCodec cacheScenario FetchEnv.quiet "owner" 0 2).1 = .panic ∧
    (FetchFollowersOptimized lineCodec cacheScenario FetchEnv.quiet "owner" 1 2).1 =
      .ok [⟨"f3", "cy", "cy@x", 33⟩, ⟨"f2", "bob", "bob@x", 32⟩] ∧
    (FetchFollowersOptimized lineCodec cacheScenario FetchEnv.quiet "owner" 1 (-1)).1 = .panic ∧
    (FetchFollowersOptimized lineCodec cacheScenario FetchEnv.quiet "owner" 1 20).1 =
      .ok [⟨"f3", "cy", "cy@x", 33⟩, ⟨"f2", "bob", "bob@x", 32⟩, ⟨"f1", "ann", "ann@x", 31⟩] ∧
    cacheScenarioFilled.cache "followers:index:owner" =
      some ⟨.list ["f3", "f2", "f1"], some 600000000000⟩ ∧
    (FetchFollowersOptimized lineCodec cacheScenarioFilled FetchEnv.quiet "owner" 0 2).1 =
      .ok [⟨"f2", "bob", "bob@x", 32⟩, ⟨"f1", "ann", "ann@x", 31⟩] ∧
    (FetchFollowersOptimized lineCodec cacheScenarioFilled FetchEnv.quiet "owner" 1 2).1 =
      .ok [⟨"f3", "cy", "cy@x", 33⟩, ⟨"f2", "bob", "bob@x", 32⟩] ∧
    (FetchFollowersOptimized lineCodec cacheScenarioFilled FetchEnv.quiet "owner" 1 (-1)).1 =
      .ok [⟨"f3", "cy", "cy@x", 33⟩, ⟨"f2", "bob", "bob@x", 32⟩] ∧
    (FetchFollowersOptimized lineCodec cacheScenarioFilled FetchEnv.quiet "owner" 1 20).1 =
      .ok [⟨"f3", "cy", "cy@x", 33⟩, ⟨"f2", "bob", "bob@x", 32⟩, ⟨"f1", "ann", "ann@x", 31⟩] ∧
    (queryFollowers cacheScenario none "owner" 0 2).1 =
      (queryFollowers cacheScenario none "owner" 1 2).1 ∧
    (queryFollowers cacheScenario none "owner" 1 (-1)).1 =
      (queryFollowers cacheScenario none "owner" 1 20).1 := by
  refine ⟨by decide, by decide, by decide, by decide, by decide, by decide, by decide,
    by decide, by decide, by decide, by decide⟩

/-- **C19** fails on the code: a read past the end of a cached index reloads the index from
the store. When the index key holds a list of `len` ids, `page ≥ 1`, `size ≥ 1`, the
product `page * size` is in the range of `int` (below `2^63`, so that no index computation
wraps) and `(page-1)*size ≥ len`, `LRANGE` answers the empty list, which the code takes
for a cache miss: `IndexLoads` grows by one, whatever else fails. `PageQueries` is
unchanged, and when the fan-ID query succeeds and the owner has no more than
`(page-1)*size` fans the result is the empty list and `UserBulkLoad` is unchanged. -/
theorem past_end_reloads_index (j : JSONCodec) (s : FollowerService) (env : FetchEnv)
    (userID : String) (page size : Int) (l : List String) (ttl : Option Int)
    (hidx : s.cache ("followers:index:" ++ userID) = some ⟨.list l, ttl⟩)
    (hpage : 1 ≤ page) (hsize : 1 ≤ size) (hbound : page * size < 2 ^ 63)
    (hpast : (l.length : Int) ≤ (page - 1) * size) :
    (FetchFollowersOptimized j s env userID page size).2.indexLoads = s.indexLoads + 1 ∧
    (FetchFollowersOptimized j s env userID page size).2.pageQueries = s.pageQueries ∧
    (env.indexErr = none → ((fanIDsDesc s.db userID).length : Int) ≤ (page - 1) * size →
      (FetchFollowersOptimized j s env userID page size).1 = .ok [] ∧
      (FetchFollowersOptimized j s env userID page size).2.userBulkLoad = s.userBulkLoad) := by
  have hfe : FetchFollowersOptimized j s env userID page size =
      fetchOnMiss j s env userID page size := by
    rw [fetch_eq, fetchIDs_past_end s env userID page size l ttl hidx hpage hsize hbound hpast]
    rfl
  rw [hfe]
  obtain ⟨g1, g2, _, _⟩ := fetchOnMiss_frame j s env userID page size
  refine ⟨g1, g2, ?_⟩
  intro hindex hlen
  obtain ⟨_, _, f3, _, _⟩ := loadIDs_frame s env userID
  have hok := loadIDs_ok s env userID hindex
  obtain ⟨w1, _, _⟩ := page_no_wrap page size hpage hsize hbound
  unfold fetchOnMiss
  rcases hL : loadFollowerIDsAndCache s env userID with ⟨res, s1⟩
  rw [hL] at f3 hok
  simp only at f3 hok
  subst hok
  have hge : (page - 1) * size ≥ ((fanIDsDesc s.db userID).length : Int) := hlen
  simp only [w1, hge, if_true]
  exact ⟨trivial, f3⟩

theorem past_end_reloads_index_witness :
    cacheScenarioFilled.cache ("followers:index:" ++ "owner") =
      some ⟨.list ["f3", "f2", "f1"], some 600000000000⟩ ∧
    cacheScenarioFilled.indexLoads = 1 ∧
    (FetchFollowersOptimized lineCodec cacheScenarioFilled FetchEnv.quiet "owner" 10 20).1
      = .ok [] ∧
    (FetchFollowersOptimized lineCodec cacheScenarioFilled FetchEnv.quiet "owner" 10 20).2.indexLoads
      = 2 ∧
    (FetchFollowersOptimized lineCodec cacheScenarioFilled FetchEnv.quiet "owner" 10 20).2.indexLoads
      = cacheScenarioFilled.indexLoads + 1 :=
  ⟨by decide, by decide, by decide, by decide,
    (past_end_reloads_index lineCodec cacheScenarioFilled FetchEnv.quiet "owner" 10 20
      ["f3", "f2", "f1"] (some 600000000000) (by decide) (by decide) (by decide)
      (by decide) (by decide)).1⟩

/-- The fan-ID query returns the `fan_id` of every fan row of the owner, once per row,
ordered by `created_at` descending. -/
theorem fanIDsDesc_complete (db : DB) (userID : String) :
    ∃ rows : List Fan, fanIDsDesc db userID = rows.map (fun q => q.FanID) ∧
      rows.Perm (fansOf db userID) ∧
      rows.Pairwise (fun x y => x.CreatedAt ≥ y.CreatedAt) := by
  refine ⟨(db.fans.filter (fun q : Fan => q.UserID == userID)).insertionSort
    (fun x y => x.CreatedAt ≥ y.CreatedAt), rfl, List.perm_insertionSort _ _, ?_⟩
  haveI : IsTotal Fan (fun x y => x.CreatedAt ≥ y.CreatedAt) :=
    ⟨fun a b => le_total b.CreatedAt a.CreatedAt⟩
  haveI : IsTrans Fan (fun x y => x.CreatedAt ≥ y.CreatedAt) :=
    ⟨fun a b c h1 h2 => le_trans h2 h1⟩
  exact List.sorted_insertionSort _ _

/-- **C20**, counterexample. With a service TTL of 0 (which `NewFollowerService` accepts)
the `EXPIRE` that ends the index pipeline deletes the key: after a fetch for an owner with
three fans that started with the index key absent and in which nothing failed, the index
key is still absent. The same holds, with the TTL of ten minutes, when the fan-ID query
fails: the call returns the error and no index is written. -/
theorem index_dropped_without_ttl :
    ({ cacheScenario with ttl := 0 } : FollowerService).cache "followers:index:owner" = none ∧
    fanIDsDesc cacheScenario.db "owner" = ["f3", "f2", "f1"] ∧
    (FetchFollowersOptimized lineCodec { cacheScenario with ttl := 0 } FetchEnv.quiet
        "owner" 1 2).1 =
      .ok [⟨"f3", "cy", "cy@x", 33⟩, ⟨"f2", "bob", "bob@x", 32⟩] ∧
    (FetchFollowersOptimized lineCodec { cacheScenario with ttl := 0 } FetchEnv.quiet
        "owner" 1 2).2.cache "followers:index:owner" = none ∧
    (FetchFollowersOptimized lineCodec cacheScenario
        { FetchEnv.quiet with indexErr := some "driver: bad connection" } "owner" 1 2).1 =
      .err "driver: bad connection" ∧
    (FetchFollowersOptimized lineCodec cacheScenario
        { FetchEnv.quiet with indexErr := some "driver: bad connection" }
        "owner" 1 2).2.cache "followers:index:owner" = none := by
  refine ⟨by decide, by decide, by decide, by decide, by decide, by decide⟩

/-- **C20** (index coverage, P2), as the code has it. A `FetchFollowersOptimized` call that
starts with the index
key of the owner absent, for an owner with at least one fan, with a positive service TTL,
and in which the fan-ID query and the index pipeline succeed, leaves under
`followers:index:{owner}` the list of the `fan_id`s of all fan rows of the owner, ordered
by `created_at` descending, with the service TTL; this holds for every page and size
(also when the call ends in an error or a panic) and whatever the other cache round trips
and the user query do. The store is unchanged. -/
theorem index_coverage (j : JSONCodec) (s : FollowerService) (env : FetchEnv)
    (userID : String) (page size : Int)
    (hidx : s.cache ("followers:index:" ++ userID) = none)
    (hfans : 0 < (fanIDsDesc s.db userID).length)
    (hpipe : env.pipelineErr = false) (hindex : env.indexErr = none) (httl : 0 < s.ttl) :
    (FetchFollowersOptimized j s env userID page size).2.cache ("followers:index:" ++ userID) =
      some ⟨.list (fanIDsDesc s.db userID), some s.ttl⟩ ∧
    (FetchFollowersOptimized j s env userID page size).2.db = s.db ∧
    ∃ rows : List Fan, fanIDsDesc s.db userID = rows.map (fun q => q.FanID) ∧
      rows.Perm (fansOf s.db userID) ∧
      rows.Pairwise (fun x y => x.CreatedAt ≥ y.CreatedAt) := by
  have hfe : FetchFollowersOptimized j s env userID page size =
      fetchOnMiss j s env userID page size := by
    rw [fetch_eq, fetchIDs_absent s env userID page size hidx]
    rfl
  rw [hfe]
  obtain ⟨_, _, g3, g4⟩ := fetchOnMiss_frame j s env userID page size
  refine ⟨?_, g3, fanIDsDesc_complete s.db userID⟩
  rw [g4 _ (indexKey_not_userKey userID)]
  exact loadIDs_index s env userID hindex hpipe hfans httl

theorem index_coverage_witness :
    cacheScenario.cache ("followers:index:" ++ "owner") = none ∧
    (FetchFollowersOptimized lineCodec cacheScenario noisyFetchEnv "owner" 1 2).1 =
      .err "driver: bad connection" ∧
    (FetchFollowersOptimized lineCodec cacheScenario noisyFetchEnv "owner" 1 2).2.cache
        ("followers:index:" ++ "owner") =
      some ⟨.list (fanIDsDesc cacheScenario.db "owner"), some cacheScenario.ttl⟩ ∧
    fanIDsDesc cacheScenario.db "owner" = ["f3", "f2", "f1"] :=
  ⟨rfl, by decide,
    (index_coverage lineCodec cacheScenario noisyFetchEnv "owner" 1 2 rfl (by decide) rfl rfl
      (by decide)).1,
    by decide⟩

/-! ### Pagination of the relationship lists, default poll interval -/

/-- **C24**, counterexample. The offset is computed in 64-bit `int` and wraps: for page
4611686018427387905 (`2^62 + 1`) and page size 4, `(P-1)*L` is `2^64`, past every row, but
the store is asked for offset 0, and `ListFans` and `ListFollowing` return the first
rows. -/
theorem list_offset_wraps :
    relationshipService.ListFans none ⟨cacheScenarioDB, none⟩ "owner" 4611686018427387905 4 =
      (some ["f1", "f2", "f3"], none) ∧
    ((cacheScenarioDB.fans.filter (fun q => q.UserID == "owner")).drop
      ((4611686018427387905 - 1) * 4 : Int).toNat).take 4 = [] ∧
    relationshipService.ListFollowing none
        ⟨{ DB.empty with follows := [⟨"r1", "owner", "f1", 1, 1⟩] }, none⟩ "owner"
        4611686018427387905 4 = (some ["f1"], none) ∧
    wrapInt ((4611686018427387905 - 1) * 4) = 0 := by
  refine ⟨by decide, by decide, by decide, by decide⟩

/-- **C24**, as the code has it. `ListFollowing` and `ListFans` paginate 1-indexed with
clamping. With `P = page` if `page ≥ 1`, else 1, and `L = pageSize` if `pageSize ≥ 1`, else
10, the store is asked for the edges of the user with limit `L` and the offset `(P-1)*L`
as 64-bit `int` arithmetic gives it (`wrapInt`); a store error is returned with a nil
list; otherwise the result is the `FolloweeID` (for `ListFans`: the `FanID`) of each
returned edge, one element per edge in the store's order. When `(P-1)*L` is in the range
of `int` (below `2^63`) the offset is `(P-1)*L` and the edges returned are those at the
positions `(P-1)*L .. P*L - 1` among the matching rows. -/
theorem list_paginates_clamped (err : Option Err) (s : RelState) (userID : String)
    (page pageSize : Int) :
    relationshipService.ListFollowing err s userID page pageSize =
      (match followRepository.ListFollowings err s.db userID
          (wrapInt (((if page ≥ 1 then page else 1) - 1) *
            (if pageSize ≥ 1 then pageSize else 10)))
          (if pageSize ≥ 1 then pageSize else 10) with
       | (_, some e) => (none, some e)
       | (items, none) => (some (items.map (fun it => it.FolloweeID)), none)) ∧
    relationshipService.ListFans err s userID page pageSize =
      (match fanRepository.ListFans err s.db userID
          (wrapInt (((if page ≥ 1 then page else 1) - 1) *
            (if pageSize ≥ 1 then pageSize else 10)))
          (if pageSize ≥ 1 then pageSize else 10) with
       | (_, some e) => (none, some e)
       | (items, none) => (some (items.map (fun it => it.FanID)), none)) ∧
    (∀ e, err = some e →
      relationshipService.ListFollowing err s userID page pageSize = (none, some e) ∧
      relationshipService.ListFans err s userID page pageSize = (none, some e)) ∧
    (err = none →
      ((if page ≥ 1 then page else 1) - 1) * (if pageSize ≥ 1 then pageSize else 10) < 2 ^ 63 →
      relationshipService.ListFollowing err s userID page pageSize =
        (some ((((s.db.follows.filter (fun q => q.FollowerID == userID)).drop
          (((if page ≥ 1 then page else 1) - 1) *
            (if pageSize ≥ 1 then pageSize else 10)).toNat).take
          (if pageSize ≥ 1 then pageSize else 10).toNat).map (fun it => it.FolloweeID)), none) ∧
      relationshipService.ListFans err s userID page pageSize =
        (some ((((s.db.fans.filter (fun q => q.UserID == userID)).drop
          (((if page ≥ 1 then page else 1) - 1) *
            (if pageSize ≥ 1 then pageSize else 10)).toNat).take
          (if pageSize ≥ 1 then pageSize else 10).toNat).map (fun it => it.FanID)), none)) := by
  have hp : (if page < 1 then 1 else page) = (if page ≥ 1 then page else 1) := by
    by_cases h : page < 1
    · have : ¬ page ≥ 1 := by omega
      simp only [h, this, if_true, if_false]
    · have : page ≥ 1 := by omega
      simp only [h, this, if_true, if_false]
  have hs : (if pageSize < 1 then 10 else pageSize) = (if pageSize ≥ 1 then pageSize else 10) := by
    by_cases h : pageSize < 1
    · have : ¬ pageSize ≥ 1 := by omega
      simp only [h, this, if_true, if_false]
    · have : pageSize ≥ 1 := by omega
      simp only [h, this, if_true, if_false]
  have hP : 1 ≤ (if page ≥ 1 then page else 1) := by
    by_cases h : page ≥ 1
    · rw [if_pos h]; exact h
    · rw [if_neg h]
  have hL : 1 ≤ (if pageSize ≥ 1 then pageSize else 10) := by
    by_cases h : pageSize ≥ 1
    · rw [if_pos h]; exact h
    · rw [if_neg h]; decide
  have h1 : relationshipService.ListFollowing err s userID page pageSize =
      (match followRepository.ListFollowings err s.db userID
          (wrapInt (((if page ≥ 1 then page else 1) - 1) *
            (if pageSize ≥ 1 then pageSize else 10)))
          (if pageSize ≥ 1 then pageSize else 10) with
       | (_, some e) => (none, some e)
       | (items, none) => (some (items.map (fun it => it.FolloweeID)), none)) := by
    unfold relationshipService.ListFollowing
    simp only [hp, hs]
  have h2 : relationshipService.ListFans err s userID page pageSize =
      (match fanRepository.ListFans err s.db userID
          (wrapInt (((if page ≥ 1 then page else 1) - 1) *
            (if pageSize ≥ 1 then pageSize else 10)))
          (if pageSize ≥ 1 then pageSize else 10) with
       | (_, some e) => (none, some e)
       | (items, none) => (some (items.map (fun it => it.FanID)), none)) := by
    unfold relationshipService.ListFans
    simp only [hp, hs]
  refine ⟨h1, h2, ?_, ?_⟩
  · intro e he
    rw [h1, h2, he]
    exact ⟨rfl, rfl⟩
  · intro he hbound
    generalize (if page ≥ 1 then page else 1) = P at *
    generalize (if pageSize ≥ 1 then pageSize else 10) = L at *
    have h0 : 0 ≤ (P - 1) * L := mul_nonneg (by omega) (by omega)
    have hw : wrapInt ((P - 1) * L) = (P - 1) * L :=
      wrapInt_of_range _ (by omega) hbound
    rw [h1, h2, he, hw]
    unfold followRepository.ListFollowings fanRepository.ListFans
    simp only
    rw [offsetLimit_nat _ _ _ (by omega), offsetLimit_nat _ _ _ (by omega)]
    exact ⟨rfl, rfl⟩

/-- The pagination at a concrete input: page 2 of size 2 of the three fans of `owner` is
the third fan. -/
theorem list_paginates_clamped_witness :
    relationshipService.ListFans none ⟨cacheScenarioDB, none⟩ "owner" 2 2 =
      (some ((((cacheScenarioDB.fans.filter (fun q => q.UserID == "owner")).drop
        (((if (2 : Int) ≥ 1 then (2 : Int) else 1) - 1) *
          (if (2 : Int) ≥ 1 then (2 : Int) else 10)).toNat).take
        (if (2 : Int) ≥ 1 then (2 : Int) else 10).toNat).map (fun it => it.FanID)), none) ∧
    relationshipService.ListFans none ⟨cacheScenarioDB, none⟩ "owner" 2 2 =
      (some ["f3"], none) :=
  ⟨((list_paginates_clamped none ⟨cacheScenarioDB, none⟩ "owner" 2 2).2.2.2 rfl
      (by decide)).2, by decide⟩

/-- **C25**, counterexample. A worker built with a non-positive `pollInterval` ticks every
50 ms, not every 20 ms. -/
theorem default_poll_interval_is_50ms :
    loopTickerPeriod (NewFanoutWorker 4 500 128 0) = 50 * 1000000 ∧
    loopTickerPeriod (NewFanoutWorker 4 500 128 0) ≠ 20 * 1000000 ∧
    loopTickerPeriod (NewFanoutWorker 0 0 0 (-5)) = 50 * 1000000 := by
  decide

/-- **C25**, as the code has it. The ticker of a worker built by `NewFanoutWorker` has the
period 50 ms when the given `pollInterval` is not positive, and the given `pollInterval`
otherwise; the period is always positive (`time.NewTicker` does not panic). -/
theorem poll_interval_default (workers batchSize claimLimit pollInterval : Int) :
    loopTickerPeriod (NewFanoutWorker workers batchSize claimLimit pollInterval) =
      (if pollInterval ≤ 0 then 50 * 1000000 else pollInterval) ∧
    0 < loopTickerPeriod (NewFanoutWorker workers batchSize claimLimit pollInterval) := by
  unfold loopTickerPeriod NewFanoutWorker
  by_cases h : pollInterval ≤ 0
  · simp only [h, if_true]
    exact ⟨trivial, by decide⟩
  · simp only [h, if_false]
    exact ⟨trivial, by omega⟩

/-! ### Order repositories -/

theorem tmod_eight_nonneg (x : Int) (hx : 0 ≤ x) :
    Int.tmod x 8 = x % 8 ∧ 0 ≤ Int.tmod x 8 ∧ Int.tmod x 8 < 8 := by
  have h := Int.tmod_eq_emod hx (show (0 : Int) ≤ 8 by decide)
  rw [h]
  exact ⟨rfl, Int.emod_nonneg x (by decide), Int.emod_lt_of_pos x (by decide)⟩

theorem shiftRight_eight (x : Int) : x >>> (8 : Nat) = x / 256 := by
  rw [Int.shiftRight_eq_div_pow]
  rfl

theorem route_order_nonneg (orderID : Int) (h : 0 ≤ orderID) :
    RouteByOrderID orderID = ((orderID / 256) % 8, orderID % 8) ∧
    0 ≤ (RouteByOrderID orderID).1 ∧ (RouteByOrderID orderID).1 < ShardCount ∧
    0 ≤ (RouteByOrderID orderID).2 ∧ (RouteByOrderID orderID).2 < TableCount := by
  have hd : 0 ≤ orderID / 256 := Int.ediv_nonneg h (by decide)
  obtain ⟨a1, a2, a3⟩ := tmod_eight_nonneg (orderID / 256) hd
  obtain ⟨b1, b2, b3⟩ := tmod_eight_nonneg orderID h
  unfold RouteByOrderID ShardCount TableCount
  rw [shiftRight_eight]
  refine ⟨by rw [a1, b1], a2, a3, b2, b3⟩

theorem route_user_nonneg (userID : Int) (h : 0 ≤ userID) :
    RouteByUserID userID = userID % 8 ∧ 0 ≤ RouteByUserID userID ∧
    RouteByUserID userID < ShardCount := by
  unfold RouteByUserID ShardCount
  exact tmod_eight_nonneg userID h

theorem goIndex_some {α : Type} (xs : List α) (i : Int) (h0 : 0 ≤ i)
    (h1 : i < (xs.length : Int)) : ∃ x, goIndex xs i = some x ∧ xs[i.toNat]? = some x := by
  have hlt : i.toNat < xs.length := by omega
  refine ⟨xs[i.toNat], ?_, List.getElem?_eq_getElem hlt⟩
  unfold goIndex
  rw [if_pos ⟨h0, h1⟩]
  exact List.getElem?_eq_getElem hlt

theorem goIndex_neg {α : Type} (xs : List α) (i : Int) (h : i < 0) : goIndex xs i = none := by
  unfold goIndex
  have : ¬ (0 ≤ i ∧ i < (xs.length : Int)) := by omega
  rw [if_neg this]

theorem goIndex_mem {α : Type} (xs : List α) (i : Int) (x : α) (h : goIndex xs i = some x) :
    x ∈ xs := by
  unfold goIndex at h
  split at h
  · exact List.getElem?_mem h
  · exact absurd h (by simp)

/-- The table an order id is routed to, in a well-formed repository. -/
theorem routed_table (r : ShardedOrderRepository) (hwf : ShardsWellFormed r) (orderID : Int)
    (h : 0 ≤ orderID) :
    ∃ db rows, goIndex r.shards (RouteByOrderID orderID).1 = some db ∧
      goIndex db (RouteByOrderID orderID).2 = some rows ∧
      r.shards[(RouteByOrderID orderID).1.toNat]? = some db ∧
      db[(RouteByOrderID orderID).2.toNat]? = some rows := by
  obtain ⟨_, r1, r2, r3, r4⟩ := route_order_nonneg orderID h
  obtain ⟨db, hdb, hdb1⟩ := goIndex_some r.shards (RouteByOrderID orderID).1 r1
    (by rw [hwf.1]; exact r2)
  have hlen := hwf.2 db (goIndex_mem _ _ _ hdb)
  obtain ⟨rows, hrows, hrows1⟩ := goIndex_some db (RouteByOrderID orderID).2 r3
    (by rw [hlen]; exact r4)
  exact ⟨db, rows, hdb, hrows, hdb1, hrows1⟩

/-- What `NewShardedOrderRepository` returns has 8 databases of 8 tables. -/
theorem new_repo_wellFormed (dbs : List (Nat → List Order)) (r : ShardedOrderRepository)
    (h : NewShardedOrderRepository dbs = .ok r) : ShardsWellFormed r := by
  unfold NewShardedOrderRepository at h
  split at h
  · exact absurd h (by simp)
  · rename_i hlen
    have hl : dbs.length = 8 := by
      have : (dbs.length : Int) = ShardCount := by
        by_contra hc
        exact hlen hc
      unfold ShardCount at this
      omega
    simp only [Except.ok.injEq] at h
    rw [← h]
    constructor
    · simp only [List.length_map]
      exact hl
    · intro db hdb
      obtain ⟨f, _, rfl⟩ := List.mem_map.mp hdb
      simp only [List.length_map, List.length_range]
      rfl

/-- **C27** (routing rule and bounds). For `orderID ≥ 0`, `RouteByOrderID` returns
`dbIndex = (orderID div 256) mod 8` and `tableIndex = orderID mod 8`, with
`0 ≤ dbIndex < ShardCount` and `0 ≤ tableIndex < TableCount`; for `userID ≥ 0`,
`0 ≤ RouteByUserID(userID) < ShardCount`. In a repository of 8 databases with 8 tables,
which is what `NewShardedOrderRepository` builds, `Create`, `GetByOrderID` and `UpdateStatus` of such an order id do not panic, and all three
work on the rows at `shards[dbIndex][tableIndex]` for the same pair of indexes: `Create`
inserts there, `GetByOrderID` searches there, `UpdateStatus` updates there, and the
shape of the repository is kept. -/
theorem routing_in_range (orderID userID : Int) (ho : 0 ≤ orderID) (hu : 0 ≤ userID) :
    RouteByOrderID orderID = ((orderID / 256) % 8, orderID % 8) ∧
    0 ≤ (RouteByOrderID orderID).1 ∧ (RouteByOrderID orderID).1 < ShardCount ∧
    0 ≤ (RouteByOrderID orderID).2 ∧ (RouteByOrderID orderID).2 < TableCount ∧
    0 ≤ RouteByUserID userID ∧ RouteByUserID userID < ShardCount ∧
    (∀ dbs r, NewShardedOrderRepository dbs = .ok r → ShardsWellFormed r) ∧
    ∀ r : ShardedOrderRepository, ShardsWellFormed r →
      ∃ db rows, r.shards[((orderID / 256) % 8).toNat]? = some db ∧
        db[(orderID % 8).toNat]? = some rows ∧
        (∀ (env : OrderCreateEnv) (o : Order), o.OrderID = orderID →
          ShardedOrderRepository.Create env r o =
            some ((createOrder env rows o).1,
              ⟨r.shards.set ((orderID / 256) % 8).toNat
                (db.set (orderID % 8).toNat (createOrder env rows o).2)⟩) ∧
          ∀ r1 e, ShardedOrderRepository.Create env r o = some (e, r1) → ShardsWellFormed r1) ∧
        (∀ err, ShardedOrderRepository.GetByOrderID err r orderID =
          some (firstOrder err rows orderID)) ∧
        (∀ err status, ShardedOrderRepository.UpdateStatus err r orderID status =
          some ((updateOrderStatus err rows orderID status).1,
            ⟨r.shards.set ((orderID / 256) % 8).toNat
              (db.set (orderID % 8).toNat (updateOrderStatus err rows orderID status).2)⟩)) := by
  obtain ⟨r0, r1, r2, r3, r4⟩ := route_order_nonneg orderID ho
  obtain ⟨_, u1, u2⟩ := route_user_nonneg userID hu
  refine ⟨r0, r1, r2, r3, r4, u1, u2, new_repo_wellFormed, ?_⟩
  intro r hwf
  obtain ⟨db, rows, hdb, hrows, hdb1, hrows1⟩ := routed_table r hwf orderID ho
  have e1 : (RouteByOrderID orderID).1 = (orderID / 256) % 8 := by rw [r0]
  have e2 : (RouteByOrderID orderID).2 = orderID % 8 := by rw [r0]
  rw [e1] at hdb hdb1
  rw [e2] at hrows hrows1
  refine ⟨db, rows, hdb1, hrows1, ?_, ?_, ?_⟩
  · intro env o ho1
    have hc : ShardedOrderRepository.Create env r o =
        some ((createOrder env rows o).1,
          ⟨r.shards.set ((orderID / 256) % 8).toNat
            (db.set (orderID % 8).toNat (createOrder env rows o).2)⟩) := by
      unfold ShardedOrderRepository.Create
      simp only [ho1, e1, e2, hdb, hrows]
    refine ⟨hc, ?_⟩
    intro r1 e hr1
    rw [hc] at hr1
    simp only [Option.some.injEq, Prod.mk.injEq] at hr1
    rw [← hr1.2]
    constructor
    · simp only [List.length_set]
      exact hwf.1
    · intro d hd
      rcases List.mem_or_eq_of_mem_set hd with h | h
      · exact hwf.2 d h
      · rw [h, List.length_set]
        exact hwf.2 db (List.getElem?_mem hdb1)
  · intro err
    unfold ShardedOrderRepository.GetByOrderID
    simp only [e1, e2, hdb, hrows]
  · intro err status
    unfold ShardedOrderRepository.UpdateStatus
    simp only [e1, e2, hdb, hrows]

theorem emptyShards_wellFormed : ShardsWellFormed emptyShards := by
  unfold ShardsWellFormed emptyShards
  refine ⟨by decide, ?_⟩
  intro db hdb
  simp only [List.mem_replicate] at hdb
  rw [hdb.2]
  rfl

theorem routing_in_range_witness :
    (0 : Int) ≤ 1000 ∧ (0 : Int) ≤ 1 ∧
    RouteByOrderID 1000 = (3, 0) ∧ RouteByUserID 1 = 1 ∧
    RouteByOrderID 1000 = ((1000 / 256) % 8, 1000 % 8) :=
  ⟨by decide, by decide, by decide, by decide,
    (routing_in_range 1000 1 (by decide) (by decide)).1⟩

/-- **C30** (negative ids route out of range). `RouteByOrderID(-1)` is `(-1, -1)` and
`RouteByUserID(-1)` is `-1`, and for any repository (whatever its shape) `Create`,
`GetByOrderID` and `UpdateStatus` of order id `-1` and `GetByUserID` of user id `-1` end in
the index-out-of-range panic. More generally every lookup with a negative `dbIndex`
panics. Not every negative id is out of range: `-2048` routes to `(0, 0)`. -/
theorem negative_ids_out_of_range :
    RouteByOrderID (-1) = (-1, -1) ∧ RouteByUserID (-1) = -1 ∧
    RouteByOrderID (-2048) = (0, 0) ∧
    (∀ (r : ShardedOrderRepository) (env : OrderCreateEnv) (o : Order),
      (RouteByOrderID o.OrderID).1 < 0 → ShardedOrderRepository.Create env r o = none) ∧
    (∀ (r : ShardedOrderRepository) (err : Option Err) (orderID : Int),
      (RouteByOrderID orderID).1 < 0 →
      ShardedOrderRepository.GetByOrderID err r orderID = none) ∧
    (∀ (r : ShardedOrderRepository) (err : Option Err) (orderID status : Int),
      (RouteByOrderID orderID).1 < 0 →
      ShardedOrderRepository.UpdateStatus err r orderID status = none) ∧
    (∀ (r : ShardedOrderRepository) (env : UserQueryEnv) (userID limit : Int),
      RouteByUserID userID < 0 →
      ShardedOrderRepository.GetByUserID env r userID limit = none) ∧
    (∀ (r : ShardedOrderRepository) (env : OrderCreateEnv) (o : Order),
      o.OrderID = -1 → ShardedOrderRepository.Create env r o = none) ∧
    (∀ (r : ShardedOrderRepository) (env : UserQueryEnv) (limit : Int),
      ShardedOrderRepository.GetByUserID env r (-1) limit = none) := by
  have hc : ∀ (r : ShardedOrderRepository) (env : OrderCreateEnv) (o : Order),
      (RouteByOrderID o.OrderID).1 < 0 → ShardedOrderRepository.Create env r o = none := by
    intro r env o h
    unfold ShardedOrderRepository.Create
    simp only [goIndex_neg r.shards _ h]
  have hu : ∀ (r : ShardedOrderRepository) (env : UserQueryEnv) (userID limit : Int),
      RouteByUserID userID < 0 →
      ShardedOrderRepository.GetByUserID env r userID limit = none := by
    intro r env userID limit h
    unfold ShardedOrderRepository.GetByUserID
    simp only [goIndex_neg r.shards _ h]
  refine ⟨by decide, by decide, by decide, hc, ?_, ?_, hu, ?_, ?_⟩
  · intro r err orderID h
    unfold ShardedOrderRepository.GetByOrderID
    simp only [goIndex_neg r.shards _ h]
  · intro r err orderID status h
    unfold ShardedOrderRepository.UpdateStatus
    simp only [goIndex_neg r.shards _ h]
  · intro r env o ho
    exact hc r env o (by rw [ho]; decide)
  · intro r env limit
    exact hu r env (-1) limit (by decide)

/-- **C26** fails on the code: `Create` routes by the order id, `GetByUserID` by the user id.
The benchmark's first order of user 1 has `OrderID = 1000`; `Create` stores it in table
`orders_0` of database 3 (`(1000 >> 8) % 8 = 3`), while `GetByUserID(1, 20)` reads the
tables of database 1 (`1 % 8 = 1`) and returns the empty list. The single-database
repository, given the same `Create`, returns the order. -/
theorem sharded_user_lookup_misses :
    RouteByOrderID (benchOrder 1 0 500).OrderID = (3, 0) ∧
    RouteByUserID (benchOrder 1 0 500).UserID = 1 ∧
    (∃ r1, ShardedOrderRepository.Create ⟨900, none⟩ emptyShards (benchOrder 1 0 500)
        = some (none, r1) ∧
      (∃ db, r1.shards[3]? = some db ∧ db[0]? = some [benchOrder 1 0 500]) ∧
      ShardedOrderRepository.GetByOrderID none r1 1000 =
        some (some (benchOrder 1 0 500), none) ∧
      ShardedOrderRepository.GetByUserID quietUserQueryEnv r1 1 20 = some (some [], none)) ∧
    (SingleDBOrderRepository.GetByUserID none
        (SingleDBOrderRepository.Create ⟨900, none⟩ ⟨[]⟩ (benchOrder 1 0 500)).2 1 20).1 =
      some [benchOrder 1 0 500] := by
  refine ⟨by decide, by decide, ⟨_, rfl, ⟨_, rfl, by decide⟩, by decide, by decide⟩, by decide⟩

/-! ### The most recent values of a merged list -/

theorem descKeys_sorted (l : List Int) : (descKeys l).Pairwise (fun x y => x ≥ y) := by
  haveI : IsTotal Int (fun x y => x ≥ y) := ⟨fun a b => le_total b a⟩
  haveI : IsTrans Int (fun x y => x ≥ y) := ⟨fun a b c h1 h2 => le_trans h2 h1⟩
  exact List.sorted_insertionSort _ l

theorem descKeys_perm (l : List Int) : (descKeys l).Perm l :=
  List.perm_insertionSort _ l

theorem descKeys_unique {l s : List Int} (hp : s.Perm l)
    (hs : s.Pairwise (fun x y => x ≥ y)) : s = descKeys l := by
  haveI : IsAntisymm Int (fun x y => x ≥ y) := ⟨fun a b h1 h2 => le_antisymm h2 h1⟩
  exact List.eq_of_perm_of_sorted (hp.trans (descKeys_perm l).symm) hs (descKeys_sorted l)

theorem descKeys_congr {l1 l2 : List Int} (hp : l1.Perm l2) : descKeys l1 = descKeys l2 :=
  descKeys_unique ((descKeys_perm l1).trans hp) (descKeys_sorted l1)

theorem take_cons_const (b : Int) :
    ∀ (L : Nat) (s : List Int), L ≤ s.length → (∀ x ∈ s.take L, x = b) →
      (b :: s).take L = s.take L := by
  intro L
  induction L with
  | zero => intro s _ _; rfl
  | succ L ih =>
    intro s hlen hall
    cases s with
    | nil => simp at hlen
    | cons c s =>
      have hc : c = b := hall c (by simp)
      subst hc
      simp only [List.take_succ_cons]
      congr 1
      apply ih s (by simpa using hlen)
      intro x hx
      exact hall x (by simp [hx])

theorem take_orderedInsert (d : Int) :
    ∀ (s : List Int) (L : Nat), s.Pairwise (fun x y => x ≥ y) → L ≤ s.length →
      (∀ x ∈ s.take L, x ≥ d) →
      (s.orderedInsert (fun x y => x ≥ y) d).take L = s.take L := by
  intro s
  induction s with
  | nil =>
    intro L _ hlen _
    have : L = 0 := by simpa using hlen
    subst this
    rfl
  | cons b s ih =>
    intro L hs hlen hall
    cases L with
    | zero => rfl
    | succ L =>
      have hb : b ≥ d := hall b (by simp)
      have hs1 := List.pairwise_cons.mp hs
      simp only [List.orderedInsert]
      by_cases hdb : d ≥ b
      · rw [if_pos hdb]
        have hbd : d = b := le_antisymm hb hdb
        subst hbd
        simp only [List.take_succ_cons]
        congr 1
        apply take_cons_const d L s (by simpa using hlen)
        intro x hx
        have h1 : x ≥ d := hall x (by simp [hx])
        have h2 : d ≥ x := hs1.1 x (List.mem_of_mem_take hx)
        exact le_antisymm h2 h1
      · rw [if_neg hdb]
        simp only [List.take_succ_cons]
        congr 1
        apply ih L hs1.2 (by simpa using hlen)
        intro x hx
        exact hall x (by simp [hx])

theorem take_ge_of_count (d : Int) :
    ∀ (s : List Int) (L : Nat), s.Pairwise (fun x y => x ≥ y) →
      L ≤ (s.filter (fun x => decide (x ≥ d))).length → ∀ x ∈ s.take L, x ≥ d := by
  intro s
  induction s with
  | nil => intro L _ _ x hx; simp at hx
  | cons b s ih =>
    intro L hs hcount x hx
    cases L with
    | zero => simp at hx
    | succ L =>
      have hs1 := List.pairwise_cons.mp hs
      by_cases hb : b ≥ d
      · simp only [List.take_succ_cons, List.mem_cons] at hx
        rcases hx with hx | hx
        · rw [hx]; exact hb
        · apply ih L hs1.2 _ x hx
          simp only [List.filter_cons, hb, decide_True, if_true, List.length_cons] at hcount
          omega
      · have hnil : s.filter (fun x => decide (x ≥ d)) = [] := by
          rw [List.filter_eq_nil_iff]
          intro y hy hyd
          have h1 : b ≥ y := hs1.1 y hy
          have h2 : y ≥ d := by simpa using hyd
          exact hb (le_trans h2 h1)
        simp only [List.filter_cons, hb, decide_False, Bool.false_eq_true, if_false, hnil,
          List.length_nil] at hcount
        omega

theorem filter_length_le_length {α : Type} (p : α → Bool) (l : List α) :
    (l.filter p).length ≤ l.length := List.length_filter_le p l

/-- Adding values below the `L` largest does not change the `L` largest. -/
theorem take_desc_append (A : List Int) (L : Nat) :
    ∀ D : List Int, (∀ d ∈ D, L ≤ (A.filter (fun x => decide (x ≥ d))).length) →
      (descKeys (D ++ A)).take L = (descKeys A).take L := by
  intro D
  induction D with
  | nil => intro _; rfl
  | cons d D ih =>
    intro h
    have ihD := ih (fun e he => h e (List.mem_cons_of_mem _ he))
    have hd := h d (List.mem_cons_self _ _)
    have hstep : descKeys (d :: D ++ A) =
        (descKeys (D ++ A)).orderedInsert (fun x y => x ≥ y) d := rfl
    rw [hstep, ← ihD]
    have hcount : L ≤ ((descKeys (D ++ A)).filter (fun x => decide (x ≥ d))).length := by
      have h1 := ((descKeys_perm (D ++ A)).filter (fun x => decide (x ≥ d))).length_eq
      rw [h1, List.filter_append, List.length_append]
      omega
    apply take_orderedInsert d _ L (descKeys_sorted _)
    · exact le_trans hcount (List.length_filter_le _ _)
    · exact take_ge_of_count d _ L (descKeys_sorted _) hcount

theorem filter_length_flatMap {α β : Type} (p : β → Bool) (f : α → List β) (a : α) :
    ∀ l : List α, a ∈ l → ((f a).filter p).length ≤ ((l.flatMap f).filter p).length := by
  intro l
  induction l with
  | nil => intro h; simp at h
  | cons b l ih =>
    intro h
    simp only [List.flatMap_cons, List.filter_append, List.length_append]
    rcases List.mem_cons.mp h with h1 | h1
    · rw [h1]; omega
    · have := ih h1
      omega

/-- Merging the first `m ≥ L` values of each sorted table gives the same `L` largest values
as merging the whole tables. -/
theorem take_desc_flatMap (tabs : List (List Int)) (L m : Nat) (hm : L ≤ m)
    (hsorted : ∀ T ∈ tabs, T.Pairwise (fun x y => x ≥ y)) :
    (descKeys (tabs.flatMap (fun T => T.take m))).take L =
      (descKeys (tabs.flatMap (fun T => T))).take L := by
  have hperm : (tabs.flatMap (fun T => T)).Perm
      (tabs.flatMap (fun T => T.drop m) ++ tabs.flatMap (fun T => T.take m)) := by
    have h1 := List.flatMap_append_perm tabs (fun T => T.take m) (fun T => T.drop m)
    simp only [List.take_append_drop] at h1
    exact h1.symm.trans List.perm_append_comm
  rw [descKeys_congr hperm]
  symm
  apply take_desc_append
  intro d hd
  obtain ⟨T, hT, hdT⟩ := List.mem_flatMap.mp hd
  have hsT := hsorted T hT
  rw [← List.take_append_drop m T, List.pairwise_append] at hsT
  have hlen : (T.take m).length = m := by
    rw [List.length_take]
    have : m < T.length := by
      by_contra hc
      rw [List.drop_eq_nil_of_le (by omega)] at hdT
      exact absurd hdT (List.not_mem_nil _)
    omega
  have hall : (T.take m).filter (fun x => decide (x ≥ d)) = T.take m := by
    rw [List.filter_eq_self]
    intro x hx
    simpa using hsT.2.2 x hx d hdT
  have hle := filter_length_flatMap (fun x => decide (x ≥ d)) (fun T : List Int => T.take m)
    T tabs hT
  rw [hall, hlen] at hle
  omega

/-! ### The sharded query by user -/

theorem wrapInt_double (limit : Int) (h1 : 1 ≤ limit) (h2 : limit < 2 ^ 63) :
    wrapInt (limit * 2) < 0 ∨ limit ≤ wrapInt (limit * 2) := by
  have e63 : (2 : Int) ^ 63 = 9223372036854775808 := by norm_num
  have e64 : (2 : Int) ^ 64 = 18446744073709551616 := by norm_num
  unfold wrapInt
  rw [e63] at h2
  rw [e63, e64]
  omega

theorem orders_sorted (l : List Order) :
    (l.insertionSort (fun x y => x.CreatedAt ≥ y.CreatedAt)).Pairwise
      (fun x y => x.CreatedAt ≥ y.CreatedAt) := by
  haveI : IsTotal Order (fun x y => x.CreatedAt ≥ y.CreatedAt) :=
    ⟨fun a b => le_total b.CreatedAt a.CreatedAt⟩
  haveI : IsTrans Order (fun x y => x.CreatedAt ≥ y.CreatedAt) :=
    ⟨fun a b c h1 h2 => le_trans h2 h1⟩
  exact List.sorted_insertionSort _ l

/-- The `CreatedAt` values of any arrangement of orders that is sorted by `CreatedAt`
non-increasing are the sorted `CreatedAt` values. -/
theorem keys_of_sorted (l s : List Order) (hp : s.Perm l)
    (hs : s.Pairwise (fun x y => x.CreatedAt ≥ y.CreatedAt)) :
    s.map (fun o => o.CreatedAt) = descKeys (l.map (fun o => o.CreatedAt)) :=
  descKeys_unique (hp.map _) (List.pairwise_map.mpr hs)

theorem length_le_flatMap {α : Type} (x : List α) :
    ∀ db : List (List α), x ∈ db → x.length ≤ (db.flatMap id).length := by
  intro db
  induction db with
  | nil => intro h; simp at h
  | cons y db ih =>
    intro h
    simp only [List.flatMap_cons, id, List.length_append]
    rcases List.mem_cons.mp h with h1 | h1
    · rw [h1]; omega
    · have := ih h1
      simp only [id] at this
      omega

/-- The `CreatedAt` values one table query returns: the first values of the sorted
`CreatedAt` values of the user's rows in that table. -/
theorem ordersOfUser_keys (rows : List Order) (userID n : Int) (B L : Nat)
    (hB : rows.length ≤ B) :
    (ordersOfUser rows userID n).map (fun o => o.CreatedAt) =
      (descKeys ((rows.filter (fun q => q.UserID == userID)).map (fun o => o.CreatedAt))).take
        (if n < 0 then L + B else n.toNat) := by
  have hk := keys_of_sorted (rows.filter (fun q => q.UserID == userID))
    ((rows.filter (fun q => q.UserID == userID)).insertionSort
      (fun x y => x.CreatedAt ≥ y.CreatedAt))
    (List.perm_insertionSort _ _) (orders_sorted _)
  unfold ordersOfUser sqlLimit
  by_cases hn : n < 0
  · rw [if_pos hn, if_pos hn, hk]
    symm
    apply List.take_of_length_le
    rw [(descKeys_perm _).length_eq, List.length_map]
    have := List.length_filter_le (fun q : Order => q.UserID == userID) rows
    omega
  · rw [if_neg hn, if_neg hn, List.map_take, hk]

theorem length_eight {α : Type} (l : List α) (h : l.length = 8) :
    ∃ a0 a1 a2 a3 a4 a5 a6 a7, l = [a0, a1, a2, a3, a4, a5, a6, a7] := by
  match l, h with
  | [a0, a1, a2, a3, a4, a5, a6, a7], _ => exact ⟨a0, a1, a2, a3, a4, a5, a6, a7, rfl⟩

/-- The eight lookups `shards[dbIdx][0..7]` in a database of eight tables. -/
theorem shard_lookup {β : Type} (db : List (List Order)) (hlen : db.length = 8)
    (f : List Order → List β) :
    (List.range TableCount.toNat).any (fun t => (goIndex db (t : Int)).isNone) = false ∧
    (List.range 8).flatMap (fun t =>
      match goIndex db (t : Int) with
      | some rows => f rows
      | none => []) = db.flatMap f := by
  obtain ⟨a0, a1, a2, a3, a4, a5, a6, a7, rfl⟩ := length_eight db hlen
  constructor
  · rfl
  · rfl

/-- **C28** (sharded merge against the single-database query on the routed database). For
`userID ≥ 0` and `1 ≤ limit` (an `int`), in a repository of 8 databases with 8 tables,
when no table query fails, whatever the order in which the goroutines deliver and
whatever way `sort.Slice` arranges equal `CreatedAt` values: `GetByUserID` returns a list
with a nil error; the list has at most `limit` elements; it is ordered by `CreatedAt`
non-increasing; every element is an order of that user from a table of the database
`RouteByUserID(userID)`; and its `CreatedAt` values are, position by position, those of
the list `SingleDBOrderRepository.GetByUserID` returns on the rows of all 8 tables of that
database, that is of the `limit` most recent orders of the user. -/
theorem sharded_merge_top_limit (env : UserQueryEnv) (r : ShardedOrderRepository)
    (userID limit : Int)
    (hwf : ShardsWellFormed r) (hu : 0 ≤ userID) (hl : 1 ≤ limit) (hint : limit < 2 ^ 63)
    (herr : ∀ t, env.tableErr t = none) (harr : env.arrival.Perm (List.range 8))
    (hsort : SortsByCreatedAt env.sortSlice) :
    ∃ res db, ShardedOrderRepository.GetByUserID env r userID limit = some (some res, none) ∧
      r.shards[(RouteByUserID userID).toNat]? = some db ∧
      (res.length : Int) ≤ limit ∧
      res.Pairwise (fun x y => x.CreatedAt ≥ y.CreatedAt) ∧
      (∀ o ∈ res, o.UserID = userID ∧ ∃ rows ∈ db, o ∈ rows) ∧
      ∃ ref, SingleDBOrderRepository.GetByUserID none ⟨db.flatMap id⟩ userID limit
          = (some ref, none) ∧
        res.map (fun o => o.CreatedAt) = ref.map (fun o => o.CreatedAt) := by
  obtain ⟨_, u1, u2⟩ := route_user_nonneg userID hu
  obtain ⟨db, hdb, hdb1⟩ := goIndex_some r.shards (RouteByUserID userID) u1
    (by rw [hwf.1]; exact u2)
  have hlen := hwf.2 db (goIndex_mem _ _ _ hdb)
  set n := wrapInt (limit * 2) with hn
  obtain ⟨hany, hlook⟩ := shard_lookup db hlen (fun rows => ordersOfUser rows userID n)
  -- the merged slice
  set A := env.arrival.flatMap (fun t =>
      match goIndex db (t : Int) with
      | some rows => ordersOfUser rows userID n
      | none => []) with hA
  have hAperm : A.Perm (db.flatMap (fun rows => ordersOfUser rows userID n)) := by
    rw [← hlook]
    exact List.Perm.flatMap_right _ harr
  obtain ⟨hsp, hss⟩ := hsort A
  set L := limit.toNat with hL
  have hLint : (L : Int) = limit := by omega
  -- the value returned
  have hres : ShardedOrderRepository.GetByUserID env r userID limit =
      some (some ((env.sortSlice A).take L), none) := by
    unfold ShardedOrderRepository.GetByUserID
    have hnoerr : env.arrival.filterMap env.tableErr = [] := by
      rw [List.filterMap_eq_nil_iff]
      intro a _
      exact herr a
    simp only [hdb, hany, Bool.false_eq_true, if_false, hnoerr]
    rw [← hn, ← hA]
    by_cases hgt : ((env.sortSlice A).length : Int) > limit
    · rw [if_pos hgt]
      have hsl : goSlice (env.sortSlice A) 0 limit = some ((env.sortSlice A).take L) := by
        unfold goSlice
        have hc : (0 : Int) ≤ 0 ∧ 0 ≤ limit ∧ limit ≤ ((env.sortSlice A).length : Int) := by
          omega
        rw [if_pos hc]
        simp only [Int.toNat_zero, List.drop_zero, sub_zero]
      simp only [hsl]
    · rw [if_neg hgt]
      have : List.take L (env.sortSlice A) = env.sortSlice A :=
        List.take_of_length_le (by omega)
      rw [this]
  refine ⟨(env.sortSlice A).take L, db, hres, hdb1, ?_, ?_, ?_, ?_⟩
  · rw [List.length_take]
    omega
  · exact List.Pairwise.sublist (List.take_sublist _ _) hss
  · intro o ho
    have ho1 : o ∈ A := hsp.subset (List.mem_of_mem_take ho)
    have ho2 := hAperm.subset ho1
    obtain ⟨rows, hrows, horows⟩ := List.mem_flatMap.mp ho2
    have ho3 : o ∈ (rows.filter (fun q => q.UserID == userID)).insertionSort
        (fun x y => x.CreatedAt ≥ y.CreatedAt) := by
      unfold ordersOfUser sqlLimit at horows
      split at horows
      · exact horows
      · exact List.mem_of_mem_take horows
    have ho4 := List.mem_filter.mp ((List.perm_insertionSort _ _).subset ho3)
    exact ⟨by simpa using ho4.2, rows, hrows, ho4.1⟩
  · refine ⟨ordersOfUser (db.flatMap id) userID limit, rfl, ?_⟩
    -- both sides in terms of sorted CreatedAt values
    set B := (db.flatMap id).length with hB
    set M := (if n < 0 then L + B else n.toNat) with hM
    have hLM : L ≤ M := by
      rcases wrapInt_double limit hl hint with h | h
      · rw [hM, if_pos (by rw [hn]; exact h)]
        omega
      · have hnn : ¬ n < 0 := by rw [hn]; omega
        rw [hM, if_neg hnn]
        rw [← hn] at h
        omega
    set K : List Order → List Int := fun rows =>
      descKeys ((rows.filter (fun q => q.UserID == userID)).map (fun o => o.CreatedAt)) with hK
    have hleft : ((env.sortSlice A).take L).map (fun o => o.CreatedAt) =
        (descKeys ((db.map K).flatMap (fun T => T.take M))).take L := by
      rw [List.map_take, keys_of_sorted A (env.sortSlice A) hsp hss]
      congr 1
      apply descKeys_congr
      refine (hAperm.map _).trans ?_
      rw [List.map_flatMap, List.flatMap_map]
      apply List.Perm.of_eq
      apply List.flatMap_congr
      intro rows hrows
      exact ordersOfUser_keys rows userID n B L (length_le_flatMap rows db hrows)
    have hright : (ordersOfUser (db.flatMap id) userID limit).map (fun o => o.CreatedAt) =
        (descKeys ((db.map K).flatMap (fun T => T))).take L := by
      have h0 := ordersOfUser_keys (db.flatMap id) userID limit B 0 (le_refl _)
      have hnn : ¬ limit < 0 := by omega
      rw [if_neg hnn] at h0
      rw [h0]
      congr 1
      apply descKeys_congr
      rw [List.filter_flatMap, List.map_flatMap, List.flatMap_map]
      apply List.Perm.flatMap_left
      intro rows _
      exact (descKeys_perm _).symm
    rw [hleft, hright]
    apply take_desc_flatMap _ L M hLM
    intro T hT
    obtain ⟨rows, _, rfl⟩ := List.mem_map.mp hT
    exact descKeys_sorted _

/-! ### Store loads of the optimized fetch -/

/-- The body of `loadUsers` with its `cached` map and its `missing` slice named: the bulk
query asks for exactly `missingIDs`, and that list is what the query log gains. -/
theorem loadUsers_eq (j : JSONCodec) (s : FollowerService) (env : FetchEnv)
    (ids : List String) :
    loadUsers j s env ids =
      if ids.length = 0 then (.ok [], s)
      else if 0 < (missingIDs j s env ids).length then
        match env.usersErr with
        | some e => (.err e, { s with userBulkLoad := s.userBulkLoad + 1,
                                      userQueries := s.userQueries ++ [missingIDs j s env ids] })
        | none =>
          (.ok (ids.filterMap
            (storeUsers j env.setErr s.ttl
              (s.db.users.filter (fun u => (missingIDs j s env ids).contains u.ID))
              (cachedHits j s env ids, s.cache)).1),
            { s with userBulkLoad := s.userBulkLoad + 1,
                     userQueries := s.userQueries ++ [missingIDs j s env ids],
                     cache := (storeUsers j env.setErr s.ttl
                       (s.db.users.filter (fun u => (missingIDs j s env ids).contains u.ID))
                       (cachedHits j s env ids, s.cache)).2 })
      else (.ok (ids.filterMap (cachedHits j s env ids)), s) := by
  rfl

theorem missingIDs_of_empty (j : JSONCodec) (s : FollowerService) (env : FetchEnv)
    (ids : List String) (h : ids.length = 0) : missingIDs j s env ids = [] := by
  rw [List.length_eq_zero.mp h]
  rfl

/-- What `loadUsers` does to `UserBulkLoad` and to the query log, and how it ends, whatever
fails: a query is sent, and counted, exactly when `missing` is not empty. -/
theorem loadUsers_counter (j : JSONCodec) (s : FollowerService) (env : FetchEnv)
    (ids : List String) :
    (loadUsers j s env ids).2.userBulkLoad =
      s.userBulkLoad + (if missingIDs j s env ids = [] then 0 else 1) ∧
    (loadUsers j s env ids).2.userQueries =
      s.userQueries ++ (if missingIDs j s env ids = [] then [] else [missingIDs j s env ids]) ∧
    (loadUsers j s env ids).1 ≠ .panic ∧
    (∀ e, (loadUsers j s env ids).1 = .err e ↔
      (missingIDs j s env ids ≠ [] ∧ env.usersErr = some e)) := by
  rw [loadUsers_eq]
  by_cases h0 : ids.length = 0
  · have hnil := missingIDs_of_empty j s env ids h0
    rw [if_pos h0, hnil]
    refine ⟨by simp, by simp, by simp, fun e => by simp⟩
  · rw [if_neg h0]
    by_cases hm : 0 < (missingIDs j s env ids).length
    · have hne : missingIDs j s env ids ≠ [] := List.length_pos.mp hm
      rw [if_pos hm, if_neg hne, if_neg hne]
      cases env.usersErr with
      | some e => refine ⟨rfl, rfl, by simp, fun e1 => by simp [hne]⟩
      | none => refine ⟨rfl, rfl, by simp, fun e1 => by simp⟩
    · have hnil : missingIDs j s env ids = [] := by
        cases hq : missingIDs j s env ids with
        | nil => rfl
        | cons a l => rw [hq] at hm; simp at hm
      rw [if_neg hm, hnil]
      refine ⟨by simp, by simp, by simp, fun e => by simp⟩

theorem loadIDs_result (s : FollowerService) (env : FetchEnv) (userID : String) :
    (loadFollowerIDsAndCache s env userID).1 =
      match env.indexErr with
      | some e => .error e
      | none => .ok (fanIDsDesc s.db userID) := by
  unfold loadFollowerIDsAndCache
  cases env.indexErr with
  | some e => rfl
  | none =>
    simp only
    split <;> rfl

theorem loadIDs_log (s : FollowerService) (env : FetchEnv) (userID : String) :
    (loadFollowerIDsAndCache s env userID).2.userQueries = s.userQueries := by
  unfold loadFollowerIDsAndCache
  cases env.indexErr with
  | some e => rfl
  | none =>
    simp only
    split <;> rfl

/-- The keys `loadFollowerIDsAndCache` leaves alone, whatever fails: all but the index key
of the owner. -/
theorem loadIDs_other_keys (s : FollowerService) (env : FetchEnv) (userID : String)
    (k : String) (hk : k ≠ "followers:index:" ++ userID) :
    (loadFollowerIDsAndCache s env userID).2.cache k = s.cache k := by
  unfold loadFollowerIDsAndCache
  cases env.indexErr with
  | some e => rfl
  | none =>
    simp only
    split
    · simp only [indexPipeline_eq, hk, if_false]
    · rfl

theorem goSlice_in_range (xs : List String) (start size : Int) (h0 : 0 ≤ start)
    (hsize : 1 ≤ size) (hlt : ¬ start ≥ (xs.length : Int)) :
    ∃ ids, goSlice xs start
      (if start + size > (xs.length : Int) then (xs.length : Int) else start + size)
        = some ids := by
  unfold goSlice
  by_cases hs : start + size > (xs.length : Int)
  · rw [if_pos hs]
    have hc : 0 ≤ start ∧ start ≤ (xs.length : Int) ∧ (xs.length : Int) ≤ (xs.length : Int) := by
      omega
    rw [if_pos hc]
    exact ⟨_, rfl⟩
  · rw [if_neg hs]
    have hc : 0 ≤ start ∧ start ≤ start + size ∧ start + size ≤ (xs.length : Int) := by omega
    rw [if_pos hc]
    exact ⟨_, rfl⟩

/-- The miss branch with the three outcomes of its index arithmetic spelled out. -/
theorem fetchOnMiss_eq (j : JSONCodec) (s : FollowerService) (env : FetchEnv)
    (userID : String) (page size : Int) :
    fetchOnMiss j s env userID page size =
      match loadFollowerIDsAndCache s env userID with
      | (.error e, s1) => (.err e, s1)
      | (.ok allIDs, s1) =>
        if wrapInt ((page - 1) * size) ≥ (allIDs.length : Int) then (.ok [], s1)
        else
          match goSlice allIDs (wrapInt ((page - 1) * size))
              (if wrapInt (wrapInt ((page - 1) * size) + size) > (allIDs.length : Int) then
                (allIDs.length : Int) else wrapInt (wrapInt ((page - 1) * size) + size)) with
          | none => (.panic, s1)
          | some ids => loadUsers j s1 env ids := rfl

/-- For every page and size and whatever fails: the call either ends before `loadUsers`
(with the empty list past the end, with the error of the fan-ID query, or in a panic), or
is `loadUsers` on some slice of ids; in both cases on a service that differs from the
given one at most in the index key and in `IndexLoads`. -/
theorem fetch_general_shape (j : JSONCodec) (s : FollowerService) (env : FetchEnv)
    (userID : String) (page size : Int) :
    ∃ s1, (∀ id, s1.cache ("user:" ++ id) = s.cache ("user:" ++ id)) ∧
      s1.db = s.db ∧ s1.ttl = s.ttl ∧ s1.userBulkLoad = s.userBulkLoad ∧
      s1.userQueries = s.userQueries ∧
      (((FetchFollowersOptimized j s env userID page size).2 = s1 ∧
          (fetchIDs s env userID page size).length = 0 ∧
          (((FetchFollowersOptimized j s env userID page size).1 = .ok [] ∧
              env.indexErr = none) ∨
           ((FetchFollowersOptimized j s env userID page size).1 = .panic ∧
              env.indexErr = none) ∨
           ∃ e, env.indexErr = some e ∧
             (FetchFollowersOptimized j s env userID page size).1 = .err e)) ∨
       (∃ ids, FetchFollowersOptimized j s env userID page size = loadUsers j s1 env ids ∧
          ((fetchIDs s env userID page size).length = 0 → env.indexErr = none))) := by
  rw [fetch_eq]
  by_cases h0 : (fetchIDs s env userID page size).length = 0
  · rw [if_pos h0]
    obtain ⟨_, _, f3, f4, f5⟩ := loadIDs_frame s env userID
    have flog := loadIDs_log s env userID
    have hres := loadIDs_result s env userID
    have hother : ∀ id, (loadFollowerIDsAndCache s env userID).2.cache ("user:" ++ id) =
        s.cache ("user:" ++ id) :=
      fun id => loadIDs_other_keys s env userID _ (userKey_ne_indexKey id userID)
    rw [fetchOnMiss_eq]
    rcases hL : loadFollowerIDsAndCache s env userID with ⟨res, s1⟩
    rw [hL] at f3 f4 f5 flog hother hres
    simp only at f3 f4 f5 flog hother hres
    refine ⟨s1, hother, f4, f5, f3, flog, ?_⟩
    cases hie : env.indexErr with
    | some e =>
      rw [hie] at hres
      subst hres
      exact Or.inl ⟨rfl, h0, Or.inr (Or.inr ⟨e, rfl, rfl⟩)⟩
    | none =>
      rw [hie] at hres
      subst hres
      simp only
      by_cases hge : wrapInt ((page - 1) * size) ≥ ((fanIDsDesc s.db userID).length : Int)
      · rw [if_pos hge]
        exact Or.inl ⟨rfl, h0, Or.inl ⟨rfl, trivial⟩⟩
      · rw [if_neg hge]
        cases hg : goSlice (fanIDsDesc s.db userID) (wrapInt ((page - 1) * size))
            (if wrapInt (wrapInt ((page - 1) * size) + size) >
                ((fanIDsDesc s.db userID).length : Int) then
              ((fanIDsDesc s.db userID).length : Int)
             else wrapInt (wrapInt ((page - 1) * size) + size)) with
        | none => exact Or.inl ⟨rfl, h0, Or.inr (Or.inl ⟨rfl, trivial⟩)⟩
        | some ids => exact Or.inr ⟨ids, rfl, fun _ => trivial⟩
  · rw [if_neg h0]
    exact ⟨s, fun _ => rfl, rfl, rfl, rfl, rfl, Or.inr ⟨_, rfl, fun h => absurd h h0⟩⟩

/-- For `page ≥ 1` and `size ≥ 1` with `page * size` in the range of `int`, the slice
expression of the miss branch is within bounds: the call does not panic. -/
theorem fetch_no_panic (j : JSONCodec) (s : FollowerService) (env : FetchEnv)
    (userID : String) (page size : Int) (hpage : 1 ≤ page) (hsize : 1 ≤ size)
    (hbound : page * size < 2 ^ 63) :
    (FetchFollowersOptimized j s env userID page size).1 ≠ .panic := by
  obtain ⟨w1, _, w3⟩ := page_no_wrap page size hpage hsize hbound
  rw [fetch_eq]
  by_cases h0 : (fetchIDs s env userID page size).length = 0
  · rw [if_pos h0, fetchOnMiss_eq]
    rcases hL : loadFollowerIDsAndCache s env userID with ⟨res, s1⟩
    cases res with
    | error e => simp
    | ok allIDs =>
      simp only [w1, w3]
      by_cases hge : (page - 1) * size ≥ (allIDs.length : Int)
      · rw [if_pos hge]
        simp
      · rw [if_neg hge]
        have h0s : 0 ≤ (page - 1) * size := mul_nonneg (by omega) (by omega)
        obtain ⟨ids, hids⟩ := goSlice_in_range allIDs ((page - 1) * size) size h0s hsize hge
        rw [hids]
        exact (loadUsers_counter j s1 env ids).2.2.1
  · rw [if_neg h0]
    exact (loadUsers_counter j s env _).2.2.1

/-- The counters and the query log after one `FetchFollowersOptimized` call and how the
call ends, whatever fails and for every page and size: `IndexLoads` grows by one exactly
when no id came from the cache, `PageQueries` is unchanged, at most one bulk query is sent
and `UserBulkLoad` counts it; the call returns the error of the index query or of the bulk
query, if it issues one that fails, and no other error. -/
theorem fetch_counters (j : JSONCodec) (s : FollowerService) (env : FetchEnv)
    (userID : String) (page size : Int) :
    (FetchFollowersOptimized j s env userID page size).2.indexLoads =
      s.indexLoads + (if (fetchIDs s env userID page size).length = 0 then 1 else 0) ∧
    (FetchFollowersOptimized j s env userID page size).2.pageQueries = s.pageQueries ∧
    (((FetchFollowersOptimized j s env userID page size).2.userBulkLoad = s.userBulkLoad ∧
        (FetchFollowersOptimized j s env userID page size).2.userQueries = s.userQueries) ∨
      ∃ q, q ≠ [] ∧
        (FetchFollowersOptimized j s env userID page size).2.userBulkLoad =
          s.userBulkLoad + 1 ∧
        (FetchFollowersOptimized j s env userID page size).2.userQueries =
          s.userQueries ++ [q]) ∧
    (∀ e, (FetchFollowersOptimized j s env userID page size).1 = .err e ↔
      (((fetchIDs s env userID page size).length = 0 ∧ env.indexErr = some e) ∨
       ((FetchFollowersOptimized j s env userID page size).2.userBulkLoad =
          s.userBulkLoad + 1 ∧ env.usersErr = some e))) := by
  have hcount : (FetchFollowersOptimized j s env userID page size).2.indexLoads =
      s.indexLoads + (if (fetchIDs s env userID page size).length = 0 then 1 else 0) ∧
      (FetchFollowersOptimized j s env userID page size).2.pageQueries = s.pageQueries := by
    rw [fetch_eq]
    by_cases h0 : (fetchIDs s env userID page size).length = 0
    · rw [if_pos h0, if_pos h0]
      obtain ⟨g1, g2, _, _⟩ := fetchOnMiss_frame j s env userID page size
      exact ⟨g1, g2⟩
    · rw [if_neg h0, if_neg h0]
      obtain ⟨_, _, g1, g2, _⟩ := loadUsers_frame j s env (fetchIDs s env userID page size)
      exact ⟨by rw [g1, add_zero], g2⟩
  obtain ⟨s1, _, _, _, hubl, hlog, h⟩ := fetch_general_shape j s env userID page size
  refine ⟨hcount.1, hcount.2, ?_, ?_⟩
  · rcases h with ⟨hs, _, _⟩ | ⟨ids, hf, _⟩
    · rw [hs]
      exact Or.inl ⟨hubl, hlog⟩
    · obtain ⟨c1, c2, _, _⟩ := loadUsers_counter j s1 env ids
      rw [hf, c1, c2, hubl, hlog]
      by_cases hm : missingIDs j s1 env ids = []
      · rw [if_pos hm, if_pos hm]
        exact Or.inl ⟨add_zero _, List.append_nil _⟩
      · rw [if_neg hm, if_neg hm]
        exact Or.inr ⟨_, hm, rfl, rfl⟩
  · intro e
    rcases h with ⟨hs, h0, hr⟩ | ⟨ids, hf, hidx⟩
    · have hsame : ¬ (FetchFollowersOptimized j s env userID page size).2.userBulkLoad =
          s.userBulkLoad + 1 := by
        rw [hs, hubl]
        omega
      rcases hr with ⟨hr, hnone⟩ | ⟨hr, hnone⟩ | ⟨e0, he0, hr⟩
      · rw [hr, hnone]
        simp [hsame]
      · rw [hr, hnone]
        simp [hsame]
      · rw [hr, he0]
        simp only [FetchResult.err.injEq, h0, true_and, Option.some.injEq, hsame, false_and,
          or_false]
    · obtain ⟨c1, _, _, c4⟩ := loadUsers_counter j s1 env ids
      rw [hf, c4 e, c1, hubl]
      constructor
      · intro hh
        refine Or.inr ⟨?_, hh.2⟩
        rw [if_neg hh.1]
      · intro hh
        rcases hh with hh | hh
        · rw [hidx hh.1] at hh
          exact absurd hh.2 (by simp)
        · refine ⟨?_, hh.2⟩
          intro hm
          rw [if_pos hm] at hh
          omega

theorem cachedHits_apply (j : JSONCodec) (s : FollowerService) (env : FetchEnv)
    (ids : List String) (id : String) :
    cachedHits j s env ids id =
      if env.mgetErr = true then none
      else if id ∈ ids then cachedSnapshot j s.cache id else none := by
  unfold cachedHits
  by_cases hm : env.mgetErr = true
  · rw [if_pos hm, if_pos hm]
  · rw [if_neg hm, if_neg hm]
    exact collectHits_quiet j s.cache ids id

/-- With a successful `MGet`, the ids sent to the user store are the requested ids without
a valid cached snapshot, in request order. -/
theorem missingIDs_eq (j : JSONCodec) (s : FollowerService) (env : FetchEnv)
    (ids : List String) (hmget : env.mgetErr = false) :
    missingIDs j s env ids = ids.filter (fun id => (cachedSnapshot j s.cache id).isNone) := by
  unfold missingIDs
  apply List.filter_congr
  intro id hid
  rw [cachedHits_apply, hmget]
  simp only [Bool.false_eq_true, if_false, hid, if_true]

/-- With a failed `MGet`, every requested id is sent to the user store. -/
theorem missingIDs_down (j : JSONCodec) (s : FollowerService) (env : FetchEnv)
    (ids : List String) (hmget : env.mgetErr = true) : missingIDs j s env ids = ids := by
  unfold missingIDs
  rw [List.filter_eq_self]
  intro id _
  rw [cachedHits_apply, if_pos hmget]
  rfl

theorem mem_missingIDs (j : JSONCodec) (s : FollowerService) (env : FetchEnv)
    (ids : List String) (id : String) :
    id ∈ missingIDs j s env ids ↔ id ∈ ids ∧ cachedHits j s env ids id = none := by
  unfold missingIDs
  rw [List.mem_filter]
  simp only [Option.isNone_iff_eq_none]

/-- The list `loadUsers` returns when the bulk query does not fail, whatever the cache
calls do: for each requested id the snapshot found by `MGet`, else the snapshot of the user
row, ids with neither being left out. -/
theorem loadUsers_result (j : JSONCodec) (s : FollowerService) (env : FetchEnv)
    (ids : List String) (husers : env.usersErr = none) :
    (loadUsers j s env ids).1 = .ok (ids.filterMap (fun id =>
      match cachedHits j s env ids id with
      | some snap => some snap
      | none => storedSnapshot s.db id)) := by
  rw [loadUsers_eq]
  by_cases h0 : ids.length = 0
  · rw [if_pos h0, List.length_eq_zero.mp h0]
    rfl
  · rw [if_neg h0]
    by_cases hm : 0 < (missingIDs j s env ids).length
    · rw [if_pos hm, husers]
      simp only
      congr 1
      apply List.filterMap_congr
      intro id hid
      rw [storeUsers_map, filter_missing]
      cases hc : cachedHits j s env ids id with
      | none =>
        have hmem : id ∈ missingIDs j s env ids := (mem_missingIDs j s env ids id).mpr ⟨hid, hc⟩
        simp only [hmem, if_true]
        unfold storedSnapshot
        cases (s.db.users.filter (fun u => u.ID == id)).getLast? <;> rfl
      | some snap =>
        have hmem : ¬ id ∈ missingIDs j s env ids := fun h => by
          have := ((mem_missingIDs j s env ids id).mp h).2
          rw [hc] at this
          exact absurd this (by simp)
        simp only [hmem, if_false, List.getLast?_nil]
    · rw [if_neg hm]
      dsimp only
      congr 1
      apply List.filterMap_congr
      intro id hid
      cases hc : cachedHits j s env ids id with
      | none =>
        exfalso
        apply hm
        exact List.length_pos_of_mem ((mem_missingIDs j s env ids id).mpr ⟨hid, hc⟩)
      | some snap => rfl

/-- With cached snapshots that agree with the user rows, `loadUsers` returns the snapshots
of the user rows, whatever the cache calls do. -/
theorem loadUsers_coherent (j : JSONCodec) (s : FollowerService) (env : FetchEnv)
    (ids : List String) (husers : env.usersErr = none)
    (hcoh : ∀ id snap, cachedSnapshot j s.cache id = some snap →
      storedSnapshot s.db id = some snap) :
    (loadUsers j s env ids).1 = .ok (ids.filterMap (storedSnapshot s.db)) := by
  rw [loadUsers_result j s env ids husers]
  congr 1
  apply List.filterMap_congr
  intro id hid
  cases hc : cachedHits j s env ids id with
  | none => rfl
  | some snap =>
    simp only
    rw [cachedHits_apply] at hc
    by_cases hm : env.mgetErr = true
    · rw [if_pos hm] at hc
      exact absurd hc (by simp)
    · rw [if_neg hm, if_pos hid] at hc
      exact (hcoh id snap hc).symm


theorem pageSlice_nat (l : List String) (page size : Int) (hpage : 1 ≤ page)
    (hsize : 1 ≤ size) :
    ∃ n sz : Nat, (page - 1) * size = (n : Int) ∧ size = (sz : Int) ∧ 1 ≤ sz ∧
      pageSlice l page size = (l.drop n).take sz := by
  refine ⟨((page - 1) * size).toNat, size.toNat,
    (Int.toNat_of_nonneg (mul_nonneg (by omega) (by omega))).symm, by omega, by omega, rfl⟩

/-- The ids read from the cache for a valid page, with a coherent index: none, or the page
of the owner's fan-ID list. -/
theorem fetchIDs_cases (s : FollowerService) (env : FetchEnv) (userID : String)
    (page size : Int) (hpage : 1 ≤ page) (hsize : 1 ≤ size) (hbound : page * size < 2 ^ 63)
    (hidx : IndexAbsentOrFull s userID) :
    fetchIDs s env userID page size = [] ∨
    fetchIDs s env userID page size = pageSlice (fanIDsDesc s.db userID) page size := by
  rcases hidx with habs | ⟨ttl, hfull⟩
  · exact Or.inl (fetchIDs_absent s env userID page size habs)
  · obtain ⟨n, sz, hn, hsz, hsz1, hslice⟩ := pageSlice_nat (fanIDsDesc s.db userID) page size
      hpage hsize
    obtain ⟨w1, w2, _⟩ := page_no_wrap page size hpage hsize hbound
    have hlr := lrange_page s.cache _ (fanIDsDesc s.db userID) ttl n sz hsz1 hfull
    unfold fetchIDs
    simp only [w1, w2]
    by_cases hex : (if env.existsErr = true then (0 : Int)
        else Redis.Exists s.cache ("followers:index:" ++ userID)) > 0
    · rw [if_pos hex]
      by_cases hlre : env.lrangeErr = true
      · rw [if_pos hlre]
        exact Or.inl rfl
      · rw [if_neg hlre]
        right
        rw [hslice, hn, hsz]
        exact hlr
    · rw [if_neg hex]
      exact Or.inl rfl

/-- For a valid page and a coherent index, when the fan-ID query does not fail: the call is
`loadUsers` on the page of the owner's fan-ID list, run on the service as it is or as the
index load leaves it, which differ at most in the index key and in `IndexLoads`. -/
theorem fetch_valid_shape (j : JSONCodec) (s : FollowerService) (env : FetchEnv)
    (userID : String) (page size : Int) (hpage : 1 ≤ page) (hsize : 1 ≤ size)
    (hbound : page * size < 2 ^ 63)
    (hidx : IndexAbsentOrFull s userID) (hindex : env.indexErr = none) :
    ∃ s1, FetchFollowersOptimized j s env userID page size =
        loadUsers j s1 env (pageSlice (fanIDsDesc s.db userID) page size) ∧
      s1.db = s.db ∧ s1.ttl = s.ttl ∧ s1.userBulkLoad = s.userBulkLoad ∧
      s1.userQueries = s.userQueries ∧
      (∀ k, k ≠ "followers:index:" ++ userID → s1.cache k = s.cache k) ∧
      (s1 = s ∨ s1 = (loadFollowerIDsAndCache s env userID).2) := by
  obtain ⟨n, sz, hn, hsz, hsz1, hslice⟩ := pageSlice_nat (fanIDsDesc s.db userID) page size
    hpage hsize
  obtain ⟨w1, _, w3⟩ := page_no_wrap page size hpage hsize hbound
  rw [fetch_eq]
  by_cases h0 : (fetchIDs s env userID page size).length = 0
  · rw [if_pos h0]
    obtain ⟨_, _, f3, f4, f5⟩ := loadIDs_frame s env userID
    have flog := loadIDs_log s env userID
    have hres := loadIDs_result s env userID
    have hother := loadIDs_other_keys s env userID
    rw [hindex] at hres
    rw [fetchOnMiss_eq]
    rcases hL : loadFollowerIDsAndCache s env userID with ⟨res, s1⟩
    rw [hL] at f3 f4 f5 flog hres hother
    simp only at f3 f4 f5 flog hres hother
    subst hres
    simp only [w1, w3]
    refine ⟨s1, ?_, f4, f5, f3, flog, hother, Or.inr rfl⟩
    by_cases hge : (page - 1) * size ≥ ((fanIDsDesc s.db userID).length : Int)
    · rw [if_pos hge]
      have hnil : pageSlice (fanIDsDesc s.db userID) page size = [] := by
        rw [hslice, List.drop_eq_nil_of_le (by omega), List.take_nil]
      rw [hnil]
      rfl
    · rw [if_neg hge, hslice]
      have hg := goSlice_page (fanIDsDesc s.db userID) n sz hsz1 (by omega)
      rw [hn, hsz]
      simp only [hg]
  · rw [if_neg h0]
    rcases fetchIDs_cases s env userID page size hpage hsize hbound hidx with h | h
    · rw [h] at h0
      exact absurd rfl h0
    · rw [h]
      exact ⟨s, rfl, rfl, rfl, rfl, rfl, fun _ _ => rfl, Or.inl rfl⟩

theorem cachedSnapshot_congr (j : JSONCodec) (c1 c2 : Redis) (id : String)
    (h : c1 ("user:" ++ id) = c2 ("user:" ++ id)) :
    cachedSnapshot j c1 id = cachedSnapshot j c2 id := by
  unfold cachedSnapshot Redis.Get
  rw [h]

/-- An id with a valid cached snapshot is not sent to the user store (when `MGet`
succeeds). -/
theorem valid_not_queried (j : JSONCodec) (s : FollowerService) (env : FetchEnv)
    (userID : String) (page size : Int) (id : String) (q : List String)
    (hmget : env.mgetErr = false) (hv : ValidCached j s id)
    (hq : (FetchFollowersOptimized j s env userID page size).2.userQueries =
      s.userQueries ++ [q]) : id ∉ q := by
  obtain ⟨s1, hc, _, _, _, hlog, h⟩ := fetch_general_shape j s env userID page size
  rcases h with ⟨hs, _, _⟩ | ⟨ids, hf, _⟩
  · rw [hs, hlog] at hq
    have := congrArg List.length hq
    simp at this
  · obtain ⟨_, c2, _, _⟩ := loadUsers_counter j s1 env ids
    rw [hf, c2, hlog] at hq
    have hq1 := List.append_cancel_left hq
    by_cases hm : missingIDs j s1 env ids = []
    · rw [if_pos hm] at hq1
      exact absurd hq1 (by simp)
    · rw [if_neg hm] at hq1
      have hqe : missingIDs j s1 env ids = q := by simpa using hq1
      rw [← hqe]
      intro hmem
      have hm2 := (mem_missingIDs j s1 env ids id).mp hmem
      rw [cachedHits_apply, hmget] at hm2
      simp only [Bool.false_eq_true, if_false, hm2.1, if_true] at hm2
      unfold ValidCached at hv
      rw [← cachedSnapshot_congr j s1.cache s.cache id (hc id), hm2.2] at hv
      exact absurd hv (by simp)

/-- The `Set` calls of `loadUsers` keep valid what is valid, when `encoding/json`
round-trips the snapshots stored. -/
theorem storeUsers_valid (j : JSONCodec) (setErr : String → Bool) (ttl : Int) (id : String) :
    ∀ (users : List User) (cached : SnapMap) (cache : Redis),
      (∀ u ∈ users, j.unmarshal (j.marshal (snapshotOfUser u)) = some (snapshotOfUser u)) →
      (cachedSnapshot j cache id).isSome = true →
      (cachedSnapshot j (storeUsers j setErr ttl users (cached, cache)).2 id).isSome = true := by
  intro users
  induction users with
  | nil => intro cached cache _ h; exact h
  | cons u us ih =>
    intro cached cache hrt h
    simp only [storeUsers]
    apply ih _ _ (fun v hv => hrt v (List.mem_cons_of_mem _ hv))
    by_cases he : setErr u.ID = true
    · rw [if_pos he]
      exact h
    · rw [if_neg he]
      by_cases hu : u.ID = id
      · unfold cachedSnapshot Redis.Get Redis.Set
        simp only [hu, if_true]
        rw [hrt u (List.mem_cons_self _ _)]
        rfl
      · have hk : "user:" ++ id ≠ "user:" ++ u.ID := fun hh => hu (userKey_inj hh).symm
        rw [cachedSnapshot_congr j _ cache id (by simp only [Redis.Set, hk, if_false])]
        exact h

theorem loadUsers_valid (j : JSONCodec) (s : FollowerService) (env : FetchEnv)
    (ids : List String) (id : String)
    (hrt : ∀ u ∈ s.db.users,
      j.unmarshal (j.marshal (snapshotOfUser u)) = some (snapshotOfUser u))
    (hv : ValidCached j s id) : ValidCached j (loadUsers j s env ids).2 id := by
  unfold ValidCached at *
  rw [loadUsers_eq]
  by_cases h0 : ids.length = 0
  · rw [if_pos h0]; exact hv
  · rw [if_neg h0]
    by_cases hm : 0 < (missingIDs j s env ids).length
    · rw [if_pos hm]
      cases env.usersErr with
      | some e => exact hv
      | none =>
        exact storeUsers_valid j env.setErr s.ttl id _ _ _
          (fun u hu => hrt u (List.mem_filter.mp hu).1) hv
    · rw [if_neg hm]; exact hv

/-- A fetch keeps valid what is valid. -/
theorem fetch_valid (j : JSONCodec) (s : FollowerService) (env : FetchEnv)
    (userID : String) (page size : Int) (id : String)
    (hrt : ∀ u ∈ s.db.users,
      j.unmarshal (j.marshal (snapshotOfUser u)) = some (snapshotOfUser u))
    (hv : ValidCached j s id) :
    ValidCached j (FetchFollowersOptimized j s env userID page size).2 id := by
  obtain ⟨s1, hc, hdb, _, _, _, h⟩ := fetch_general_shape j s env userID page size
  have hv1 : ValidCached j s1 id := by
    unfold ValidCached at *
    rw [cachedSnapshot_congr j s1.cache s.cache id (hc id)]
    exact hv
  rcases h with ⟨hs, _, _⟩ | ⟨ids, hf, _⟩
  · rw [hs]; exact hv1
  · rw [hf]
    exact loadUsers_valid j s1 env ids id (by rw [hdb]; exact hrt) hv1

theorem fetch_db (j : JSONCodec) (s : FollowerService) (env : FetchEnv)
    (userID : String) (page size : Int) :
    (FetchFollowersOptimized j s env userID page size).2.db = s.db ∧
    (FetchFollowersOptimized j s env userID page size).2.ttl = s.ttl := by
  obtain ⟨s1, _, hdb, httl, _, _, h⟩ := fetch_general_shape j s env userID page size
  rcases h with ⟨hs, _, _⟩ | ⟨ids, hf, _⟩
  · rw [hs]; exact ⟨hdb, httl⟩
  · rw [hf]
    obtain ⟨g1, g2, _⟩ := loadUsers_frame j s1 env ids
    exact ⟨g1.trans hdb, g2.trans httl⟩

/-- After a bulk load whose `Set` calls succeed, every user the store returned has its
snapshot under `user:{id}`, with the service TTL when that is positive. -/
theorem loadUsers_caches (j : JSONCodec) (s : FollowerService) (env : FetchEnv)
    (ids : List String) (u : User) (husers : env.usersErr = none)
    (hset : env.setErr = fun _ => false) (hu : u ∈ s.db.users)
    (hmiss : u.ID ∈ missingIDs j s env ids) :
    ∃ u1 ∈ s.db.users, u1.ID = u.ID ∧
      (loadUsers j s env ids).2.cache ("user:" ++ u.ID) =
        some ⟨.str (j.marshal (snapshotOfUser u1)), if 0 < s.ttl then some s.ttl else none⟩ := by
  have h0 : ¬ ids.length = 0 := by
    intro h
    rw [missingIDs_of_empty j s env ids h] at hmiss
    exact absurd hmiss (List.not_mem_nil _)
  have hm : 0 < (missingIDs j s env ids).length := List.length_pos_of_mem hmiss
  rw [loadUsers_eq, if_neg h0, if_pos hm, husers, hset]
  simp only
  rw [storeUsers_cache, filter_userKey, filter_missing, if_pos hmiss]
  have hne : s.db.users.filter (fun v => v.ID == u.ID) ≠ [] := by
    intro h
    have := List.filter_eq_nil_iff.mp h u hu
    simp at this
  cases hl : (s.db.users.filter (fun v => v.ID == u.ID)).getLast? with
  | none => exact absurd (List.getLast?_eq_none_iff.mp hl) hne
  | some u1 =>
    have hmem1 := List.mem_of_getLast?_eq_some hl
    have h1 := List.mem_filter.mp hmem1
    exact ⟨u1, h1.1, by simpa using h1.2, rfl⟩

theorem stableSort_sorts :
    SortsByCreatedAt (fun l => l.insertionSort (fun x y => x.CreatedAt ≥ y.CreatedAt)) :=
  fun l => ⟨List.perm_insertionSort _ l, orders_sorted l⟩

theorem shardScenario_wellFormed : ShardsWellFormed shardScenario := by
  unfold ShardsWellFormed
  decide

theorem sharded_merge_top_limit_witness :
    ShardsWellFormed shardScenario ∧
    ShardedOrderRepository.GetByUserID reverseUserQueryEnv shardScenario 9 1 =
      some (some [⟨256, 9, 100, 0, 50, 50⟩], none) ∧
    (SingleDBOrderRepository.GetByUserID none
      ⟨(shardScenario.shards.flatMap id).flatMap id⟩ 9 1).1 = some [⟨256, 9, 100, 0, 50, 50⟩] ∧
    ∃ res db, ShardedOrderRepository.GetByUserID reverseUserQueryEnv shardScenario 9 1
        = some (some res, none) ∧
      shardScenario.shards[(RouteByUserID 9).toNat]? = some db ∧
      (res.length : Int) ≤ 1 ∧
      res.Pairwise (fun x y => x.CreatedAt ≥ y.CreatedAt) ∧
      (∀ o ∈ res, o.UserID = 9 ∧ ∃ rows ∈ db, o ∈ rows) ∧
      ∃ ref, SingleDBOrderRepository.GetByUserID none ⟨db.flatMap id⟩ 9 1 = (some ref, none) ∧
        res.map (fun o => o.CreatedAt) = ref.map (fun o => o.CreatedAt) :=
  ⟨shardScenario_wellFormed, by decide, by decide,
    sharded_merge_top_limit reverseUserQueryEnv shardScenario 9 1 shardScenario_wellFormed
      (by decide)
      (by decide) (by norm_num) (fun _ => rfl) (by decide) stableSort_sorts⟩

/-! ### Bounds, failures and reuse in the optimized fetch -/
/-! ### Bounds, failures and reuse in the optimized fetch -/

theorem cachedSnapshot_after (j : JSONCodec) (s s1 : FollowerService) (userID : String)
    (h : ∀ k, k ≠ "followers:index:" ++ userID → s1.cache k = s.cache k) (id : String) :
    cachedSnapshot j s1.cache id = cachedSnapshot j s.cache id :=
  cachedSnapshot_congr j s1.cache s.cache id (h _ (userKey_ne_indexKey id userID))

theorem filter_isNone_nil (f : String → Option FollowerSnapshot) (l : List String) :
    l.filter (fun id => (f id).isNone) = [] ↔ ∀ id ∈ l, f id ≠ none := by
  rw [List.filter_eq_nil_iff]
  constructor
  · intro h id hid hnone
    exact h id hid (by simp [hnone])
  · intro h id hid hnone
    exact h id hid (by simpa using hnone)

/-- **C21**, counterexample. Cache failures raise the counters although the cache holds
what is asked for. After page 1 of size 2 has been fetched, the index key holds the three
ids and `f3`, `f2` have cached snapshots; fetching the same page again raises neither
counter when nothing fails, but raises `IndexLoads` when `Exists` fails (the index is
cached and the page is in range) and raises `UserBulkLoad` when `MGet` fails (every id of
the slice has a cached snapshot). -/
theorem cache_failures_raise_loads :
    cacheScenarioWarm.cache "followers:index:owner" =
      some ⟨.list ["f3", "f2", "f1"], some 600000000000⟩ ∧
    cachedSnapshot lineCodec cacheScenarioWarm.cache "f3" = some ⟨"f3", "cy", "cy@x", 33⟩ ∧
    cachedSnapshot lineCodec cacheScenarioWarm.cache "f2" = some ⟨"f2", "bob", "bob@x", 32⟩ ∧
    cacheScenarioWarm.indexLoads = 1 ∧ cacheScenarioWarm.userBulkLoad = 1 ∧
    (FetchFollowersOptimized lineCodec cacheScenarioWarm FetchEnv.quiet
      "owner" 1 2).2.indexLoads = 1 ∧
    (FetchFollowersOptimized lineCodec cacheScenarioWarm FetchEnv.quiet
      "owner" 1 2).2.userBulkLoad = 1 ∧
    (FetchFollowersOptimized lineCodec cacheScenarioWarm
      { FetchEnv.quiet with existsErr := true } "owner" 1 2).2.indexLoads = 2 ∧
    (FetchFollowersOptimized lineCodec cacheScenarioWarm
      { FetchEnv.quiet with mgetErr := true } "owner" 1 2).2.userBulkLoad = 2 ∧
    (FetchFollowersOptimized lineCodec cacheScenarioWarm
      { FetchEnv.quiet with mgetErr := true } "owner" 1 2).2.userQueries =
      [["f3", "f2"], ["f3", "f2"]] := by
  refine ⟨by decide, by decide, by decide, by decide, by decide, by decide, by decide,
    by decide, by decide, by decide⟩

/-- **C21**, as the code has it (bounded store loads per fetch). For every page and size and
whatever fails, one `FetchFollowersOptimized` call raises `IndexLoads` by 0 or 1, sends at
most one bulk user query, which `UserBulkLoad` counts, and leaves `PageQueries` as it is.
When the index key holds a list, `Exists` and `LRange` succeed, and the page is in range
(`page ≥ 1`, `size ≥ 1`, `page * size` below `2^63`, `(page-1)*size` less than the length
of the list), `IndexLoads` is not raised. For such a valid page, with the index key absent
or holding the owner's full list and a fan-ID query that does not fail: when `MGet`
succeeds, the bulk query asks for the ids of the page without a valid cached snapshot, in
page order, and `UserBulkLoad` is raised, by one, exactly when there is such an id; when
`MGet` fails, the bulk query asks for all ids of the page and `UserBulkLoad` is raised
exactly when the page is not empty. -/
theorem bounded_store_loads (j : JSONCodec) (s : FollowerService) (env : FetchEnv)
    (userID : String) (page size : Int) :
    ((FetchFollowersOptimized j s env userID page size).2.indexLoads = s.indexLoads ∨
     (FetchFollowersOptimized j s env userID page size).2.indexLoads = s.indexLoads + 1) ∧
    (((FetchFollowersOptimized j s env userID page size).2.userBulkLoad = s.userBulkLoad ∧
        (FetchFollowersOptimized j s env userID page size).2.userQueries = s.userQueries) ∨
      ∃ q, q ≠ [] ∧
        (FetchFollowersOptimized j s env userID page size).2.userBulkLoad =
          s.userBulkLoad + 1 ∧
        (FetchFollowersOptimized j s env userID page size).2.userQueries =
          s.userQueries ++ [q]) ∧
    (FetchFollowersOptimized j s env userID page size).2.pageQueries = s.pageQueries ∧
    (∀ (l : List String) (ttl : Option Int),
      s.cache ("followers:index:" ++ userID) = some ⟨.list l, ttl⟩ →
      env.existsErr = false → env.lrangeErr = false → 1 ≤ page → 1 ≤ size →
      page * size < 2 ^ 63 → (page - 1) * size < (l.length : Int) →
      (FetchFollowersOptimized j s env userID page size).2.indexLoads = s.indexLoads) ∧
    (1 ≤ page → 1 ≤ size → page * size < 2 ^ 63 → IndexAbsentOrFull s userID →
      env.indexErr = none →
      (env.mgetErr = false →
        (FetchFollowersOptimized j s env userID page size).2.userQueries =
          s.userQueries ++
            (if (pageSlice (fanIDsDesc s.db userID) page size).filter
                (fun id => (cachedSnapshot j s.cache id).isNone) = [] then []
             else [(pageSlice (fanIDsDesc s.db userID) page size).filter
                (fun id => (cachedSnapshot j s.cache id).isNone)]) ∧
        ((FetchFollowersOptimized j s env userID page size).2.userBulkLoad =
            s.userBulkLoad + 1 ↔
          ∃ id ∈ pageSlice (fanIDsDesc s.db userID) page size,
            cachedSnapshot j s.cache id = none) ∧
        ((FetchFollowersOptimized j s env userID page size).2.userBulkLoad = s.userBulkLoad ↔
          ∀ id ∈ pageSlice (fanIDsDesc s.db userID) page size,
            cachedSnapshot j s.cache id ≠ none)) ∧
      (env.mgetErr = true →
        (FetchFollowersOptimized j s env userID page size).2.userQueries =
          s.userQueries ++
            (if pageSlice (fanIDsDesc s.db userID) page size = [] then []
             else [pageSlice (fanIDsDesc s.db userID) page size]) ∧
        ((FetchFollowersOptimized j s env userID page size).2.userBulkLoad =
            s.userBulkLoad + 1 ↔
          pageSlice (fanIDsDesc s.db userID) page size ≠ []))) := by
  obtain ⟨c1, c2, c3, _⟩ := fetch_counters j s env userID page size
  refine ⟨?_, c3, c2, ?_, ?_⟩
  · rw [c1]
    split
    · exact Or.inr rfl
    · exact Or.inl (add_zero _)
  · intro l ttl hidx hex hlr hpage hsize hbound hin
    obtain ⟨n, sz, hn, hsz, hsz1, _⟩ := pageSlice_nat l page size hpage hsize
    obtain ⟨w1, w2, _⟩ := page_no_wrap page size hpage hsize hbound
    have hids : fetchIDs s env userID page size = (l.drop n).take sz := by
      unfold fetchIDs
      have hone : Redis.Exists s.cache ("followers:index:" ++ userID) = 1 := by
        simp only [Redis.Exists, hidx]
      simp only [w1, w2]
      simp only [hex, hlr, Bool.false_eq_true, if_false, hone, gt_iff_lt, zero_lt_one, if_true]
      rw [hn, hsz]
      exact lrange_page s.cache _ l ttl n sz hsz1 hidx
    have hlen : ¬ (fetchIDs s env userID page size).length = 0 := by
      rw [hids, List.length_take, List.length_drop]
      omega
    rw [c1, if_neg hlen, add_zero]
  · intro hpage hsize hbound hidx hindex
    obtain ⟨s1, hf, _, _, hubl, hlog, hk, _⟩ := fetch_valid_shape j s env userID page size
      hpage hsize hbound hidx hindex
    obtain ⟨d1, d2, _, _⟩ := loadUsers_counter j s1 env
      (pageSlice (fanIDsDesc s.db userID) page size)
    rw [hf, d1, d2, hubl, hlog]
    constructor
    · intro hmget
      have hmiss : missingIDs j s1 env (pageSlice (fanIDsDesc s.db userID) page size) =
          (pageSlice (fanIDsDesc s.db userID) page size).filter
            (fun id => (cachedSnapshot j s.cache id).isNone) := by
        rw [missingIDs_eq j s1 env _ hmget]
        apply List.filter_congr
        intro id _
        rw [cachedSnapshot_after j s s1 userID hk id]
      rw [hmiss]
      have hnil := filter_isNone_nil (fun id => cachedSnapshot j s.cache id)
        (pageSlice (fanIDsDesc s.db userID) page size)
      refine ⟨rfl, ?_, ?_⟩
      · by_cases hq : (pageSlice (fanIDsDesc s.db userID) page size).filter
            (fun id => (cachedSnapshot j s.cache id).isNone) = []
        · rw [if_pos hq]
          constructor
          · intro h; omega
          · intro ⟨id, hid, hnone⟩
            exact absurd hnone (hnil.mp hq id hid)
        · rw [if_neg hq]
          refine ⟨fun _ => ?_, fun _ => rfl⟩
          by_contra hc
          apply hq
          apply hnil.mpr
          intro id hid hnone
          exact hc ⟨id, hid, hnone⟩
      · by_cases hq : (pageSlice (fanIDsDesc s.db userID) page size).filter
            (fun id => (cachedSnapshot j s.cache id).isNone) = []
        · rw [if_pos hq]
          exact ⟨fun _ => hnil.mp hq, fun _ => add_zero _⟩
        · rw [if_neg hq]
          constructor
          · intro h; omega
          · intro h; exact absurd (hnil.mpr h) hq
    · intro hmget
      rw [missingIDs_down j s1 env _ hmget]
      refine ⟨rfl, ?_⟩
      by_cases hq : pageSlice (fanIDsDesc s.db userID) page size = []
      · rw [if_pos hq]
        constructor
        · intro h; omega
        · intro h; exact absurd hq h
      · rw [if_neg hq]
        exact ⟨fun _ => hq, fun _ => rfl⟩

theorem bounded_store_loads_witness :
    (FetchFollowersOptimized lineCodec cacheScenario FetchEnv.quiet "owner" 1 2).2.indexLoads
      = 1 ∧
    (FetchFollowersOptimized lineCodec cacheScenario FetchEnv.quiet "owner" 1 2).2.userBulkLoad
      = 1 ∧
    (fetchRun lineCodec cacheScenario
      [⟨FetchEnv.quiet, "owner", 1, 2⟩, ⟨FetchEnv.quiet, "owner", 2, 2⟩]).2.indexLoads = 1 ∧
    (fetchRun lineCodec cacheScenario
      [⟨FetchEnv.quiet, "owner", 1, 2⟩, ⟨FetchEnv.quiet, "owner", 2, 2⟩]).2.userBulkLoad = 2 ∧
    (fetchRun lineCodec cacheScenario
      [⟨FetchEnv.quiet, "owner", 1, 2⟩, ⟨FetchEnv.quiet, "owner", 2, 2⟩]).2.userQueries =
      [["f3", "f2"], ["f1"]] ∧
    (fetchRun lineCodec cacheScenario
      [⟨FetchEnv.quiet, "owner", 1, 2⟩, ⟨FetchEnv.quiet, "owner", 2, 2⟩,
       ⟨FetchEnv.quiet, "owner", 1, 2⟩]).2.userBulkLoad = 2 ∧
    (FetchFollowersOptimized lineCodec cacheScenario FetchEnv.quiet "owner" 1 2).2.pageQueries
      = cacheScenario.pageQueries ∧
    (FetchFollowersOptimized lineCodec cacheScenarioWarm FetchEnv.quiet "owner" 2 2).2.indexLoads
      = cacheScenarioWarm.indexLoads ∧
    ((FetchFollowersOptimized lineCodec cacheScenarioWarm FetchEnv.quiet
        "owner" 2 2).2.userBulkLoad = cacheScenarioWarm.userBulkLoad + 1 ↔
      ∃ id ∈ pageSlice (fanIDsDesc cacheScenarioWarm.db "owner") 2 2,
        cachedSnapshot lineCodec cacheScenarioWarm.cache id = none) :=
  ⟨by decide, by decide, by decide, by decide, by decide, by decide,
    (bounded_store_loads lineCodec cacheScenario FetchEnv.quiet "owner" 1 2).2.2.1,
    (bounded_store_loads lineCodec cacheScenarioWarm FetchEnv.quiet "owner" 2 2).2.2.2.1
      ["f3", "f2", "f1"] (some 600000000000) (by decide) rfl rfl (by decide) (by decide)
      (by decide) (by decide),
    (((bounded_store_loads lineCodec cacheScenarioWarm FetchEnv.quiet "owner" 2 2).2.2.2.2
      (by decide) (by decide) (by decide) (Or.inr ⟨some 600000000000, by decide⟩) rfl).1
      rfl).2.1⟩

theorem emptied_coherent (j : JSONCodec) (s : FollowerService) (userID : String) :
    CacheCoherent j { s with cache := Redis.empty } userID := by
  constructor
  · exact Or.inl rfl
  · intro id snap h
    simp [cachedSnapshot, Redis.Get, Redis.empty] at h

/-- The list a valid fetch returns with a coherent cache when no store query fails,
whatever the cache calls do. -/
theorem fetch_coherent (j : JSONCodec) (s : FollowerService) (env : FetchEnv)
    (userID : String) (page size : Int) (hpage : 1 ≤ page) (hsize : 1 ≤ size)
    (hbound : page * size < 2 ^ 63)
    (hcoh : CacheCoherent j s userID) (hindex : env.indexErr = none)
    (husers : env.usersErr = none) :
    (FetchFollowersOptimized j s env userID page size).1 =
      .ok ((pageSlice (fanIDsDesc s.db userID) page size).filterMap (storedSnapshot s.db)) := by
  obtain ⟨s1, hf, hdb, _, _, _, hk, _⟩ := fetch_valid_shape j s env userID page size hpage hsize
    hbound hcoh.1 hindex
  rw [hf, loadUsers_coherent j s1 env _ husers, hdb]
  intro id snap h
  rw [hdb]
  rw [cachedSnapshot_after j s s1 userID hk id] at h
  exact hcoh.2 id snap h

/-- **C23**, counterexample. A failing cache call does not make the call behave as with an
empty cache, and a call can end without a list and without an error. With the cached
snapshot of `f3` stale (the user row was renamed) and `Exists` failing, page 1 of size 2
still shows the stale snapshot, which `MGet` finds, while with an empty cache it shows
the user row. And page 3 of size 4611686018427387904 (`2^62`), with nothing failing,
panics: `start` wraps to the least `int` and `allIDs[start:endIdx]` is out of range. -/
theorem cache_failure_not_a_miss :
    (FetchFollowersOptimized lineCodec staleSnapshotScenario
      { FetchEnv.quiet with existsErr := true } "owner" 1 2).1 =
      .ok [⟨"f3", "cy", "cy@x", 33⟩, ⟨"f2", "bob", "bob@x", 32⟩] ∧
    (FetchFollowersOptimized lineCodec { staleSnapshotScenario with cache := Redis.empty }
      FetchEnv.quiet "owner" 1 2).1 =
      .ok [⟨"f3", "cyrus", "cy@x", 33⟩, ⟨"f2", "bob", "bob@x", 32⟩] ∧
    (FetchFollowersOptimized lineCodec cacheScenario FetchEnv.quiet "owner" 3
      4611686018427387904).1 = .panic ∧
    wrapInt ((3 - 1) * 4611686018427387904) = -9223372036854775808 := by
  refine ⟨by decide, by decide, by decide, by decide⟩

/-- **C23**, as the code has it (failure semantics of the optimized fetch). For `page ≥ 1`
and `size ≥ 1` with `page * size` in the range of `int` (below `2^63`) the call does not
panic, and it returns the error `e` exactly when it issues the fan-ID query (`IndexLoads`
is raised) and that fails with `e`, or issues the bulk user query (`UserBulkLoad` is
raised) and that fails with `e`. When no store query fails and the cache agrees with the
store (the index key absent or holding the owner's full list, cached snapshots equal to
the user rows), then whichever cache calls fail (`Exists`, `LRange`, `MGet`, `Set`, the
index pipeline) the call returns the list it returns with an empty cache and nothing
failing: the snapshots of the user rows of the requested page. -/
theorem fetch_failure_semantics (j : JSONCodec) (s : FollowerService) (env : FetchEnv)
    (userID : String) (page size : Int) (hpage : 1 ≤ page) (hsize : 1 ≤ size)
    (hbound : page * size < 2 ^ 63) :
    (FetchFollowersOptimized j s env userID page size).1 ≠ .panic ∧
    (∀ e, (FetchFollowersOptimized j s env userID page size).1 = .err e ↔
      (((FetchFollowersOptimized j s env userID page size).2.indexLoads = s.indexLoads + 1 ∧
          env.indexErr = some e) ∨
       ((FetchFollowersOptimized j s env userID page size).2.userBulkLoad =
          s.userBulkLoad + 1 ∧ env.usersErr = some e))) ∧
    (env.indexErr = none → env.usersErr = none →
      ∃ rows, (FetchFollowersOptimized j s env userID page size).1 = .ok rows) ∧
    (CacheCoherent j s userID → env.indexErr = none → env.usersErr = none →
      (FetchFollowersOptimized j s env userID page size).1 =
        (FetchFollowersOptimized j { s with cache := Redis.empty } FetchEnv.quiet
          userID page size).1 ∧
      (FetchFollowersOptimized j s env userID page size).1 =
        .ok ((pageSlice (fanIDsDesc s.db userID) page size).filterMap
          (storedSnapshot s.db))) := by
  obtain ⟨c1, _, _, c4⟩ := fetch_counters j s env userID page size
  have c5 := fetch_no_panic j s env userID page size hpage hsize hbound
  have hil : (FetchFollowersOptimized j s env userID page size).2.indexLoads =
      s.indexLoads + 1 ↔ (fetchIDs s env userID page size).length = 0 := by
    rw [c1]
    by_cases h : (fetchIDs s env userID page size).length = 0
    · rw [if_pos h]; exact ⟨fun _ => h, fun _ => rfl⟩
    · rw [if_neg h]
      constructor
      · intro h1; omega
      · intro h1; exact absurd h1 h
  have herr : ∀ e, (FetchFollowersOptimized j s env userID page size).1 = .err e ↔
      (((FetchFollowersOptimized j s env userID page size).2.indexLoads = s.indexLoads + 1 ∧
          env.indexErr = some e) ∨
       ((FetchFollowersOptimized j s env userID page size).2.userBulkLoad =
          s.userBulkLoad + 1 ∧ env.usersErr = some e)) := by
    intro e
    rw [c4 e, hil]
  refine ⟨c5, herr, ?_, ?_⟩
  · intro hindex husers
    cases hr : (FetchFollowersOptimized j s env userID page size).1 with
    | ok rows => exact ⟨rows, rfl⟩
    | panic => exact absurd hr c5
    | err e =>
      exfalso
      rcases (herr e).mp hr with h | h
      · rw [hindex] at h; exact absurd h.2 (by simp)
      · rw [husers] at h; exact absurd h.2 (by simp)
  · intro hcoh hindex husers
    have h1 := fetch_coherent j s env userID page size hpage hsize hbound hcoh hindex husers
    have h2 := fetch_coherent j { s with cache := Redis.empty } FetchEnv.quiet userID page size
      hpage hsize hbound (emptied_coherent j s userID) rfl rfl
    exact ⟨h1.trans h2.symm, h1⟩

theorem fetch_failure_semantics_witness :
    (FetchFollowersOptimized lineCodec cacheScenarioWarm cacheDownEnv "owner" 1 2).1 =
      .ok [⟨"f3", "cy", "cy@x", 33⟩, ⟨"f2", "bob", "bob@x", 32⟩] ∧
    (FetchFollowersOptimized lineCodec cacheScenarioWarm noisyFetchEnv "owner" 1 2).1 =
      .err "driver: bad connection" ∧
    (FetchFollowersOptimized lineCodec cacheScenarioWarm cacheDownEnv "owner" 1 2).1 ≠ .panic :=
  ⟨by decide, by decide,
    (fetch_failure_semantics lineCodec cacheScenarioWarm cacheDownEnv "owner" 1 2
      (by decide) (by decide) (by decide)).1⟩

theorem loadIDs_no_fans (s : FollowerService) (env : FetchEnv) (userID : String)
    (hfans : fanIDsDesc s.db userID = []) :
    (loadFollowerIDsAndCache s env userID).2.cache = s.cache := by
  unfold loadFollowerIDsAndCache
  cases env.indexErr with
  | some e => rfl
  | none => simp only [hfans, List.length_nil, lt_self_iff_false, false_and, if_false]

/-- One fetch for an owner without fans: the empty list, `IndexLoads` raised by one,
nothing else changed. -/
theorem fetch_no_fans (j : JSONCodec) (s : FollowerService) (env : FetchEnv)
    (userID : String) (page size : Int) (hpage : 1 ≤ page) (hsize : 1 ≤ size)
    (hbound : page * size < 2 ^ 63)
    (hfans : fanIDsDesc s.db userID = [])
    (hidx : s.cache ("followers:index:" ++ userID) = none)
    (hindex : env.indexErr = none) :
    FetchFollowersOptimized j s env userID page size =
      (.ok [], { s with indexLoads := s.indexLoads + 1 }) := by
  have hids : fetchIDs s env userID page size = [] :=
    fetchIDs_absent s env userID page size hidx
  obtain ⟨w1, _, _⟩ := page_no_wrap page size hpage hsize hbound
  have h0s : 0 ≤ (page - 1) * size := mul_nonneg (by omega) (by omega)
  rw [fetch_eq, hids]
  simp only [List.length_nil, if_true]
  unfold fetchOnMiss loadFollowerIDsAndCache
  simp only [w1, hindex, hfans, List.length_nil, lt_self_iff_false, false_and, if_false,
    Nat.cast_zero, ge_iff_le, h0s, if_true]

/-- **C29**, counterexample. Three ways in which a call for an owner without fans does not
return the empty list with `IndexLoads` raised by one. With the fan rows of `owner`
deleted from the store while the index key still holds the three ids, page 1 of size 2
returns two snapshots and `IndexLoads` stays at 1. With a flushed cache, page 3 of size
4611686018427387904 (`2^62`) for `nobody`, who has no fans, panics (`start` wraps to the
least `int`). With a failing fan-ID query the call returns the error. -/
theorem no_fans_not_always_empty :
    fanIDsDesc staleIndexScenario.db "owner" = [] ∧
    (FetchFollowersOptimized lineCodec staleIndexScenario FetchEnv.quiet "owner" 1 2).1 =
      .ok [⟨"f3", "cy", "cy@x", 33⟩, ⟨"f2", "bob", "bob@x", 32⟩] ∧
    staleIndexScenario.indexLoads = 1 ∧
    (FetchFollowersOptimized lineCodec staleIndexScenario FetchEnv.quiet
      "owner" 1 2).2.indexLoads = 1 ∧
    fanIDsDesc cacheScenario.db "nobody" = [] ∧
    (FetchFollowersOptimized lineCodec cacheScenario FetchEnv.quiet "nobody" 3
      4611686018427387904).1 = .panic ∧
    (FetchFollowersOptimized lineCodec cacheScenario
      { FetchEnv.quiet with indexErr := some "driver: bad connection" } "nobody" 1 20).1 =
      .err "driver: bad connection" := by
  refine ⟨by decide, by decide, by decide, by decide, by decide, by decide, by decide⟩

/-- **C29**, as the code has it (an owner with no fans is never cached). For an owner whose
fan list is empty, `loadFollowerIDsAndCache` leaves the cache as it is, whatever fails.
Hence, starting with the index key of the owner absent, any number of
`FetchFollowersOptimized` calls for that owner with `page ≥ 1`, `size ≥ 1`, `page * size`
in the range of `int` (below `2^63`) and a fan-ID query that does not fail: every call
returns the empty list and raises `IndexLoads` by exactly 1, the cache is never written
(so the index key stays absent), and `UserBulkLoad` and `PageQueries` do not change; this
holds whichever cache calls fail. -/
theorem no_fans_never_cached (j : JSONCodec) (userID : String) :
    ∀ (calls : List FetchCall) (s : FollowerService),
      fanIDsDesc s.db userID = [] → s.cache ("followers:index:" ++ userID) = none →
      (∀ c ∈ calls, c.userID = userID ∧ 1 ≤ c.page ∧ 1 ≤ c.size ∧
        c.page * c.size < 2 ^ 63 ∧ c.env.indexErr = none) →
      (∀ env, (loadFollowerIDsAndCache s env userID).2.cache = s.cache) ∧
      (fetchRun j s calls).1 = calls.map (fun _ => FetchResult.ok []) ∧
      (fetchRun j s calls).2.indexLoads = s.indexLoads + (calls.length : Int) ∧
      (fetchRun j s calls).2.cache = s.cache ∧
      (fetchRun j s calls).2.userBulkLoad = s.userBulkLoad ∧
      (fetchRun j s calls).2.pageQueries = s.pageQueries ∧
      (fetchRun j s calls).2.db = s.db := by
  intro calls
  induction calls with
  | nil =>
    intro s hfans _ _
    exact ⟨fun env => loadIDs_no_fans s env userID hfans, rfl, by simp [fetchRun], rfl, rfl,
      rfl, rfl⟩
  | cons c cs ih =>
    intro s hfans hidx hcalls
    obtain ⟨hu, hp, hs, hb, hi⟩ := hcalls c (List.mem_cons_self _ _)
    have hstep := fetch_no_fans j s c.env userID c.page c.size hp hs hb hfans hidx hi
    have hih := ih { s with indexLoads := s.indexLoads + 1 } hfans hidx
      (fun d hd => hcalls d (List.mem_cons_of_mem _ hd))
    simp only [fetchRun, hu, hstep, List.map_cons, List.length_cons]
    obtain ⟨_, h1, h2, h3, h4, h5, h6⟩ := hih
    refine ⟨fun env => loadIDs_no_fans s env userID hfans, by rw [h1], ?_, h3, h4, h5, h6⟩
    rw [h2]
    push_cast
    omega

theorem no_fans_never_cached_witness :
    fanIDsDesc cacheScenario.db "nobody" = [] ∧
    (fetchRun lineCodec cacheScenario
      [⟨FetchEnv.quiet, "nobody", 1, 20⟩, ⟨cacheDownEnv, "nobody", 2, 5⟩,
       ⟨FetchEnv.quiet, "nobody", 1, 20⟩]).1 = [.ok [], .ok [], .ok []] ∧
    (fetchRun lineCodec cacheScenario
      [⟨FetchEnv.quiet, "nobody", 1, 20⟩, ⟨cacheDownEnv, "nobody", 2, 5⟩,
       ⟨FetchEnv.quiet, "nobody", 1, 20⟩]).2.indexLoads = 3 ∧
    (fetchRun lineCodec cacheScenario
      [⟨FetchEnv.quiet, "nobody", 1, 20⟩, ⟨cacheDownEnv, "nobody", 2, 5⟩,
       ⟨FetchEnv.quiet, "nobody", 1, 20⟩]).2.cache = cacheScenario.cache :=
  ⟨by decide, by decide, by decide,
    (no_fans_never_cached lineCodec "nobody"
      [⟨FetchEnv.quiet, "nobody", 1, 20⟩, ⟨cacheDownEnv, "nobody", 2, 5⟩,
       ⟨FetchEnv.quiet, "nobody", 1, 20⟩] cacheScenario (by decide) rfl
      (by decide)).2.2.2.1⟩

/-- After a fetch whose bulk query and `Set` calls succeed, every id it sent to the store
that has a user row has a valid cached snapshot. -/
theorem fetch_caches_bulk (j : JSONCodec) (s : FollowerService) (env : FetchEnv)
    (userID : String) (page size : Int) (id : String) (q : List String)
    (hrt : ∀ u ∈ s.db.users,
      j.unmarshal (j.marshal (snapshotOfUser u)) = some (snapshotOfUser u))
    (husers : env.usersErr = none) (hset : env.setErr = fun _ => false)
    (hq : (FetchFollowersOptimized j s env userID page size).2.userQueries =
      s.userQueries ++ [q])
    (hmem : id ∈ q) (hex : ∃ u ∈ s.db.users, u.ID = id) :
    ValidCached j (FetchFollowersOptimized j s env userID page size).2 id := by
  obtain ⟨s1, _, hdb, _, _, hlog, h⟩ := fetch_general_shape j s env userID page size
  rcases h with ⟨hs, _, _⟩ | ⟨ids, hf, _⟩
  · rw [hs, hlog] at hq
    have := congrArg List.length hq
    simp at this
  · obtain ⟨_, c2, _, _⟩ := loadUsers_counter j s1 env ids
    rw [hf, c2, hlog] at hq
    have hq1 := List.append_cancel_left hq
    by_cases hm : missingIDs j s1 env ids = []
    · rw [if_pos hm] at hq1
      exact absurd hq1 (by simp)
    · rw [if_neg hm] at hq1
      have hqe : missingIDs j s1 env ids = q := by simpa using hq1
      obtain ⟨u, hu, huid⟩ := hex
      rw [← hqe, ← huid] at hmem
      obtain ⟨u1, hu1, _, hc⟩ := loadUsers_caches j s1 env ids u husers hset
        (by rw [hdb]; exact hu) hmem
      rw [hf]
      unfold ValidCached cachedSnapshot Redis.Get
      rw [← huid, hc]
      simp only
      rw [hrt u1 (by rw [← hdb]; exact hu1)]
      rfl

/-- The bulk queries of a sequence of fetches in which `MGet`, `Set` and the bulk query do
not fail: no id with a user row is asked for twice, and an id with a valid cached
snapshot is not asked for at all. -/
theorem fetchRun_queries (j : JSONCodec) :
    ∀ (calls : List FetchCall) (s : FollowerService),
      (∀ u ∈ s.db.users, j.unmarshal (j.marshal (snapshotOfUser u)) = some (snapshotOfUser u)) →
      (∀ c ∈ calls, c.env.mgetErr = false ∧ c.env.setErr = (fun _ => false) ∧
        c.env.usersErr = none) →
      ∃ new, (fetchRun j s calls).2.userQueries = s.userQueries ++ new ∧
        (fetchRun j s calls).2.userBulkLoad = s.userBulkLoad + (new.length : Int) ∧
        (fetchRun j s calls).2.db = s.db ∧
        new.Pairwise (fun a b => ∀ id ∈ a, (∃ u ∈ s.db.users, u.ID = id) → id ∉ b) ∧
        ∀ id, ValidCached j s id → ∀ b ∈ new, id ∉ b := by
  intro calls
  induction calls with
  | nil =>
    intro s _ _
    exact ⟨[], by simp [fetchRun], by simp [fetchRun], rfl, List.Pairwise.nil,
      fun _ _ b hb => absurd hb (List.not_mem_nil _)⟩
  | cons c cs ih =>
    intro s hrt hcalls
    obtain ⟨hm, hs, hu⟩ := hcalls c (List.mem_cons_self _ _)
    obtain ⟨hdb, _⟩ := fetch_db j s c.env c.userID c.page c.size
    obtain ⟨_, _, c3, _⟩ := fetch_counters j s c.env c.userID c.page c.size
    obtain ⟨new, h1, h2, h3, h4, h5⟩ :=
      ih (FetchFollowersOptimized j s c.env c.userID c.page c.size).2
        (by rw [hdb]; exact hrt) (fun d hd => hcalls d (List.mem_cons_of_mem _ hd))
    rw [hdb] at h4
    simp only [fetchRun]
    rcases c3 with ⟨hubl, hlog⟩ | ⟨q, _, hubl, hlog⟩
    · refine ⟨new, ?_, ?_, h3.trans hdb, h4, ?_⟩
      · rw [h1, hlog]
      · rw [h2, hubl]
      · intro id hv b hb
        exact h5 id (fetch_valid j s c.env c.userID c.page c.size id hrt hv) b hb
    · refine ⟨q :: new, ?_, ?_, h3.trans hdb, ?_, ?_⟩
      · rw [h1, hlog, List.append_assoc, List.singleton_append]
      · rw [h2, hubl, List.length_cons]
        push_cast
        omega
      · rw [List.pairwise_cons]
        refine ⟨?_, h4⟩
        intro b hb id hid hex
        exact h5 id (fetch_caches_bulk j s c.env c.userID c.page c.size id q hrt hu hs hlog
          hid hex) b hb
      · intro id hv b hb
        rcases List.mem_cons.mp hb with hb | hb
        · rw [hb]
          exact valid_not_queried j s c.env c.userID c.page c.size id q hm hv hlog
        · exact h5 id (fetch_valid j s c.env c.userID c.page c.size id hrt hv) b hb

/-- **C22**, counterexample. With a service TTL of 0 the snapshot of a loaded user is stored
without expiry, not with the service TTL. With `MGet` failing, the ids with a valid cached
snapshot are sent to the store again: after page 1 of size 2 has been fetched (bulk query
for `f3`, `f2`, both then cached), the same page with `MGet` failing sends `f3`, `f2`
once more. With `Set` failing, a loaded user is not cached. -/
theorem snapshot_not_reused :
    (FetchFollowersOptimized lineCodec { cacheScenario with ttl := 0 } FetchEnv.quiet
      "owner" 1 2).2.cache "user:f3" = some ⟨.str "f3,cy,cy@x,33", none⟩ ∧
    cacheScenarioWarm.userQueries = [["f3", "f2"]] ∧
    cachedSnapshot lineCodec cacheScenarioWarm.cache "f3" = some ⟨"f3", "cy", "cy@x", 33⟩ ∧
    cachedSnapshot lineCodec cacheScenarioWarm.cache "f2" = some ⟨"f2", "bob", "bob@x", 32⟩ ∧
    (loadUsers lineCodec cacheScenarioWarm { FetchEnv.quiet with mgetErr := true }
      ["f3", "f2"]).2.userQueries = [["f3", "f2"], ["f3", "f2"]] ∧
    (loadUsers lineCodec cacheScenario { FetchEnv.quiet with setErr := fun _ => true }
      ["f3", "f2"]).1 =
      .ok [⟨"f3", "cy", "cy@x", 33⟩, ⟨"f2", "bob", "bob@x", 32⟩] ∧
    (loadUsers lineCodec cacheScenario { FetchEnv.quiet with setErr := fun _ => true }
      ["f3", "f2"]).2.cache "user:f3" = none := by
  refine ⟨by decide, by decide, by decide, by decide, by decide, by decide, by decide⟩

/-- **C22**, as the code has it (snapshot reuse). With a successful `MGet`, `loadUsers`
sends one bulk query, for exactly the requested ids without a valid cached snapshot, in
request order, and none when there is no such id; with a failed `MGet` it sends all
requested ids. After a call whose bulk query and `Set`
calls succeed, every user the store returned (a user row whose id is in the list sent)
has a snapshot under `user:{id}`, carrying the service TTL when that is positive and no
expiry otherwise. Hence, over any sequence of `FetchFollowersOptimized` calls, for any
owners, pages and sizes, in which `MGet`, `Set` and the bulk query do not fail (and
`encoding/json` round-trips the snapshots of the user rows; no entry expires in the
embedding), the bulk queries sent are as many as `UserBulkLoad` counts and an id that has
a user row is in at most one of them. -/
theorem snapshot_reuse (j : JSONCodec) (s : FollowerService) (calls : List FetchCall)
    (hrt : ∀ u ∈ s.db.users,
      j.unmarshal (j.marshal (snapshotOfUser u)) = some (snapshotOfUser u))
    (hcalls : ∀ c ∈ calls, c.env.mgetErr = false ∧ c.env.setErr = (fun _ => false) ∧
      c.env.usersErr = none) :
    (∀ (env : FetchEnv) (ids : List String), env.mgetErr = false →
      (loadUsers j s env ids).2.userQueries =
        s.userQueries ++
          (if ids.filter (fun id => (cachedSnapshot j s.cache id).isNone) = [] then []
           else [ids.filter (fun id => (cachedSnapshot j s.cache id).isNone)])) ∧
    (∀ (env : FetchEnv) (ids : List String), env.mgetErr = true →
      (loadUsers j s env ids).2.userQueries =
        s.userQueries ++ (if ids = [] then [] else [ids])) ∧
    (∀ (env : FetchEnv) (ids q : List String) (u : User), env.usersErr = none →
      env.setErr = (fun _ => false) →
      (loadUsers j s env ids).2.userQueries = s.userQueries ++ [q] →
      u ∈ s.db.users → u.ID ∈ q →
      ∃ u1 ∈ s.db.users, u1.ID = u.ID ∧
        (loadUsers j s env ids).2.cache ("user:" ++ u.ID) =
          some ⟨.str (j.marshal (snapshotOfUser u1)),
            if 0 < s.ttl then some s.ttl else none⟩) ∧
    (∃ new, (fetchRun j s calls).2.userQueries = s.userQueries ++ new ∧
      (fetchRun j s calls).2.userBulkLoad = s.userBulkLoad + (new.length : Int) ∧
      new.Pairwise (fun a b => ∀ id ∈ a, (∃ u ∈ s.db.users, u.ID = id) → id ∉ b)) := by
  refine ⟨?_, ?_, ?_, ?_⟩
  · intro env ids hmget
    rw [(loadUsers_counter j s env ids).2.1, missingIDs_eq j s env ids hmget]
  · intro env ids hmget
    rw [(loadUsers_counter j s env ids).2.1, missingIDs_down j s env ids hmget]
  · intro env ids q u husers hset hq hu hmem
    rw [(loadUsers_counter j s env ids).2.1] at hq
    have hq1 := List.append_cancel_left hq
    by_cases hm : missingIDs j s env ids = []
    · rw [if_pos hm] at hq1
      exact absurd hq1 (by simp)
    · rw [if_neg hm] at hq1
      have hqe : missingIDs j s env ids = q := by simpa using hq1
      rw [← hqe] at hmem
      exact loadUsers_caches j s env ids u husers hset hu hmem
  · obtain ⟨new, h1, h2, _, h4, _⟩ := fetchRun_queries j calls s hrt hcalls
    exact ⟨new, h1, h2, h4⟩

theorem snapshot_reuse_witness :
    (fetchRun lineCodec sharedFansScenario
      [⟨FetchEnv.quiet, "ownerA", 1, 3⟩, ⟨FetchEnv.quiet, "ownerB", 1, 3⟩,
       ⟨FetchEnv.quiet, "ownerA", 1, 3⟩]).2.userQueries = [["f3", "f2", "f1"], ["f4"]] ∧
    (fetchRun lineCodec sharedFansScenario
      [⟨FetchEnv.quiet, "ownerA", 1, 3⟩, ⟨FetchEnv.quiet, "ownerB", 1, 3⟩]).2.indexLoads = 2 ∧
    (fetchRun lineCodec sharedFansScenario
      [⟨FetchEnv.quiet, "ownerA", 1, 3⟩, ⟨FetchEnv.quiet, "ownerB", 1, 3⟩]).2.userBulkLoad = 2 ∧
    (∃ new, (fetchRun lineCodec sharedFansScenario
        [⟨FetchEnv.quiet, "ownerA", 1, 3⟩, ⟨FetchEnv.quiet, "ownerB", 1, 3⟩,
         ⟨FetchEnv.quiet, "ownerA", 1, 3⟩]).2.userQueries =
          sharedFansScenario.userQueries ++ new ∧
      (fetchRun lineCodec sharedFansScenario
        [⟨FetchEnv.quiet, "ownerA", 1, 3⟩, ⟨FetchEnv.quiet, "ownerB", 1, 3⟩,
         ⟨FetchEnv.quiet, "ownerA", 1, 3⟩]).2.userBulkLoad =
          sharedFansScenario.userBulkLoad + (new.length : Int) ∧
      new.Pairwise
        (fun a b => ∀ id ∈ a, (∃ u ∈ sharedFansScenario.db.users, u.ID = id) → id ∉ b)) :=
  ⟨by decide, by decide, by decide,
    (snapshot_reuse lineCodec sharedFansScenario
      [⟨FetchEnv.quiet, "ownerA", 1, 3⟩, ⟨FetchEnv.quiet, "ownerB", 1, 3⟩,
       ⟨FetchEnv.quiet, "ownerA", 1, 3⟩] (by decide)
      (fun c hc => by
        simp only [List.mem_cons, List.mem_singleton, List.not_mem_nil, or_false] at hc
        rcases hc with h | h | h <;> rw [h] <;> exact ⟨rfl, rfl, rfl⟩)).2.2.2⟩
end RelationGraph
